import Mathlib

/-!
# Itinerary builder: the document engine's naming and payment-plan rules

A shallow embedding of `services/pdf_service.go` (and of the `models` types it reads),
followed by the properties proved about it.

## Modelling conventions

* A Go `string` is read as its sequence of runes (`List Char`).  Every function embedded
  here (`strings.TrimSpace`, `strings.ToLower`, `strings.Trim`, `regexp.ReplaceAllString`)
  works rune by rune; a byte that is not valid UTF-8 is seen by all of them as the single
  rune U+FFFD, which is how such a byte is represented here.
* `time.Time` is an instant (seconds and nanoseconds since January 1, year 1, 00:00:00 UTC,
  which is Go's internal epoch) together with the offset of its location at that instant.
* The slice handed to `sort.Slice` is a memory of cells addressed by index.
-/

namespace Vigovia

/-! ## Strings -/

/-- Go's `unicode.IsSpace`: the Latin-1 spaces `\t \n \v \f \r`, space, U+0085, U+00A0 and
the runes of category Z with property Pattern_White_Space. -/
def isSpace (c : Char) : Bool :=
  let n := c.toNat
  (9 ≤ n && n ≤ 13) || n == 0x20 || n == 0x85 || n == 0xA0 || n == 0x1680 ||
    (0x2000 ≤ n && n ≤ 0x200A) || n == 0x2028 || n == 0x2029 || n == 0x202F ||
    n == 0x205F || n == 0x3000

/-- Go's `strings.TrimFunc`: `TrimRightFunc (TrimLeftFunc s f) f`. -/
def trimFunc (f : Char → Bool) (s : List Char) : List Char :=
  (s.dropWhile f).rdropWhile f

/-- Go's `strings.TrimSpace`. -/
def trimSpace (s : List Char) : List Char := trimFunc isSpace s

/-- Go's `strings.Trim s cutset`: strips every leading and trailing rune contained in
`cutset`. -/
def trim (s cutset : List Char) : List Char := trimFunc (fun c => decide (c ∈ cutset)) s

/-- Go's `unicode.ToLower`.  The ASCII branch is the library's own code; for a rune above
`unicode.MaxASCII` the library consults its case tables, which are not part of this
repository and are taken as the parameter `tbl`. -/
def toLowerRune (tbl : Char → Char) (c : Char) : Char :=
  if c.toNat ≤ 0x7F then
    if 65 ≤ c.toNat ∧ c.toNat ≤ 90 then Char.ofNat (c.toNat + 32) else c
  else tbl c

/-- Go's `strings.ToLower`: every rune mapped through `unicode.ToLower`. -/
def toLower (tbl : Char → Char) (s : List Char) : List Char := s.map (toLowerRune tbl)

/-- Worker of `replaceAllRuns`; `inRun` tells whether the previous rune belonged to the
match that is being consumed. -/
def replaceAllRunsAux (cls : Char → Bool) (repl : List Char) : Bool → List Char → List Char
  | _, [] => []
  | inRun, c :: cs =>
    if cls c then
      if inRun then replaceAllRunsAux cls repl true cs
      else repl ++ replaceAllRunsAux cls repl true cs
    else c :: replaceAllRunsAux cls repl false cs

/-- The call `re.ReplaceAllString(s, repl)` for a pattern of the shape `[class]+` and a
replacement without `$`: the matches are the maximal runs of runes of the class, and each is
replaced by `repl`. -/
def replaceAllRuns (cls : Char → Bool) (repl : List Char) (s : List Char) : List Char :=
  replaceAllRunsAux cls repl false s

/-- The class `\s` of Go's regexp syntax: `[\t\n\f\r ]`. -/
def isPerlSpace (c : Char) : Bool :=
  c.toNat == 9 || c.toNat == 10 || c.toNat == 12 || c.toNat == 13 || c.toNat == 32

/-- The class `[a-z0-9-_]` of `invalidPattern` (which is its negation): the ranges `a-z` and
`0-9` and the two literals `-` and `_`. -/
def isNameRune (c : Char) : Bool :=
  (97 ≤ c.toNat && c.toNat ≤ 122) || (48 ≤ c.toNat && c.toNat ≤ 57) ||
    c.toNat == 45 || c.toNat == 95

/-- The pattern `spacePattern` applied with replacement `"-"`. -/
def spacePatternReplace (s : List Char) : List Char := replaceAllRuns isPerlSpace ['-'] s

/-- The pattern `invalidPattern` applied with replacement `""`. -/
def invalidPatternReplace (s : List Char) : List Char :=
  replaceAllRuns (fun c => !isNameRune c) [] s

/-- The function `sanitizeFileName` of `pdf_service.go`. -/
def sanitizeFileName (tbl : Char → Char) (input : List Char) : List Char :=
  let lowered := toLower tbl (trimSpace input)
  let normalized := spacePatternReplace lowered
  let cleaned := invalidPatternReplace normalized
  trim cleaned ['-', '_']

/-! ## Numbers and dates -/

/-- The decimal digit `d % 10` as a rune. -/
def digitChar (d : Nat) : Char := Char.ofNat (48 + d % 10)

/-- Worker of `decimal`: prepends the digits of `n` to `acc`, most significant first. -/
def decimalAux : Nat → Nat → List Char → List Char
  | 0, _, acc => acc
  | fuel + 1, n, acc =>
    if n / 10 = 0 then digitChar n :: acc
    else decimalAux fuel (n / 10) (digitChar n :: acc)

/-- The decimal numeral of a natural number (`0` is `"0"`). -/
def decimal (n : Nat) : List Char := decimalAux (n + 1) n []

/-- The helper `appendInt` of Go's `time` package: a minus sign for a negative number, then the
decimal numeral of the magnitude, padded with zeros on the left up to `width` digits. -/
def appendInt (x : Int) (width : Nat) : List Char :=
  let ds := decimal x.natAbs
  (if x < 0 then ['-'] else []) ++ (List.replicate (width - ds.length) '0' ++ ds)

/-- The verb `%d` of Go's `fmt` applied to an `int`. -/
def sprintD (x : Int) : List Char := appendInt x 0

/-- A value of Go's `time.Time`.  `sec` and `nsec` give the instant, counted from
January 1, year 1, 00:00:00 UTC; `offset` is the number of seconds east of UTC of the value's
location at that instant (`0` for UTC). -/
structure Time where
  sec : Int
  nsec : Nat
  offset : Int
deriving DecidableEq, Repr

namespace Time

/-- The zero value of `time.Time`: January 1, year 1, 00:00:00 UTC. -/
def zero : Time := ⟨0, 0, 0⟩

/-- Go's `Time.IsZero`: `t.sec() == 0 && t.nsec() == 0`. -/
def IsZero (t : Time) : Bool := t.sec == 0 && t.nsec == 0

/-- The number of whole days between January 1, year 1 and the civil day on which the
instant falls in the value's location. -/
def localDay (t : Time) : Int := (t.sec + t.offset) / 86400

end Time

/-- The proleptic Gregorian date (year, month 1-12, day 1-31) of a day counted from
January 1, year 1 (day `0`); years follow the astronomical numbering used by Go, in which
year 0 precedes year 1.  The computation counts from March 1, year 0 in cycles of 400 years. -/
def civilFromDays (days : Int) : Int × Nat × Nat :=
  let z := days + 306
  let era := z / 146097
  let doe := z % 146097
  let yoe := (doe - doe / 1460 + doe / 36524 - doe / 146096) / 365
  let doy := doe - (365 * yoe + yoe / 4 - yoe / 100)
  let mp := (5 * doy + 2) / 153
  let d := doy - (153 * mp + 2) / 5 + 1
  let m := if mp < 10 then mp + 3 else mp - 9
  let y := yoe + era * 400
  (if m ≤ 2 then y + 1 else y, m.toNat, d.toNat)

/-- The day number (from January 1, year 1) of a proleptic Gregorian date with
`1 ≤ month ≤ 12`. -/
def daysFromCivil (year : Int) (month day : Nat) : Int :=
  let y := if month ≤ 2 then year - 1 else year
  let era := y / 400
  let yoe := y % 400
  let mp : Int := if month ≤ 2 then month + 9 else month - 3
  let doy := (153 * mp + 2) / 5 + day - 1
  let doe := yoe * 365 + yoe / 4 - yoe / 100 + doy
  era * 146097 + doe - 306

/-- The call `time.Date(year, month, day, 0, 0, 0, 0, time.UTC)` for fields that are in
range. -/
def dateUTC (year : Int) (month day : Nat) : Time :=
  ⟨daysFromCivil year month day * 86400, 0, 0⟩

namespace Time

/-- Go's `Time.Date`: year, month and day of the value in its location. -/
def Date (t : Time) : Int × Nat × Nat := civilFromDays t.localDay

/-- Go's `t.Format("2006-01-02")`: the year on at least four digits, the month and the day on
two, separated by hyphens. -/
def FormatISODate (t : Time) : List Char :=
  let (y, m, d) := t.Date
  appendInt y 4 ++ '-' :: (appendInt m 2 ++ '-' :: appendInt d 2)

end Time

/-! ## The records of `models/itinerary.go` -/

/-- A `float64` that is a number (JSON cannot carry NaN or an infinity): the sign bit and the
magnitude `mant * 2 ^ exp`. -/
structure Float64 where
  sign : Bool
  mant : Nat
  exp : Int
deriving DecidableEq, Repr

/-- The record `models.Hotel`. -/
structure Hotel where
  Name : List Char
  City : List Char
  CheckIn : Time
  CheckOut : Time
  Nights : Int
deriving DecidableEq, Repr

/-- The record `models.Flight`. -/
structure Flight where
  Airline : List Char
  FlightNumber : List Char
  DepartureCity : List Char
  DepartureAirport : List Char
  DepartureTime : Time
  ArrivalCity : List Char
  ArrivalAirport : List Char
  ArrivalTime : Time
deriving DecidableEq, Repr

/-- The record `models.Transfer`. -/
structure Transfer where
  Mode : List Char
  Pickup : List Char
  Dropoff : List Char
  PickupTime : List Char
  Notes : List Char
deriving DecidableEq, Repr

/-- The record `models.PaymentInstallment`. -/
structure PaymentInstallment where
  InstallmentNumber : Int
  Amount : Float64
  Currency : List Char
  DueDate : Time
  Status : List Char
deriving DecidableEq, Repr

/-- The record `models.Activity`. -/
structure Activity where
  Period : List Char
  Time : List Char
  Title : List Char
  Description : List Char
  Location : List Char
  Duration : List Char
deriving DecidableEq, Repr

/-- The record `models.DayPlan`. -/
structure DayPlan where
  DayNumber : Int
  Date : Time
  Title : List Char
  Activities : List Activity
deriving DecidableEq, Repr

/-- The record `models.Itinerary`. -/
structure Itinerary where
  ID : List Char
  UserID : List Char
  Title : List Char
  Description : List Char
  StartDate : Time
  EndDate : Time
  Location : List Char
  Hotels : List Hotel
  Flights : List Flight
  Transfers : List Transfer
  Days : List DayPlan
  PaymentPlan : List PaymentInstallment
  Inclusions : List (List Char)
  Exclusions : List (List Char)
  CreatedAt : Time
  UpdatedAt : Time
deriving DecidableEq, Repr

/-! ## Output naming -/

/-- The first statement of `buildFileName`: the trimmed title, or `"itinerary"` when that is
empty. -/
def fileNameBase (it : Itinerary) : List Char :=
  let base := trimSpace it.Title
  if base = [] then "itinerary".toList else base

/-- The `switch` of `buildFileName`: the base, an underscore and a date (`%s_%s`); `now` is the
value returned by `time.Now()`. -/
def fileNameStem (it : Itinerary) (now : Time) : List Char :=
  let base := fileNameBase it
  if !it.StartDate.IsZero then base ++ '_' :: it.StartDate.FormatISODate
  else if !it.EndDate.IsZero then base ++ '_' :: it.EndDate.FormatISODate
  else base ++ '_' :: now.FormatISODate

/-- The method `PDFService.buildFileName`; `now` is the value returned by `time.Now()`. -/
def buildFileName (tbl : Char → Char) (it : Itinerary) (now : Time) : List Char :=
  let base := fileNameStem it now
  let sanitized := sanitizeFileName tbl base
  let sanitized := if sanitized = [] then "itinerary".toList else sanitized
  sanitized ++ ".pdf".toList

/-- The date that `buildFileName` formats, in the words of the specification: the start date
when it is not zero, otherwise the end date when it is not zero, otherwise the generation
time. -/
def selectedDate (it : Itinerary) (now : Time) : Time :=
  if it.StartDate.IsZero = false then it.StartDate
  else if it.EndDate.IsZero = false then it.EndDate
  else now

/-! ## The sort of Go's `sort.Slice`

`sort.Slice` belongs to Go's standard library, not to the repository.  Since Go 1.19 it runs
the pattern-defeating quicksort `pdqsort_func` of `sort/zsortfunc.go` on the slice through the
pair `lessSwap`, with `limit = bits.Len(length)`; the functions below follow that file
function by function.  The slice is a memory of cells addressed by index; `less i j` of the
caller reads the cells `i` and `j` of that memory and compares them with `lt`.  Every loop
takes a bound on its number of turns as its first argument; the callers pass a bound that the
loop never reaches. -/

/-- The cells of a slice, addressed by index. -/
structure Mem (α : Type) where
  cell : Nat → α

/-- The `Swap` of `lessSwap`: exchanges the cells `i` and `j`. -/
def swapCells {α : Type} (d : Mem α) (i j : Nat) : Mem α :=
  let x := d.cell i
  let y := d.cell j
  ⟨fun k => if k = i then y else if k = j then x else d.cell k⟩

/-- The inner loop `for j := i; j > lo && less(j, j-1); j-- { swap(j, j-1) }`. -/
def shiftLeft {α : Type} (lt : α → α → Bool) (lo : Nat) : Nat → Mem α → Mem α
  | 0, d => d
  | j + 1, d =>
    if lo < j + 1 ∧ lt (d.cell (j + 1)) (d.cell j) then shiftLeft lt lo j (swapCells d (j + 1) j)
    else d

/-- The outer loop of `insertionSort_func`, `for i := ...; i < b; i++`; the first argument
bounds the number of iterations. -/
def insertionLoop {α : Type} (lt : α → α → Bool) (a b : Nat) : Nat → Nat → Mem α → Mem α
  | 0, _, d => d
  | fuel + 1, i, d =>
    if i < b then insertionLoop lt a b fuel (i + 1) (shiftLeft lt a i d) else d

/-- The function `insertionSort_func`: sorts `data[a:b]` by insertion. -/
def insertionSort_func {α : Type} (lt : α → α → Bool) (d : Mem α) (a b : Nat) : Mem α :=
  insertionLoop lt a b (b - a) (a + 1) d

/-- The function `siftDown_func` on the heap `data[first+lo : first+hi]`; the first argument
bounds the number of iterations of its loop, the second is the variable `root`. -/
def siftDown_func {α : Type} (lt : α → α → Bool) (first hi : Nat) : Nat → Nat → Mem α → Mem α
  | 0, _, d => d
  | fuel + 1, root, d =>
    let child := 2 * root + 1
    if child ≥ hi then d
    else
      let child :=
        if child + 1 < hi ∧ lt (d.cell (first + child)) (d.cell (first + child + 1)) then child + 1
        else child
      if !lt (d.cell (first + root)) (d.cell (first + child)) then d
      else siftDown_func lt first hi fuel child (swapCells d (first + root) (first + child))

/-- The first loop of `heapSort_func`, `for i := (hi - 1) / 2; i >= 0; i--`. -/
def heapBuild {α : Type} (lt : α → α → Bool) (first hi : Nat) : Nat → Mem α → Mem α
  | 0, d => siftDown_func lt first hi hi 0 d
  | i + 1, d => heapBuild lt first hi i (siftDown_func lt first hi hi (i + 1) d)

/-- The second loop of `heapSort_func`, `for i := hi - 1; i >= 0; i--`; the argument is
`i + 1`. -/
def heapPop {α : Type} (lt : α → α → Bool) (first : Nat) : Nat → Mem α → Mem α
  | 0, d => d
  | i + 1, d => heapPop lt first i (siftDown_func lt first i i 0 (swapCells d first (first + i)))

/-- The function `heapSort_func`. -/
def heapSort_func {α : Type} (lt : α → α → Bool) (d : Mem α) (a b : Nat) : Mem α :=
  let first := a
  let hi := b - a
  heapPop lt first hi (heapBuild lt first hi ((hi - 1) / 2) d)

/-- Go's `bits.Len`: the number of bits of `n`; the first argument bounds the recursion. -/
def bitsLenAux : Nat → Nat → Nat
  | 0, _ => 0
  | fuel + 1, n => if n = 0 then 0 else bitsLenAux fuel (n / 2) + 1

/-- Go's `bits.Len`. -/
def bitsLen (n : Nat) : Nat := bitsLenAux n n

/-- The method `xorshift.Next` on a 64-bit state.  Its values only select which cells
`breakPatterns_func` exchanges. -/
def xorshiftNext (r : Nat) : Nat :=
  let r := r ^^^ ((r <<< 13) % 2 ^ 64)
  let r := r ^^^ (r >>> 7)
  r ^^^ ((r <<< 17) % 2 ^ 64)

/-- The function `nextPowerOfTwo`. -/
def nextPowerOfTwo (length : Nat) : Nat := 1 <<< bitsLen length

/-- The loop of `breakPatterns_func`, `for i := 0; i < 3; i++`; the first argument is the
number of iterations left.  The three cells that the loop exchanges with cells picked by
`xorshift` are `idx`, `idx + 1` and `idx + 2`: the cells 5, 6 and 7 of a slice of 13 or 14
cells, around the cell `a + (length/4)*2` from which `choosePivot_func` takes its middle
candidate. -/
def breakPatternsLoop {α : Type} (a length modulus idx : Nat) :
    Nat → Nat → Nat → Mem α → Mem α
  | 0, _, _, d => d
  | n + 1, i, random, d =>
    let random := xorshiftNext random
    let other := random &&& (modulus - 1)
    let other := if other ≥ length then other - length else other
    breakPatternsLoop a length modulus idx n (i + 1) random (swapCells d (idx + i) (a + other))

/-- The function `breakPatterns_func`. -/
def breakPatterns_func {α : Type} (d : Mem α) (a b : Nat) : Mem α :=
  let length := b - a
  if length ≥ 8 then
    breakPatternsLoop a length (nextPowerOfTwo length) (a + (length / 4) * 2 - 1) 3 0 length d
  else d

/-- The type `sortedHint`. -/
inductive sortedHint where
  | unknownHint
  | increasingHint
  | decreasingHint
deriving DecidableEq, Repr

/-- The function `order2_func`; the counter `swaps` is threaded through. -/
def order2_func {α : Type} (lt : α → α → Bool) (d : Mem α) (a b swaps : Nat) : Nat × Nat × Nat :=
  if lt (d.cell b) (d.cell a) then (b, a, swaps + 1) else (a, b, swaps)

/-- The function `median_func`: the index of the median of three cells, and the counter. -/
def median_func {α : Type} (lt : α → α → Bool) (d : Mem α) (a b c swaps : Nat) : Nat × Nat :=
  let ab := order2_func lt d a b swaps
  let bc := order2_func lt d ab.2.1 c ab.2.2
  let ab := order2_func lt d ab.1 bc.1 bc.2.2
  (ab.2.1, ab.2.2)

/-- The function `medianAdjacent_func`. -/
def medianAdjacent_func {α : Type} (lt : α → α → Bool) (d : Mem α) (a swaps : Nat) : Nat × Nat :=
  median_func lt d (a - 1) a (a + 1) swaps

/-- The index that `choosePivot_func` selects and the value of its counter `swaps`. -/
def choosePivotMedian {α : Type} (lt : α → α → Bool) (d : Mem α) (a b : Nat) : Nat × Nat :=
  let l := b - a
  let i := a + l / 4 * 1
  let j := a + l / 4 * 2
  let k := a + l / 4 * 3
  if l ≥ 8 then
    if l ≥ 50 then
      let mi := medianAdjacent_func lt d i 0
      let mj := medianAdjacent_func lt d j mi.2
      let mk := medianAdjacent_func lt d k mj.2
      median_func lt d mi.1 mj.1 mk.1 mk.2
    else median_func lt d i j k 0
  else (j, 0)

/-- The function `choosePivot_func`: the `switch` on the counter `swaps`, whose bound
`maxSwaps` is `4 * 3`. -/
def choosePivot_func {α : Type} (lt : α → α → Bool) (d : Mem α) (a b : Nat) : Nat × sortedHint :=
  let js := choosePivotMedian lt d a b
  if js.2 = 0 then (js.1, sortedHint.increasingHint)
  else if js.2 = 12 then (js.1, sortedHint.decreasingHint)
  else (js.1, sortedHint.unknownHint)

/-- The loop of `reverseRange_func`, `for i < j { swap(i, j); i++; j-- }`. -/
def reverseLoop {α : Type} : Nat → Nat → Nat → Mem α → Mem α
  | 0, _, _, d => d
  | fuel + 1, i, j, d => if i < j then reverseLoop fuel (i + 1) (j - 1) (swapCells d i j) else d

/-- The function `reverseRange_func`. -/
def reverseRange_func {α : Type} (d : Mem α) (a b : Nat) : Mem α :=
  reverseLoop (b - a) a (b - 1) d

/-- The loop `for i < b && !less(i, i-1) { i++ }` of `partialInsertionSort_func`. -/
def skipSorted {α : Type} (lt : α → α → Bool) (d : Mem α) (b : Nat) : Nat → Nat → Nat
  | 0, i => i
  | fuel + 1, i =>
    if i < b ∧ !lt (d.cell i) (d.cell (i - 1)) then skipSorted lt d b fuel (i + 1) else i

/-- The loop `for j := i + 1; j < b; j++ { if !less(j, j-1) { break }; swap(j, j-1) }` of
`partialInsertionSort_func`. -/
def shiftRight {α : Type} (lt : α → α → Bool) (b : Nat) : Nat → Nat → Mem α → Mem α
  | 0, _, d => d
  | fuel + 1, j, d =>
    if j < b then
      if !lt (d.cell j) (d.cell (j - 1)) then d
      else shiftRight lt b fuel (j + 1) (swapCells d j (j - 1))
    else d

/-- The loop `for j := 0; j < maxSteps; j++` of `partialInsertionSort_func`; the first argument
is the number of steps left, the second the variable `i`. -/
def partialInsertionLoop {α : Type} (lt : α → α → Bool) (a b : Nat) :
    Nat → Nat → Mem α → Mem α × Bool
  | 0, _, d => (d, false)
  | steps + 1, i, d =>
    let i := skipSorted lt d b (b - i) i
    if i = b then (d, true)
    else if b - a < 50 then (d, false)
    else
      let d := swapCells d i (i - 1)
      let d := if i - a ≥ 2 then shiftLeft lt 0 (i - 1) d else d
      let d := if b - i ≥ 2 then shiftRight lt b (b - i) (i + 1) d else d
      partialInsertionLoop lt a b steps i d

/-- The function `partialInsertionSort_func`: the memory it leaves and its result. -/
def partialInsertionSort_func {α : Type} (lt : α → α → Bool) (d : Mem α) (a b : Nat) :
    Mem α × Bool :=
  partialInsertionLoop lt a b 5 (a + 1) d

/-- A loop `for i <= j && p(i) { i++ }`. -/
def scanUp (p : Nat → Bool) (j : Nat) : Nat → Nat → Nat
  | 0, i => i
  | fuel + 1, i => if i ≤ j ∧ p i then scanUp p j fuel (i + 1) else i

/-- A loop `for i <= j && p(j) { j-- }`, for `i ≥ 1`. -/
def scanDown (p : Nat → Bool) (i : Nat) : Nat → Nat
  | 0 => 0
  | j + 1 => if i ≤ j + 1 ∧ p (j + 1) then scanDown p i j else j + 1

/-- The loop `for { ... }` of `partitionEqual_func`. -/
def partitionEqualLoop {α : Type} (lt : α → α → Bool) (a : Nat) :
    Nat → Nat → Nat → Mem α → Mem α × Nat
  | 0, i, _, d => (d, i)
  | fuel + 1, i, j, d =>
    let i := scanUp (fun k => !lt (d.cell a) (d.cell k)) j (j + 1 - i) i
    let j := scanDown (fun k => lt (d.cell a) (d.cell k)) i j
    if i > j then (d, i)
    else partitionEqualLoop lt a fuel (i + 1) (j - 1) (swapCells d i j)

/-- The function `partitionEqual_func`: the memory it leaves and the index it returns. -/
def partitionEqual_func {α : Type} (lt : α → α → Bool) (d : Mem α) (a b pivot : Nat) :
    Mem α × Nat :=
  partitionEqualLoop lt a (b - a) (a + 1) (b - 1) (swapCells d a pivot)

/-- The loop `for { ... }` of `partition_func`. -/
def partitionLoop {α : Type} (lt : α → α → Bool) (a : Nat) :
    Nat → Nat → Nat → Mem α → Mem α × Nat
  | 0, _, j, d => (d, j)
  | fuel + 1, i, j, d =>
    let i := scanUp (fun k => lt (d.cell k) (d.cell a)) j (j + 1 - i) i
    let j := scanDown (fun k => !lt (d.cell k) (d.cell a)) i j
    if i > j then (d, j)
    else partitionLoop lt a fuel (i + 1) (j - 1) (swapCells d i j)

/-- The function `partition_func`: the memory it leaves, the new index of the pivot and the
flag `alreadyPartitioned`. -/
def partition_func {α : Type} (lt : α → α → Bool) (d : Mem α) (a b pivot : Nat) :
    Mem α × Nat × Bool :=
  let d := swapCells d a pivot
  let i := scanUp (fun k => lt (d.cell k) (d.cell a)) (b - 1) (b - 1 - a) (a + 1)
  let j := scanDown (fun k => !lt (d.cell k) (d.cell a)) i (b - 1)
  if i > j then (swapCells d j a, j, true)
  else
    let (d, j) := partitionLoop lt a (b - a) (i + 1) (j - 1) (swapCells d i j)
    (swapCells d j a, j, false)

/-- The function `pdqsort_func`.  Each turn of its loop and each recursive call takes one unit
of the first argument; `wasBalanced` and `wasPartitioned` are the two local flags. -/
def pdqsort_func {α : Type} (lt : α → α → Bool) :
    Nat → Mem α → Nat → Nat → Nat → Bool → Bool → Mem α
  | 0, d, _, _, _, _, _ => d
  | fuel + 1, d, a, b, limit, wasBalanced, wasPartitioned =>
    let length := b - a
    if length ≤ 12 then insertionSort_func lt d a b
    else if limit = 0 then heapSort_func lt d a b
    else
      let d := if !wasBalanced then breakPatterns_func d a b else d
      let limit := if !wasBalanced then limit - 1 else limit
      let ph := choosePivot_func lt d a b
      let reversed := decide (ph.2 = sortedHint.decreasingHint)
      let d := if reversed then reverseRange_func d a b else d
      let pivot := if reversed then (b - 1) - (ph.1 - a) else ph.1
      let hint := if reversed then sortedHint.increasingHint else ph.2
      let tryInsertion := wasBalanced && wasPartitioned && decide (hint = sortedHint.increasingHint)
      let pis := partialInsertionSort_func lt d a b
      if tryInsertion && pis.2 then pis.1
      else
        let d := if tryInsertion then pis.1 else d
        if 0 < a ∧ !lt (d.cell (a - 1)) (d.cell pivot) then
          let pe := partitionEqual_func lt d a b pivot
          pdqsort_func lt fuel pe.1 pe.2 b limit wasBalanced wasPartitioned
        else
          let pt := partition_func lt d a b pivot
          let mid := pt.2.1
          let leftLen := mid - a
          let rightLen := b - mid
          let balanceThreshold := length / 8
          if leftLen < rightLen then
            pdqsort_func lt fuel (pdqsort_func lt fuel pt.1 a mid limit true true) (mid + 1) b
              limit (decide (leftLen ≥ balanceThreshold)) pt.2.2
          else
            pdqsort_func lt fuel (pdqsort_func lt fuel pt.1 (mid + 1) b limit true true) a mid
              limit (decide (rightLen ≥ balanceThreshold)) pt.2.2

/-- The cells `0 .. n-1` of a memory, as a list. -/
def Mem.toList {α : Type} (d : Mem α) (n : Nat) : List α := (List.range n).map d.cell

/-- The cells of a slice holding the elements of `xs`; cells beyond the length are never read
and hold `dflt`. -/
def Mem.ofList {α : Type} (dflt : α) (xs : List α) : Mem α := ⟨fun i => xs.getD i dflt⟩

/-- Go's `sort.Slice(x, less)` for a `less` that compares the elements at the two indices with
`lt`: the contents of the slice after the call. -/
def sortSlice {α : Type} (dflt : α) (lt : α → α → Bool) (xs : List α) : List α :=
  let length := xs.length
  let limit := bitsLen length
  (pdqsort_func lt (length + 1) (Mem.ofList dflt xs) 0 length limit true true).toList length

/-! ## Predicates on memories -/

/-- The memory `d'` is reached from `d` by exchanges of cells of the range `[a, b)`. -/
inductive SwapReach {α : Type} (a b : Nat) : Mem α → Mem α → Prop
  | refl (d : Mem α) : SwapReach a b d d
  | step {d d' : Mem α} (i j : Nat) (hi : a ≤ i) (hi' : i < b) (hj : a ≤ j) (hj' : j < b)
      (h : SwapReach a b d d') : SwapReach a b d (swapCells d' i j)

/-- The cells of `[a, b)` are in non-decreasing order of their keys. -/
def SortedOn {α : Type} (key : α → Int) (a b : Nat) (d : Mem α) : Prop :=
  ∀ i j, a ≤ i → i ≤ j → j < b → key (d.cell i) ≤ key (d.cell j)

/-- The cell before `a`, when there is one, is not above any cell of `[a, b)`. -/
def LowerBound {α : Type} (key : α → Int) (a b : Nat) (d : Mem α) : Prop :=
  0 < a → ∀ k, a ≤ k → k < b → key (d.cell (a - 1)) ≤ key (d.cell k)

/-- The node `r` of the heap `data[first : first+hi]` is not below its children. -/
def HeapNode {α : Type} (key : α → Int) (first hi : Nat) (d : Mem α) (r : Nat) : Prop :=
  ∀ c, c = 2 * r + 1 ∨ c = 2 * r + 2 → c < hi →
    key (d.cell (first + c)) ≤ key (d.cell (first + r))

/-! ## The page canvas and the formatting helpers -/

/-- A call on the `*gofpdf.Fpdf` canvas, which `gofpdf.New("P", "mm", "A4", "")` creates
empty.  `CellFormat w h txt ln` stands for
`pdf.CellFormat(w, h, txt, "", ln, "L", false, 0, "")` and `MultiCell w h txt` for
`pdf.MultiCell(w, h, txt, "", "L", false)`, the only forms the service uses; `LineAtY x1 x2` is
`pdf.Line(x1, y, x2, y)` with `y := pdf.GetY()`. -/
inductive Op where
  | SetFont (family style : List Char) (size : Nat)
  | SetTextColor (r g b : Nat)
  | SetDrawColor (r g b : Nat)
  | SetX (x : Nat)
  | SetXY (x y : Nat)
  | Cell (w h : Nat) (txt : List Char)
  | CellFormat (w h : Nat) (txt : List Char) (ln : Nat)
  | MultiCell (w h : Nat) (txt : List Char)
  | Ln (h : Nat)
  | LineAtY (x1 x2 : Nat)
  | Line (x1 y1 x2 y2 : Nat)
  | AddPage
  | SetLeftMargin (margin : Nat)
  | SetRightMargin (margin : Nat)
deriving DecidableEq, Repr

/-- Go's `unicode.ToUpper`, with the case table above ASCII as a parameter (see
`toLowerRune`). -/
def toUpperRune (tbl : Char → Char) (c : Char) : Char :=
  if c.toNat ≤ 0x7F then
    if 97 ≤ c.toNat ∧ c.toNat ≤ 122 then Char.ofNat (c.toNat - 32) else c
  else tbl c

/-- Go's `strings.ToUpper`. -/
def toUpper (tbl : Char → Char) (s : List Char) : List Char := s.map (toUpperRune tbl)

/-- The number of hundredths nearest to the magnitude of `x`, a tie going to the even
number: the rounding of `strconv` for the verb `%.2f`. -/
def hundredths (x : Float64) : Nat :=
  if 0 ≤ x.exp then x.mant * 2 ^ x.exp.toNat * 100
  else
    let num := x.mant * 100
    let den := 2 ^ (-x.exp).toNat
    let q := num / den
    let r := num % den
    if den < 2 * r ∨ (2 * r = den ∧ q % 2 = 1) then q + 1 else q

/-- Go's `fmt.Sprintf("%.2f", x)`. -/
def sprintF2 (x : Float64) : List Char :=
  let h := hundredths x
  (if x.sign then ['-'] else []) ++
    (decimal (h / 100) ++ '.' :: [digitChar (h % 100 / 10), digitChar (h % 100)])

/-- The three-letter English abbreviations of the months, `time.Month.String()[:3]`. -/
def monthAbbrev (m : Nat) : List Char :=
  (["Jan", "Feb", "Mar", "Apr", "May", "Jun", "Jul", "Aug", "Sep", "Oct", "Nov",
    "Dec"].getD (m - 1) "").toList

/-- Go's `t.Format("Jan 2, 2006")`. -/
def Time.FormatMonthDayYear (t : Time) : List Char :=
  let (y, m, d) := t.Date
  monthAbbrev m ++ ' ' :: (appendInt d 0 ++ ", ".toList ++ appendInt y 4)

/-- The function `formatDate`. -/
def formatDate (t : Time) : List Char :=
  if t.IsZero then "-".toList else t.FormatMonthDayYear

/-- The function `formatAmount`; `up` is the case table of `strings.ToUpper` above ASCII. -/
def formatAmount (up : Char → Char) (amount : Float64) (currency : List Char) : List Char :=
  let currency := if currency = [] then "USD".toList else currency
  toUpper up currency ++ " ".toList ++ sprintF2 amount

/-- The method `PDFService.drawDivider`. -/
def drawDivider (pdf : List Op) : List Op :=
  pdf ++ [Op.SetDrawColor 210 210 210, Op.LineAtY 15 195]

/-- The method `PDFService.addSectionHeader`. -/
def addSectionHeader (pdf : List Op) (title : List Char) : List Op :=
  if title = [] then pdf
  else
    let pdf := pdf ++ [Op.SetFont "Arial".toList "B".toList 12, Op.SetTextColor 41 128 185,
      Op.SetX 15, Op.CellFormat 0 7 title 1]
    let pdf := drawDivider pdf
    pdf ++ [Op.Ln 6, Op.SetTextColor 0 0 0]

/-! ## Title case and date-time formatting -/

/-- The number of bytes of the UTF-8 encoding of a rune. -/
def utf8Len (c : Char) : Nat :=
  if c.toNat < 0x80 then 1 else if c.toNat < 0x800 then 2 else if c.toNat < 0x10000 then 3 else 4

/-- The function `toTitleCase`; `low` and `up` are the case tables above ASCII of
`strings.ToLower` and `strings.ToUpper`.  The slices `lower[:1]` and `lower[1:]` cut the string
after its first byte.  When the first rune is ASCII that byte is the rune; otherwise each of the
bytes of the rune is left alone as a byte that is not valid UTF-8, which `strings.ToUpper`
replaces by U+FFFD in `lower[:1]` and which is read as U+FFFD in `lower[1:]`. -/
def toTitleCase (low up : Char → Char) (value : List Char) : List Char :=
  let trimmed := trimSpace value
  if trimmed = [] then []
  else
    let lower := toLower low trimmed
    match lower with
    | [] => []
    | c :: rest =>
      if c.toNat < 0x80 then toUpper up [c] ++ rest
      else List.replicate (utf8Len c) (Char.ofNat 0xFFFD) ++ rest

/-- Go's `Time.Clock`: hour, minute and second of the value in its location. -/
def Time.Clock (t : Time) : Nat × Nat × Nat :=
  let s := ((t.sec + t.offset) % 86400).toNat
  (s / 3600, s % 3600 / 60, s % 60)

/-- Go's `t.Format("Jan 2, 2006 15:04")`. -/
def Time.FormatMonthDayYearClock (t : Time) : List Char :=
  t.FormatMonthDayYear ++ ' ' :: (appendInt t.Clock.1 2 ++ ':' :: appendInt t.Clock.2.1 2)

/-- The function `formatDateTime`. -/
def formatDateTime (t : Time) : List Char :=
  if t.IsZero then "-".toList else t.FormatMonthDayYearClock

/-- The magnitude of a `float64` as a rational number. -/
def Float64.magnitude (x : Float64) : ℚ :=
  if 0 ≤ x.exp then (x.mant : ℚ) * 2 ^ x.exp.toNat else (x.mant : ℚ) / 2 ^ (-x.exp).toNat

/-- The text that the specification promises for an input that is not blank, in its words:
the input in lower case with its first character in upper case. -/
def titleCaseOfInput (low up : Char → Char) (value : List Char) : List Char :=
  match toLower low value with
  | [] => []
  | c :: rest => toUpperRune up c :: rest

/-! ## The sections of the document -/

/-- The method `PDFService.addHeader`. -/
def addHeader (pdf : List Op) (itinerary : Itinerary) : List Op :=
  let pdf := pdf ++ [Op.SetXY 15 18, Op.SetFont "Arial".toList "B".toList 19,
    Op.SetTextColor 34 34 34, Op.CellFormat 0 9 "Itinerary Plan".toList 1,
    Op.SetFont "Arial".toList "".toList 12, Op.SetTextColor 90 90 90,
    Op.CellFormat 0 6 itinerary.Title 1, Op.Ln 2]
  let pdf := drawDivider pdf
  pdf ++ [Op.Ln 8]

/-- The method `PDFService.addLabelValue`. -/
def addLabelValue (pdf : List Op) (label value : List Char) : List Op :=
  if value = [] then pdf
  else
    pdf ++ [Op.SetFont "Arial".toList "B".toList 10, Op.SetTextColor 70 70 70, Op.SetX 15,
      Op.CellFormat 30 5 (label ++ ":".toList) 0, Op.SetFont "Arial".toList "".toList 10,
      Op.SetTextColor 35 35 35, Op.MultiCell 0 5 value, Op.Ln 1]

/-- The method `PDFService.addMetadataSection`. -/
def addMetadataSection (pdf : List Op) (itinerary : Itinerary) : List Op :=
  let pdf := addSectionHeader pdf "Trip Information".toList
  let pdf := addLabelValue pdf "User ID".toList itinerary.UserID
  let pdf := addLabelValue pdf "Location".toList itinerary.Location
  let pdf := addLabelValue pdf "Start Date".toList (formatDate itinerary.StartDate)
  let pdf := addLabelValue pdf "End Date".toList (formatDate itinerary.EndDate)
  let pdf := addLabelValue pdf "Duration".toList
    (sprintD itinerary.Days.length ++ " Days".toList)
  pdf ++ [Op.Ln 6]

/-- The method `PDFService.addDescriptionSection`. -/
def addDescriptionSection (pdf : List Op) (description : List Char) : List Op :=
  let pdf := addSectionHeader pdf "Overview".toList
  pdf ++ [Op.SetTextColor 50 50 50, Op.SetFont "Arial".toList "".toList 11,
    Op.MultiCell 0 6 description, Op.Ln 8]

/-- A labelled line of a hotel or of a flight: the label in bold in a cell of width `w`, then
the value. -/
def labelledLine (x w : Nat) (label value : List Char) : List Op :=
  [Op.SetX x, Op.SetFont "Arial".toList "B".toList 10, Op.SetTextColor 70 70 70,
    Op.CellFormat w 5 label 0, Op.SetFont "Arial".toList "".toList 10,
    Op.SetTextColor 90 90 90, Op.CellFormat 0 5 value 1]

/-- The statement `if hotel.Nights > 0 { ... }` of `addHotelsSection`: the duration line. -/
def hotelNightsLine (hotel : Hotel) : List Op :=
  if 0 < hotel.Nights then
    let nightsText := sprintD hotel.Nights ++ " night".toList
    let nightsText := if 1 < hotel.Nights then nightsText ++ "s".toList else nightsText
    labelledLine 20 25 "Duration:".toList nightsText
  else []

/-- One turn of the loop of `addHotelsSection`, for the hotel of index `idx` among `total`. -/
def hotelOps (idx total : Nat) (hotel : Hotel) : List Op :=
  [Op.SetFont "Arial".toList "B".toList 11, Op.SetTextColor 40 40 40, Op.SetX 15,
    Op.CellFormat 0 6 ("Hotel ".toList ++ sprintD (idx + 1) ++ ": ".toList ++ hotel.Name) 1,
    Op.SetFont "Arial".toList "".toList 10, Op.SetTextColor 90 90 90] ++
  (if hotel.City ≠ [] then labelledLine 20 25 "Location:".toList hotel.City else []) ++
  (if !hotel.CheckIn.IsZero then labelledLine 20 25 "Check-in:".toList (formatDate hotel.CheckIn)
    else []) ++
  (if !hotel.CheckOut.IsZero then
    labelledLine 20 25 "Check-out:".toList (formatDate hotel.CheckOut) else []) ++
  hotelNightsLine hotel ++
  (if idx + 1 < total then [Op.Ln 3] else [])

/-- A loop `for idx, x := range xs { ... }` whose turn for the element `x` of index `idx`
makes the calls `body idx x`. -/
def rangeOps {α : Type} (body : Nat → α → List Op) : Nat → List α → List Op
  | _, [] => []
  | idx, x :: xs => body idx x ++ rangeOps body (idx + 1) xs

/-- The method `PDFService.addHotelsSection`. -/
def addHotelsSection (pdf : List Op) (hotels : List Hotel) : List Op :=
  if hotels.length = 0 then pdf
  else
    let pdf := addSectionHeader pdf "Hotel Accommodations".toList
    let pdf := pdf ++ rangeOps (fun idx hotel => hotelOps idx hotels.length hotel) 0 hotels
    pdf ++ [Op.Ln 4]

/-- The local variable `flightHeader` of `addFlightsSection`. -/
def flightHeader (idx : Nat) (flight : Flight) : List Char :=
  if flight.Airline ≠ [] ∧ flight.FlightNumber ≠ [] then
    "Flight ".toList ++ sprintD (idx + 1) ++ ": ".toList ++ flight.Airline ++ " ".toList ++
      flight.FlightNumber
  else if flight.Airline ≠ [] then
    "Flight ".toList ++ sprintD (idx + 1) ++ ": ".toList ++ flight.Airline
  else if flight.FlightNumber ≠ [] then
    "Flight ".toList ++ sprintD (idx + 1) ++ ": ".toList ++ flight.FlightNumber
  else "Flight ".toList ++ sprintD (idx + 1)

/-- The departure or arrival details of a flight, under the heading `name`. -/
def flightEndOps (name city airport : List Char) (time : Time) : List Op :=
  if city ≠ [] ∨ airport ≠ [] ∨ !time.IsZero then
    [Op.SetFont "Arial".toList "B".toList 10, Op.SetTextColor 70 70 70, Op.SetX 20,
      Op.CellFormat 0 5 name 1] ++
    (if city ≠ [] then labelledLine 25 20 "City:".toList city else []) ++
    (if airport ≠ [] then labelledLine 25 20 "Airport:".toList airport else []) ++
    (if !time.IsZero then labelledLine 25 20 "Time:".toList (formatDateTime time) else [])
  else []

/-- One turn of the loop of `addFlightsSection`. -/
def flightOps (idx total : Nat) (flight : Flight) : List Op :=
  [Op.SetFont "Arial".toList "B".toList 11, Op.SetTextColor 40 40 40, Op.SetX 15,
    Op.CellFormat 0 6 (flightHeader idx flight) 1] ++
  flightEndOps "Departure".toList flight.DepartureCity flight.DepartureAirport
    flight.DepartureTime ++
  [Op.Ln 1] ++
  flightEndOps "Arrival".toList flight.ArrivalCity flight.ArrivalAirport flight.ArrivalTime ++
  (if idx + 1 < total then [Op.Ln 4] else [])

/-- The method `PDFService.addFlightsSection`. -/
def addFlightsSection (pdf : List Op) (flights : List Flight) : List Op :=
  if flights.length = 0 then pdf
  else
    let pdf := addSectionHeader pdf "Flight Details".toList
    let pdf := pdf ++ rangeOps (fun idx flight => flightOps idx flights.length flight) 0 flights
    pdf ++ [Op.Ln 4]

/-- One turn of the loop of `addTransfersSection`. -/
def transferOps (low up : Char → Char) (transfer : Transfer) : List Op :=
  [Op.SetFont "Arial".toList "B".toList 11, Op.SetTextColor 40 40 40, Op.SetX 15,
    Op.CellFormat 0 6 (toTitleCase low up transfer.Mode ++ " Transfer".toList) 1,
    Op.SetFont "Arial".toList "".toList 10, Op.SetTextColor 90 90 90, Op.SetX 15,
    Op.CellFormat 0 5 ("Pickup: ".toList ++ transfer.Pickup ++ "   Drop-off: ".toList ++
      transfer.Dropoff ++ "   Time: ".toList ++ transfer.PickupTime) 1] ++
  (if trimSpace transfer.Notes ≠ [] then
    [Op.SetX 15, Op.MultiCell 0 5 ("Notes: ".toList ++ transfer.Notes)] else []) ++
  [Op.Ln 2]

/-- The method `PDFService.addTransfersSection`. -/
def addTransfersSection (low up : Char → Char) (pdf : List Op) (transfers : List Transfer) :
    List Op :=
  if transfers.length = 0 then pdf
  else
    let pdf := addSectionHeader pdf "Transfers".toList
    let pdf := pdf ++ rangeOps (fun _ transfer => transferOps low up transfer) 0 transfers
    pdf ++ [Op.Ln 4]

/-- A labelled list of bullets of `addInclusionsExclusionsSection`. -/
def bulletListOps (label : List Char) (items : List (List Char)) : List Op :=
  if 0 < items.length then
    [Op.SetFont "Arial".toList "B".toList 11, Op.SetTextColor 70 70 70, Op.SetX 15,
      Op.CellFormat 0 6 label 1, Op.SetFont "Arial".toList "".toList 10,
      Op.SetTextColor 90 90 90] ++
    rangeOps (fun _ item => [Op.SetX 20, Op.CellFormat 0 5 ("- ".toList ++ item) 1]) 0 items ++
    [Op.Ln 2]
  else []

/-- The method `PDFService.addInclusionsExclusionsSection`. -/
def addInclusionsExclusionsSection (pdf : List Op) (inclusions exclusions : List (List Char)) :
    List Op :=
  if inclusions.length = 0 ∧ exclusions.length = 0 then pdf
  else
    let pdf := addSectionHeader pdf "Inclusions and Exclusions".toList
    let pdf := pdf ++ bulletListOps "Inclusions".toList inclusions
    let pdf := pdf ++ bulletListOps "Exclusions".toList exclusions
    pdf ++ [Op.Ln 4]

/-- The method `PDFService.addFooter`; `pageNo` is the value of `pdf.PageNo()`, which the page
engine determines. -/
def addFooter (pageNo : Int) (pdf : List Op) : List Op :=
  pdf ++ [Op.SetXY 15 270, Op.SetFont "Arial".toList "".toList 9, Op.SetTextColor 150 150 150,
    Op.SetDrawColor 220 220 220, Op.Line 15 268 195 268, Op.SetXY 15 270,
    Op.Cell 0 10 ("Generated by Vigovia Itinerary Builder | Page ".toList ++ sprintD pageNo)]

/-! ## The payment plan section -/

/-- The zero value of `models.PaymentInstallment`, which fills a slice made by `make`. -/
def PaymentInstallment.zero : PaymentInstallment :=
  { InstallmentNumber := 0, Amount := ⟨false, 0, 0⟩, Currency := [], DueDate := Time.zero,
    Status := [] }

/-- Go's `make([]models.PaymentInstallment, n)`. -/
def makeInstallments (n : Nat) : List PaymentInstallment :=
  List.replicate n PaymentInstallment.zero

/-- Go's `copy(dst, src)`: the contents of `dst` afterwards; the first
`min(len(dst), len(src))` elements come from `src`. -/
def copySlice {α : Type} (dst src : List α) : List α :=
  src.take dst.length ++ dst.drop src.length

/-- The `less` of the call to `sort.Slice` in `addPaymentPlanSection`. -/
def installmentLess (x y : PaymentInstallment) : Bool :=
  decide (x.InstallmentNumber < y.InstallmentNumber)

/-- The local slice `ordered` of `addPaymentPlanSection` when its loop starts: a copy of the
plan, sorted by `sort.Slice`. -/
def orderedInstallments (plan : List PaymentInstallment) : List PaymentInstallment :=
  let ordered := makeInstallments plan.length
  let ordered := copySlice ordered plan
  sortSlice PaymentInstallment.zero installmentLess ordered

/-- The local variable `status` of the loop of `addPaymentPlanSection`. -/
def installmentStatus (installment : PaymentInstallment) : List Char :=
  let status := trimSpace installment.Status
  if status = [] then "Pending".toList else status

/-- The calls that one turn of the loop of `addPaymentPlanSection` makes: the row of an
installment. -/
def installmentRow (up : Char → Char) (installment : PaymentInstallment) : List Op :=
  [Op.SetX 15,
    Op.CellFormat 30 6 ('#' :: sprintD installment.InstallmentNumber) 0,
    Op.CellFormat 35 6 (formatAmount up installment.Amount installment.Currency) 0,
    Op.CellFormat 35 6 (formatDate installment.DueDate) 0,
    Op.CellFormat 0 6 (installmentStatus installment) 1]

/-- The calls that `addPaymentPlanSection` makes before its loop, after the section header. -/
def paymentTableHead : List Op :=
  [Op.SetFont "Arial".toList "B".toList 10, Op.SetTextColor 60 60 60, Op.SetX 15,
    Op.CellFormat 30 6 "Installment".toList 0, Op.CellFormat 35 6 "Amount".toList 0,
    Op.CellFormat 35 6 "Due Date".toList 0, Op.CellFormat 0 6 "Status".toList 1,
    Op.SetFont "Arial".toList "".toList 10, Op.SetTextColor 40 40 40]

/-- The method `PDFService.addPaymentPlanSection` on the elements of its slices.  It receives
the canvas and the elements of `plan`, and returns the canvas with the elements of `plan`;
the cells of the backing arrays that the method reads and writes are those of
`addPaymentPlanSectionOnHeap`. -/
def addPaymentPlanSection (up : Char → Char) (pdf : List Op) (plan : List PaymentInstallment) :
    List Op × List PaymentInstallment :=
  if plan.length = 0 then (pdf, plan)
  else
    let pdf := addSectionHeader pdf "Payment Plan".toList
    let ordered := orderedInstallments plan
    let pdf := pdf ++ paymentTableHead
    let pdf := ordered.foldl (fun pdf installment => pdf ++ installmentRow up installment) pdf
    (pdf ++ [Op.Ln 6], plan)

/-- The installments of every number come in `output` in the order they have in `input`: the
order of `output` is a stable rearrangement of `input`. -/
def keepsInputOrder (input output : List PaymentInstallment) : Prop :=
  ∀ n : Int, output.filter (fun x => decide (x.InstallmentNumber = n)) =
    input.filter (fun x => decide (x.InstallmentNumber = n))

/-! ## The day sections -/

/-- The variable `periodOrder`: the canonical periods, in the order of their groups. -/
def periodOrder : List (List Char) :=
  ["morning".toList, "afternoon".toList, "evening".toList]

/-- The map `periodDisplay`, read at a key: the label, or `""` when the key is absent. -/
def periodDisplay (period : List Char) : List Char :=
  if period = "morning".toList then "Morning".toList
  else if period = "afternoon".toList then "Afternoon".toList
  else if period = "evening".toList then "Evening".toList
  else []

/-- A Go `map[string][]models.Activity`: its entries, with pairwise distinct keys.  The order
of the entries in the list has no meaning for the program: a `range` over the map gets its
order from the runtime. -/
abbrev ActivityMap := List (List Char × List Activity)

/-- The value `m[key]` of a map: the slice stored at the key, or `nil`. -/
def ActivityMap.get (m : ActivityMap) (key : List Char) : List Activity :=
  match m with
  | [] => []
  | (k, v) :: rest => if k = key then v else ActivityMap.get rest key

/-- The map after the assignment `m[key] = value`. -/
def ActivityMap.set (m : ActivityMap) (key : List Char) (value : List Activity) : ActivityMap :=
  match m with
  | [] => [(key, value)]
  | (k, v) :: rest => if k = key then (key, value) :: rest else (k, v) :: ActivityMap.set rest key value

/-- The keys of a map. -/
def ActivityMap.keys (m : ActivityMap) : List (List Char) := m.map Prod.fst

/-- The map `grouped` of `addDaySection` after its first loop. -/
def groupActivities (low : Char → Char) (activities : List Activity) : ActivityMap :=
  activities.foldl
    (fun grouped activity =>
      let periodKey := toLower low activity.Period
      grouped.set periodKey (grouped.get periodKey ++ [activity]))
    []

/-- One turn of the loop over the activities of a group, for the activity of index `idx` among
`total`. -/
def activityOps (total idx : Nat) (activity : Activity) : List Op :=
  [Op.SetFont "Arial".toList "B".toList 10, Op.SetTextColor 52 152 219, Op.SetX 20,
    Op.CellFormat 28 5 activity.Time 0, Op.SetFont "Arial".toList "B".toList 10,
    Op.SetTextColor 40 40 40, Op.CellFormat 0 5 activity.Title 1,
    Op.SetFont "Arial".toList "".toList 10, Op.SetTextColor 90 90 90] ++
  (if activity.Description ≠ [] then
    [Op.SetX 25, Op.MultiCell 0 5 ("Description: ".toList ++ activity.Description)] else []) ++
  (if activity.Location ≠ [] then
    [Op.SetX 25, Op.MultiCell 0 5 ("Location: ".toList ++ activity.Location)] else []) ++
  (if activity.Duration ≠ [] then
    [Op.SetX 25, Op.MultiCell 0 5 ("Duration: ".toList ++ activity.Duration)] else []) ++
  (if idx + 1 < total then [Op.Ln 2] else [])

/-- The calls that render one group of activities under the heading `label`. -/
def groupOps (label : List Char) (activities : List Activity) : List Op :=
  [Op.SetFont "Arial".toList "B".toList 11, Op.SetTextColor 70 70 70, Op.SetX 18,
    Op.CellFormat 0 6 (label ++ " Session".toList) 1, Op.Ln 1] ++
  rangeOps (activityOps activities.length) 0 activities ++
  [Op.Ln 3]

/-- One turn of the loop `for _, period := range periodOrder` of `addDaySection`. -/
def canonicalGroupOps (low up : Char → Char) (grouped : ActivityMap) (period : List Char) :
    List Op :=
  let activities := grouped.get period
  if activities.length = 0 then []
  else
    let label := periodDisplay period
    let label := if label = [] then toTitleCase low up period else label
    groupOps label activities

/-- One turn of the loop `for period, activities := range grouped` of `addDaySection`, for the
entry of key `period`. -/
def otherGroupOps (low up : Char → Char) (grouped : ActivityMap) (period : List Char) :
    List Op :=
  let activities := grouped.get period
  let skip := periodOrder.any (fun ordered => decide (period = ordered))
  if skip = true ∨ activities.length = 0 then []
  else groupOps (toTitleCase low up period) activities

/-- The calls of `addDaySection` before the activities: the header of the day and its date. -/
def dayHeaderOps (day : DayPlan) : List Op :=
  [Op.SetFont "Arial".toList "B".toList 12, Op.SetTextColor 41 128 185, Op.SetX 15,
    Op.CellFormat 0 7 ("Day ".toList ++ sprintD day.DayNumber ++ ": ".toList ++ day.Title) 1,
    Op.SetFont "Arial".toList "".toList 10, Op.SetTextColor 110 110 110, Op.SetX 15,
    Op.CellFormat 0 5 ("Date: ".toList ++ formatDate day.Date) 1, Op.Ln 1]

/-- The method `PDFService.addDaySection`.  The list `visit` is the order in which the runtime
yields the keys of the map `grouped` to the loop `for period, activities := range grouped`:
some arrangement of the keys of the map, which the language leaves unspecified. -/
def addDaySection (low up : Char → Char) (visit : List (List Char)) (pdf : List Op)
    (day : DayPlan) : List Op :=
  let pdf := pdf ++ dayHeaderOps day
  let pdf :=
    if 0 < day.Activities.length then
      let grouped := groupActivities low day.Activities
      let pdf := pdf ++ (periodOrder.map (canonicalGroupOps low up grouped)).flatten
      pdf ++ (visit.map (otherGroupOps low up grouped)).flatten
    else
      pdf ++ [Op.SetFont "Arial".toList "I".toList 10, Op.SetTextColor 150 150 150, Op.SetX 25,
        Op.Cell 0 6 "No activities planned for this day".toList, Op.Ln 8]
  pdf ++ [Op.Ln 3, Op.SetDrawColor 220 220 220, Op.LineAtY 15 195, Op.Ln 8]

/-- The loop of `addItineraryDetailsSection`; `visits i` is the order of the `range` over the
map of the day of index `i`. -/
def daySectionsOps (low up : Char → Char) (visits : Nat → List (List Char)) :
    Nat → List DayPlan → List Op :=
  rangeOps (fun idx day => addDaySection low up (visits idx) [] day)

/-- The method `PDFService.addItineraryDetailsSection`. -/
def addItineraryDetailsSection (low up : Char → Char) (visits : Nat → List (List Char))
    (pdf : List Op) (days : List DayPlan) : List Op :=
  let pdf := addSectionHeader pdf "Day-by-Day Itinerary".toList
  pdf ++ daySectionsOps low up visits 0 days

/-- The canvas that `PDFService.GeneratePDF` has built when it calls `pdf.Output`: the calls it
made on the canvas, in order.  The case tables, the orders of the `range` loops over maps and
the page number are what the method gets from the language runtime and the page engine. -/
def generatePDFCanvas (low up : Char → Char) (visits : Nat → List (List Char)) (pageNo : Int)
    (itinerary : Itinerary) : List Op :=
  let pdf := [Op.AddPage, Op.SetLeftMargin 15, Op.SetRightMargin 15]
  let pdf := addHeader pdf itinerary
  let pdf := addMetadataSection pdf itinerary
  let pdf := if 0 < itinerary.Hotels.length then addHotelsSection pdf itinerary.Hotels else pdf
  let pdf := if 0 < itinerary.Flights.length then addFlightsSection pdf itinerary.Flights else pdf
  let pdf :=
    if 0 < itinerary.Transfers.length then addTransfersSection low up pdf itinerary.Transfers
    else pdf
  let pdf :=
    if itinerary.Description ≠ [] then addDescriptionSection pdf itinerary.Description else pdf
  let pdf :=
    if 0 < itinerary.Days.length then addItineraryDetailsSection low up visits pdf itinerary.Days
    else
      pdf ++ [Op.SetFont "Arial".toList "I".toList 11, Op.SetTextColor 100 100 100,
        Op.Cell 0 10 "No days planned yet".toList]
  let pdf :=
    if 0 < itinerary.PaymentPlan.length then (addPaymentPlanSection up pdf itinerary.PaymentPlan).1
    else pdf
  let pdf :=
    if 0 < itinerary.Inclusions.length ∨ 0 < itinerary.Exclusions.length then
      addInclusionsExclusionsSection pdf itinerary.Inclusions itinerary.Exclusions
    else pdf
  addFooter pageNo pdf

/-- The texts of the cells of height 7 of a canvas, which are the titles of the sections and
the headers of the days. -/
def titleCells (pdf : List Op) : List (List Char) :=
  pdf.filterMap (fun op => match op with
    | Op.CellFormat 0 7 txt 1 => some txt
    | _ => none)

/-- The texts written with `pdf.Cell` on a canvas. -/
def plainCells (pdf : List Op) : List (List Char) :=
  pdf.filterMap (fun op => match op with
    | Op.Cell _ _ txt => some txt
    | _ => none)

/-- The headings of the groups of activities on a canvas: the texts of its cells of height
6 that end the line and stand at the indentation 18. -/
def sessionHeadings : List Op → List (List Char)
  | Op.SetX 18 :: Op.CellFormat 0 6 txt 1 :: rest => txt :: sessionHeadings rest
  | _ :: rest => sessionHeadings rest
  | [] => []

/-- The group of the key `key` in the words of the specification: the activities of the day
whose period, put in lower case, is `key`, in the order they have in the list of the day. -/
def activitiesOfPeriod (low : Char → Char) (day : DayPlan) (key : List Char) : List Activity :=
  day.Activities.filter (fun activity => decide (toLower low activity.Period = key))

/-- The keys for which the two loops of `addDaySection` render a group, in the order of the
rendering: the loop over `periodOrder`, then the loop over the map in the order `visit`, each
without the keys that its `continue` passes over. -/
def renderedPeriods (low : Char → Char) (visit : List (List Char)) (day : DayPlan) :
    List (List Char) :=
  let grouped := groupActivities low day.Activities
  periodOrder.filter (fun period => decide ((grouped.get period).length ≠ 0)) ++
    visit.filter (fun period =>
      !(periodOrder.any (fun ordered => decide (period = ordered)) ||
        decide ((grouped.get period).length = 0)))

/-! ## Errors and validation (`utils/validator.go`) -/

/-- A Go `error`, by its dynamic type: a `*utils.ValidationError` with its message, or another
error (made by `fmt.Errorf` or returned by the operating system or the page engine) with the
text that its method `Error` returns. -/
inductive GoError where
  | ValidationError (Message : List Char)
  | errorString (text : List Char)
deriving DecidableEq, Repr

/-- The method `Error` of an error. -/
def GoError.Error : GoError → List Char
  | GoError.ValidationError message => message
  | GoError.errorString text => text

/-- The function `NewValidationError`. -/
def NewValidationError (message : List Char) : GoError := GoError.ValidationError message

/-- Go's `Time.Before` for values without a monotonic clock reading, as the values decoded
from a request are: the instants are compared. -/
def Time.Before (t u : Time) : Bool :=
  decide (t.sec < u.sec) || (t.sec == u.sec && decide (t.nsec < u.nsec))

/-- The comparison `x <= 0` on a `float64`. -/
def Float64.leZero (x : Float64) : Bool := x.sign || x.mant == 0

/-- The keys of the map `validPeriods`. -/
def validPeriods : List (List Char) :=
  ["morning".toList, "afternoon".toList, "evening".toList]

/-- A loop `for _, x := range xs { if err := check(&x); err != nil { return err } }`: the
error of the first element that has one. -/
def firstError {α : Type} (check : α → Option GoError) : List α → Option GoError
  | [] => none
  | x :: xs =>
    match check x with
    | some err => some err
    | none => firstError check xs

/-- The function `ValidateStringList`. -/
def ValidateStringList (values : List (List Char)) (label : List Char) : Option GoError :=
  if values.length = 0 then
    some (NewValidationError ("at least one ".toList ++ label ++ " is required".toList))
  else
    firstError
      (fun value =>
        if trimSpace value = [] then
          some (NewValidationError (label ++ " entries cannot be empty".toList))
        else none)
      values

/-- The function `ValidateHotel`. -/
def ValidateHotel (hotel : Hotel) : Option GoError :=
  if trimSpace hotel.Name = [] then some (NewValidationError "hotel name is required".toList)
  else if trimSpace hotel.City = [] then
    some (NewValidationError "hotel city is required".toList)
  else if hotel.CheckIn.IsZero then
    some (NewValidationError "hotel check_in is required".toList)
  else if hotel.CheckOut.IsZero then
    some (NewValidationError "hotel check_out is required".toList)
  else if hotel.CheckOut.Before hotel.CheckIn then
    some (NewValidationError "hotel check_out must be after check_in".toList)
  else if hotel.Nights ≤ 0 then
    some (NewValidationError "hotel nights must be greater than zero".toList)
  else none

/-- The function `ValidateFlight`. -/
def ValidateFlight (flight : Flight) : Option GoError :=
  if trimSpace flight.Airline = [] then
    some (NewValidationError "flight airline is required".toList)
  else if trimSpace flight.FlightNumber = [] then
    some (NewValidationError "flight number is required".toList)
  else if trimSpace flight.DepartureCity = [] ∨ trimSpace flight.DepartureAirport = [] then
    some (NewValidationError "flight departure city and airport are required".toList)
  else if flight.DepartureTime.IsZero then
    some (NewValidationError "flight departure_time is required".toList)
  else if trimSpace flight.ArrivalCity = [] ∨ trimSpace flight.ArrivalAirport = [] then
    some (NewValidationError "flight arrival city and airport are required".toList)
  else if flight.ArrivalTime.IsZero then
    some (NewValidationError "flight arrival_time is required".toList)
  else if flight.ArrivalTime.Before flight.DepartureTime then
    some (NewValidationError "flight arrival_time must be after departure_time".toList)
  else none

/-- The function `ValidateTransfer`. -/
def ValidateTransfer (transfer : Transfer) : Option GoError :=
  if trimSpace transfer.Mode = [] then
    some (NewValidationError "transfer mode is required".toList)
  else if trimSpace transfer.Pickup = [] then
    some (NewValidationError "transfer pickup is required".toList)
  else if trimSpace transfer.Dropoff = [] then
    some (NewValidationError "transfer dropoff is required".toList)
  else if trimSpace transfer.PickupTime = [] then
    some (NewValidationError "transfer pickup_time is required".toList)
  else none

/-- The function `ValidateActivity`; `low` is the case table of `strings.ToLower` above
ASCII. -/
def ValidateActivity (low : Char → Char) (activity : Activity) : Option GoError :=
  if trimSpace activity.Title = [] then
    some (NewValidationError "activity title is required".toList)
  else if trimSpace activity.Period = [] then
    some (NewValidationError "activity period is required".toList)
  else if toLower low activity.Period ∉ validPeriods then
    some (NewValidationError "activity period must be morning, afternoon, or evening".toList)
  else if trimSpace activity.Time = [] then
    some (NewValidationError "activity time is required".toList)
  else if trimSpace activity.Description = [] then
    some (NewValidationError "activity description is required".toList)
  else if trimSpace activity.Location = [] then
    some (NewValidationError "activity location is required".toList)
  else none

/-- The function `ValidateDayPlan`. -/
def ValidateDayPlan (low : Char → Char) (day : DayPlan) : Option GoError :=
  if day.DayNumber ≤ 0 then
    some (NewValidationError "day_number must be greater than zero".toList)
  else if day.Date.IsZero then
    some (NewValidationError ("date is required for day ".toList ++ sprintD day.DayNumber))
  else if trimSpace day.Title = [] then
    some (NewValidationError ("title is required for day ".toList ++ sprintD day.DayNumber))
  else if day.Activities.length = 0 then
    some (NewValidationError
      ("at least one activity is required for day ".toList ++ sprintD day.DayNumber))
  else firstError (ValidateActivity low) day.Activities

/-- The function `ValidatePaymentInstallment`. -/
def ValidatePaymentInstallment (installment : PaymentInstallment) : Option GoError :=
  if installment.InstallmentNumber ≤ 0 then
    some (NewValidationError "payment installment_number must be greater than zero".toList)
  else if installment.Amount.leZero then
    some (NewValidationError "payment amount must be greater than zero".toList)
  else if trimSpace installment.Currency = [] then
    some (NewValidationError "payment currency is required".toList)
  else if installment.DueDate.IsZero then
    some (NewValidationError "payment due_date is required".toList)
  else none

/-- The record `models.CreateItineraryRequest`. -/
structure CreateItineraryRequest where
  UserID : List Char
  Title : List Char
  Description : List Char
  StartDate : Time
  EndDate : Time
  Location : List Char
  Hotels : List Hotel
  Flights : List Flight
  Transfers : List Transfer
  Days : List DayPlan
  PaymentPlan : List PaymentInstallment
  Inclusions : List (List Char)
  Exclusions : List (List Char)
deriving DecidableEq, Repr

/-- The record `models.UpdateItineraryRequest`.  The method that reads it tells a `nil` slice
(`none`) from a slice of length zero (`some []`). -/
structure UpdateItineraryRequest where
  UserID : List Char
  Title : List Char
  Description : List Char
  StartDate : Time
  EndDate : Time
  Location : List Char
  Hotels : Option (List Hotel)
  Flights : Option (List Flight)
  Transfers : Option (List Transfer)
  Days : Option (List DayPlan)
  PaymentPlan : Option (List PaymentInstallment)
  Inclusions : Option (List (List Char))
  Exclusions : Option (List (List Char))
deriving DecidableEq, Repr

/-- The function `ValidateItinerary`. -/
def ValidateItinerary (low : Char → Char) (req : CreateItineraryRequest) : Option GoError :=
  if trimSpace req.UserID = [] then some (NewValidationError "user_id is required".toList)
  else if trimSpace req.Title = [] then some (NewValidationError "title is required".toList)
  else if trimSpace req.Location = [] then
    some (NewValidationError "location is required".toList)
  else if req.StartDate.IsZero then some (NewValidationError "start_date is required".toList)
  else if req.EndDate.IsZero then some (NewValidationError "end_date is required".toList)
  else if req.EndDate.Before req.StartDate then
    some (NewValidationError "end_date must be after start_date".toList)
  else if req.Hotels.length = 0 then
    some (NewValidationError "at least one hotel is required".toList)
  else if req.Flights.length = 0 then
    some (NewValidationError "at least one flight is required".toList)
  else if req.Transfers.length = 0 then
    some (NewValidationError "at least one transfer is required".toList)
  else if req.Days.length = 0 then
    some (NewValidationError "at least one day plan is required".toList)
  else if req.PaymentPlan.length = 0 then
    some (NewValidationError "at least one payment installment is required".toList)
  else
    match ValidateStringList req.Inclusions "inclusion".toList with
    | some err => some err
    | none =>
    match ValidateStringList req.Exclusions "exclusion".toList with
    | some err => some err
    | none =>
    match firstError ValidateHotel req.Hotels with
    | some err => some err
    | none =>
    match firstError ValidateFlight req.Flights with
    | some err => some err
    | none =>
    match firstError ValidateTransfer req.Transfers with
    | some err => some err
    | none =>
    match firstError (ValidateDayPlan low) req.Days with
    | some err => some err
    | none => firstError ValidatePaymentInstallment req.PaymentPlan

/-- Go's `t.Format("20060102150405")`: year, month, day, hour, minute and second, without
separators. -/
def Time.FormatStamp (t : Time) : List Char :=
  appendInt t.Date.1 4 ++ appendInt t.Date.2.1 2 ++ appendInt t.Date.2.2 2 ++
    appendInt t.Clock.1 2 ++ appendInt t.Clock.2.1 2 ++ appendInt t.Clock.2.2 2

/-- The function `GenerateID`; `now` is the value returned by `time.Now()`. -/
def GenerateID (now : Time) : List Char := now.FormatStamp

/-! ## The store (`storage/memory_store.go`) -/

/-- A Go `map[string]*models.Itinerary`: its entries, with pairwise distinct keys.  Every
pointer of the map refers to a record of its own, which is the value of the entry: a write
through the pointer changes the value at the key. -/
abbrev ItineraryMap := List (List Char × Itinerary)

/-- The lookup `m[key]` with its second result: the record at the key, if the key is there. -/
def ItineraryMap.lookup (m : ItineraryMap) (key : List Char) : Option Itinerary :=
  match m with
  | [] => none
  | (k, v) :: rest => if k = key then some v else ItineraryMap.lookup rest key

/-- The map after `m[key] = value`, or after the writes that left `value` in the record to
which the pointer at `key` refers. -/
def ItineraryMap.set (m : ItineraryMap) (key : List Char) (value : Itinerary) : ItineraryMap :=
  match m with
  | [] => [(key, value)]
  | (k, v) :: rest =>
    if k = key then (key, value) :: rest else (k, v) :: ItineraryMap.set rest key value

/-- The record `MemoryStore`, reduced to its map of itineraries. -/
structure MemoryStore where
  itineraries : ItineraryMap
deriving DecidableEq, Repr

/-- The function `NewMemoryStore`. -/
def NewMemoryStore : MemoryStore := ⟨[]⟩

/-- The method `MemoryStore.Create`: the store after the call, and the error. -/
def MemoryStore.Create (ms : MemoryStore) (itinerary : Itinerary) :
    MemoryStore × Option GoError :=
  match ms.itineraries.lookup itinerary.ID with
  | some _ =>
    (ms, some (GoError.errorString
      ("itinerary with id ".toList ++ itinerary.ID ++ " already exists".toList)))
  | none => (⟨ms.itineraries.set itinerary.ID itinerary⟩, none)

/-- The method `MemoryStore.GetByID`: the record to which the pointer it returns refers. -/
def MemoryStore.GetByID (ms : MemoryStore) (id : List Char) : Except GoError Itinerary :=
  match ms.itineraries.lookup id with
  | none =>
    Except.error (GoError.errorString
      ("itinerary with id ".toList ++ id ++ " not found".toList))
  | some itinerary => Except.ok itinerary

/-- The method `MemoryStore.Update`: the store after the call, and the error. -/
def MemoryStore.Update (ms : MemoryStore) (id : List Char) (itinerary : Itinerary) :
    MemoryStore × Option GoError :=
  match ms.itineraries.lookup id with
  | none =>
    (ms, some (GoError.errorString
      ("itinerary with id ".toList ++ id ++ " not found".toList)))
  | some _ => (⟨ms.itineraries.set id itinerary⟩, none)

/-- The map after `delete(m, key)`. -/
def ItineraryMap.delete (m : ItineraryMap) (key : List Char) : ItineraryMap :=
  m.filter (fun entry => decide (entry.1 ≠ key))

/-- The method `MemoryStore.Delete`: the store after the call, and the error. -/
def MemoryStore.Delete (ms : MemoryStore) (id : List Char) : MemoryStore × Option GoError :=
  match ms.itineraries.lookup id with
  | none =>
    (ms, some (GoError.errorString
      ("itinerary with id ".toList ++ id ++ " not found".toList)))
  | some _ => (⟨ms.itineraries.delete id⟩, none)

/-! ## The service (`services/itinerary_service.go`) -/

/-- The function `normalizeActivity`. -/
def normalizeActivity (low : Char → Char) (activity : Activity) : Activity :=
  { activity with Period := toLower low activity.Period }

/-- The two nested loops that replace every activity of every day by
`normalizeActivity` of it. -/
def normalizeDays (low : Char → Char) (days : List DayPlan) : List DayPlan :=
  days.map (fun day => { day with Activities := day.Activities.map (normalizeActivity low) })

/-- The method `ItineraryService.CreateItinerary`: the store after the call and what the call
returns.  `now` is the value of `time.Now()` in the method and `idNow` the one in
`GenerateID`. -/
def CreateItinerary (low : Char → Char) (ms : MemoryStore) (now idNow : Time)
    (req : CreateItineraryRequest) : MemoryStore × Except GoError Itinerary :=
  match ValidateItinerary low req with
  | some err => (ms, Except.error err)
  | none =>
    let itinerary : Itinerary :=
      { ID := GenerateID idNow, UserID := trimSpace req.UserID, Title := req.Title,
        Description := req.Description, StartDate := req.StartDate, EndDate := req.EndDate,
        Location := req.Location, Hotels := req.Hotels, Flights := req.Flights,
        Transfers := req.Transfers, Days := req.Days, PaymentPlan := req.PaymentPlan,
        Inclusions := req.Inclusions, Exclusions := req.Exclusions, CreatedAt := now,
        UpdatedAt := now }
    let itinerary := { itinerary with Days := normalizeDays low itinerary.Days }
    match ms.Create itinerary with
    | (ms, some err) => (ms, Except.error err)
    | (ms, none) => (ms, Except.ok itinerary)

/-- The statements of `UpdateItinerary` that copy the scalar fields of the request which are
provided. -/
def updateScalars (req : UpdateItineraryRequest) (itinerary : Itinerary) : Itinerary :=
  let itinerary :=
    if trimSpace req.UserID ≠ [] then { itinerary with UserID := trimSpace req.UserID }
    else itinerary
  let itinerary := if req.Title ≠ [] then { itinerary with Title := req.Title } else itinerary
  let itinerary :=
    if req.Description ≠ [] then { itinerary with Description := req.Description }
    else itinerary
  let itinerary :=
    if !req.StartDate.IsZero then { itinerary with StartDate := req.StartDate } else itinerary
  let itinerary :=
    if !req.EndDate.IsZero then { itinerary with EndDate := req.EndDate } else itinerary
  if req.Location ≠ [] then { itinerary with Location := req.Location } else itinerary

/-- The block `if req.Hotels != nil { ... }` of `UpdateItinerary`: the error it returns, or
the record after it. -/
def updateHotels (req : UpdateItineraryRequest) (itinerary : Itinerary) :
    Except GoError Itinerary :=
  match req.Hotels with
  | none => Except.ok itinerary
  | some hotels =>
    if hotels.length = 0 then
      Except.error (NewValidationError "at least one hotel is required".toList)
    else
      match firstError ValidateHotel hotels with
      | some err => Except.error err
      | none => Except.ok { itinerary with Hotels := hotels }

/-- The block `if req.Flights != nil { ... }` of `UpdateItinerary`. -/
def updateFlights (req : UpdateItineraryRequest) (itinerary : Itinerary) :
    Except GoError Itinerary :=
  match req.Flights with
  | none => Except.ok itinerary
  | some flights =>
    if flights.length = 0 then
      Except.error (NewValidationError "at least one flight is required".toList)
    else
      match firstError ValidateFlight flights with
      | some err => Except.error err
      | none => Except.ok { itinerary with Flights := flights }

/-- The block `if req.Transfers != nil { ... }` of `UpdateItinerary`. -/
def updateTransfers (req : UpdateItineraryRequest) (itinerary : Itinerary) :
    Except GoError Itinerary :=
  match req.Transfers with
  | none => Except.ok itinerary
  | some transfers =>
    if transfers.length = 0 then
      Except.error (NewValidationError "at least one transfer is required".toList)
    else
      match firstError ValidateTransfer transfers with
      | some err => Except.error err
      | none => Except.ok { itinerary with Transfers := transfers }

/-- The block `if req.Days != nil { ... }` of `UpdateItinerary`. -/
def updateDays (low : Char → Char) (req : UpdateItineraryRequest) (itinerary : Itinerary) :
    Except GoError Itinerary :=
  match req.Days with
  | none => Except.ok itinerary
  | some days =>
    if days.length = 0 then
      Except.error (NewValidationError "at least one day plan is required".toList)
    else
      match firstError (ValidateDayPlan low) days with
      | some err => Except.error err
      | none => Except.ok { itinerary with Days := normalizeDays low days }

/-- The block `if req.PaymentPlan != nil { ... }` of `UpdateItinerary`. -/
def updatePaymentPlan (req : UpdateItineraryRequest) (itinerary : Itinerary) :
    Except GoError Itinerary :=
  match req.PaymentPlan with
  | none => Except.ok itinerary
  | some plan =>
    if plan.length = 0 then
      Except.error (NewValidationError "at least one payment installment is required".toList)
    else
      match firstError ValidatePaymentInstallment plan with
      | some err => Except.error err
      | none => Except.ok { itinerary with PaymentPlan := plan }

/-- The block `if req.Inclusions != nil { ... }` of `UpdateItinerary`. -/
def updateInclusions (req : UpdateItineraryRequest) (itinerary : Itinerary) :
    Except GoError Itinerary :=
  match req.Inclusions with
  | none => Except.ok itinerary
  | some inclusions =>
    match ValidateStringList inclusions "inclusion".toList with
    | some err => Except.error err
    | none => Except.ok { itinerary with Inclusions := inclusions }

/-- The block `if req.Exclusions != nil { ... }` of `UpdateItinerary`. -/
def updateExclusions (req : UpdateItineraryRequest) (itinerary : Itinerary) :
    Except GoError Itinerary :=
  match req.Exclusions with
  | none => Except.ok itinerary
  | some exclusions =>
    match ValidateStringList exclusions "exclusion".toList with
    | some err => Except.error err
    | none => Except.ok { itinerary with Exclusions := exclusions }

/-- Blocks run one after the other on the record to which a pointer refers, up to the first
that returns an error: the record as the blocks left it, and that error. -/
def runBlocks : List (Itinerary → Except GoError Itinerary) → Itinerary →
    Itinerary × Option GoError
  | [], itinerary => (itinerary, none)
  | block :: rest, itinerary =>
    match block itinerary with
    | Except.error err => (itinerary, some err)
    | Except.ok itinerary => runBlocks rest itinerary

/-- The method `ItineraryService.UpdateItinerary`: the store after the call and what the call
returns; `now` is the value of `time.Now()`.  The method works on the pointer that `GetByID`
returns, which is the pointer of the store, so the store holds what the method has written
to the record when it returns, with or without an error. -/
def UpdateItinerary (low : Char → Char) (ms : MemoryStore) (now : Time) (id : List Char)
    (req : UpdateItineraryRequest) : MemoryStore × Except GoError Itinerary :=
  match ms.GetByID id with
  | Except.error err => (ms, Except.error err)
  | Except.ok itinerary =>
    let itinerary := updateScalars req itinerary
    match runBlocks
        [updateHotels req, updateFlights req, updateTransfers req, updateDays low req,
          updatePaymentPlan req, updateInclusions req, updateExclusions req] itinerary with
    | (itinerary, some err) => (⟨ms.itineraries.set id itinerary⟩, Except.error err)
    | (itinerary, none) =>
      let itinerary := { itinerary with UpdatedAt := now }
      let ms : MemoryStore := ⟨ms.itineraries.set id itinerary⟩
      match ms.Update id itinerary with
      | (ms, some err) => (ms, Except.error err)
      | (ms, none) => (ms, Except.ok itinerary)

/-- The loop of `AddActivity` on the days: the days after the activity is appended to the
first day of number `dayNumber`, or `none` when the loop ends without finding one. -/
def appendToDay (dayNumber : Int) (activity : Activity) : List DayPlan → Option (List DayPlan)
  | [] => none
  | day :: rest =>
    if day.DayNumber = dayNumber then
      some ({ day with Activities := day.Activities ++ [activity] } :: rest)
    else (appendToDay dayNumber activity rest).map (fun days => day :: days)

/-- The method `ItineraryService.AddActivity`: the store after the call and what the call
returns; `now` is the value of `time.Now()`. -/
def AddActivity (low : Char → Char) (ms : MemoryStore) (now : Time) (itineraryID : List Char)
    (dayNumber : Int) (activity : Activity) : MemoryStore × Except GoError Itinerary :=
  match ValidateActivity low activity with
  | some err => (ms, Except.error err)
  | none =>
    match ms.GetByID itineraryID with
    | Except.error err => (ms, Except.error err)
    | Except.ok itinerary =>
      match appendToDay dayNumber (normalizeActivity low activity) itinerary.Days with
      | some days =>
        let itinerary := { itinerary with Days := days, UpdatedAt := now }
        let ms : MemoryStore := ⟨ms.itineraries.set itineraryID itinerary⟩
        match ms.Update itineraryID itinerary with
        | (ms, some err) => (ms, Except.error err)
        | (ms, none) => (ms, Except.ok itinerary)
      | none => (ms, Except.error (NewValidationError "day not found in itinerary".toList))

/-- The method `ItineraryService.DeleteItinerary`: the store after the call, and the error. -/
def DeleteItinerary (ms : MemoryStore) (id : List Char) : MemoryStore × Option GoError :=
  ms.Delete id

/-- A call of one of the four methods of the service that write to the store, with its
arguments and the clock values it reads. -/
inductive ServiceCall where
  | create (now idNow : Time) (req : CreateItineraryRequest)
  | update (now : Time) (id : List Char) (req : UpdateItineraryRequest)
  | addActivity (now : Time) (itineraryID : List Char) (dayNumber : Int) (activity : Activity)
  | delete (id : List Char)

/-- The store after a call. -/
def ServiceCall.run (low : Char → Char) (ms : MemoryStore) : ServiceCall → MemoryStore
  | ServiceCall.create now idNow req => (CreateItinerary low ms now idNow req).1
  | ServiceCall.update now id req => (UpdateItinerary low ms now id req).1
  | ServiceCall.addActivity now itineraryID dayNumber activity =>
    (AddActivity low ms now itineraryID dayNumber activity).1
  | ServiceCall.delete id => (DeleteItinerary ms id).1

/-- The store after a sequence of calls, each one with a request of its own. -/
def runCalls (low : Char → Char) (calls : List ServiceCall) (ms : MemoryStore) : MemoryStore :=
  calls.foldl (ServiceCall.run low) ms

/-! ## Saving the document -/

/-- What the environment answers to `GeneratePDF`: the result of `pdf.Output` for a canvas
(the bytes of the document, or the error of the page engine), and the errors of `os.MkdirAll`
and `os.WriteFile`, if any. -/
structure Environment where
  output : List Op → Except GoError (List Nat)
  mkdirAll : List Char → Option GoError
  writeFile : List Char → List Nat → Option GoError

/-- The call `filepath.Join("output", fileName)` where the separator is `/`, for a file name
that has no separator and is neither `.` nor `..`, as the names of `buildFileName` are. -/
def outputPath (fileName : List Char) : List Char := "output".toList ++ '/' :: fileName

/-- The method `PDFService.savePDFToOutput`; `tbl` is the case table of `strings.ToLower` and
`now` the value of `time.Now()` in `buildFileName`. -/
def savePDFToOutput (tbl : Char → Char) (env : Environment) (now : Time)
    (pdfBytes : List Nat) (itinerary : Itinerary) : Option GoError :=
  match env.mkdirAll "output".toList with
  | some err =>
    some (GoError.errorString ("create output directory: ".toList ++ err.Error))
  | none =>
    let fileName := buildFileName tbl itinerary now
    let filePath := outputPath fileName
    match env.writeFile filePath pdfBytes with
    | some err =>
      some (GoError.errorString
        ("write PDF to ".toList ++ filePath ++ ": ".toList ++ err.Error))
    | none => none

/-- The method `PDFService.GeneratePDF`: the bytes it returns, or its error. -/
def GeneratePDF (low up : Char → Char) (visits : Nat → List (List Char)) (pageNo : Int)
    (env : Environment) (now : Time) (itinerary : Itinerary) : Except GoError (List Nat) :=
  let pdf := generatePDFCanvas low up visits pageNo itinerary
  match env.output pdf with
  | Except.error err =>
    Except.error (GoError.errorString ("failed to generate PDF: ".toList ++ err.Error))
  | Except.ok pdfBytes =>
    match savePDFToOutput low env now pdfBytes itinerary with
    | some err =>
      Except.error (GoError.errorString ("failed to save PDF: ".toList ++ err.Error))
    | none => Except.ok pdfBytes

/-! ## The payment plan section on the heap -/

/-- A slice of installments: the address of its backing array, the index of its first cell in
that array, and its length. -/
structure Slice where
  array : Nat
  first : Nat
  len : Nat
deriving DecidableEq, Repr

/-- The backing arrays of the slices of installments, by address; the addresses below `next`
are those in use. -/
structure Heap where
  arrays : Nat → Mem PaymentInstallment
  next : Nat

/-- The elements of a slice. -/
def Heap.read (h : Heap) (s : Slice) : List PaymentInstallment :=
  (List.range s.len).map (fun i => (h.arrays s.array).cell (s.first + i))

/-- The heap after the cells of the slice `s` have received the elements of `xs`, cell by
cell; the other cells of the array and the other arrays stay as they are. -/
def Heap.write (h : Heap) (s : Slice) (xs : List PaymentInstallment) : Heap :=
  { arrays := fun address =>
      if address = s.array then
        ⟨fun k =>
          if s.first ≤ k ∧ k - s.first < s.len ∧ k - s.first < xs.length then
            xs.getD (k - s.first) PaymentInstallment.zero
          else (h.arrays address).cell k⟩
      else h.arrays address,
    next := h.next }

/-- Go's `make([]models.PaymentInstallment, n)`: the heap with a new backing array of zero
values at the first address not in use, and the slice on it. -/
def Heap.make (h : Heap) (n : Nat) : Heap × Slice :=
  ({ arrays := fun address =>
        if address = h.next then ⟨fun _ => PaymentInstallment.zero⟩ else h.arrays address,
     next := h.next + 1 },
    ⟨h.next, 0, n⟩)

/-- Go's `copy(dst, src)` on the heap: the elements of `src` are read, then written to the
cells of `dst`. -/
def Heap.copy (h : Heap) (dst src : Slice) : Heap :=
  h.write dst (copySlice (h.read dst) (h.read src))

/-- The call `sort.Slice(ordered, less)` of `addPaymentPlanSection` on the heap: the sort works
in place, on the cells of the slice it receives. -/
def Heap.sortSlice (h : Heap) (s : Slice) : Heap :=
  h.write s (Vigovia.sortSlice PaymentInstallment.zero installmentLess (h.read s))

/-- The method `PDFService.addPaymentPlanSection` with its slices on the heap: it receives the
canvas, the heap and the slice `plan`, and returns the canvas and the heap. -/
def addPaymentPlanSectionOnHeap (up : Char → Char) (pdf : List Op) (h : Heap) (plan : Slice) :
    List Op × Heap :=
  if plan.len = 0 then (pdf, h)
  else
    let pdf := addSectionHeader pdf "Payment Plan".toList
    let made := h.make plan.len
    let ordered := made.2
    let h := made.1.copy ordered plan
    let h := h.sortSlice ordered
    let pdf := pdf ++ paymentTableHead
    let pdf :=
      (h.read ordered).foldl (fun pdf installment => pdf ++ installmentRow up installment) pdf
    (pdf ++ [Op.Ln 6], h)

/-! ## Sample values -/

/-- A sample of the library's case table above ASCII: the capital letters of Latin-1, the
dotted capital I (U+0130) and the Kelvin sign (U+212A), whose lower-case forms are the ASCII
letters `i` and `k`.  It serves to evaluate the definitions on concrete inputs. -/
def sampleLowerTable (c : Char) : Char :=
  if c.toNat = 0x130 then 'i'
  else if c.toNat = 0x212A then 'k'
  else if 0xC0 ≤ c.toNat ∧ c.toNat ≤ 0xDE ∧ c.toNat ≠ 0xD7 then Char.ofNat (c.toNat + 32)
  else c

/-- An itinerary with the given title and dates and nothing else. -/
def sampleItinerary (title : List Char) (start stop : Time) : Itinerary :=
  { ID := "it-1".toList, UserID := "user-1".toList, Title := title, Description := [],
    StartDate := start, EndDate := stop, Location := "Bali".toList, Hotels := [],
    Flights := [], Transfers := [], Days := [], PaymentPlan := [], Inclusions := [],
    Exclusions := [], CreatedAt := Time.zero, UpdatedAt := Time.zero }

/-- An installment with the given number and status, due on 2024-04-01. -/
def sampleInstallment (number : Int) (status : List Char) : PaymentInstallment :=
  { InstallmentNumber := number, Amount := ⟨false, 2469, -1⟩, Currency := "usd".toList,
    DueDate := dateUTC 2024 4 1, Status := status }

/-- A plan of thirteen installments: twelve of number 2, told apart by their status, followed
by one of number 1. -/
def samplePlan13 : List PaymentInstallment :=
  [sampleInstallment 2 "a".toList, sampleInstallment 2 "b".toList,
    sampleInstallment 2 "c".toList, sampleInstallment 2 "d".toList,
    sampleInstallment 2 "e".toList, sampleInstallment 2 "f".toList,
    sampleInstallment 2 "g".toList, sampleInstallment 2 "h".toList,
    sampleInstallment 2 "i".toList, sampleInstallment 2 "j".toList,
    sampleInstallment 2 "k".toList, sampleInstallment 2 "l".toList,
    sampleInstallment 1 "m".toList]

/-- A sample of the library's upper-case table above ASCII: the small letters of Latin-1, the
dotless i (U+0131) and the long s (U+017F), whose upper-case forms are the ASCII letters `I`
and `S`.  It serves to evaluate the definitions on concrete inputs. -/
def sampleUpperTable (c : Char) : Char :=
  if c.toNat = 0x131 then 'I'
  else if c.toNat = 0x17F then 'S'
  else if c.toNat = 0xFF then Char.ofNat 0x178
  else if 0xE0 ≤ c.toNat ∧ c.toNat ≤ 0xFE ∧ c.toNat ≠ 0xF7 then Char.ofNat (c.toNat - 32)
  else c

/-- An activity with the given period and title, at nine o'clock. -/
def sampleActivity (period title : List Char) : Activity :=
  { Period := period, Time := "09:00".toList, Title := title, Description := [],
    Location := [], Duration := [] }

/-- A day with five activities, of periods "Night", "brunch", "Morning", "night" and
"evening". -/
def sampleDay : DayPlan :=
  { DayNumber := 1, Date := dateUTC 2024 1 2, Title := "Arrival".toList,
    Activities :=
      [sampleActivity "Night".toList "Market".toList,
        sampleActivity "brunch".toList "Brunch".toList,
        sampleActivity "Morning".toList "Temple".toList,
        sampleActivity "night".toList "Stars".toList,
        sampleActivity "evening".toList "Dinner".toList] }

/-- An itinerary whose description is one space. -/
def sampleBlankDescription : Itinerary :=
  { sampleItinerary "Bali".toList Time.zero Time.zero with Description := " ".toList }

/-- An activity that `ValidateActivity` accepts, with the given period and title. -/
def sampleValidActivity (period title : List Char) : Activity :=
  { Period := period, Time := "09:00".toList, Title := title, Description := "Visit".toList,
    Location := "Ubud".toList, Duration := [] }

/-- A create request that `ValidateItinerary` accepts: a trip to Bali from 2024-03-10 to
2024-03-15 with one hotel, one flight, one transfer, one day with one activity of period
"Morning", one installment, one inclusion and one exclusion. -/
def sampleRequest : CreateItineraryRequest :=
  { UserID := "user-1".toList, Title := "Bali Adventure".toList, Description := [],
    StartDate := dateUTC 2024 3 10, EndDate := dateUTC 2024 3 15, Location := "Bali".toList,
    Hotels :=
      [{ Name := "Ubud Inn".toList, City := "Ubud".toList, CheckIn := dateUTC 2024 3 10,
         CheckOut := dateUTC 2024 3 15, Nights := 5 }],
    Flights :=
      [{ Airline := "Garuda".toList, FlightNumber := "GA401".toList,
         DepartureCity := "Jakarta".toList, DepartureAirport := "CGK".toList,
         DepartureTime := dateUTC 2024 3 10, ArrivalCity := "Denpasar".toList,
         ArrivalAirport := "DPS".toList, ArrivalTime := dateUTC 2024 3 10 }],
    Transfers :=
      [{ Mode := "car".toList, Pickup := "DPS".toList, Dropoff := "Ubud Inn".toList,
         PickupTime := "14:00".toList, Notes := [] }],
    Days :=
      [{ DayNumber := 1, Date := dateUTC 2024 3 10, Title := "Arrival".toList,
         Activities := [sampleValidActivity "Morning".toList "Temple".toList] }],
    PaymentPlan := [sampleInstallment 1 "paid".toList],
    Inclusions := ["Breakfast".toList], Exclusions := ["Flights".toList] }

/-- An update request that provides nothing. -/
def emptyUpdate : UpdateItineraryRequest :=
  { UserID := [], Title := [], Description := [], StartDate := Time.zero,
    EndDate := Time.zero, Location := [], Hotels := none, Flights := none, Transfers := none,
    Days := none, PaymentPlan := none, Inclusions := none, Exclusions := none }

/-- Noon of 2024-03-01 in UTC. -/
def sampleNoon : Time := ⟨(dateUTC 2024 3 1).sec + 43200, 0, 0⟩

/-- Half a second after noon of 2024-03-01 in UTC. -/
def sampleNoonAndHalf : Time := ⟨(dateUTC 2024 3 1).sec + 43200, 500000000, 0⟩

/-- The store after `CreateItinerary` of `sampleRequest` on the empty store, at noon of
2024-03-01. -/
def sampleStore : MemoryStore :=
  (CreateItinerary sampleLowerTable NewMemoryStore sampleNoon sampleNoon sampleRequest).1

/-- An environment in which the page engine returns three bytes and the output directory
cannot be created. -/
def sampleEnvironmentNoDirectory : Environment :=
  { output := fun _ => Except.ok [37, 80, 68],
    mkdirAll := fun _ => some (GoError.errorString "mkdir output: permission denied".toList),
    writeFile := fun _ _ => none }

/-- The text that `GenerateID` returns at noon of 2024-03-01. -/
def sampleID : List Char := "20240301120000".toList

/-- The day of the itinerary that `sampleStore` holds. -/
def sampleStoredDay : DayPlan :=
  { DayNumber := 1, Date := dateUTC 2024 3 10, Title := "Arrival".toList,
    Activities := [sampleValidActivity "morning".toList "Temple".toList] }

/-- The itinerary that `sampleStore` holds. -/
def sampleStored : Itinerary :=
  { ID := sampleID, UserID := sampleRequest.UserID, Title := sampleRequest.Title,
    Description := sampleRequest.Description, StartDate := sampleRequest.StartDate,
    EndDate := sampleRequest.EndDate, Location := sampleRequest.Location,
    Hotels := sampleRequest.Hotels, Flights := sampleRequest.Flights,
    Transfers := sampleRequest.Transfers, Days := [sampleStoredDay],
    PaymentPlan := sampleRequest.PaymentPlan, Inclusions := sampleRequest.Inclusions,
    Exclusions := sampleRequest.Exclusions,
    CreatedAt := sampleNoon, UpdatedAt := sampleNoon }

/-- A heap with one backing array, at the address 0, which holds an installment of number 2
with a blank status followed by an installment of number 1. -/
def sampleHeap : Heap :=
  { arrays := fun address =>
      if address = 0 then
        Mem.ofList PaymentInstallment.zero
          [sampleInstallment 2 " ".toList, sampleInstallment 1 "paid".toList]
      else ⟨fun _ => PaymentInstallment.zero⟩,
    next := 1 }

/-- The slice on the two cells of the array of `sampleHeap`. -/
def samplePlanSlice : Slice := ⟨0, 0, 2⟩

/-! ## Evaluation on concrete inputs -/

theorem dateUTC_eval_2024 :
    (dateUTC 2024 3 10).sec = 63845625600 := by decide

theorem formatISODate_eval_2024 :
    (dateUTC 2024 3 10).FormatISODate = "2024-03-10".toList := by decide

theorem dateUTC_eval_unix_epoch :
    (dateUTC 1970 1 1).sec = 62135596800 := by decide

theorem formatISODate_eval_zero :
    Time.zero.FormatISODate = "0001-01-01".toList := by decide

theorem formatISODate_eval_before_zero :
    (Time.mk (-1) 0 0).FormatISODate = "0000-12-31".toList := by decide

theorem formatISODate_eval_west :
    (Time.mk 0 0 (-18000)).FormatISODate = "0000-12-31".toList := by decide

theorem formatISODate_eval_leap_day :
    (dateUTC 2000 2 29).FormatISODate = "2000-02-29".toList := by decide

theorem formatISODate_eval_1900 :
    (dateUTC 1900 3 1).FormatISODate = "1900-03-01".toList := by decide

theorem formatISODate_eval_1900_feb :
    (Time.mk ((dateUTC 1900 3 1).sec - 1) 0 0).FormatISODate = "1900-02-28".toList := by
  decide

theorem formatISODate_eval_five_digits :
    (dateUTC 12024 12 31).FormatISODate = "12024-12-31".toList := by decide

theorem formatISODate_eval_negative :
    (dateUTC (-5) 1 1).FormatISODate = "-0005-01-01".toList := by decide

theorem sanitizeFileName_eval_bali :
    sanitizeFileName sampleLowerTable "  Bali  Adventure!!_2024-03-10 ".toList
    = "bali-adventure_2024-03-10".toList := by decide

theorem sanitizeFileName_eval_trim :
    sanitizeFileName sampleLowerTable "__--a\x0bB\tc--".toList = "ab-c".toList := by decide

theorem buildFileName_eval_bali :
    buildFileName sampleLowerTable
    (sampleItinerary "Bali Adventure!!".toList (dateUTC 2024 3 10) Time.zero) (dateUTC 2026 1 1)
    = "bali-adventure_2024-03-10.pdf".toList := by decide

theorem buildFileName_eval_blank :
    buildFileName sampleLowerTable
    (sampleItinerary "  ".toList Time.zero Time.zero) (dateUTC 2026 1 1)
    = "itinerary_2026-01-01.pdf".toList := by decide

theorem formatAmount_eval_default_currency :
    formatAmount sampleLowerTable ⟨false, 2469, -1⟩ [] = "USD 1234.50".toList := by decide

theorem formatAmount_eval_half_even :
    formatAmount sampleLowerTable ⟨false, 1, -3⟩ "eur".toList = "EUR 0.12".toList := by decide

theorem formatDate_eval_2024 : formatDate (dateUTC 2024 1 2) = "Jan 2, 2024".toList := by decide

theorem formatDate_eval_zero : formatDate Time.zero = "-".toList := by decide

theorem sortSlice_eval_insertion :
    sortSlice 0 (fun x y : Nat => decide (x < y)) [3, 1, 2, 5, 4, 9, 8, 7, 6, 10, 2, 0]
      = [0, 1, 2, 2, 3, 4, 5, 6, 7, 8, 9, 10] := by decide

theorem sortSlice_eval_partition :
    sortSlice 0 (fun x y : Nat => decide (x < y))
        [3, 1, 2, 5, 4, 9, 8, 7, 6, 10, 13, 12, 11, 0, 2, 3]
      = [0, 1, 2, 2, 3, 3, 4, 5, 6, 7, 8, 9, 10, 11, 12, 13] := by decide

theorem heapSort_func_eval :
    (heapSort_func (fun x y : Nat => decide (x < y)) (Mem.ofList 0 [5, 3, 8, 1, 9, 2, 7]) 1 6).toList
        7 = [5, 1, 2, 3, 8, 9, 7] := by decide

theorem addPaymentPlanSection_eval_rows :
    ((addPaymentPlanSection sampleLowerTable []
        [sampleInstallment 2 " Paid ".toList, sampleInstallment 1 "  ".toList]).1.drop 17) =
      [Op.SetX 15, Op.CellFormat 30 6 "#1".toList 0, Op.CellFormat 35 6 "USD 1234.50".toList 0,
        Op.CellFormat 35 6 "Apr 1, 2024".toList 0, Op.CellFormat 0 6 "Pending".toList 1,
        Op.SetX 15, Op.CellFormat 30 6 "#2".toList 0, Op.CellFormat 35 6 "USD 1234.50".toList 0,
        Op.CellFormat 35 6 "Apr 1, 2024".toList 0, Op.CellFormat 0 6 "Paid".toList 1,
        Op.Ln 6] := by decide

/-! ## Lemmas on strings -/

theorem trimFunc_sublist (f : Char → Bool) (s : List Char) : (trimFunc f s).Sublist s :=
  ((List.rdropWhile_prefix f _).sublist).trans (List.dropWhile_suffix f).sublist

theorem trimFunc_head_not (f : Char → Bool) (s : List Char) (c : Char)
    (h : (trimFunc f s).head? = some c) : f c = false := by
  unfold trimFunc at h
  have hne : (s.dropWhile f).rdropWhile f ≠ [] := by
    intro h0
    rw [h0] at h
    simp at h
  have hpre := List.rdropWhile_prefix f (s.dropWhile f)
  have hne2 : s.dropWhile f ≠ [] := by
    intro h0
    rw [h0] at hne
    simp at hne
  have hhead := hpre.head hne
  rw [List.head?_eq_head hne] at h
  have hc : ((s.dropWhile f).rdropWhile f).head hne = c := by simpa using h
  rw [← hc, hhead]
  exact List.head_dropWhile_not f s hne2

theorem trimFunc_getLast_not (f : Char → Bool) (s : List Char) (c : Char)
    (h : (trimFunc f s).getLast? = some c) : f c = false := by
  unfold trimFunc at h
  have hne : (s.dropWhile f).rdropWhile f ≠ [] := by
    intro h0
    rw [h0] at h
    simp at h
  rw [List.getLast?_eq_getLast _ hne] at h
  have hc : ((s.dropWhile f).rdropWhile f).getLast hne = c := by simpa using h
  have := List.rdropWhile_last_not f (s.dropWhile f) hne
  rw [hc] at this
  simpa using this

theorem trimFunc_eq_self (f : Char → Bool) (s : List Char)
    (h1 : ∀ c, s.head? = some c → f c = false)
    (h2 : ∀ c, s.getLast? = some c → f c = false) : trimFunc f s = s := by
  unfold trimFunc
  have hd : s.dropWhile f = s := by
    cases s with
    | nil => rfl
    | cons a t =>
      have := h1 a rfl
      simp [List.dropWhile_cons, this]
  rw [hd]
  rw [List.rdropWhile_eq_self_iff]
  intro hl
  have := h2 (s.getLast hl) (List.getLast?_eq_getLast _ hl)
  simp [this]

theorem replaceAllRunsAux_nil (cls : Char → Bool) (b : Bool) (s : List Char) :
    replaceAllRunsAux cls [] b s = s.filter (fun c => !cls c) := by
  induction s generalizing b with
  | nil => rfl
  | cons a t ih =>
    by_cases ha : cls a = true
    · cases b <;> simp [replaceAllRunsAux, ha, ih]
    · simp [replaceAllRunsAux, ha, ih]

theorem replaceAllRunsAux_eq_self (cls : Char → Bool) (repl : List Char) (b : Bool)
    (s : List Char) (h : ∀ c ∈ s, cls c = false) : replaceAllRunsAux cls repl b s = s := by
  induction s generalizing b with
  | nil => rfl
  | cons a t ih =>
    have ha : cls a = false := h a (List.mem_cons_self a t)
    have ht : ∀ c ∈ t, cls c = false := fun c hc => h c (List.mem_cons_of_mem a hc)
    simp [replaceAllRunsAux, ha, ih false ht]

theorem isNameRune_iff (c : Char) :
    isNameRune c = true ↔
      ('a' ≤ c ∧ c ≤ 'z') ∨ ('0' ≤ c ∧ c ≤ '9') ∨ c = '-' ∨ c = '_' := by
  have e1 : c = '-' ↔ c.toNat = 45 := by
    constructor
    · intro h; rw [h]; rfl
    · intro h; apply Char.ext; apply UInt32.ext; simpa [Char.toNat, UInt32.toNat] using h
  have e2 : c = '_' ↔ c.toNat = 95 := by
    constructor
    · intro h; rw [h]; rfl
    · intro h; apply Char.ext; apply UInt32.ext; simpa [Char.toNat, UInt32.toNat] using h
  rw [e1, e2]
  simp only [isNameRune, Char.le_def, Bool.or_eq_true, Bool.and_eq_true, decide_eq_true_eq,
    beq_iff_eq]
  have : ('a' : Char).toNat = 97 ∧ ('z' : Char).toNat = 122 ∧ ('0' : Char).toNat = 48 ∧
      ('9' : Char).toNat = 57 := by decide
  obtain ⟨h1, h2, h3, h4⟩ := this
  simp only [Char.toNat, UInt32.toNat] at *
  simp only [UInt32.le_def, Fin.le_def, h1, h2, h3, h4]
  tauto

theorem isSpace_of_isPerlSpace (c : Char) (h : isPerlSpace c = true) : isSpace c = true := by
  simp only [isPerlSpace, Bool.or_eq_true, beq_iff_eq] at h
  simp only [isSpace, Bool.or_eq_true, Bool.and_eq_true, decide_eq_true_eq, beq_iff_eq]
  omega

theorem not_isSpace_of_isNameRune (c : Char) (h : isNameRune c = true) : isSpace c = false := by
  simp only [isNameRune, Bool.or_eq_true, Bool.and_eq_true, decide_eq_true_eq, beq_iff_eq] at h
  rw [Bool.eq_false_iff]
  intro hs
  simp only [isSpace, Bool.or_eq_true, Bool.and_eq_true, decide_eq_true_eq, beq_iff_eq] at hs
  omega

theorem not_isPerlSpace_of_isNameRune (c : Char) (h : isNameRune c = true) :
    isPerlSpace c = false := by
  rw [Bool.eq_false_iff]
  intro hs
  have := not_isSpace_of_isNameRune c h
  rw [isSpace_of_isPerlSpace c hs] at this
  exact Bool.noConfusion this

theorem toLowerRune_of_isNameRune (tbl : Char → Char) (c : Char) (h : isNameRune c = true) :
    toLowerRune tbl c = c := by
  simp only [isNameRune, Bool.or_eq_true, Bool.and_eq_true, decide_eq_true_eq, beq_iff_eq] at h
  unfold toLowerRune
  rw [if_pos (by omega), if_neg (by omega)]

/-- Every rune that survives `sanitizeFileName` belongs to the class `[a-z0-9-_]`. -/
theorem sanitizeFileName_mem (tbl : Char → Char) (s : List Char) (c : Char)
    (h : c ∈ sanitizeFileName tbl s) : isNameRune c = true := by
  unfold sanitizeFileName trim at h
  have h1 := (trimFunc_sublist _ _).subset h
  unfold invalidPatternReplace replaceAllRuns at h1
  rw [replaceAllRunsAux_nil] at h1
  simpa using (List.mem_filter.mp h1).2

/-- The first rune of a sanitized name is neither `-` nor `_`. -/
theorem sanitizeFileName_head (tbl : Char → Char) (s : List Char) (c : Char)
    (h : (sanitizeFileName tbl s).head? = some c) : c ≠ '-' ∧ c ≠ '_' := by
  unfold sanitizeFileName trim at h
  have := trimFunc_head_not _ _ c h
  simpa using this

/-- The last rune of a sanitized name is neither `-` nor `_`. -/
theorem sanitizeFileName_getLast (tbl : Char → Char) (s : List Char) (c : Char)
    (h : (sanitizeFileName tbl s).getLast? = some c) : c ≠ '-' ∧ c ≠ '_' := by
  unfold sanitizeFileName trim at h
  have := trimFunc_getLast_not _ _ c h
  simpa using this

/-- A string over `[a-z0-9-_]` whose ends are neither `-` nor `_` is left as it is. -/
theorem sanitizeFileName_fixed (tbl : Char → Char) (r : List Char)
    (hmem : ∀ c ∈ r, isNameRune c = true)
    (hhead : ∀ c, r.head? = some c → c ≠ '-' ∧ c ≠ '_')
    (hlast : ∀ c, r.getLast? = some c → c ≠ '-' ∧ c ≠ '_') :
    sanitizeFileName tbl r = r := by
  have e1 : trimSpace r = r := by
    apply trimFunc_eq_self
    · intro c hc
      exact not_isSpace_of_isNameRune c (hmem c (List.mem_of_mem_head? hc))
    · intro c hc
      exact not_isSpace_of_isNameRune c (hmem c (List.mem_of_mem_getLast? hc))
  have e2 : toLower tbl r = r := by
    unfold toLower
    conv_rhs => rw [← List.map_id r]
    apply List.map_congr_left
    intro c hc
    simpa using toLowerRune_of_isNameRune tbl c (hmem c hc)
  have e3 : spacePatternReplace r = r :=
    replaceAllRunsAux_eq_self _ _ _ _ (fun c hc => not_isPerlSpace_of_isNameRune c (hmem c hc))
  have e4 : invalidPatternReplace r = r :=
    replaceAllRunsAux_eq_self _ _ _ _ (fun c hc => by simp [hmem c hc])
  have e5 : trim r ['-', '_'] = r := by
    apply trimFunc_eq_self
    · intro c hc
      simpa using hhead c hc
    · intro c hc
      simpa using hlast c hc
  unfold sanitizeFileName
  simp only [e1, e2, e3, e4, e5]

/-! ## File names -/

/-- C1: `sanitizeFileName` is idempotent: sanitizing a sanitized name gives the same name,
for every input string and whatever the case table above ASCII is. -/
theorem sanitizeFileName_idempotent (tbl : Char → Char) (s : List Char) :
    sanitizeFileName tbl (sanitizeFileName tbl s) = sanitizeFileName tbl s :=
  sanitizeFileName_fixed tbl _ (sanitizeFileName_mem tbl s) (sanitizeFileName_head tbl s)
    (sanitizeFileName_getLast tbl s)

/-- C2: every rune of `sanitizeFileName s` is one of `a`-`z`, `0`-`9`, `-` or `_`, and the
result neither begins nor ends with `-` or `_`. -/
theorem sanitizeFileName_charset (tbl : Char → Char) (s : List Char) :
    (∀ c ∈ sanitizeFileName tbl s,
      ('a' ≤ c ∧ c ≤ 'z') ∨ ('0' ≤ c ∧ c ≤ '9') ∨ c = '-' ∨ c = '_') ∧
    (∀ c, (sanitizeFileName tbl s).head? = some c → c ≠ '-' ∧ c ≠ '_') ∧
    (∀ c, (sanitizeFileName tbl s).getLast? = some c → c ≠ '-' ∧ c ≠ '_') :=
  ⟨fun c hc => (isNameRune_iff c).mp (sanitizeFileName_mem tbl s c hc),
    sanitizeFileName_head tbl s, sanitizeFileName_getLast tbl s⟩

theorem mem_dropWhile_of_not (f : Char → Bool) (s : List Char) (c : Char) (hc : c ∈ s)
    (hf : f c = false) : c ∈ s.dropWhile f := by
  induction s with
  | nil => exact hc
  | cons a t ih =>
    by_cases ha : f a = true
    · rw [List.dropWhile_cons_of_pos ha]
      rcases List.mem_cons.mp hc with rfl | h
      · rw [hf] at ha
        exact Bool.noConfusion ha
      · exact ih h
    · rw [List.dropWhile_cons_of_neg ha]
      exact hc

theorem mem_trimFunc (f : Char → Bool) (s : List Char) (c : Char) (hc : c ∈ s)
    (hf : f c = false) : c ∈ trimFunc f s := by
  unfold trimFunc List.rdropWhile
  rw [List.mem_reverse]
  apply mem_dropWhile_of_not _ _ _ _ hf
  rw [List.mem_reverse]
  exact mem_dropWhile_of_not f s c hc hf

theorem mem_replaceAllRunsAux (cls : Char → Bool) (repl : List Char) (b : Bool)
    (s : List Char) (c : Char) (hc : c ∈ s) (hf : cls c = false) :
    c ∈ replaceAllRunsAux cls repl b s := by
  induction s generalizing b with
  | nil => exact absurd hc (List.not_mem_nil c)
  | cons a t ih =>
    rcases List.mem_cons.mp hc with rfl | h
    · simp [replaceAllRunsAux, hf]
    · unfold replaceAllRunsAux
      split_ifs
      · exact ih true h
      · exact List.mem_append_right _ (ih true h)
      · exact List.mem_cons_of_mem _ (ih false h)

/-- A rune of `[a-z0-9]` that occurs in the input occurs in the sanitized name. -/
theorem sanitizeFileName_mem_of_mem (tbl : Char → Char) (s : List Char) (c : Char)
    (hc : c ∈ s) (hn : isNameRune c = true) (h1 : c ≠ '-') (h2 : c ≠ '_') :
    c ∈ sanitizeFileName tbl s := by
  unfold sanitizeFileName trim
  apply mem_trimFunc _ _ _ _ (by simp [h1, h2])
  apply mem_replaceAllRunsAux _ _ _ _ _ _ (by simp [hn])
  apply mem_replaceAllRunsAux _ _ _ _ _ _ (not_isPerlSpace_of_isNameRune c hn)
  unfold toLower
  rw [List.mem_map]
  exact ⟨c, mem_trimFunc _ _ _ hc (not_isSpace_of_isNameRune c hn),
    toLowerRune_of_isNameRune tbl c hn⟩

/-! ## Lemmas on numerals and dates -/

theorem digitChar_toNat (d : Nat) : (digitChar d).toNat = 48 + d % 10 := by
  unfold digitChar
  have hl : d % 10 < 10 := Nat.mod_lt _ (by decide)
  generalize d % 10 = k at hl
  interval_cases k <;> rfl

theorem isNameRune_digitChar (d : Nat) : isNameRune (digitChar d) = true := by
  simp only [isNameRune, digitChar_toNat, Bool.or_eq_true, Bool.and_eq_true, decide_eq_true_eq,
    beq_iff_eq]
  omega

theorem digitChar_ne (d : Nat) : digitChar d ≠ '-' ∧ digitChar d ≠ '_' := by
  constructor <;> intro h <;> have := congrArg Char.toNat h <;>
    rw [digitChar_toNat] at this <;> revert this <;>
    · have hl : d % 10 < 10 := Nat.mod_lt _ (by decide)
      generalize d % 10 = k at hl
      interval_cases k <;> decide

theorem decimalAux_append (fuel n : Nat) (acc : List Char) :
    decimalAux fuel n acc = decimalAux fuel n [] ++ acc := by
  induction fuel generalizing n acc with
  | zero => rfl
  | succ k ih =>
    unfold decimalAux
    split_ifs
    · rfl
    · rw [ih (n / 10) (digitChar n :: acc), ih (n / 10) [digitChar n]]
      simp

theorem decimalAux_mem (fuel n : Nat) (c : Char) (h : c ∈ decimalAux fuel n []) :
    isNameRune c = true := by
  induction fuel generalizing n with
  | zero => exact absurd h (List.not_mem_nil c)
  | succ k ih =>
    unfold decimalAux at h
    split_ifs at h
    · rw [List.mem_singleton] at h
      rw [h]
      exact isNameRune_digitChar n
    · rw [decimalAux_append, List.mem_append, List.mem_singleton] at h
      rcases h with h | h
      · exact ih _ h
      · rw [h]
        exact isNameRune_digitChar n

/-- A decimal numeral ends with the digit of the units and holds digits only. -/
theorem decimal_shape (n : Nat) :
    ∃ pre, decimal n = pre ++ [digitChar n] ∧ ∀ c ∈ pre, isNameRune c = true := by
  unfold decimal decimalAux
  split_ifs
  · exact ⟨[], rfl, fun c hc => absurd hc (List.not_mem_nil c)⟩
  · rw [decimalAux_append]
    exact ⟨_, rfl, fun c hc => decimalAux_mem _ _ c hc⟩

/-- The text `appendInt x width` ends with the digit of the units of `x` and holds digits and
hyphens only. -/
theorem appendInt_shape (x : Int) (width : Nat) :
    ∃ pre, appendInt x width = pre ++ [digitChar x.natAbs] ∧
      ∀ c ∈ pre, isNameRune c = true := by
  obtain ⟨pre, hpre, hmem⟩ := decimal_shape x.natAbs
  refine ⟨(if x < 0 then ['-'] else []) ++
    (List.replicate (width - (decimal x.natAbs).length) '0' ++ pre), ?_, ?_⟩
  · unfold appendInt
    simp only [hpre, List.append_assoc]
  · intro c hc
    rw [List.mem_append, List.mem_append] at hc
    rcases hc with hc | hc | hc
    · split_ifs at hc
      · rw [List.mem_singleton] at hc
        rw [hc]
        rfl
      · exact absurd hc (List.not_mem_nil c)
    · rw [(List.mem_replicate.mp hc).2]
      rfl
    · exact hmem c hc

/-- The text of `t.Format("2006-01-02")` ends with a digit and holds digits and hyphens
only. -/
theorem formatISODate_shape (t : Time) :
    ∃ pre d, t.FormatISODate = pre ++ [digitChar d] ∧ ∀ c ∈ pre, isNameRune c = true := by
  obtain ⟨p1, h1, m1⟩ := appendInt_shape t.Date.1 4
  obtain ⟨p2, h2, m2⟩ := appendInt_shape t.Date.2.1 2
  obtain ⟨p3, h3, m3⟩ := appendInt_shape t.Date.2.2 2
  refine ⟨appendInt t.Date.1 4 ++ '-' :: (appendInt t.Date.2.1 2 ++ '-' :: p3),
    (t.Date.2.2 : Int).natAbs, ?_, ?_⟩
  · show appendInt t.Date.1 4 ++ '-' :: (appendInt t.Date.2.1 2 ++ '-' :: appendInt t.Date.2.2 2)
      = _
    rw [h3]
    simp only [List.append_assoc, List.cons_append]
  · intro c hc
    have hd : ∀ k, isNameRune (digitChar k) = true := isNameRune_digitChar
    rw [h1, h2] at hc
    simp only [List.mem_append, List.mem_cons, List.mem_singleton, List.not_mem_nil,
      or_false] at hc
    rcases hc with (hc | hc) | hc | (hc | hc) | hc | hc
    · exact m1 c hc
    · rw [hc]; exact hd _
    · rw [hc]; rfl
    · exact m2 c hc
    · rw [hc]; exact hd _
    · rw [hc]; rfl
    · exact m3 c hc

/-- Month and day computed by `civilFromDays` are a month and a day of the month. -/
theorem civilFromDays_bounds (days : Int) :
    1 ≤ (civilFromDays days).2.1 ∧ (civilFromDays days).2.1 ≤ 12 ∧
    1 ≤ (civilFromDays days).2.2 ∧ (civilFromDays days).2.2 ≤ 31 := by
  simp only [civilFromDays]
  split_ifs <;> omega

theorem trimSpace_ne_nil (s : List Char) (h : ∃ c ∈ s, isSpace c = false) : trimSpace s ≠ [] := by
  obtain ⟨c, hc, hs⟩ := h
  exact List.ne_nil_of_mem (mem_trimFunc isSpace s c hc hs)

theorem trimSpace_eq_nil (s : List Char) (h : ∀ c ∈ s, isSpace c = true) : trimSpace s = [] := by
  unfold trimSpace trimFunc
  have : s.dropWhile isSpace = [] := by
    rw [List.dropWhile_eq_nil_iff]
    exact h
  rw [this]
  rfl

/-- A base followed by `_` and a formatted date never sanitizes to the empty string. -/
theorem sanitizeFileName_stem_ne_nil (tbl : Char → Char) (base : List Char) (t : Time) :
    sanitizeFileName tbl (base ++ '_' :: t.FormatISODate) ≠ [] := by
  obtain ⟨pre, d, hfmt, -⟩ := formatISODate_shape t
  apply List.ne_nil_of_mem (a := digitChar d)
  apply sanitizeFileName_mem_of_mem _ _ _ _ (isNameRune_digitChar d) (digitChar_ne d).1
    (digitChar_ne d).2
  rw [hfmt]
  simp

theorem fileNameStem_eq (it : Itinerary) (now : Time) :
    fileNameStem it now = fileNameBase it ++ '_' :: (selectedDate it now).FormatISODate := by
  unfold fileNameStem selectedDate
  cases it.StartDate.IsZero <;> cases it.EndDate.IsZero <;> rfl

theorem buildFileName_eq (tbl : Char → Char) (it : Itinerary) (now : Time) :
    buildFileName tbl it now = sanitizeFileName tbl (fileNameStem it now) ++ ".pdf".toList := by
  unfold buildFileName
  have h : sanitizeFileName tbl (fileNameStem it now) ≠ [] := by
    rw [fileNameStem_eq]
    exact sanitizeFileName_stem_ne_nil tbl _ _
  simp only [if_neg h]

theorem decimalAux_fuel (f1 f2 m : Nat) (acc : List Char) (h1 : m < f1) (h2 : m < f2) :
    decimalAux f1 m acc = decimalAux f2 m acc := by
  induction f1 generalizing f2 m acc with
  | zero => omega
  | succ k ih =>
    obtain ⟨j, rfl⟩ : ∃ j, f2 = j + 1 := ⟨f2 - 1, by omega⟩
    unfold decimalAux
    split_ifs with h
    · rfl
    · exact ih j (m / 10) _ (by omega) (by omega)

/-- The numeral of `n` is the numeral of `n / 10` followed by the digit of the units. -/
theorem decimal_rec (n : Nat) :
    decimal n = if n / 10 = 0 then [digitChar n] else decimal (n / 10) ++ [digitChar n] := by
  unfold decimal
  conv_lhs => unfold decimalAux
  split_ifs with h
  · rfl
  · rw [decimalAux_append, decimalAux_fuel n (n / 10 + 1) (n / 10) [] (by omega) (by omega)]

theorem decimal_one_digit (n : Nat) (h : n < 10) : decimal n = [digitChar n] := by
  rw [decimal_rec, if_pos (by omega)]

theorem decimal_two_digits (n : Nat) (h1 : 10 ≤ n) (h2 : n < 100) :
    decimal n = [digitChar (n / 10), digitChar n] := by
  rw [decimal_rec, if_neg (by omega), decimal_one_digit _ (by omega)]
  rfl

theorem decimal_three_digits (n : Nat) (h1 : 100 ≤ n) (h2 : n < 1000) :
    decimal n = [digitChar (n / 100), digitChar (n / 10), digitChar n] := by
  rw [decimal_rec, if_neg (by omega), decimal_two_digits _ (by omega) (by omega),
    Nat.div_div_eq_div_mul]
  rfl

theorem decimal_four_digits (n : Nat) (h1 : 1000 ≤ n) (h2 : n < 10000) :
    decimal n = [digitChar (n / 1000), digitChar (n / 100), digitChar (n / 10), digitChar n] := by
  rw [decimal_rec, if_neg (by omega), decimal_three_digits _ (by omega) (by omega),
    Nat.div_div_eq_div_mul, Nat.div_div_eq_div_mul]
  rfl

theorem digitChar_of_div_eq_zero (n k : Nat) (h : n / k = 0) : digitChar (n / k) = '0' := by
  rw [h]
  rfl

/-- The two digits that `appendInt` writes for a number from 0 to 99. -/
theorem appendInt_two (x : Nat) (h : x ≤ 99) :
    appendInt x 2 = [digitChar (x / 10), digitChar x] := by
  have hneg : ¬ ((x : Int) < 0) := by omega
  unfold appendInt
  simp only [Int.natAbs_ofNat, if_neg hneg, List.nil_append]
  by_cases h1 : x < 10
  · rw [decimal_one_digit x h1, digitChar_of_div_eq_zero x 10 (by omega)]
    rfl
  · rw [decimal_two_digits x (by omega) (by omega)]
    rfl

/-- The four digits that `appendInt` writes for a year from 0 to 9999. -/
theorem appendInt_four (y : Int) (h0 : 0 ≤ y) (h1 : y ≤ 9999) :
    appendInt y 4 = [digitChar (y.natAbs / 1000), digitChar (y.natAbs / 100),
      digitChar (y.natAbs / 10), digitChar y.natAbs] := by
  obtain ⟨n, rfl⟩ := Int.eq_ofNat_of_zero_le h0
  have hn : n ≤ 9999 := by omega
  have hneg : ¬ ((n : Int) < 0) := by omega
  unfold appendInt
  simp only [Int.natAbs_ofNat, if_neg hneg, List.nil_append]
  by_cases c1 : n < 10
  · rw [decimal_one_digit n c1, digitChar_of_div_eq_zero n 1000 (by omega),
      digitChar_of_div_eq_zero n 100 (by omega), digitChar_of_div_eq_zero n 10 (by omega)]
    rfl
  · by_cases c2 : n < 100
    · rw [decimal_two_digits n (by omega) c2, digitChar_of_div_eq_zero n 1000 (by omega),
        digitChar_of_div_eq_zero n 100 (by omega)]
      rfl
    · by_cases c3 : n < 1000
      · rw [decimal_three_digits n (by omega) c3, digitChar_of_div_eq_zero n 1000 (by omega)]
        rfl
      · rw [decimal_four_digits n (by omega) (by omega)]
        rfl

/-- C3: for an itinerary with a non-blank title and a non-zero start date, `buildFileName`
returns `sanitizeFileName (trimmed title ++ "_" ++ start date as YYYY-MM-DD) ++ ".pdf"`; with
the title "Bali Adventure!!" and a start date that falls on 2024-03-10 this is
"bali-adventure_2024-03-10.pdf". -/
theorem buildFileName_title_start (tbl : Char → Char) (it : Itinerary) (now : Time)
    (htitle : ∃ c ∈ it.Title, isSpace c = false) (hstart : it.StartDate.IsZero = false) :
    buildFileName tbl it now =
        sanitizeFileName tbl (trimSpace it.Title ++ "_".toList ++ it.StartDate.FormatISODate)
          ++ ".pdf".toList ∧
      (it.Title = "Bali Adventure!!".toList → it.StartDate.Date = (2024, 3, 10) →
        buildFileName tbl it now = "bali-adventure_2024-03-10.pdf".toList) := by
  have hbase : fileNameBase it = trimSpace it.Title := by
    unfold fileNameBase
    simp only [if_neg (trimSpace_ne_nil it.Title htitle)]
  have hsel : selectedDate it now = it.StartDate := by
    unfold selectedDate
    rw [if_pos hstart]
  have hmain : buildFileName tbl it now =
      sanitizeFileName tbl (trimSpace it.Title ++ "_".toList ++ it.StartDate.FormatISODate)
        ++ ".pdf".toList := by
    rw [buildFileName_eq, fileNameStem_eq, hbase, hsel]
    simp
  refine ⟨hmain, ?_⟩
  intro ht hd
  rw [hmain, ht]
  have hf : it.StartDate.FormatISODate = "2024-03-10".toList := by
    unfold Time.FormatISODate
    rw [hd]
    rfl
  rw [hf]
  rfl

/-- The statement C3 at the itinerary "Bali Adventure!!" that starts on 2024-03-10. -/
theorem buildFileName_title_start_witness :
    buildFileName sampleLowerTable
      (sampleItinerary "Bali Adventure!!".toList (dateUTC 2024 3 10) Time.zero)
      (dateUTC 2026 1 1) = "bali-adventure_2024-03-10.pdf".toList :=
  (buildFileName_title_start sampleLowerTable
    (sampleItinerary "Bali Adventure!!".toList (dateUTC 2024 3 10) Time.zero)
    (dateUTC 2026 1 1) ⟨'B', by decide, by decide⟩ (by decide)).2 (by decide) (by decide)

/-- C4: the text that `buildFileName` sanitizes is the base, one underscore and the date
selected with the priority start date (when not zero), end date (when not zero), generation
time, written by the layout `2006-01-02`; the file name is the sanitized text followed by
".pdf"; and whenever the year of the selected date is between 0 and 9999 the date is written as
four digits, a hyphen, the two digits of a month from 1 to 12, a hyphen and the two digits of
a day from 1 to 31. -/
theorem buildFileName_date_priority (tbl : Char → Char) (it : Itinerary) (now : Time) :
    fileNameStem it now = fileNameBase it ++ "_".toList ++ (selectedDate it now).FormatISODate ∧
    buildFileName tbl it now = sanitizeFileName tbl (fileNameStem it now) ++ ".pdf".toList ∧
    (∀ y m d, (selectedDate it now).Date = (y, m, d) → 0 ≤ y → y ≤ 9999 →
      1 ≤ m ∧ m ≤ 12 ∧ 1 ≤ d ∧ d ≤ 31 ∧
      (selectedDate it now).FormatISODate =
        [digitChar (y.natAbs / 1000), digitChar (y.natAbs / 100), digitChar (y.natAbs / 10),
          digitChar y.natAbs, '-', digitChar (m / 10), digitChar m, '-',
          digitChar (d / 10), digitChar d]) := by
  refine ⟨by rw [fileNameStem_eq]; simp, buildFileName_eq tbl it now, ?_⟩
  intro y m d hd h0 h1
  have hb := civilFromDays_bounds (selectedDate it now).localDay
  have hd2 : civilFromDays (selectedDate it now).localDay = (y, m, d) := hd
  rw [hd2] at hb
  obtain ⟨b1, b2, b3, b4⟩ : 1 ≤ m ∧ m ≤ 12 ∧ 1 ≤ d ∧ d ≤ 31 := hb
  refine ⟨b1, b2, b3, b4, ?_⟩
  unfold Time.FormatISODate
  rw [hd]
  show appendInt y 4 ++ '-' :: (appendInt m 2 ++ '-' :: appendInt d 2) = _
  rw [appendInt_four y h0 h1, appendInt_two m (by omega), appendInt_two d (by omega)]
  rfl

/-- C5: for an itinerary whose title is empty or made of white space only and whose start and
end dates are both zero, `buildFileName` returns "itinerary_", the generation date by the
layout `2006-01-02`, and ".pdf". -/
theorem buildFileName_blank (tbl : Char → Char) (it : Itinerary) (now : Time)
    (htitle : ∀ c ∈ it.Title, isSpace c = true) (hstart : it.StartDate.IsZero = true)
    (hend : it.EndDate.IsZero = true) :
    buildFileName tbl it now = "itinerary_".toList ++ now.FormatISODate ++ ".pdf".toList := by
  have hbase : fileNameBase it = "itinerary".toList := by
    unfold fileNameBase
    simp only [trimSpace_eq_nil it.Title htitle, if_true]
  have hsel : selectedDate it now = now := by
    unfold selectedDate
    rw [hstart, hend]
    rfl
  rw [buildFileName_eq, fileNameStem_eq, hbase, hsel]
  obtain ⟨pre, d, hfmt, hmem⟩ := formatISODate_shape now
  have hstem : "itinerary".toList ++ '_' :: now.FormatISODate
      = "itinerary_".toList ++ now.FormatISODate := by
    show _ = ("itinerary".toList ++ ['_']) ++ now.FormatISODate
    simp
  rw [hstem, sanitizeFileName_fixed]
  · intro c hc
    rw [hfmt, List.mem_append, List.mem_append, List.mem_singleton] at hc
    rcases hc with hc | hc | hc
    · revert c
      decide
    · exact hmem c hc
    · rw [hc]
      exact isNameRune_digitChar d
  · intro c hc
    have : c = 'i' := by
      have h2 : some 'i' = some c := hc
      exact (Option.some.inj h2).symm
    rw [this]
    decide
  · intro c hc
    rw [hfmt, ← List.append_assoc, List.getLast?_append, List.getLast?_singleton] at hc
    have : c = digitChar d := by simpa using hc.symm
    rw [this]
    exact digitChar_ne d

/-- The statement C5 at an itinerary whose title is two spaces and a tab, generated on
2026-01-01. -/
theorem buildFileName_blank_witness :
    buildFileName sampleLowerTable (sampleItinerary " \t ".toList Time.zero Time.zero)
      (dateUTC 2026 1 1) = "itinerary_2026-01-01.pdf".toList :=
  (buildFileName_blank sampleLowerTable (sampleItinerary " \t ".toList Time.zero Time.zero)
    (dateUTC 2026 1 1) (by decide) (by decide) (by decide)).trans (by decide)

/-- C6: two itineraries with the same title and the same non-zero start date get the same file
name, whatever their other fields and their generation times are. -/
theorem buildFileName_collision (tbl : Char → Char) (it₁ it₂ : Itinerary) (now₁ now₂ : Time)
    (htitle : it₁.Title = it₂.Title) (hstart : it₁.StartDate = it₂.StartDate)
    (hnz : it₁.StartDate.IsZero = false) :
    buildFileName tbl it₁ now₁ = buildFileName tbl it₂ now₂ := by
  have h1 : fileNameStem it₁ now₁ = fileNameBase it₁ ++ '_' :: it₁.StartDate.FormatISODate := by
    unfold fileNameStem
    simp [hnz]
  have h2 : fileNameStem it₂ now₂ = fileNameBase it₂ ++ '_' :: it₂.StartDate.FormatISODate := by
    unfold fileNameStem
    simp [← hstart, hnz]
  unfold buildFileName
  simp only [h1, h2]
  unfold fileNameBase
  rw [htitle, hstart]

/-- The statement C6 at two itineraries of different identifiers, owners and end dates. -/
theorem buildFileName_collision_witness :
    buildFileName sampleLowerTable
        (sampleItinerary "Bali Adventure!!".toList (dateUTC 2024 3 10) Time.zero)
        (dateUTC 2026 1 1) =
      buildFileName sampleLowerTable
        { sampleItinerary "Bali Adventure!!".toList (dateUTC 2024 3 10) (dateUTC 2024 3 17) with
          ID := "it-2".toList, UserID := "user-2".toList, Location := "Ubud".toList }
        (dateUTC 2026 6 30) :=
  buildFileName_collision sampleLowerTable _ _ _ _ rfl rfl (by decide)

/-! ## The payment plan section: status cells and the stored plan -/

/-- C9: for an installment whose stored status is empty or white space only, the status cell
of its row is "Pending"; for an installment whose status is not blank, the cell is that status
without its leading and trailing white space, hence the status itself when it neither begins
nor ends with white space. -/
theorem installmentRow_status (up : Char → Char) (installment : PaymentInstallment) :
    (installmentRow up installment).getLast? =
        some (Op.CellFormat 0 6 (installmentStatus installment) 1) ∧
      ((∀ c ∈ installment.Status, isSpace c = true) →
        installmentStatus installment = "Pending".toList) ∧
      ((∃ c ∈ installment.Status, isSpace c = false) →
        installmentStatus installment = trimSpace installment.Status) ∧
      ((∃ c ∈ installment.Status, isSpace c = false) →
        (∀ c, installment.Status.head? = some c → isSpace c = false) →
        (∀ c, installment.Status.getLast? = some c → isSpace c = false) →
        installmentStatus installment = installment.Status) := by
  refine ⟨rfl, ?_, ?_, ?_⟩
  · intro h
    unfold installmentStatus
    simp only [trimSpace_eq_nil _ h, if_true]
  · intro h
    unfold installmentStatus
    simp only [if_neg (trimSpace_ne_nil _ h)]
  · intro h h1 h2
    unfold installmentStatus
    simp only [if_neg (trimSpace_ne_nil _ h)]
    exact trimFunc_eq_self isSpace _ h1 h2

/-- The installment of status " Paid " is not blank, and its status cell reads "Paid", which
is not the stored status. -/
theorem installmentRow_status_trimmed :
    (∃ c ∈ (sampleInstallment 1 " Paid ".toList).Status, isSpace c = false) ∧
      (installmentRow sampleLowerTable (sampleInstallment 1 " Paid ".toList)).getLast? =
        some (Op.CellFormat 0 6 "Paid".toList 1) ∧
      (installmentRow sampleLowerTable (sampleInstallment 1 " Paid ".toList)).getLast? ≠
        some (Op.CellFormat 0 6 (sampleInstallment 1 " Paid ".toList).Status 1) := by
  refine ⟨⟨'P', by decide, by decide⟩, by decide, by decide⟩

/-! ## Memories: swaps inside a range -/

theorem swapCells_cell {α : Type} (d : Mem α) (i j k : Nat) :
    (swapCells d i j).cell k = if k = i then d.cell j else if k = j then d.cell i else d.cell k :=
  rfl

theorem SwapReach.swap {α : Type} {a b : Nat} (d : Mem α) (i j : Nat) (hi : a ≤ i) (hi' : i < b)
    (hj : a ≤ j) (hj' : j < b) : SwapReach a b d (swapCells d i j) :=
  SwapReach.step i j hi hi' hj hj' (SwapReach.refl d)

theorem SwapReach.trans {α : Type} {a b : Nat} {d₁ d₂ d₃ : Mem α} (h₁ : SwapReach a b d₁ d₂)
    (h₂ : SwapReach a b d₂ d₃) : SwapReach a b d₁ d₃ := by
  induction h₂ with
  | refl => exact h₁
  | step i j hi hi' hj hj' _ ih => exact SwapReach.step i j hi hi' hj hj' ih

theorem SwapReach.mono {α : Type} {a b a' b' : Nat} {d d' : Mem α} (h : SwapReach a b d d')
    (ha : a' ≤ a) (hb : b ≤ b') : SwapReach a' b' d d' := by
  induction h with
  | refl => exact SwapReach.refl d
  | step i j hi hi' hj hj' _ ih =>
    exact SwapReach.step i j (by omega) (by omega) (by omega) (by omega) ih

theorem SwapReach.frame {α : Type} {a b : Nat} {d d' : Mem α} (h : SwapReach a b d d') (k : Nat)
    (hk : k < a ∨ b ≤ k) : d'.cell k = d.cell k := by
  induction h with
  | refl => rfl
  | step i j hi hi' hj hj' _ ih =>
    rw [swapCells_cell, if_neg (by omega), if_neg (by omega)]
    exact ih

theorem SwapReach.forall {α : Type} {a b : Nat} {d d' : Mem α} (h : SwapReach a b d d')
    (P : α → Prop) (hP : ∀ k, a ≤ k → k < b → P (d.cell k)) :
    ∀ k, a ≤ k → k < b → P (d'.cell k) := by
  induction h with
  | refl => exact hP
  | step i j hi hi' hj hj' _ ih =>
    intro k hk hk'
    rw [swapCells_cell]
    split_ifs
    · exact ih j hj hj'
    · exact ih i hi hi'
    · exact ih k hk hk'

theorem SwapReach.lowerBound {α : Type} {key : α → Int} {a b : Nat} {d d' : Mem α}
    (h : SwapReach a b d d') (hl : LowerBound key a b d) : LowerBound key a b d' := by
  intro ha k hk hk'
  rw [h.frame (a - 1) (by omega)]
  exact h.forall (fun x => key (d.cell (a - 1)) ≤ key x) (hl ha) k hk hk'

theorem Mem.toList_length {α : Type} (d : Mem α) (n : Nat) : (d.toList n).length = n := by
  simp [Mem.toList]

theorem Mem.toList_succ {α : Type} (d : Mem α) (n : Nat) :
    d.toList (n + 1) = d.toList n ++ [d.cell n] := by
  simp [Mem.toList, List.range_succ]

theorem Mem.toList_congr {α : Type} (d d' : Mem α) (n : Nat)
    (h : ∀ k, k < n → d'.cell k = d.cell k) : d'.toList n = d.toList n := by
  unfold Mem.toList
  apply List.map_congr_left
  intro k hk
  exact h k (List.mem_range.mp hk)

/-- Exchanging two cells below `n` permutes the list of the first `n` cells. -/
theorem swapCells_perm {α : Type} (d : Mem α) (i j n : Nat) (hi : i < n) (hj : j < n) :
    ((swapCells d i j).toList n).Perm (d.toList n) := by
  have hσ : (swapCells d i j).toList n = ((List.range n).map (Equiv.swap i j)).map d.cell := by
    unfold Mem.toList
    rw [List.map_map]
    apply List.map_congr_left
    intro k _
    simp only [swapCells_cell, Function.comp]
    by_cases h1 : k = i
    · subst h1
      simp
    · by_cases h2 : k = j
      · subst h2
        simp [h1]
      · simp [h1, h2, Equiv.swap_apply_of_ne_of_ne h1 h2]
  rw [hσ]
  apply List.Perm.map
  rw [List.perm_ext_iff_of_nodup
    ((List.nodup_range n).map (Equiv.injective _)) (List.nodup_range n)]
  intro k
  simp only [List.mem_map, List.mem_range]
  constructor
  · rintro ⟨x, hx, rfl⟩
    by_cases h1 : x = i
    · subst h1
      simpa using hj
    · by_cases h2 : x = j
      · subst h2
        simpa using hi
      · rw [Equiv.swap_apply_of_ne_of_ne h1 h2]
        exact hx
  · intro hk
    refine ⟨Equiv.swap i j k, ?_, by simp⟩
    by_cases h1 : k = i
    · subst h1
      simpa using hj
    · by_cases h2 : k = j
      · subst h2
        simpa using hi
      · rw [Equiv.swap_apply_of_ne_of_ne h1 h2]
        exact hk

theorem SwapReach.perm {α : Type} {a b n : Nat} {d d' : Mem α} (h : SwapReach a b d d')
    (hb : b ≤ n) : (d'.toList n).Perm (d.toList n) := by
  induction h with
  | refl => exact List.Perm.refl _
  | step i j hi hi' hj hj' _ ih =>
    exact (swapCells_perm _ i j n (by omega) (by omega)).trans ih

/-! ## Insertion sort -/

theorem lt_iff_of_key {α : Type} {lt : α → α → Bool} {key : α → Int}
    (hlt : ∀ x y, lt x y = decide (key x < key y)) (x y : α) :
    lt x y = true ↔ key x < key y := by
  rw [hlt]
  exact decide_eq_true_iff

theorem not_lt_iff_of_key {α : Type} {lt : α → α → Bool} {key : α → Int}
    (hlt : ∀ x y, lt x y = decide (key x < key y)) (x y : α) :
    ¬ (lt x y = true) ↔ key y ≤ key x := by
  rw [lt_iff_of_key hlt]
  omega

/-- The loop that moves the cell `j` to the left: when every other cell of `[a, m]` is in
order and the cell `j` is not above the cells after it, the range `[a, m]` ends up sorted. -/
theorem shiftLeft_spec {α : Type} (lt : α → α → Bool) (key : α → Int)
    (hlt : ∀ x y, lt x y = decide (key x < key y)) (lo a m : Nat) :
    ∀ (j : Nat) (d : Mem α), lo ≤ a → a ≤ j → j ≤ m →
      (lo < a → key (d.cell (a - 1)) ≤ key (d.cell j)) →
      (∀ p q, a ≤ p → p ≤ q → q ≤ m → p ≠ j → q ≠ j → key (d.cell p) ≤ key (d.cell q)) →
      (∀ q, j < q → q ≤ m → key (d.cell j) ≤ key (d.cell q)) →
      SwapReach a (m + 1) d (shiftLeft lt lo j d) ∧
        SortedOn key a (m + 1) (shiftLeft lt lo j d) := by
  intro j
  induction j with
  | zero =>
    intro d _ _ _ _ h2 h3
    refine ⟨SwapReach.refl d, ?_⟩
    intro p q hp hpq hq
    show key (d.cell p) ≤ key (d.cell q)
    by_cases hp0 : p = 0
    · by_cases hq0 : q = 0
      · rw [hp0, hq0]
      · rw [hp0]
        exact h3 q (by omega) (by omega)
    · exact h2 p q hp hpq (by omega) hp0 (by omega)
  | succ j ih =>
    intro d hlo ha hm h1 h2 h3
    unfold shiftLeft
    split_ifs with hc
    · obtain ⟨hc1, hc2⟩ := hc
      rw [lt_iff_of_key hlt] at hc2
      have haj : a ≤ j := by
        by_contra hcon
        have e : a = j + 1 := by omega
        have := h1 (by omega)
        rw [e] at this
        simp only [Nat.add_sub_cancel] at this
        omega
      obtain ⟨r1, r2⟩ := ih (swapCells d (j + 1) j) hlo haj (by omega)
        (by
          intro hla
          rw [swapCells_cell, swapCells_cell, if_neg (by omega), if_neg (by omega),
            if_neg (by omega), if_pos rfl]
          exact h1 hla)
        (by
          intro p q hp hpq hq hpj hqj
          rw [swapCells_cell, swapCells_cell]
          split_ifs <;>
            first
            | omega
            | exact h2 _ _ (by omega) (by omega) (by omega) (by omega) (by omega))
        (by
          intro q hjq hq
          rw [swapCells_cell, swapCells_cell, if_neg (by omega), if_pos rfl]
          split_ifs <;>
            first
            | omega
            | exact h3 _ (by omega) (by omega))
      exact ⟨(SwapReach.swap d (j + 1) j (by omega) (by omega) (by omega) (by omega)).trans r1,
        r2⟩
    · refine ⟨SwapReach.refl d, ?_⟩
      intro p q hp hpq hq
      have hstop : a = j + 1 ∨ key (d.cell j) ≤ key (d.cell (j + 1)) := by
        by_cases hlj : lo < j + 1
        · right
          have : ¬ (lt (d.cell (j + 1)) (d.cell j) = true) := fun h => hc ⟨hlj, h⟩
          exact (not_lt_iff_of_key hlt _ _).mp this
        · left
          omega
      by_cases hp1 : p = j + 1
      · by_cases hq1 : q = j + 1
        · rw [hp1, hq1]
        · rw [hp1]
          exact h3 q (by omega) (by omega)
      · by_cases hq1 : q = j + 1
        · rcases hstop with e | hle
          · omega
          · rw [hq1]
            by_cases hpj : p = j
            · rw [hpj]
              exact hle
            · exact le_trans (h2 p j hp (by omega) (by omega) hp1 (by omega)) hle
        · exact h2 p q hp hpq (by omega) hp1 hq1

theorem insertionLoop_spec {α : Type} (lt : α → α → Bool) (key : α → Int)
    (hlt : ∀ x y, lt x y = decide (key x < key y)) (a b : Nat) :
    ∀ (fuel i : Nat) (d : Mem α), a < i → b ≤ i + fuel → SortedOn key a i d →
      SwapReach a b d (insertionLoop lt a b fuel i d) ∧
        SortedOn key a b (insertionLoop lt a b fuel i d) := by
  intro fuel
  induction fuel with
  | zero =>
    intro i d _ hb hs
    refine ⟨SwapReach.refl d, ?_⟩
    intro p q hp hpq hq
    exact hs p q hp hpq (by omega)
  | succ fuel ih =>
    intro i d hai hb hs
    unfold insertionLoop
    split_ifs with hib
    · obtain ⟨s1, s2⟩ := shiftLeft_spec lt key hlt a a i i d (le_refl a) (by omega) (le_refl i)
        (fun h => absurd h (lt_irrefl a))
        (fun p q hp hpq hq _ hqi => hs p q hp hpq (by omega))
        (fun q h1 h2 => by omega)
      obtain ⟨r1, r2⟩ := ih (i + 1) (shiftLeft lt a i d) (by omega) (by omega) s2
      exact ⟨(s1.mono (le_refl a) (by omega)).trans r1, r2⟩
    · refine ⟨SwapReach.refl d, ?_⟩
      intro p q hp hpq hq
      exact hs p q hp hpq (by omega)

/-- The function `insertionSort_func` sorts `data[a:b]`. -/
theorem insertionSort_func_spec {α : Type} (lt : α → α → Bool) (key : α → Int)
    (hlt : ∀ x y, lt x y = decide (key x < key y)) (d : Mem α) (a b : Nat) :
    SwapReach a b d (insertionSort_func lt d a b) ∧
      SortedOn key a b (insertionSort_func lt d a b) := by
  unfold insertionSort_func
  apply insertionLoop_spec lt key hlt a b (b - a) (a + 1) d (by omega) (by omega)
  intro p q hp hpq hq
  have : p = q := by omega
  rw [this]

/-! ## Heap sort -/

theorem siftDown_func_spec {α : Type} (lt : α → α → Bool) (key : α → Int)
    (hlt : ∀ x y, lt x y = decide (key x < key y)) (first hi lo : Nat) :
    ∀ (fuel root : Nat) (d : Mem α), hi ≤ root + fuel → lo ≤ root →
      (∀ r, lo ≤ r → r < hi → r ≠ root → HeapNode key first hi d r) →
      (∀ r, lo ≤ r → (root = 2 * r + 1 ∨ root = 2 * r + 2) →
        ∀ c, c = 2 * root + 1 ∨ c = 2 * root + 2 → c < hi →
          key (d.cell (first + c)) ≤ key (d.cell (first + r))) →
      SwapReach (first + root) (first + hi) d (siftDown_func lt first hi fuel root d) ∧
        ∀ r, lo ≤ r → r < hi → HeapNode key first hi (siftDown_func lt first hi fuel root d) r := by
  intro fuel
  induction fuel with
  | zero =>
    intro root d hf _ hok _
    refine ⟨SwapReach.refl d, ?_⟩
    intro r hr hr'
    exact hok r hr hr' (by omega)
  | succ fuel ih =>
    intro root d hf hlo hok hbr
    unfold siftDown_func
    simp only []
    split_ifs with h1 h2 h3 h4
    · -- no child
      refine ⟨SwapReach.refl d, ?_⟩
      intro r hr hr'
      by_cases e : r = root
      · intro c hc hc'
        omega
      · exact hok r hr hr' e
    · -- right child is the larger one, root not below it
      refine ⟨SwapReach.refl d, ?_⟩
      intro r hr hr'
      by_cases e : r = root
      · intro c hc hc'
        have k1 := (lt_iff_of_key hlt _ _).mp h2.2
        have k2 : ¬ (lt (d.cell (first + root)) (d.cell (first + (2 * root + 1 + 1))) = true) := by
          simpa using h3
        rw [not_lt_iff_of_key hlt] at k2
        have e1 : first + (2 * root + 1) + 1 = first + (2 * root + 2) := by omega
        have e2 : 2 * root + 1 + 1 = 2 * root + 2 := by omega
        rw [e1] at k1
        rw [e2] at k2
        subst e
        rcases hc with hc | hc <;> subst hc <;> omega
      · exact hok r hr hr' e
    · -- right child is the larger one, exchange
      have k1 := (lt_iff_of_key hlt _ _).mp h2.2
      have e1 : first + (2 * root + 1) + 1 = first + (2 * root + 2) := by omega
      rw [e1] at k1
      have k2 : lt (d.cell (first + root)) (d.cell (first + (2 * root + 1 + 1))) = true := by
        simpa using h3
      rw [lt_iff_of_key hlt] at k2
      have e2 : 2 * root + 1 + 1 = 2 * root + 2 := by omega
      rw [e2] at k2 ⊢
      obtain ⟨r1, r2⟩ := ih (2 * root + 2) (swapCells d (first + root) (first + (2 * root + 2)))
        (by omega) (by omega)
        (by
          intro r hr hr' hne c hc hc'
          rw [swapCells_cell, swapCells_cell]
          by_cases e : r = root
          · rcases hc with hc | hc <;> subst hc <;> subst e <;> split_ifs <;> omega
          · have := hok r hr hr' e c hc hc'
            have hb := hbr r hr
            split_ifs <;>
              first
              | omega
              | exact this
              | exact hb (by omega) _ (Or.inr rfl) (by omega))
        (by
          intro r hr hrc c hc hc'
          have e : r = root := by omega
          have := hok (2 * root + 2) (by omega) (by omega) (by omega) c hc hc'
          rw [swapCells_cell, swapCells_cell]
          split_ifs <;> omega)
      exact ⟨(SwapReach.swap d _ _ (by omega) (by omega) (by omega) (by omega)).trans
        (r1.mono (by omega) (le_refl _)), r2⟩
    · -- left child is the larger one, root not below it
      refine ⟨SwapReach.refl d, ?_⟩
      intro r hr hr'
      by_cases e : r = root
      · intro c hc hc'
        have k2 : ¬ (lt (d.cell (first + root)) (d.cell (first + (2 * root + 1))) = true) := by
          simpa using h4
        rw [not_lt_iff_of_key hlt] at k2
        have hn : 2 * root + 2 < hi →
            key (d.cell (first + (2 * root + 2))) ≤ key (d.cell (first + (2 * root + 1))) := by
          intro hlt2
          have hn : ¬ (lt (d.cell (first + (2 * root + 1))) (d.cell (first + (2 * root + 1) + 1))
              = true) := fun h => h2 ⟨by omega, h⟩
          rw [not_lt_iff_of_key hlt] at hn
          have : first + (2 * root + 1) + 1 = first + (2 * root + 2) := by omega
          rw [this] at hn
          exact hn
        subst e
        rcases hc with hc | hc
        · subst hc
          exact k2
        · subst hc
          have := hn hc'
          omega
      · exact hok r hr hr' e
    · -- left child is the larger one, exchange
      have k2 : lt (d.cell (first + root)) (d.cell (first + (2 * root + 1))) = true := by
        simpa using h4
      rw [lt_iff_of_key hlt] at k2
      have hn : 2 * root + 2 < hi →
          key (d.cell (first + (2 * root + 2))) ≤ key (d.cell (first + (2 * root + 1))) := by
        intro hlt2
        have hn : ¬ (lt (d.cell (first + (2 * root + 1))) (d.cell (first + (2 * root + 1) + 1))
            = true) := fun h => h2 ⟨by omega, h⟩
        rw [not_lt_iff_of_key hlt] at hn
        have : first + (2 * root + 1) + 1 = first + (2 * root + 2) := by omega
        rw [this] at hn
        exact hn
      obtain ⟨r1, r2⟩ := ih (2 * root + 1) (swapCells d (first + root) (first + (2 * root + 1)))
        (by omega) (by omega)
        (by
          intro r hr hr' hne c hc hc'
          rw [swapCells_cell, swapCells_cell]
          by_cases e : r = root
          · rcases hc with hc | hc
            · subst hc; subst e; split_ifs <;> omega
            · have := hn (by omega)
              subst hc; subst e; split_ifs <;> omega
          · have := hok r hr hr' e c hc hc'
            have hb := hbr r hr
            split_ifs <;>
              first
              | omega
              | exact this
              | exact hb (by omega) _ (Or.inl rfl) (by omega))
        (by
          intro r hr hrc c hc hc'
          have e : r = root := by omega
          have := hok (2 * root + 1) (by omega) (by omega) (by omega) c hc hc'
          rw [swapCells_cell, swapCells_cell]
          split_ifs <;> omega)
      exact ⟨(SwapReach.swap d _ _ (by omega) (by omega) (by omega) (by omega)).trans
        (r1.mono (by omega) (le_refl _)), r2⟩

theorem heapBuild_spec {α : Type} (lt : α → α → Bool) (key : α → Int)
    (hlt : ∀ x y, lt x y = decide (key x < key y)) (first hi : Nat) :
    ∀ (i : Nat) (d : Mem α),
      (∀ r, i < r → r < hi → HeapNode key first hi d r) →
      SwapReach first (first + hi) d (heapBuild lt first hi i d) ∧
        ∀ r, r < hi → HeapNode key first hi (heapBuild lt first hi i d) r := by
  intro i
  induction i with
  | zero =>
    intro d hok
    unfold heapBuild
    obtain ⟨r1, r2⟩ := siftDown_func_spec lt key hlt first hi 0 hi 0 d (by omega) (le_refl 0)
      (fun r _ hr' hne => hok r (by omega) hr') (fun r _ hr => by omega)
    exact ⟨r1.mono (by omega) (le_refl _), fun r hr => r2 r (Nat.zero_le r) hr⟩
  | succ i ih =>
    intro d hok
    unfold heapBuild
    obtain ⟨r1, r2⟩ := siftDown_func_spec lt key hlt first hi (i + 1) hi (i + 1) d (by omega)
      (le_refl _) (fun r hr hr' hne => hok r (by omega) hr') (fun r hr hrr => by omega)
    obtain ⟨s1, s2⟩ := ih (siftDown_func lt first hi hi (i + 1) d)
      (fun r hr hr' => r2 r (by omega) hr')
    exact ⟨(r1.mono (by omega) (le_refl _)).trans s1, s2⟩

/-- In a heap the root is not below any node. -/
theorem heap_root_max {α : Type} (key : α → Int) (first n : Nat) (d : Mem α)
    (hok : ∀ r, r < n → HeapNode key first n d r) :
    ∀ r, r < n → key (d.cell (first + r)) ≤ key (d.cell (first + 0)) := by
  intro r
  induction r using Nat.strong_induction_on with
  | _ r ih =>
    intro hr
    by_cases h0 : r = 0
    · rw [h0]
    · have hp := ih ((r - 1) / 2) (by omega) (by omega)
      have := hok ((r - 1) / 2) (by omega) r (by omega) hr
      omega

theorem heapPop_spec {α : Type} (lt : α → α → Bool) (key : α → Int)
    (hlt : ∀ x y, lt x y = decide (key x < key y)) (first hi : Nat) :
    ∀ (n : Nat) (d : Mem α), n ≤ hi →
      (∀ r, r < n → HeapNode key first n d r) →
      SortedOn key (first + n) (first + hi) d →
      (∀ x y, x < n → n ≤ y → y < hi → key (d.cell (first + x)) ≤ key (d.cell (first + y))) →
      SwapReach first (first + hi) d (heapPop lt first n d) ∧
        SortedOn key first (first + hi) (heapPop lt first n d) := by
  intro n
  induction n with
  | zero =>
    intro d _ _ hs _
    exact ⟨SwapReach.refl d, by simpa using hs⟩
  | succ i ih =>
    intro d hn hok hs hle
    unfold heapPop
    have hmax : ∀ k, first ≤ k → k < first + (i + 1) → key (d.cell k) ≤ key (d.cell first) := by
      intro k hk hk'
      have := heap_root_max key first (i + 1) d hok (k - first) (by omega)
      have e3 : first + (k - first) = k := by omega
      rw [e3] at this
      simpa using this
    have hle' : ∀ k y, first ≤ k → k < first + (i + 1) → first + (i + 1) ≤ y → y < first + hi →
        key (d.cell k) ≤ key (d.cell y) := by
      intro k y hk hk' hy hy'
      have := hle (k - first) (y - first) (by omega) (by omega) (by omega)
      have e3 : first + (k - first) = k := by omega
      have e4 : first + (y - first) = y := by omega
      rw [e3, e4] at this
      exact this
    have hA : (swapCells d first (first + i)).cell (first + i) = d.cell first := by
      rw [swapCells_cell]
      by_cases e : first + i = first
      · rw [if_pos e, e]
      · rw [if_neg e, if_pos rfl]
    have hB : ∀ k, k ≠ first → k ≠ first + i →
        (swapCells d first (first + i)).cell k = d.cell k := by
      intro k h1 h2
      rw [swapCells_cell, if_neg h1, if_neg h2]
    have hC : (swapCells d first (first + i)).cell first = d.cell (first + i) := by
      rw [swapCells_cell, if_pos rfl]
    have hsw : SwapReach first (first + (i + 1)) d (swapCells d first (first + i)) :=
      SwapReach.swap d _ _ (le_refl _) (by omega) (by omega) (by omega)
    obtain ⟨r1, r2⟩ := siftDown_func_spec lt key hlt first i 0 i 0
      (swapCells d first (first + i)) (by omega) (le_refl 0)
      (by
        intro r _ hr hne c hc hc'
        rw [hB _ (by omega) (by omega), hB _ (by omega) (by omega)]
        exact hok r (by omega) c hc (by omega))
      (fun r _ hr => by omega)
    have r1' : SwapReach first (first + i) (swapCells d first (first + i))
        (siftDown_func lt first i i 0 (swapCells d first (first + i))) :=
      r1.mono (by omega) (le_refl _)
    obtain ⟨s1, s2⟩ := ih (siftDown_func lt first i i 0 (swapCells d first (first + i)))
      (by omega) (fun r hr => r2 r (Nat.zero_le r) hr)
      (by
        intro p q hp hpq hq
        rw [r1'.frame p (by omega), r1'.frame q (by omega)]
        by_cases e1 : p = first + i
        · by_cases e2 : q = first + i
          · rw [e1, e2]
          · rw [e1, hA, hB q (by omega) e2]
            exact hle' first q (le_refl _) (by omega) (by omega) hq
        · rw [hB p (by omega) e1, hB q (by omega) (by omega)]
          exact hs p q (by omega) hpq hq)
      (by
        intro x y hx hy hy'
        rw [r1'.frame (first + y) (by omega)]
        have hall : ∀ k, first ≤ k → k < first + i →
            key ((swapCells d first (first + i)).cell k) ≤
              key ((swapCells d first (first + i)).cell (first + y)) := by
          intro k hk hk'
          by_cases e2 : y = i
          · rw [e2, hA]
            by_cases e3 : k = first
            · rw [e3, hC]
              exact hmax _ (by omega) (by omega)
            · rw [hB k e3 (by omega)]
              exact hmax _ (by omega) (by omega)
          · rw [hB (first + y) (by omega) (by omega)]
            by_cases e3 : k = first
            · rw [e3, hC]
              exact hle' _ _ (by omega) (by omega) (by omega) (by omega)
            · rw [hB k e3 (by omega)]
              exact hle' _ _ (by omega) (by omega) (by omega) (by omega)
        exact r1'.forall
          (fun v => key v ≤ key ((swapCells d first (first + i)).cell (first + y))) hall
          (first + x) (by omega) (by omega))
    exact ⟨(hsw.mono (le_refl _) (by omega)).trans
      ((r1'.mono (le_refl _) (by omega)).trans s1), s2⟩

/-- The function `heapSort_func` sorts `data[a:b]`. -/
theorem heapSort_func_spec {α : Type} (lt : α → α → Bool) (key : α → Int)
    (hlt : ∀ x y, lt x y = decide (key x < key y)) (d : Mem α) (a b : Nat) (hab : a ≤ b) :
    SwapReach a b d (heapSort_func lt d a b) ∧ SortedOn key a b (heapSort_func lt d a b) := by
  unfold heapSort_func
  simp only []
  obtain ⟨r1, r2⟩ := heapBuild_spec lt key hlt a (b - a) ((b - a - 1) / 2) d
    (by
      intro r hr hr' c hc hc'
      omega)
  obtain ⟨s1, s2⟩ := heapPop_spec lt key hlt a (b - a) (b - a)
    (heapBuild lt a (b - a) ((b - a - 1) / 2) d) (le_refl _) r2
    (by
      intro p q hp hpq hq
      omega)
    (by
      intro x y hx hy hy'
      omega)
  have e : a + (b - a) = b := by omega
  rw [e] at r1 s1 s2
  exact ⟨r1.trans s1, s2⟩

/-! ## The helpers of the quicksort -/

theorem bitsLenAux_zero (fuel : Nat) : bitsLenAux fuel 0 = 0 := by
  cases fuel <;> simp [bitsLenAux]

theorem lt_two_pow_bitsLenAux (fuel n : Nat) (h : n ≤ fuel) : n < 2 ^ bitsLenAux fuel n := by
  induction fuel generalizing n with
  | zero =>
    have : n = 0 := by omega
    subst this
    simp [bitsLenAux]
  | succ fuel ih =>
    unfold bitsLenAux
    split_ifs with h0
    · subst h0
      simp
    · have := ih (n / 2) (by omega)
      rw [pow_succ]
      omega

theorem two_pow_bitsLenAux_le (fuel n : Nat) (h : n ≤ fuel) (hn : n ≠ 0) :
    2 ^ bitsLenAux fuel n ≤ 2 * n := by
  induction fuel generalizing n with
  | zero => omega
  | succ fuel ih =>
    unfold bitsLenAux
    rw [if_neg hn, pow_succ]
    by_cases h2 : n / 2 = 0
    · rw [h2, bitsLenAux_zero]
      omega
    · have := ih (n / 2) (by omega) h2
      omega

theorem nextPowerOfTwo_bounds (n : Nat) (hn : n ≠ 0) :
    n < nextPowerOfTwo n ∧ nextPowerOfTwo n ≤ 2 * n := by
  unfold nextPowerOfTwo bitsLen
  rw [Nat.one_shiftLeft]
  exact ⟨lt_two_pow_bitsLenAux n n (le_refl n), two_pow_bitsLenAux_le n n (le_refl n) hn⟩

theorem breakPatternsLoop_reach {α : Type} (a b length modulus idx : Nat)
    (hlen : b = a + length) (hmod : modulus ≤ 2 * length)
    (hmod' : 0 < modulus) (hidx : a + 1 ≤ idx) (hidx' : idx + 2 < b) :
    ∀ (n i random : Nat) (d : Mem α), n + i ≤ 3 →
      SwapReach a b d (breakPatternsLoop a length modulus idx n i random d) := by
  intro n
  induction n with
  | zero =>
    intro i random d _
    exact SwapReach.refl d
  | succ n ih =>
    intro i random d hni
    unfold breakPatternsLoop
    simp only []
    have hand : xorshiftNext random &&& (modulus - 1) ≤ modulus - 1 := Nat.and_le_right
    refine (SwapReach.swap d _ _ (by omega) (by omega) (by omega) ?_).trans
      (ih (i + 1) _ _ (by omega))
    split_ifs <;> omega

theorem breakPatterns_func_reach {α : Type} (d : Mem α) (a b : Nat) :
    SwapReach a b d (breakPatterns_func d a b) := by
  unfold breakPatterns_func
  simp only []
  split_ifs with h
  · have hb := nextPowerOfTwo_bounds (b - a) (by omega)
    exact breakPatternsLoop_reach a b (b - a) (nextPowerOfTwo (b - a)) (a + (b - a) / 4 * 2 - 1)
      (by omega) hb.2 (by omega) (by omega) (by omega) 3 0 (b - a) d (by omega)
  · exact SwapReach.refl d

theorem reverseLoop_reach {α : Type} (a b : Nat) :
    ∀ (fuel i j : Nat) (d : Mem α), a ≤ i → j < b → SwapReach a b d (reverseLoop fuel i j d) := by
  intro fuel
  induction fuel with
  | zero =>
    intro i j d _ _
    exact SwapReach.refl d
  | succ fuel ih =>
    intro i j d hi hj
    unfold reverseLoop
    split_ifs with h
    · exact (SwapReach.swap d i j hi (by omega) (by omega) hj).trans
        (ih (i + 1) (j - 1) _ (by omega) (by omega))
    · exact SwapReach.refl d

theorem reverseRange_func_reach {α : Type} (d : Mem α) (a b : Nat) (hab : a < b) :
    SwapReach a b d (reverseRange_func d a b) := by
  unfold reverseRange_func
  exact reverseLoop_reach a b (b - a) a (b - 1) d (le_refl a) (by omega)

theorem order2_func_mem {α : Type} (lt : α → α → Bool) (d : Mem α) (a b swaps : Nat) :
    ((order2_func lt d a b swaps).1 = a ∧ (order2_func lt d a b swaps).2.1 = b) ∨
      ((order2_func lt d a b swaps).1 = b ∧ (order2_func lt d a b swaps).2.1 = a) := by
  unfold order2_func
  split_ifs
  · right
    exact ⟨rfl, rfl⟩
  · left
    exact ⟨rfl, rfl⟩

theorem median_func_mem {α : Type} (lt : α → α → Bool) (d : Mem α) (a b c swaps : Nat) :
    (median_func lt d a b c swaps).1 = a ∨ (median_func lt d a b c swaps).1 = b ∨
      (median_func lt d a b c swaps).1 = c := by
  unfold median_func
  simp only []
  have h1 := order2_func_mem lt d a b swaps
  generalize order2_func lt d a b swaps = r1 at h1 ⊢
  have h2 := order2_func_mem lt d r1.2.1 c r1.2.2
  generalize order2_func lt d r1.2.1 c r1.2.2 = r2 at h2 ⊢
  have h3 := order2_func_mem lt d r1.1 r2.1 r2.2.2
  generalize order2_func lt d r1.1 r2.1 r2.2.2 = r3 at h3 ⊢
  omega

theorem choosePivotMedian_mem {α : Type} (lt : α → α → Bool) (d : Mem α) (a b : Nat)
    (h : 8 ≤ b - a) :
    a ≤ (choosePivotMedian lt d a b).1 ∧ (choosePivotMedian lt d a b).1 < b := by
  unfold choosePivotMedian
  simp only [ge_iff_le, h, if_true]
  split_ifs with h50
  · unfold medianAdjacent_func
    have m1 := median_func_mem lt d (a + (b - a) / 4 * 1 - 1) (a + (b - a) / 4 * 1)
      (a + (b - a) / 4 * 1 + 1) 0
    generalize median_func lt d (a + (b - a) / 4 * 1 - 1) (a + (b - a) / 4 * 1)
      (a + (b - a) / 4 * 1 + 1) 0 = r1 at m1 ⊢
    have m2 := median_func_mem lt d (a + (b - a) / 4 * 2 - 1) (a + (b - a) / 4 * 2)
      (a + (b - a) / 4 * 2 + 1) r1.2
    generalize median_func lt d (a + (b - a) / 4 * 2 - 1) (a + (b - a) / 4 * 2)
      (a + (b - a) / 4 * 2 + 1) r1.2 = r2 at m2 ⊢
    have m3 := median_func_mem lt d (a + (b - a) / 4 * 3 - 1) (a + (b - a) / 4 * 3)
      (a + (b - a) / 4 * 3 + 1) r2.2
    generalize median_func lt d (a + (b - a) / 4 * 3 - 1) (a + (b - a) / 4 * 3)
      (a + (b - a) / 4 * 3 + 1) r2.2 = r3 at m3 ⊢
    have m4 := median_func_mem lt d r1.1 r2.1 r3.1 r3.2
    generalize median_func lt d r1.1 r2.1 r3.1 r3.2 = r4 at m4 ⊢
    omega
  · have m4 := median_func_mem lt d (a + (b - a) / 4 * 1) (a + (b - a) / 4 * 2)
      (a + (b - a) / 4 * 3) 0
    generalize median_func lt d (a + (b - a) / 4 * 1) (a + (b - a) / 4 * 2)
      (a + (b - a) / 4 * 3) 0 = r4 at m4 ⊢
    omega

/-- The pivot chosen in a range of at least eight cells is a cell of the range. -/
theorem choosePivot_func_mem {α : Type} (lt : α → α → Bool) (d : Mem α) (a b : Nat)
    (h : 8 ≤ b - a) :
    a ≤ (choosePivot_func lt d a b).1 ∧ (choosePivot_func lt d a b).1 < b := by
  have hm := choosePivotMedian_mem lt d a b h
  unfold choosePivot_func
  simp only []
  split_ifs <;> exact hm

/-! ## Partial insertion sort -/

theorem skipSorted_spec {α : Type} (lt : α → α → Bool) (key : α → Int)
    (hlt : ∀ x y, lt x y = decide (key x < key y)) (d : Mem α) (a b : Nat) :
    ∀ (fuel i : Nat), a < i → i ≤ b → b ≤ i + fuel → SortedOn key a i d →
      i ≤ skipSorted lt d b fuel i ∧ skipSorted lt d b fuel i ≤ b ∧
        SortedOn key a (skipSorted lt d b fuel i) d ∧
        (skipSorted lt d b fuel i ≠ b →
          key (d.cell (skipSorted lt d b fuel i)) < key (d.cell (skipSorted lt d b fuel i - 1))) := by
  intro fuel
  induction fuel with
  | zero =>
    intro i _ hib hf hs
    have : i = b := by omega
    exact ⟨le_refl _, hib, hs, fun h => absurd this h⟩
  | succ fuel ih =>
    intro i hai hib hf hs
    unfold skipSorted
    split_ifs with hc
    · obtain ⟨hc1, hc2⟩ := hc
      have hle : key (d.cell (i - 1)) ≤ key (d.cell i) := by
        have : ¬ (lt (d.cell i) (d.cell (i - 1)) = true) := by simpa using hc2
        exact (not_lt_iff_of_key hlt _ _).mp this
      have hs' : SortedOn key a (i + 1) d := by
        intro p q hp hpq hq
        by_cases e : q = i
        · by_cases e' : p = i
          · rw [e, e']
          · rw [e]
            exact le_trans (hs p (i - 1) hp (by omega) (by omega)) hle
        · exact hs p q hp hpq (by omega)
      obtain ⟨r1, r2, r3, r4⟩ := ih (i + 1) (by omega) (by omega) (by omega) hs'
      exact ⟨by omega, r2, r3, r4⟩
    · refine ⟨le_refl _, hib, hs, ?_⟩
      intro hne
      have : ¬ (¬ (lt (d.cell i) (d.cell (i - 1)) = true)) := by
        intro h
        exact hc ⟨by omega, by simpa using h⟩
      have := not_not.mp this
      exact (lt_iff_of_key hlt _ _).mp this

theorem shiftRight_reach {α : Type} (lt : α → α → Bool) (b : Nat) :
    ∀ (fuel j : Nat) (d : Mem α), 1 ≤ j → SwapReach (j - 1) b d (shiftRight lt b fuel j d) := by
  intro fuel
  induction fuel with
  | zero =>
    intro j d _
    exact SwapReach.refl d
  | succ fuel ih =>
    intro j d hj
    unfold shiftRight
    split_ifs with h1 h2
    · exact SwapReach.refl d
    · exact (SwapReach.swap d j (j - 1) (by omega) h1 (by omega) (by omega)).trans
        ((ih (j + 1) _ (by omega)).mono (by omega) (le_refl _))
    · exact SwapReach.refl d

theorem partialInsertionLoop_spec {α : Type} (lt : α → α → Bool) (key : α → Int)
    (hlt : ∀ x y, lt x y = decide (key x < key y)) (a b : Nat) :
    ∀ (steps i : Nat) (d : Mem α), a < i → i ≤ b → SortedOn key a i d → LowerBound key a b d →
      SwapReach a b d (partialInsertionLoop lt a b steps i d).1 ∧
        ((partialInsertionLoop lt a b steps i d).2 = true →
          SortedOn key a b (partialInsertionLoop lt a b steps i d).1) := by
  intro steps
  induction steps with
  | zero =>
    intro i d _ _ _ _
    exact ⟨SwapReach.refl d, fun h => Bool.noConfusion h⟩
  | succ steps ih =>
    intro i d hai hib hs hl
    unfold partialInsertionLoop
    simp only []
    obtain ⟨k1, k2, k3, k4⟩ := skipSorted_spec lt key hlt d a b (b - i) i hai hib (by omega) hs
    generalize skipSorted lt d b (b - i) i = i' at k1 k2 k3 k4
    by_cases h1 : i' = b
    · rw [if_pos h1]
      subst h1
      exact ⟨SwapReach.refl d, fun _ => k3⟩
    rw [if_neg h1]
    by_cases h2 : b - a < 50
    · rw [if_pos h2]
      exact ⟨SwapReach.refl d, fun h => Bool.noConfusion h⟩
    rw [if_neg h2]
    have hlt' := k4 h1
    have hsw : SwapReach a b d (swapCells d i' (i' - 1)) :=
      SwapReach.swap d _ _ (by omega) (by omega) (by omega) (by omega)
    -- the smaller cell moves to the left
    have hleft : SwapReach a i' (swapCells d i' (i' - 1))
          (if i' - a ≥ 2 then shiftLeft lt 0 (i' - 1) (swapCells d i' (i' - 1))
            else swapCells d i' (i' - 1)) ∧
        SortedOn key a i' (if i' - a ≥ 2 then shiftLeft lt 0 (i' - 1) (swapCells d i' (i' - 1))
            else swapCells d i' (i' - 1)) := by
      split_ifs with h3
      · have := shiftLeft_spec lt key hlt 0 a (i' - 1) (i' - 1) (swapCells d i' (i' - 1))
          (Nat.zero_le a) (by omega) (le_refl _)
          (by
            intro ha
            rw [swapCells_cell, swapCells_cell, if_neg (by omega), if_neg (by omega),
              if_neg (by omega), if_pos rfl]
            exact hl ha i' (by omega) (by omega))
          (by
            intro p q hp hpq hq hpj hqj
            rw [swapCells_cell, swapCells_cell, if_neg (by omega), if_neg (by omega),
              if_neg (by omega), if_neg (by omega)]
            exact k3 p q hp hpq (by omega))
          (by
            intro q hq hq'
            omega)
        have e : i' - 1 + 1 = i' := by omega
        rw [e] at this
        exact this
      · refine ⟨SwapReach.refl _, ?_⟩
        intro p q hp hpq hq
        have : p = q := by omega
        rw [this]
    obtain ⟨l1, l2⟩ := hleft
    generalize (if i' - a ≥ 2 then shiftLeft lt 0 (i' - 1) (swapCells d i' (i' - 1))
            else swapCells d i' (i' - 1)) = d2 at l1 l2
    have hright : SwapReach i' b d2
        (if b - i' ≥ 2 then shiftRight lt b (b - i') (i' + 1) d2 else d2) := by
      split_ifs
      · have := shiftRight_reach lt b (b - i') (i' + 1) d2 (by omega)
        simpa using this
      · exact SwapReach.refl _
    generalize (if b - i' ≥ 2 then shiftRight lt b (b - i') (i' + 1) d2 else d2) = d3
      at hright
    have hreach : SwapReach a b d d3 :=
      hsw.trans ((l1.mono (le_refl _) (by omega)).trans (hright.mono (by omega) (le_refl _)))
    have hs3 : SortedOn key a i' d3 := by
      intro p q hp hpq hq
      rw [hright.frame p (by omega), hright.frame q (by omega)]
      exact l2 p q hp hpq hq
    obtain ⟨r1, r2⟩ := ih i' d3 (by omega) k2 hs3 (hreach.lowerBound hl)
    exact ⟨hreach.trans r1, r2⟩

/-- The function `partialInsertionSort_func` permutes `data[a:b]`, and when it answers `true`
the range is sorted. -/
theorem partialInsertionSort_func_spec {α : Type} (lt : α → α → Bool) (key : α → Int)
    (hlt : ∀ x y, lt x y = decide (key x < key y)) (d : Mem α) (a b : Nat) (hab : a < b)
    (hl : LowerBound key a b d) :
    SwapReach a b d (partialInsertionSort_func lt d a b).1 ∧
      ((partialInsertionSort_func lt d a b).2 = true →
        SortedOn key a b (partialInsertionSort_func lt d a b).1) := by
  unfold partialInsertionSort_func
  apply partialInsertionLoop_spec lt key hlt a b 5 (a + 1) d (by omega) (by omega) _ hl
  intro p q hp hpq hq
  have : p = q := by omega
  rw [this]

/-! ## Partitions -/

theorem scanUp_spec (p : Nat → Bool) (j : Nat) :
    ∀ (fuel i : Nat), i ≤ j + 1 → j + 1 ≤ i + fuel →
      i ≤ scanUp p j fuel i ∧ scanUp p j fuel i ≤ j + 1 ∧
        (∀ k, i ≤ k → k < scanUp p j fuel i → p k = true) ∧
        (scanUp p j fuel i ≤ j → p (scanUp p j fuel i) = false) := by
  intro fuel
  induction fuel with
  | zero =>
    intro i h1 h2
    refine ⟨le_refl _, h1, fun k hk hk' => ?_, fun h => ?_⟩
    · simp only [scanUp] at hk'
      omega
    · simp only [scanUp] at h
      omega
  | succ fuel ih =>
    intro i h1 h2
    unfold scanUp
    split_ifs with hc
    · obtain ⟨r1, r2, r3, r4⟩ := ih (i + 1) (by omega) (by omega)
      refine ⟨by omega, r2, fun k hk hk' => ?_, r4⟩
      by_cases e : k = i
      · rw [e]
        exact hc.2
      · exact r3 k (by omega) hk'
    · refine ⟨le_refl _, h1, fun k hk hk' => by omega, fun h => ?_⟩
      by_contra hp
      exact hc ⟨h, by simpa using hp⟩

theorem scanDown_spec (p : Nat → Bool) (i : Nat) (hi : 1 ≤ i) :
    ∀ (j : Nat), i ≤ j + 1 →
      scanDown p i j ≤ j ∧ i ≤ scanDown p i j + 1 ∧
        (∀ k, scanDown p i j < k → k ≤ j → p k = true) ∧
        (i ≤ scanDown p i j → p (scanDown p i j) = false) := by
  intro j
  induction j with
  | zero =>
    intro h
    refine ⟨le_refl _, h, fun k hk hk' => ?_, fun h' => ?_⟩
    · simp only [scanDown] at hk
      omega
    · simp only [scanDown] at h'
      omega
  | succ j ih =>
    intro h
    unfold scanDown
    split_ifs with hc
    · obtain ⟨r1, r2, r3, r4⟩ := ih (by omega)
      refine ⟨by omega, r2, fun k hk hk' => ?_, r4⟩
      by_cases e : k = j + 1
      · rw [e]
        exact hc.2
      · exact r3 k hk (by omega)
    · refine ⟨le_refl _, h, fun k hk hk' => by omega, fun h' => ?_⟩
      by_contra hp
      exact hc ⟨h', by simpa using hp⟩

theorem partitionLoop_spec {α : Type} (lt : α → α → Bool) (key : α → Int)
    (hlt : ∀ x y, lt x y = decide (key x < key y)) (a b : Nat) :
    ∀ (fuel i j : Nat) (d : Mem α), a < i → i ≤ j + 1 → j < b → j + 1 ≤ i + fuel →
      (∀ k, a < k → k < i → key (d.cell k) < key (d.cell a)) →
      (∀ k, j < k → k < b → key (d.cell a) ≤ key (d.cell k)) →
      SwapReach (a + 1) b d (partitionLoop lt a fuel i j d).1 ∧
        a ≤ (partitionLoop lt a fuel i j d).2 ∧ (partitionLoop lt a fuel i j d).2 < b ∧
        (∀ k, a < k → k ≤ (partitionLoop lt a fuel i j d).2 →
          key ((partitionLoop lt a fuel i j d).1.cell k) <
            key ((partitionLoop lt a fuel i j d).1.cell a)) ∧
        (∀ k, (partitionLoop lt a fuel i j d).2 < k → k < b →
          key ((partitionLoop lt a fuel i j d).1.cell a) ≤
            key ((partitionLoop lt a fuel i j d).1.cell k)) := by
  intro fuel
  induction fuel with
  | zero =>
    intro i j d hai hij hjb hf hlo hhi
    refine ⟨SwapReach.refl d, by simp only [partitionLoop]; omega, hjb, ?_, hhi⟩
    intro k hk hk'
    simp only [partitionLoop] at hk' ⊢
    exact hlo k hk (by omega)
  | succ fuel ih =>
    intro i j d hai hij hjb hf hlo hhi
    unfold partitionLoop
    simp only []
    obtain ⟨u1, u2, u3, u4⟩ := scanUp_spec (fun k => lt (d.cell k) (d.cell a)) j (j + 1 - i) i
      hij (by omega)
    generalize scanUp (fun k => lt (d.cell k) (d.cell a)) j (j + 1 - i) i = i' at u1 u2 u3 u4
    obtain ⟨v1, v2, v3, v4⟩ := scanDown_spec (fun k => !lt (d.cell k) (d.cell a)) i' (by omega)
      j u2
    generalize scanDown (fun k => !lt (d.cell k) (d.cell a)) i' j = j' at v1 v2 v3 v4
    have hlo' : ∀ k, a < k → k < i' → key (d.cell k) < key (d.cell a) := by
      intro k hk hk'
      by_cases e : k < i
      · exact hlo k hk e
      · exact (lt_iff_of_key hlt _ _).mp (u3 k (by omega) hk')
    have hhi' : ∀ k, j' < k → k < b → key (d.cell a) ≤ key (d.cell k) := by
      intro k hk hk'
      by_cases e : j < k
      · exact hhi k e hk'
      · have := v3 k hk (by omega)
        have : ¬ (lt (d.cell k) (d.cell a) = true) := by simpa using this
        exact (not_lt_iff_of_key hlt _ _).mp this
    by_cases h : i' > j'
    · rw [if_pos h]
      refine ⟨SwapReach.refl d, by omega, by omega, ?_, hhi'⟩
      intro k hk hk'
      exact hlo' k hk (by omega)
    · rw [if_neg h]
      have hi'a : key (d.cell a) ≤ key (d.cell i') := by
        have := u4 (by omega)
        have : ¬ (lt (d.cell i') (d.cell a) = true) := by simpa using this
        exact (not_lt_iff_of_key hlt _ _).mp this
      have hj'a : key (d.cell j') < key (d.cell a) := by
        have := v4 (by omega)
        have : lt (d.cell j') (d.cell a) = true := by simpa using this
        exact (lt_iff_of_key hlt _ _).mp this
      have hne : i' ≠ j' := by
        intro e
        rw [e] at hi'a
        omega
      obtain ⟨r1, r2, r3, r4, r5⟩ := ih (i' + 1) (j' - 1) (swapCells d i' j') (by omega)
        (by omega) (by omega) (by omega)
        (by
          intro k hk hk'
          have ea : (swapCells d i' j').cell a = d.cell a := by
            rw [swapCells_cell, if_neg (by omega), if_neg (by omega)]
          rw [ea, swapCells_cell]
          split_ifs
          · exact hj'a
          · omega
          · exact hlo' k hk (by omega))
        (by
          intro k hk hk'
          have ea : (swapCells d i' j').cell a = d.cell a := by
            rw [swapCells_cell, if_neg (by omega), if_neg (by omega)]
          rw [ea, swapCells_cell]
          split_ifs
          · omega
          · exact hi'a
          · exact hhi' k (by omega) hk')
      exact ⟨(SwapReach.swap d i' j' (by omega) (by omega) (by omega) (by omega)).trans r1,
        r2, r3, r4, r5⟩

/-- The function `partition_func` leaves the cells below the pivot before it and the cells
not below the pivot after it. -/
theorem partition_func_spec {α : Type} (lt : α → α → Bool) (key : α → Int)
    (hlt : ∀ x y, lt x y = decide (key x < key y)) (d : Mem α) (a b pivot : Nat)
    (hap : a ≤ pivot) (hpb : pivot < b) :
    SwapReach a b d (partition_func lt d a b pivot).1 ∧
      a ≤ (partition_func lt d a b pivot).2.1 ∧ (partition_func lt d a b pivot).2.1 < b ∧
      (∀ k, a ≤ k → k < (partition_func lt d a b pivot).2.1 →
        key ((partition_func lt d a b pivot).1.cell k) ≤
          key ((partition_func lt d a b pivot).1.cell (partition_func lt d a b pivot).2.1)) ∧
      (∀ k, (partition_func lt d a b pivot).2.1 < k → k < b →
        key ((partition_func lt d a b pivot).1.cell (partition_func lt d a b pivot).2.1) ≤
          key ((partition_func lt d a b pivot).1.cell k)) := by
  unfold partition_func
  simp only []
  have hsw : SwapReach a b d (swapCells d a pivot) :=
    SwapReach.swap d a pivot (le_refl a) (by omega) hap hpb
  generalize swapCells d a pivot = d1 at hsw
  obtain ⟨u1, u2, u3, u4⟩ := scanUp_spec (fun k => lt (d1.cell k) (d1.cell a)) (b - 1) (b - 1 - a)
    (a + 1) (by omega) (by omega)
  generalize scanUp (fun k => lt (d1.cell k) (d1.cell a)) (b - 1) (b - 1 - a) (a + 1) = i
    at u1 u2 u3 u4
  obtain ⟨v1, v2, v3, v4⟩ := scanDown_spec (fun k => !lt (d1.cell k) (d1.cell a)) i (by omega)
    (b - 1) u2
  generalize scanDown (fun k => !lt (d1.cell k) (d1.cell a)) i (b - 1) = j at v1 v2 v3 v4
  have hlo : ∀ k, a < k → k < i → key (d1.cell k) < key (d1.cell a) := by
    intro k hk hk'
    exact (lt_iff_of_key hlt _ _).mp (u3 k (by omega) hk')
  have hhi : ∀ k, j < k → k < b → key (d1.cell a) ≤ key (d1.cell k) := by
    intro k hk hk'
    have := v3 k hk (by omega)
    have : ¬ (lt (d1.cell k) (d1.cell a) = true) := by simpa using this
    exact (not_lt_iff_of_key hlt _ _).mp this
  -- the final exchange of the pivot with the cell `m`
  have hfinal : ∀ (d2 : Mem α) (m : Nat), a ≤ m → m < b →
      (∀ k, a < k → k ≤ m → key (d2.cell k) < key (d2.cell a)) →
      (∀ k, m < k → k < b → key (d2.cell a) ≤ key (d2.cell k)) →
      (∀ k, a ≤ k → k < m → key ((swapCells d2 m a).cell k) ≤ key ((swapCells d2 m a).cell m)) ∧
      (∀ k, m < k → k < b → key ((swapCells d2 m a).cell m) ≤ key ((swapCells d2 m a).cell k)) := by
    intro d2 m hm hm' h1 h2
    have em : (swapCells d2 m a).cell m = d2.cell a := by
      rw [swapCells_cell, if_pos rfl]
    constructor
    · intro k hk hk'
      rw [em, swapCells_cell, if_neg (by omega)]
      split_ifs with e
      · have := h1 m (by omega) (le_refl m)
        omega
      · have := h1 k (by omega) (by omega)
        omega
    · intro k hk hk'
      rw [em, swapCells_cell, if_neg (by omega), if_neg (by omega)]
      exact h2 k hk hk'
  by_cases h : i > j
  · rw [if_pos h]
    simp only []
    obtain ⟨f1, f2⟩ := hfinal d1 j (by omega) (by omega) (fun k hk hk' => hlo k hk (by omega)) hhi
    exact ⟨hsw.trans (SwapReach.swap d1 j a (by omega) (by omega) (le_refl a) (by omega)),
      by omega, by omega, f1, f2⟩
  · rw [if_neg h]
    simp only []
    have hia : key (d1.cell a) ≤ key (d1.cell i) := by
      have := u4 (by omega)
      have : ¬ (lt (d1.cell i) (d1.cell a) = true) := by simpa using this
      exact (not_lt_iff_of_key hlt _ _).mp this
    have hja : key (d1.cell j) < key (d1.cell a) := by
      have := v4 (by omega)
      have : lt (d1.cell j) (d1.cell a) = true := by simpa using this
      exact (lt_iff_of_key hlt _ _).mp this
    have hne : i ≠ j := by
      intro e
      rw [e] at hia
      omega
    obtain ⟨r1, r2, r3, r4, r5⟩ := partitionLoop_spec lt key hlt a b (b - a) (i + 1) (j - 1)
      (swapCells d1 i j) (by omega) (by omega) (by omega) (by omega)
      (by
        intro k hk hk'
        have ea : (swapCells d1 i j).cell a = d1.cell a := by
          rw [swapCells_cell, if_neg (by omega), if_neg (by omega)]
        rw [ea, swapCells_cell]
        split_ifs
        · exact hja
        · omega
        · exact hlo k hk (by omega))
      (by
        intro k hk hk'
        have ea : (swapCells d1 i j).cell a = d1.cell a := by
          rw [swapCells_cell, if_neg (by omega), if_neg (by omega)]
        rw [ea, swapCells_cell]
        split_ifs
        · omega
        · exact hia
        · exact hhi k (by omega) hk')
    generalize partitionLoop lt a (b - a) (i + 1) (j - 1) (swapCells d1 i j) = r at r1 r2 r3 r4 r5
    obtain ⟨f1, f2⟩ := hfinal r.1 r.2 r2 r3 r4 r5
    exact ⟨hsw.trans ((SwapReach.swap d1 i j (by omega) (by omega) (by omega) (by omega)).trans
        ((r1.mono (by omega) (le_refl _)).trans
          (SwapReach.swap r.1 r.2 a r2 r3 (le_refl a) (by omega)))),
      r2, r3, f1, f2⟩

theorem partitionEqualLoop_spec {α : Type} (lt : α → α → Bool) (key : α → Int)
    (hlt : ∀ x y, lt x y = decide (key x < key y)) (a b : Nat) (P : Int) :
    ∀ (fuel i j : Nat) (d : Mem α), a < i → i ≤ j + 1 → j < b →
      (∀ k, a ≤ k → k < i → key (d.cell k) ≤ P) →
      SwapReach (a + 1) b d (partitionEqualLoop lt a fuel i j d).1 ∧
        a < (partitionEqualLoop lt a fuel i j d).2 ∧ (partitionEqualLoop lt a fuel i j d).2 ≤ b ∧
        (∀ k, a ≤ k → k < (partitionEqualLoop lt a fuel i j d).2 →
          key ((partitionEqualLoop lt a fuel i j d).1.cell k) ≤ P) := by
  intro fuel
  induction fuel with
  | zero =>
    intro i j d hai hij hjb hlo
    exact ⟨SwapReach.refl d, hai, by simp only [partitionEqualLoop]; omega, hlo⟩
  | succ fuel ih =>
    intro i j d hai hij hjb hlo
    unfold partitionEqualLoop
    simp only []
    obtain ⟨u1, u2, u3, u4⟩ := scanUp_spec (fun k => !lt (d.cell a) (d.cell k)) j (j + 1 - i) i
      hij (by omega)
    generalize scanUp (fun k => !lt (d.cell a) (d.cell k)) j (j + 1 - i) i = i' at u1 u2 u3 u4
    obtain ⟨v1, v2, v3, v4⟩ := scanDown_spec (fun k => lt (d.cell a) (d.cell k)) i' (by omega)
      j u2
    generalize scanDown (fun k => lt (d.cell a) (d.cell k)) i' j = j' at v1 v2 v3 v4
    have hpa : key (d.cell a) ≤ P := hlo a (le_refl a) hai
    have hlo' : ∀ k, a ≤ k → k < i' → key (d.cell k) ≤ P := by
      intro k hk hk'
      by_cases e : k < i
      · exact hlo k hk e
      · have := u3 k (by omega) hk'
        have : ¬ (lt (d.cell a) (d.cell k) = true) := by simpa using this
        have := (not_lt_iff_of_key hlt _ _).mp this
        omega
    by_cases h : i' > j'
    · rw [if_pos h]
      exact ⟨SwapReach.refl d, by omega, by omega, hlo'⟩
    · rw [if_neg h]
      have hi'a : key (d.cell a) < key (d.cell i') := by
        have := u4 (by omega)
        have : lt (d.cell a) (d.cell i') = true := by simpa using this
        exact (lt_iff_of_key hlt _ _).mp this
      have hj'a : key (d.cell j') ≤ key (d.cell a) := by
        have := v4 (by omega)
        have : ¬ (lt (d.cell a) (d.cell j') = true) := by simpa using this
        exact (not_lt_iff_of_key hlt _ _).mp this
      have hne : i' ≠ j' := by
        intro e
        rw [e] at hi'a
        omega
      obtain ⟨r1, r2, r3, r4⟩ := ih (i' + 1) (j' - 1) (swapCells d i' j') (by omega)
        (by omega) (by omega)
        (by
          intro k hk hk'
          rw [swapCells_cell]
          split_ifs
          · omega
          · omega
          · exact hlo' k hk (by omega))
      exact ⟨(SwapReach.swap d i' j' (by omega) (by omega) (by omega) (by omega)).trans r1,
        r2, r3, r4⟩

/-- The function `partitionEqual_func`, called when the pivot is not above the cell before the
range: the cells before the index it returns are not above that cell either. -/
theorem partitionEqual_func_spec {α : Type} (lt : α → α → Bool) (key : α → Int)
    (hlt : ∀ x y, lt x y = decide (key x < key y)) (d : Mem α) (a b pivot : Nat) (P : Int)
    (hap : a ≤ pivot) (hpb : pivot < b) (hP : key (d.cell pivot) ≤ P) :
    SwapReach a b d (partitionEqual_func lt d a b pivot).1 ∧
      a < (partitionEqual_func lt d a b pivot).2 ∧ (partitionEqual_func lt d a b pivot).2 ≤ b ∧
      (∀ k, a ≤ k → k < (partitionEqual_func lt d a b pivot).2 →
        key ((partitionEqual_func lt d a b pivot).1.cell k) ≤ P) := by
  unfold partitionEqual_func
  obtain ⟨r1, r2, r3, r4⟩ := partitionEqualLoop_spec lt key hlt a b P (b - a) (a + 1) (b - 1)
    (swapCells d a pivot) (by omega) (by omega) (by omega)
    (by
      intro k hk hk'
      have : k = a := by omega
      rw [this, swapCells_cell, if_pos rfl]
      exact hP)
  exact ⟨(SwapReach.swap d a pivot (le_refl a) (by omega) hap hpb).trans
    (r1.mono (by omega) (le_refl _)), r2, r3, r4⟩

/-! ## The quicksort -/

/-- Two sorted halves around a cell that separates them make a sorted range. -/
theorem sortedOn_join {α : Type} (key : α → Int) (a mid b : Nat) (d : Mem α)
    (h1 : SortedOn key a mid d) (h2 : SortedOn key (mid + 1) b d)
    (h3 : ∀ k, a ≤ k → k < mid → key (d.cell k) ≤ key (d.cell mid))
    (h4 : ∀ k, mid < k → k < b → key (d.cell mid) ≤ key (d.cell k)) : SortedOn key a b d := by
  intro p q hp hpq hq
  by_cases c1 : q < mid
  · exact h1 p q hp hpq c1
  · by_cases c2 : mid < p
    · exact h2 p q (by omega) hpq hq
    · by_cases c3 : p = mid
      · by_cases c4 : q = mid
        · rw [c3, c4]
        · rw [c3]
          exact h4 q (by omega) hq
      · by_cases c4 : q = mid
        · rw [c4]
          exact h3 p hp (by omega)
        · exact le_trans (h3 p hp (by omega)) (h4 q (by omega) hq)

/-- The function `pdqsort_func` sorts `data[a:b]`, provided the cell before the range, when
there is one, is not above the cells of the range (which holds at every call). -/
theorem pdqsort_func_spec {α : Type} (lt : α → α → Bool) (key : α → Int)
    (hlt : ∀ x y, lt x y = decide (key x < key y)) :
    ∀ (fuel : Nat) (d : Mem α) (a b limit : Nat) (wasBalanced wasPartitioned : Bool),
      a ≤ b → b - a < fuel → LowerBound key a b d →
      SwapReach a b d (pdqsort_func lt fuel d a b limit wasBalanced wasPartitioned) ∧
        SortedOn key a b (pdqsort_func lt fuel d a b limit wasBalanced wasPartitioned) := by
  intro fuel
  induction fuel with
  | zero =>
    intro d a b limit wb wp _ hf _
    omega
  | succ fuel ih =>
    intro d a b limit wb wp hab hf hl
    unfold pdqsort_func
    simp only []
    by_cases c1 : b - a ≤ 12
    · rw [if_pos c1]
      exact insertionSort_func_spec lt key hlt d a b
    rw [if_neg c1]
    by_cases c2 : limit = 0
    · rw [if_pos c2]
      exact heapSort_func_spec lt key hlt d a b hab
    rw [if_neg c2]
    -- breakPatterns
    have hd1 : SwapReach a b d (if (!wb) = true then breakPatterns_func d a b else d) := by
      split_ifs
      · exact breakPatterns_func_reach d a b
      · exact SwapReach.refl d
    generalize (if (!wb) = true then breakPatterns_func d a b else d) = d1 at hd1
    generalize (if (!wb) = true then limit - 1 else limit) = limit1
    -- choosePivot and reverseRange
    have hph := choosePivot_func_mem lt d1 a b (by omega)
    generalize choosePivot_func lt d1 a b = ph at hph
    have hd2 : SwapReach a b d1
        (if decide (ph.2 = sortedHint.decreasingHint) = true then reverseRange_func d1 a b
          else d1) := by
      split_ifs
      · exact reverseRange_func_reach d1 a b (by omega)
      · exact SwapReach.refl d1
    generalize (if decide (ph.2 = sortedHint.decreasingHint) = true then reverseRange_func d1 a b
          else d1) = d2 at hd2
    have hpv : a ≤ (if decide (ph.2 = sortedHint.decreasingHint) = true then b - 1 - (ph.1 - a)
          else ph.1) ∧
        (if decide (ph.2 = sortedHint.decreasingHint) = true then b - 1 - (ph.1 - a)
          else ph.1) < b := by
      split_ifs <;> omega
    generalize (if decide (ph.2 = sortedHint.decreasingHint) = true then b - 1 - (ph.1 - a)
          else ph.1) = pivot at hpv
    generalize (if decide (ph.2 = sortedHint.decreasingHint) = true
      then sortedHint.increasingHint else ph.2) = hint
    have hl2 : LowerBound key a b d2 := (hd1.trans hd2).lowerBound hl
    -- partialInsertionSort
    obtain ⟨q1, q2⟩ := partialInsertionSort_func_spec lt key hlt d2 a b (by omega) hl2
    generalize partialInsertionSort_func lt d2 a b = pis at q1 q2
    generalize (wb && wp && decide (hint = sortedHint.increasingHint)) = tryInsertion
    by_cases c3 : (tryInsertion && pis.2) = true
    · rw [if_pos c3]
      have : pis.2 = true := by
        cases tryInsertion <;> simp_all
      exact ⟨(hd1.trans hd2).trans q1, q2 this⟩
    rw [if_neg c3]
    have hd3 : SwapReach a b d2 (if tryInsertion = true then pis.1 else d2) := by
      split_ifs
      · exact q1
      · exact SwapReach.refl d2
    generalize (if tryInsertion = true then pis.1 else d2) = d3 at hd3
    have hr3 : SwapReach a b d d3 := (hd1.trans hd2).trans hd3
    have hl3 : LowerBound key a b d3 := hr3.lowerBound hl
    by_cases c4 : 0 < a ∧ (!lt (d3.cell (a - 1)) (d3.cell pivot)) = true
    · -- partitionEqual
      rw [if_pos c4]
      have hP : key (d3.cell pivot) ≤ key (d3.cell (a - 1)) := by
        have : ¬ (lt (d3.cell (a - 1)) (d3.cell pivot) = true) := by simpa using c4.2
        exact (not_lt_iff_of_key hlt _ _).mp this
      obtain ⟨e1, e2, e3, e4⟩ := partitionEqual_func_spec lt key hlt d3 a b pivot
        (key (d3.cell (a - 1))) hpv.1 hpv.2 hP
      generalize partitionEqual_func lt d3 a b pivot = pe at e1 e2 e3 e4
      have hl4 : LowerBound key a b pe.1 := e1.lowerBound hl3
      have hprev : pe.1.cell (a - 1) = d3.cell (a - 1) := e1.frame (a - 1) (by omega)
      obtain ⟨s1, s2⟩ := ih pe.1 pe.2 b limit1 wb wp e3 (by omega)
        (by
          intro _ k hk hk'
          have h5 := e4 (pe.2 - 1) (by omega) (by omega)
          have h6 := hl4 c4.1 k (by omega) hk'
          rw [hprev] at h6
          omega)
      refine ⟨hr3.trans (e1.trans (s1.mono (by omega) (le_refl _))), ?_⟩
      intro p q hp hpq hq
      by_cases c5 : pe.2 ≤ p
      · exact s2 p q c5 hpq hq
      · have hp' : key ((pdqsort_func lt fuel pe.1 pe.2 b limit1 wb wp).cell p)
            ≤ key (d3.cell (a - 1)) := by
          rw [s1.frame p (by omega)]
          exact e4 p hp (by omega)
        have hall := ((e1.trans (s1.mono (by omega) (le_refl _))).lowerBound hl3) c4.1 q
          (by omega) hq
        rw [(e1.trans (s1.mono (by omega) (le_refl _))).frame (a - 1) (by omega)] at hall
        omega
    · -- partition
      rw [if_neg c4]
      obtain ⟨t1, t2, t3, t4, t5⟩ := partition_func_spec lt key hlt d3 a b pivot hpv.1 hpv.2
      generalize partition_func lt d3 a b pivot = pt at t1 t2 t3 t4 t5
      have hl4 : LowerBound key a b pt.1 := t1.lowerBound hl3
      by_cases c5 : pt.2.1 - a < b - pt.2.1
      · rw [if_pos c5]
        -- the left part first
        obtain ⟨s1, s2⟩ := ih pt.1 a pt.2.1 limit1 true true t2 (by omega)
          (fun ha k hk hk' => hl4 ha k hk (by omega))
        generalize pdqsort_func lt fuel pt.1 a pt.2.1 limit1 true true = d4 at s1 s2
        have hmid4 : d4.cell pt.2.1 = pt.1.cell pt.2.1 := s1.frame _ (by omega)
        obtain ⟨u1, u2⟩ := ih d4 (pt.2.1 + 1) b limit1
          (decide (pt.2.1 - a ≥ (b - a) / 8)) pt.2.2 (by omega) (by omega)
          (by
            intro _ k hk hk'
            rw [Nat.add_sub_cancel, hmid4, s1.frame k (by omega)]
            exact t5 k (by omega) hk')
        generalize pdqsort_func lt fuel d4 (pt.2.1 + 1) b limit1
          (decide (pt.2.1 - a ≥ (b - a) / 8)) pt.2.2 = d5 at u1 u2
        have hmid5 : d5.cell pt.2.1 = pt.1.cell pt.2.1 := by
          rw [u1.frame _ (by omega), hmid4]
        refine ⟨hr3.trans (t1.trans ((s1.mono (le_refl _) (by omega)).trans
          (u1.mono (by omega) (le_refl _)))), ?_⟩
        apply sortedOn_join key a pt.2.1 b d5
        · intro p q hp hpq hq
          rw [u1.frame p (by omega), u1.frame q (by omega)]
          exact s2 p q hp hpq hq
        · exact u2
        · intro k hk hk'
          rw [hmid5, u1.frame k (by omega)]
          exact s1.forall (fun v => key v ≤ key (pt.1.cell pt.2.1)) t4 k hk hk'
        · intro k hk hk'
          rw [hmid5]
          have h4 : ∀ k, pt.2.1 + 1 ≤ k → k < b → key (pt.1.cell pt.2.1) ≤ key (d4.cell k) := by
            intro k hk hk'
            rw [s1.frame k (by omega)]
            exact t5 k (by omega) hk'
          exact u1.forall (fun v => key (pt.1.cell pt.2.1) ≤ key v) h4 k (by omega) hk'
      · rw [if_neg c5]
        -- the right part first
        obtain ⟨s1, s2⟩ := ih pt.1 (pt.2.1 + 1) b limit1 true true (by omega) (by omega)
          (by
            intro _ k hk hk'
            rw [Nat.add_sub_cancel]
            exact t5 k (by omega) hk')
        generalize pdqsort_func lt fuel pt.1 (pt.2.1 + 1) b limit1 true true = d4 at s1 s2
        have hmid4 : d4.cell pt.2.1 = pt.1.cell pt.2.1 := s1.frame _ (by omega)
        obtain ⟨u1, u2⟩ := ih d4 a pt.2.1 limit1
          (decide (b - pt.2.1 ≥ (b - a) / 8)) pt.2.2 t2 (by omega)
          (by
            intro ha k hk hk'
            rw [s1.frame (a - 1) (by omega), s1.frame k (by omega)]
            exact hl4 ha k hk (by omega))
        generalize pdqsort_func lt fuel d4 a pt.2.1 limit1
          (decide (b - pt.2.1 ≥ (b - a) / 8)) pt.2.2 = d5 at u1 u2
        have hmid5 : d5.cell pt.2.1 = pt.1.cell pt.2.1 := by
          rw [u1.frame _ (by omega), hmid4]
        refine ⟨hr3.trans (t1.trans ((s1.mono (by omega) (le_refl _)).trans
          (u1.mono (le_refl _) (by omega)))), ?_⟩
        apply sortedOn_join key a pt.2.1 b d5
        · exact u2
        · intro p q hp hpq hq
          rw [u1.frame p (by omega), u1.frame q (by omega)]
          exact s2 p q hp hpq hq
        · intro k hk hk'
          rw [hmid5]
          have h4 : ∀ k, a ≤ k → k < pt.2.1 → key (d4.cell k) ≤ key (pt.1.cell pt.2.1) := by
            intro k hk hk'
            rw [s1.frame k (by omega)]
            exact t4 k hk hk'
          exact u1.forall (fun v => key v ≤ key (pt.1.cell pt.2.1)) h4 k hk hk'
        · intro k hk hk'
          rw [hmid5, u1.frame k (by omega)]
          exact s1.forall (fun v => key (pt.1.cell pt.2.1) ≤ key v)
            (fun k hk hk' => t5 k (by omega) hk') k (by omega) hk'

/-! ## `sort.Slice` on lists -/

theorem Mem.toList_ofList {α : Type} (dflt : α) (xs : List α) :
    (Mem.ofList dflt xs).toList xs.length = xs := by
  apply List.ext_getElem
  · simp [Mem.toList]
  · intro i h1 h2
    simp [Mem.toList, Mem.ofList, List.getD_eq_getElem?_getD, List.getElem?_eq_getElem h2]

theorem sortSlice_eq {α : Type} (dflt : α) (lt : α → α → Bool) (xs : List α) :
    sortSlice dflt lt xs =
      (pdqsort_func lt (xs.length + 1) (Mem.ofList dflt xs) 0 xs.length (bitsLen xs.length)
        true true).toList xs.length := rfl

/-- The slice after `sort.Slice` holds the elements it held before, in non-decreasing order of
their keys. -/
theorem sortSlice_perm_sorted {α : Type} (dflt : α) (lt : α → α → Bool) (key : α → Int)
    (hlt : ∀ x y, lt x y = decide (key x < key y)) (xs : List α) :
    (sortSlice dflt lt xs).Perm xs ∧
      (sortSlice dflt lt xs).Pairwise (fun x y => key x ≤ key y) := by
  obtain ⟨r1, r2⟩ := pdqsort_func_spec lt key hlt (xs.length + 1) (Mem.ofList dflt xs) 0
    xs.length (bitsLen xs.length) true true (Nat.zero_le _) (by omega)
    (fun h => absurd h (lt_irrefl 0))
  rw [sortSlice_eq]
  generalize pdqsort_func lt (xs.length + 1) (Mem.ofList dflt xs) 0 xs.length
    (bitsLen xs.length) true true = d' at r1 r2
  constructor
  · have := r1.perm (le_refl xs.length)
    rw [Mem.toList_ofList] at this
    exact this
  · unfold Mem.toList
    rw [List.pairwise_map]
    apply List.Pairwise.imp_of_mem _ (List.pairwise_lt_range xs.length)
    intro i j _ hj hij
    exact r2 i j (Nat.zero_le i) (le_of_lt hij) (List.mem_range.mp hj)

/-! ## Short slices: the order of equal keys -/

theorem filter_pair_swap {α : Type} (p : α → Bool) (x y : α) (h : ¬ (p x = true ∧ p y = true)) :
    [x, y].filter p = [y, x].filter p := by
  cases hx : p x <;> cases hy : p y <;> simp_all

/-- Exchanging two adjacent cells of different keys changes no list of the cells of one
key. -/
theorem swap_adjacent_filter {α : Type} (key : α → Int) (d : Mem α) (j : Nat)
    (hne : key (d.cell (j + 1)) ≠ key (d.cell j)) (v : Int) (m : Nat) :
    ((swapCells d (j + 1) j).toList (j + 2 + m)).filter (fun x => decide (key x = v)) =
      (d.toList (j + 2 + m)).filter (fun x => decide (key x = v)) := by
  induction m with
  | zero =>
    have e1 : (swapCells d (j + 1) j).toList j = d.toList j := by
      apply Mem.toList_congr
      intro k hk
      rw [swapCells_cell, if_neg (by omega), if_neg (by omega)]
    have e2 : (swapCells d (j + 1) j).cell j = d.cell (j + 1) := by
      rw [swapCells_cell, if_neg (by omega), if_pos rfl]
    have e3 : (swapCells d (j + 1) j).cell (j + 1) = d.cell j := by
      rw [swapCells_cell, if_pos rfl]
    show ((swapCells d (j + 1) j).toList (j + 1 + 1)).filter _ = (d.toList (j + 1 + 1)).filter _
    rw [Mem.toList_succ, Mem.toList_succ, Mem.toList_succ, Mem.toList_succ, e1, e2, e3]
    simp only [List.append_assoc, List.singleton_append, List.filter_append]
    congr 1
    apply filter_pair_swap
    rintro ⟨h1, h2⟩
    simp only [decide_eq_true_eq] at h1 h2
    omega
  | succ m ih =>
    have e : (swapCells d (j + 1) j).cell (j + 2 + m) = d.cell (j + 2 + m) := by
      rw [swapCells_cell, if_neg (by omega), if_neg (by omega)]
    show ((swapCells d (j + 1) j).toList (j + 2 + m + 1)).filter _ =
      (d.toList (j + 2 + m + 1)).filter _
    rw [Mem.toList_succ, Mem.toList_succ, List.filter_append, List.filter_append, ih, e]

theorem shiftLeft_filter {α : Type} (lt : α → α → Bool) (key : α → Int)
    (hlt : ∀ x y, lt x y = decide (key x < key y)) (lo n : Nat) (v : Int) :
    ∀ (j : Nat) (d : Mem α), j < n →
      ((shiftLeft lt lo j d).toList n).filter (fun x => decide (key x = v)) =
        (d.toList n).filter (fun x => decide (key x = v)) := by
  intro j
  induction j with
  | zero =>
    intro d _
    rfl
  | succ j ih =>
    intro d hj
    unfold shiftLeft
    split_ifs with hc
    · rw [ih _ (by omega)]
      have hk := (lt_iff_of_key hlt _ _).mp hc.2
      have := swap_adjacent_filter key d j (by omega) v (n - (j + 2))
      have e : j + 2 + (n - (j + 2)) = n := by omega
      rw [e] at this
      exact this
    · rfl

theorem insertionLoop_filter {α : Type} (lt : α → α → Bool) (key : α → Int)
    (hlt : ∀ x y, lt x y = decide (key x < key y)) (a b n : Nat) (hb : b ≤ n) (v : Int) :
    ∀ (fuel i : Nat) (d : Mem α),
      ((insertionLoop lt a b fuel i d).toList n).filter (fun x => decide (key x = v)) =
        (d.toList n).filter (fun x => decide (key x = v)) := by
  intro fuel
  induction fuel with
  | zero =>
    intro i d
    rfl
  | succ fuel ih =>
    intro i d
    unfold insertionLoop
    split_ifs with hc
    · rw [ih, shiftLeft_filter lt key hlt a n v i d (by omega)]
    · rfl

/-- On a slice of at most twelve elements `sort.Slice` is an insertion sort: the elements of
equal keys keep their order. -/
theorem sortSlice_filter_of_short {α : Type} (dflt : α) (lt : α → α → Bool) (key : α → Int)
    (hlt : ∀ x y, lt x y = decide (key x < key y)) (xs : List α) (h : xs.length ≤ 12) (v : Int) :
    (sortSlice dflt lt xs).filter (fun x => decide (key x = v)) =
      xs.filter (fun x => decide (key x = v)) := by
  rw [sortSlice_eq]
  unfold pdqsort_func
  simp only []
  rw [if_pos (by omega)]
  unfold insertionSort_func
  rw [insertionLoop_filter lt key hlt 0 xs.length xs.length (le_refl _) v, Mem.toList_ofList]

/-! ## The payment plan section: the order of the rows -/

theorem copySlice_make (plan : List PaymentInstallment) :
    copySlice (makeInstallments plan.length) plan = plan := by
  simp [copySlice, makeInstallments]

theorem installmentLess_key (x y : PaymentInstallment) :
    installmentLess x y = decide (x.InstallmentNumber < y.InstallmentNumber) := rfl

theorem foldl_rows (up : Char → Char) (rows : List PaymentInstallment) (pdf : List Op) :
    rows.foldl (fun pdf installment => pdf ++ installmentRow up installment) pdf =
      pdf ++ (rows.map (installmentRow up)).flatten := by
  induction rows generalizing pdf with
  | nil => simp
  | cons r rs ih => simp [ih]

/-- C7: the rows that `addPaymentPlanSection` writes are the rows of the installments of a list
`orderedInstallments plan`, one row each and in the order of that list, which is a permutation
of the plan in non-decreasing order of `InstallmentNumber`; an empty plan writes nothing. -/
theorem addPaymentPlanSection_rows (up : Char → Char) (pdf : List Op)
    (plan : List PaymentInstallment) :
    (orderedInstallments plan).Perm plan ∧
      (orderedInstallments plan).Pairwise
        (fun x y => x.InstallmentNumber ≤ y.InstallmentNumber) ∧
      (plan ≠ [] → (addPaymentPlanSection up pdf plan).1 =
        addSectionHeader pdf "Payment Plan".toList ++ paymentTableHead ++
          ((orderedInstallments plan).map (installmentRow up)).flatten ++ [Op.Ln 6]) ∧
      (plan = [] → (addPaymentPlanSection up pdf plan).1 = pdf) := by
  have h := sortSlice_perm_sorted PaymentInstallment.zero installmentLess
    PaymentInstallment.InstallmentNumber installmentLess_key plan
  refine ⟨?_, ?_, ?_, ?_⟩
  · unfold orderedInstallments
    simp only [copySlice_make]
    exact h.1
  · unfold orderedInstallments
    simp only [copySlice_make]
    exact h.2
  · intro hne
    have hlen : ¬ plan.length = 0 := by
      intro h0
      exact hne (List.length_eq_zero.mp h0)
    unfold addPaymentPlanSection
    simp only [if_neg hlen, foldl_rows]
  · intro he
    subst he
    rfl

/-- The thirteen installments of `samplePlan13` come out of `sort.Slice` with the installments
of number 2 in another order than in the plan. -/
theorem orderedInstallments_samplePlan13 :
    (orderedInstallments samplePlan13).map PaymentInstallment.Status =
      ["m", "g", "c", "d", "e", "f", "a", "h", "i", "j", "k", "l", "b"].map String.toList := by
  decide

/-- The sort of the installments is not stable: in the rows of `samplePlan13` the installment
of status "g" precedes the installment of status "a", which has the same number and precedes
it in the plan. -/
theorem orderedInstallments_not_stable :
    ¬ keepsInputOrder samplePlan13 (orderedInstallments samplePlan13) := by
  intro h
  have h2 := congrArg (List.map PaymentInstallment.Status) (h 2)
  revert h2
  decide

/-- C8: the installments are sorted by `sort.Slice`, which keeps the input order of the
installments of equal `InstallmentNumber` whenever the plan has at most twelve installments
(the sort is then an insertion sort). -/
theorem orderedInstallments_stable_of_short (plan : List PaymentInstallment)
    (h : plan.length ≤ 12) : keepsInputOrder plan (orderedInstallments plan) := by
  intro n
  unfold orderedInstallments
  simp only [copySlice_make]
  exact sortSlice_filter_of_short PaymentInstallment.zero installmentLess
    PaymentInstallment.InstallmentNumber installmentLess_key plan h n

/-- The statement C8 at a plan of three installments, two of them of number 2. -/
theorem orderedInstallments_stable_of_short_witness :
    keepsInputOrder
      [sampleInstallment 2 "a".toList, sampleInstallment 1 "b".toList,
        sampleInstallment 2 "c".toList]
      (orderedInstallments [sampleInstallment 2 "a".toList, sampleInstallment 1 "b".toList,
        sampleInstallment 2 "c".toList]) :=
  orderedInstallments_stable_of_short _ (by decide)

/-! ## Formatting helpers: amounts, dates and title case -/

theorem sprintD_of_nonneg (x : Int) (h : 0 ≤ x) : sprintD x = decimal x.toNat := by
  obtain ⟨n, rfl⟩ := Int.eq_ofNat_of_zero_le h
  have hneg : ¬ ((n : Int) < 0) := by omega
  unfold sprintD appendInt
  simp [hneg]

theorem digitChar_ne_zero (k : Nat) (h1 : 1 ≤ k) (h2 : k ≤ 9) : digitChar k ≠ '0' := by
  intro h
  have := congrArg Char.toNat h
  rw [digitChar_toNat] at this
  have e : ('0' : Char).toNat = 48 := rfl
  omega

/-- The numeral of a positive number below 100 does not begin with `0`. -/
theorem decimal_head_ne_zero (d : Nat) (h1 : 1 ≤ d) (h2 : d ≤ 99) :
    (decimal d).head? ≠ some '0' := by
  by_cases c : d < 10
  · rw [decimal_one_digit d c]
    simp only [List.head?_cons, ne_eq, Option.some.injEq]
    exact digitChar_ne_zero d h1 (by omega)
  · rw [decimal_two_digits d (by omega) (by omega)]
    simp only [List.head?_cons, ne_eq, Option.some.injEq]
    exact digitChar_ne_zero (d / 10) (by omega) (by omega)

theorem clock_bounds (t : Time) : t.Clock.1 ≤ 23 ∧ t.Clock.2.1 ≤ 59 := by
  unfold Time.Clock
  simp only []
  have h1 : 0 ≤ (t.sec + t.offset) % 86400 := Int.emod_nonneg _ (by decide)
  have h2 : (t.sec + t.offset) % 86400 < 86400 := Int.emod_lt_of_pos _ (by decide)
  omega

/-- C18: `formatDate` returns "-" for the zero date and otherwise the abbreviation of the
month, a space, the day of the month without leading zero, a comma and a space, and the year
(a date on 2024-01-02 gives "Jan 2, 2024"); `formatDateTime` returns "-" for the zero date and
otherwise the text of `formatDate`, a space, and the hour (00 to 23), a colon and the minute on
two digits each. -/
theorem formatDate_formatDateTime (t : Time) :
    (t.IsZero = true → formatDate t = "-".toList ∧ formatDateTime t = "-".toList) ∧
    (t.IsZero = false →
      1 ≤ t.Date.2.1 ∧ t.Date.2.1 ≤ 12 ∧ 1 ≤ t.Date.2.2 ∧ t.Date.2.2 ≤ 31 ∧
      t.Clock.1 ≤ 23 ∧ t.Clock.2.1 ≤ 59 ∧
      formatDate t = monthAbbrev t.Date.2.1 ++ " ".toList ++ decimal t.Date.2.2 ++ ", ".toList
        ++ appendInt t.Date.1 4 ∧
      (decimal t.Date.2.2).head? ≠ some '0' ∧
      formatDateTime t = formatDate t ++ " ".toList ++
        [digitChar (t.Clock.1 / 10), digitChar t.Clock.1, ':',
          digitChar (t.Clock.2.1 / 10), digitChar t.Clock.2.1]) ∧
    (List.range 12).map (fun i => monthAbbrev (i + 1)) =
      ["Jan", "Feb", "Mar", "Apr", "May", "Jun", "Jul", "Aug", "Sep", "Oct", "Nov",
        "Dec"].map String.toList ∧
    (t.IsZero = false → t.Date = (2024, 1, 2) → formatDate t = "Jan 2, 2024".toList) := by
  have hb := civilFromDays_bounds t.localDay
  have hc := clock_bounds t
  have hfmt : t.FormatMonthDayYear = monthAbbrev t.Date.2.1 ++ " ".toList ++ decimal t.Date.2.2
      ++ ", ".toList ++ appendInt t.Date.1 4 := by
    unfold Time.FormatMonthDayYear
    have : appendInt (t.Date.2.2 : Int) 0 = decimal t.Date.2.2 := by
      have := sprintD_of_nonneg (t.Date.2.2 : Int) (by omega)
      simpa [sprintD] using this
    simp only [this]
    simp
  refine ⟨?_, ?_, by decide, ?_⟩
  · intro hz
    unfold formatDate formatDateTime
    simp [hz]
  · intro hz
    have hfd : formatDate t = t.FormatMonthDayYear := by
      unfold formatDate
      simp [hz]
    refine ⟨hb.1, hb.2.1, hb.2.2.1, hb.2.2.2, hc.1, hc.2, by rw [hfd, hfmt], ?_, ?_⟩
    · exact decimal_head_ne_zero _ hb.2.2.1 (by have := hb.2.2.2; unfold Time.Date; omega)
    · unfold formatDateTime Time.FormatMonthDayYearClock
      simp only [hz, Bool.false_eq_true, if_false]
      rw [hfd, appendInt_two t.Clock.1 (by omega), appendInt_two t.Clock.2.1 (by omega)]
      simp
  · intro hz hd
    unfold formatDate
    simp only [hz, Bool.false_eq_true, if_false]
    unfold Time.FormatMonthDayYear
    rw [hd]
    rfl

/-- The rounding of `hundredths`: the number of hundredths is within one half of a hundred
times the magnitude, and even when it is exactly one half away. -/
theorem hundredths_round (x : Float64) :
    |(hundredths x : ℚ) - 100 * x.magnitude| ≤ 1 / 2 ∧
      (|(hundredths x : ℚ) - 100 * x.magnitude| = 1 / 2 → hundredths x % 2 = 0) := by
  unfold hundredths Float64.magnitude
  by_cases he : 0 ≤ x.exp
  · simp only [if_pos he]
    have e : ((x.mant * 2 ^ x.exp.toNat * 100 : Nat) : ℚ) - 100 * ((x.mant : ℚ) * 2 ^ x.exp.toNat)
        = 0 := by
      push_cast
      ring
    rw [e]
    norm_num
  · simp only [if_neg he]
    set den := 2 ^ (-x.exp).toNat with hden
    set num := x.mant * 100 with hnum
    have hdpos : 0 < den := by positivity
    have hdq : (0 : ℚ) < (den : ℚ) := by exact_mod_cast hdpos
    have hdiv : num = den * (num / den) + num % den := (Nat.div_add_mod num den).symm
    have hr : num % den < den := Nat.mod_lt _ hdpos
    have hmag : 100 * ((x.mant : ℚ) / ((2 : ℚ) ^ (-x.exp).toNat)) = (num : ℚ) / (den : ℚ) := by
      rw [hnum, hden]
      push_cast
      ring
    rw [hmag]
    have hnq : (num : ℚ) = (den : ℚ) * ((num / den : Nat) : ℚ) + ((num % den : Nat) : ℚ) := by
      exact_mod_cast hdiv
    generalize num / den = q at *
    generalize num % den = r at *
    have hval : (num : ℚ) / (den : ℚ) = (q : ℚ) + (r : ℚ) / (den : ℚ) := by
      rw [hnq]
      field_simp
      ring
    rw [hval]
    have hrq : (0 : ℚ) ≤ (r : ℚ) / (den : ℚ) := by positivity
    have hrq1 : (r : ℚ) / (den : ℚ) < 1 := by
      rw [div_lt_one hdq]
      exact_mod_cast hr
    split_ifs with hc
    · have h2 : (den : ℚ) ≤ 2 * (r : ℚ) := by
        rcases hc with hc | hc
        · exact_mod_cast le_of_lt hc
        · exact_mod_cast le_of_eq hc.1.symm
      have h3 : 1 / 2 ≤ (r : ℚ) / (den : ℚ) := by
        rw [le_div_iff₀ hdq]
        linarith
      have e : ((q + 1 : Nat) : ℚ) - ((q : ℚ) + (r : ℚ) / (den : ℚ)) = 1 - (r : ℚ) / (den : ℚ) := by
        push_cast
        ring
      rw [e, abs_of_nonneg (by linarith)]
      refine ⟨by linarith, ?_⟩
      intro heq
      have h4 : (r : ℚ) / (den : ℚ) = 1 / 2 := by linarith
      have h5 : 2 * (r : ℚ) = (den : ℚ) := by
        field_simp at h4
        linarith
      have h6 : 2 * r = den := by exact_mod_cast h5
      rcases hc with hc | hc
      · omega
      · omega
    · have h2 : 2 * r ≤ den := by
        by_contra hcon
        exact hc (Or.inl (by omega))
      have h3 : (r : ℚ) / (den : ℚ) ≤ 1 / 2 := by
        rw [div_le_iff₀ hdq]
        have : (2 * r : ℚ) ≤ (den : ℚ) := by exact_mod_cast h2
        linarith
      have e : (q : ℚ) - ((q : ℚ) + (r : ℚ) / (den : ℚ)) = -((r : ℚ) / (den : ℚ)) := by ring
      rw [e, abs_neg, abs_of_nonneg hrq]
      refine ⟨h3, ?_⟩
      intro heq
      have h5 : 2 * (r : ℚ) = (den : ℚ) := by
        field_simp at heq
        linarith
      have h6 : 2 * r = den := by exact_mod_cast h5
      by_contra hodd
      exact hc (Or.inr ⟨h6, by omega⟩)

/-- The input " car " is not blank, and `toTitleCase` returns "Car" for it, which is not the
input in lower case with its first character in upper case. -/
theorem toTitleCase_trims :
    (∃ c ∈ " car ".toList, isSpace c = false) ∧
      toTitleCase sampleLowerTable sampleUpperTable " car ".toList = "Car".toList ∧
      toTitleCase sampleLowerTable sampleUpperTable " car ".toList ≠
        titleCaseOfInput sampleLowerTable sampleUpperTable " car ".toList := by
  refine ⟨⟨'c', by decide, by decide⟩, by decide, by decide⟩

/-! ## The sections of the document: what each one appends -/

theorem addSectionHeader_append (pdf : List Op) (title : List Char) :
    addSectionHeader pdf title = pdf ++ addSectionHeader [] title := by
  unfold addSectionHeader drawDivider
  split_ifs <;> simp

theorem addLabelValue_append (pdf : List Op) (label value : List Char) :
    addLabelValue pdf label value = pdf ++ addLabelValue [] label value := by
  unfold addLabelValue
  split_ifs <;> simp

theorem addHeader_append (pdf : List Op) (itinerary : Itinerary) :
    addHeader pdf itinerary = pdf ++ addHeader [] itinerary := by
  unfold addHeader drawDivider
  simp

theorem addLabelValue_append_left (before pdf : List Op) (label value : List Char) :
    addLabelValue (before ++ pdf) label value = before ++ addLabelValue pdf label value := by
  unfold addLabelValue
  split_ifs <;> simp

theorem addMetadataSection_append (pdf : List Op) (itinerary : Itinerary) :
    addMetadataSection pdf itinerary = pdf ++ addMetadataSection [] itinerary := by
  unfold addMetadataSection
  simp only []
  rw [addSectionHeader_append pdf]
  simp only [addLabelValue_append_left, List.append_assoc]

theorem addDescriptionSection_append (pdf : List Op) (description : List Char) :
    addDescriptionSection pdf description = pdf ++ addDescriptionSection [] description := by
  unfold addDescriptionSection
  simp only []
  rw [addSectionHeader_append]
  simp only [List.append_assoc]

theorem addHotelsSection_append (pdf : List Op) (hotels : List Hotel) :
    addHotelsSection pdf hotels = pdf ++ addHotelsSection [] hotels := by
  unfold addHotelsSection
  split_ifs
  · simp
  · simp only []
    rw [addSectionHeader_append]
    simp only [List.append_assoc]

theorem addFlightsSection_append (pdf : List Op) (flights : List Flight) :
    addFlightsSection pdf flights = pdf ++ addFlightsSection [] flights := by
  unfold addFlightsSection
  split_ifs
  · simp
  · simp only []
    rw [addSectionHeader_append]
    simp only [List.append_assoc]

theorem addTransfersSection_append (low up : Char → Char) (pdf : List Op)
    (transfers : List Transfer) :
    addTransfersSection low up pdf transfers = pdf ++ addTransfersSection low up [] transfers := by
  unfold addTransfersSection
  split_ifs
  · simp
  · simp only []
    rw [addSectionHeader_append]
    simp only [List.append_assoc]

theorem addInclusionsExclusionsSection_append (pdf : List Op)
    (inclusions exclusions : List (List Char)) :
    addInclusionsExclusionsSection pdf inclusions exclusions =
      pdf ++ addInclusionsExclusionsSection [] inclusions exclusions := by
  unfold addInclusionsExclusionsSection
  split_ifs
  · simp
  · simp only []
    rw [addSectionHeader_append]
    simp only [List.append_assoc]

theorem addPaymentPlanSection_append (up : Char → Char) (pdf : List Op)
    (plan : List PaymentInstallment) :
    (addPaymentPlanSection up pdf plan).1 = pdf ++ (addPaymentPlanSection up [] plan).1 := by
  have hfold : ∀ (rows : List PaymentInstallment) (acc : List Op),
      rows.foldl (fun pdf installment => pdf ++ installmentRow up installment) acc =
        acc ++ rows.foldl (fun pdf installment => pdf ++ installmentRow up installment) [] := by
    intro rows
    induction rows with
    | nil => intro acc; simp
    | cons r rs ih =>
      intro acc
      rw [List.foldl_cons, ih, List.foldl_cons, ih ([] ++ installmentRow up r)]
      simp
  unfold addPaymentPlanSection
  split_ifs
  · simp
  · simp only []
    rw [hfold, addSectionHeader_append, hfold (orderedInstallments plan) (_ ++ paymentTableHead)]
    simp only [List.append_assoc]

theorem addDaySection_append (low up : Char → Char) (visit : List (List Char)) (pdf : List Op)
    (day : DayPlan) :
    addDaySection low up visit pdf day = pdf ++ addDaySection low up visit [] day := by
  unfold addDaySection
  split_ifs <;> simp

theorem addItineraryDetailsSection_append (low up : Char → Char)
    (visits : Nat → List (List Char)) (pdf : List Op) (days : List DayPlan) :
    addItineraryDetailsSection low up visits pdf days =
      pdf ++ addItineraryDetailsSection low up visits [] days := by
  unfold addItineraryDetailsSection
  simp only []
  rw [addSectionHeader_append]
  simp only [List.append_assoc]

theorem addFooter_append (pageNo : Int) (pdf : List Op) :
    addFooter pageNo pdf = pdf ++ addFooter pageNo [] := by
  unfold addFooter
  simp

/-! ## The titles and the plain cells of the sections -/

theorem titleCells_append (a b : List Op) : titleCells (a ++ b) = titleCells a ++ titleCells b := by
  unfold titleCells
  rw [List.filterMap_append]

theorem plainCells_append (a b : List Op) : plainCells (a ++ b) = plainCells a ++ plainCells b := by
  unfold plainCells
  rw [List.filterMap_append]

theorem titleCells_rangeOps {α : Type} (body : Nat → α → List Op)
    (h : ∀ idx x, titleCells (body idx x) = []) (idx : Nat) (xs : List α) :
    titleCells (rangeOps body idx xs) = [] := by
  induction xs generalizing idx with
  | nil => rfl
  | cons x xs ih => rw [rangeOps, titleCells_append, h, ih]; rfl

theorem plainCells_rangeOps {α : Type} (body : Nat → α → List Op)
    (h : ∀ idx x, plainCells (body idx x) = []) (idx : Nat) (xs : List α) :
    plainCells (rangeOps body idx xs) = [] := by
  induction xs generalizing idx with
  | nil => rfl
  | cons x xs ih => rw [rangeOps, plainCells_append, h, ih]; rfl

theorem titleCells_addSectionHeader (title : List Char) (h : title ≠ []) :
    titleCells (addSectionHeader [] title) = [title] := by
  unfold addSectionHeader drawDivider
  rw [if_neg h]
  rfl

theorem plainCells_addSectionHeader (title : List Char) :
    plainCells (addSectionHeader [] title) = [] := by
  unfold addSectionHeader drawDivider
  split_ifs <;> rfl

theorem titleCells_labelledLine (x w : Nat) (label value : List Char) :
    titleCells (labelledLine x w label value) = [] := by
  simp [titleCells, labelledLine]

theorem plainCells_labelledLine (x w : Nat) (label value : List Char) :
    plainCells (labelledLine x w label value) = [] := by
  simp [plainCells, labelledLine]

theorem titleCells_addHeader (itinerary : Itinerary) : titleCells (addHeader [] itinerary) = [] := by
  simp [titleCells, addHeader, drawDivider]

theorem plainCells_addHeader (itinerary : Itinerary) : plainCells (addHeader [] itinerary) = [] := by
  simp [plainCells, addHeader, drawDivider]

theorem titleCells_addLabelValue (label value : List Char) :
    titleCells (addLabelValue [] label value) = [] := by
  unfold addLabelValue
  split_ifs <;> simp [titleCells]

theorem plainCells_addLabelValue (label value : List Char) :
    plainCells (addLabelValue [] label value) = [] := by
  unfold addLabelValue
  split_ifs <;> simp [plainCells]

theorem addMetadataSection_eq (itinerary : Itinerary) :
    addMetadataSection [] itinerary =
      addSectionHeader [] "Trip Information".toList ++
        (addLabelValue [] "User ID".toList itinerary.UserID ++
          (addLabelValue [] "Location".toList itinerary.Location ++
            (addLabelValue [] "Start Date".toList (formatDate itinerary.StartDate) ++
              (addLabelValue [] "End Date".toList (formatDate itinerary.EndDate) ++
                (addLabelValue [] "Duration".toList
                  (sprintD itinerary.Days.length ++ " Days".toList) ++ [Op.Ln 6]))))) := by
  unfold addMetadataSection
  simp only []
  have h := addLabelValue_append_left
  rw [addLabelValue_append, addLabelValue_append _ "End Date".toList,
    addLabelValue_append _ "Start Date".toList, addLabelValue_append _ "Location".toList,
    addLabelValue_append _ "User ID".toList]
  simp only [List.append_assoc]

theorem titleCells_addMetadataSection (itinerary : Itinerary) :
    titleCells (addMetadataSection [] itinerary) = ["Trip Information".toList] := by
  rw [addMetadataSection_eq]
  simp only [titleCells_append, titleCells_addLabelValue,
    titleCells_addSectionHeader _ (by decide : "Trip Information".toList ≠ [])]
  rfl

theorem plainCells_addMetadataSection (itinerary : Itinerary) :
    plainCells (addMetadataSection [] itinerary) = [] := by
  rw [addMetadataSection_eq]
  simp only [plainCells_append, plainCells_addLabelValue, plainCells_addSectionHeader]
  rfl

theorem titleCells_addDescriptionSection (description : List Char) :
    titleCells (addDescriptionSection [] description) = ["Overview".toList] := by
  unfold addDescriptionSection
  simp only []
  rw [titleCells_append, titleCells_addSectionHeader _ (by decide)]
  rfl

theorem plainCells_addDescriptionSection (description : List Char) :
    plainCells (addDescriptionSection [] description) = [] := by
  unfold addDescriptionSection
  simp only []
  rw [plainCells_append, plainCells_addSectionHeader]
  rfl

theorem titleCells_hotelNightsLine (hotel : Hotel) : titleCells (hotelNightsLine hotel) = [] := by
  unfold hotelNightsLine
  split_ifs
  · exact titleCells_labelledLine _ _ _ _
  · exact titleCells_labelledLine _ _ _ _
  · rfl

theorem plainCells_hotelNightsLine (hotel : Hotel) : plainCells (hotelNightsLine hotel) = [] := by
  unfold hotelNightsLine
  split_ifs
  · exact plainCells_labelledLine _ _ _ _
  · exact plainCells_labelledLine _ _ _ _
  · rfl

theorem titleCells_hotelOps (idx total : Nat) (hotel : Hotel) :
    titleCells (hotelOps idx total hotel) = [] := by
  unfold hotelOps
  simp only [titleCells_append, titleCells_hotelNightsLine]
  split_ifs <;> rfl

theorem plainCells_hotelOps (idx total : Nat) (hotel : Hotel) :
    plainCells (hotelOps idx total hotel) = [] := by
  unfold hotelOps
  simp only [plainCells_append, plainCells_hotelNightsLine]
  split_ifs <;> rfl

theorem titleCells_addHotelsSection (hotels : List Hotel) (h : hotels ≠ []) :
    titleCells (addHotelsSection [] hotels) = ["Hotel Accommodations".toList] := by
  unfold addHotelsSection
  rw [if_neg (by simpa using h)]
  simp only []
  rw [titleCells_append, titleCells_append, titleCells_addSectionHeader _ (by decide),
    titleCells_rangeOps _ (fun idx x => titleCells_hotelOps idx _ x)]
  rfl

theorem plainCells_addHotelsSection (hotels : List Hotel) :
    plainCells (addHotelsSection [] hotels) = [] := by
  unfold addHotelsSection
  split_ifs
  · rfl
  · simp only []
    rw [plainCells_append, plainCells_append, plainCells_addSectionHeader,
      plainCells_rangeOps _ (fun idx x => plainCells_hotelOps idx _ x)]
    rfl

theorem titleCells_flightEndOps (name city airport : List Char) (time : Time) :
    titleCells (flightEndOps name city airport time) = [] := by
  unfold flightEndOps
  split_ifs <;> rfl

theorem plainCells_flightEndOps (name city airport : List Char) (time : Time) :
    plainCells (flightEndOps name city airport time) = [] := by
  unfold flightEndOps
  split_ifs <;> rfl

theorem titleCells_flightOps (idx total : Nat) (flight : Flight) :
    titleCells (flightOps idx total flight) = [] := by
  unfold flightOps
  simp only [titleCells_append, titleCells_flightEndOps]
  split_ifs <;> simp [titleCells]

theorem plainCells_flightOps (idx total : Nat) (flight : Flight) :
    plainCells (flightOps idx total flight) = [] := by
  unfold flightOps
  simp only [plainCells_append, plainCells_flightEndOps]
  split_ifs <;> simp [plainCells]

theorem titleCells_addFlightsSection (flights : List Flight) (h : flights ≠ []) :
    titleCells (addFlightsSection [] flights) = ["Flight Details".toList] := by
  unfold addFlightsSection
  rw [if_neg (by simpa using h)]
  simp only []
  rw [titleCells_append, titleCells_append, titleCells_addSectionHeader _ (by decide),
    titleCells_rangeOps _ (fun idx x => titleCells_flightOps idx _ x)]
  rfl

theorem plainCells_addFlightsSection (flights : List Flight) :
    plainCells (addFlightsSection [] flights) = [] := by
  unfold addFlightsSection
  split_ifs
  · rfl
  · simp only []
    rw [plainCells_append, plainCells_append, plainCells_addSectionHeader,
      plainCells_rangeOps _ (fun idx x => plainCells_flightOps idx _ x)]
    rfl

theorem titleCells_transferOps (low up : Char → Char) (transfer : Transfer) :
    titleCells (transferOps low up transfer) = [] := by
  unfold transferOps
  split_ifs <;> simp [titleCells]

theorem plainCells_transferOps (low up : Char → Char) (transfer : Transfer) :
    plainCells (transferOps low up transfer) = [] := by
  unfold transferOps
  split_ifs <;> simp [plainCells]

theorem titleCells_addTransfersSection (low up : Char → Char) (transfers : List Transfer)
    (h : transfers ≠ []) :
    titleCells (addTransfersSection low up [] transfers) = ["Transfers".toList] := by
  unfold addTransfersSection
  rw [if_neg (by simpa using h)]
  simp only []
  rw [titleCells_append, titleCells_append, titleCells_addSectionHeader _ (by decide),
    titleCells_rangeOps _ (fun _ x => titleCells_transferOps low up x)]
  rfl

theorem plainCells_addTransfersSection (low up : Char → Char) (transfers : List Transfer) :
    plainCells (addTransfersSection low up [] transfers) = [] := by
  unfold addTransfersSection
  split_ifs
  · rfl
  · simp only []
    rw [plainCells_append, plainCells_append, plainCells_addSectionHeader,
      plainCells_rangeOps _ (fun _ x => plainCells_transferOps low up x)]
    rfl

theorem titleCells_bulletListOps (label : List Char) (items : List (List Char)) :
    titleCells (bulletListOps label items) = [] := by
  unfold bulletListOps
  split_ifs
  · rw [titleCells_append, titleCells_append, titleCells_rangeOps
      (fun _ item => [Op.SetX 20, Op.CellFormat 0 5 ("- ".toList ++ item) 1]) (fun _ _ => rfl)]
    rfl
  · rfl

theorem plainCells_bulletListOps (label : List Char) (items : List (List Char)) :
    plainCells (bulletListOps label items) = [] := by
  unfold bulletListOps
  split_ifs
  · rw [plainCells_append, plainCells_append, plainCells_rangeOps
      (fun _ item => [Op.SetX 20, Op.CellFormat 0 5 ("- ".toList ++ item) 1]) (fun _ _ => rfl)]
    rfl
  · rfl

theorem titleCells_addInclusionsExclusionsSection (inclusions exclusions : List (List Char))
    (h : inclusions ≠ [] ∨ exclusions ≠ []) :
    titleCells (addInclusionsExclusionsSection [] inclusions exclusions) =
      ["Inclusions and Exclusions".toList] := by
  unfold addInclusionsExclusionsSection
  rw [if_neg (by simp only [List.length_eq_zero]; tauto)]
  simp only []
  rw [titleCells_append, titleCells_append, titleCells_append,
    titleCells_addSectionHeader _ (by decide), titleCells_bulletListOps,
    titleCells_bulletListOps]
  rfl

theorem plainCells_addInclusionsExclusionsSection (inclusions exclusions : List (List Char)) :
    plainCells (addInclusionsExclusionsSection [] inclusions exclusions) = [] := by
  unfold addInclusionsExclusionsSection
  split_ifs
  · rfl
  · simp only []
    rw [plainCells_append, plainCells_append, plainCells_append, plainCells_addSectionHeader,
      plainCells_bulletListOps, plainCells_bulletListOps]
    rfl

theorem addPaymentPlanSection_rows_eq (up : Char → Char) (plan : List PaymentInstallment)
    (h : plan ≠ []) :
    (addPaymentPlanSection up [] plan).1 =
      addSectionHeader [] "Payment Plan".toList ++ paymentTableHead ++
        ((orderedInstallments plan).map (installmentRow up)).flatten ++ [Op.Ln 6] := by
  have hfold : ∀ (rows : List PaymentInstallment) (acc : List Op),
      rows.foldl (fun pdf installment => pdf ++ installmentRow up installment) acc =
        acc ++ (rows.map (installmentRow up)).flatten := by
    intro rows
    induction rows with
    | nil => intro acc; simp
    | cons r rs ih =>
      intro acc
      rw [List.foldl_cons, ih]
      simp
  unfold addPaymentPlanSection
  rw [if_neg (by simpa using h)]
  simp only []
  rw [hfold]

theorem titleCells_flatten_map {α : Type} (f : α → List Op) (h : ∀ x, titleCells (f x) = [])
    (xs : List α) : titleCells (xs.map f).flatten = [] := by
  induction xs with
  | nil => rfl
  | cons x xs ih => rw [List.map_cons, List.flatten_cons, titleCells_append, h, ih]; rfl

theorem plainCells_flatten_map {α : Type} (f : α → List Op) (h : ∀ x, plainCells (f x) = [])
    (xs : List α) : plainCells (xs.map f).flatten = [] := by
  induction xs with
  | nil => rfl
  | cons x xs ih => rw [List.map_cons, List.flatten_cons, plainCells_append, h, ih]; rfl

theorem titleCells_addPaymentPlanSection (up : Char → Char) (plan : List PaymentInstallment)
    (h : plan ≠ []) :
    titleCells (addPaymentPlanSection up [] plan).1 = ["Payment Plan".toList] := by
  rw [addPaymentPlanSection_rows_eq up plan h, titleCells_append, titleCells_append,
    titleCells_append, titleCells_addSectionHeader _ (by decide),
    titleCells_flatten_map (installmentRow up) (fun _ => rfl)]
  rfl

theorem plainCells_addPaymentPlanSection (up : Char → Char) (plan : List PaymentInstallment) :
    plainCells (addPaymentPlanSection up [] plan).1 = [] := by
  by_cases h : plan = []
  · subst h; rfl
  · rw [addPaymentPlanSection_rows_eq up plan h, plainCells_append, plainCells_append,
      plainCells_append, plainCells_addSectionHeader, plainCells_flatten_map (installmentRow up) (fun _ => rfl)]
    rfl

theorem titleCells_addFooter (pageNo : Int) : titleCells (addFooter pageNo []) = [] := rfl

theorem plainCells_addFooter (pageNo : Int) :
    plainCells (addFooter pageNo []) =
      ["Generated by Vigovia Itinerary Builder | Page ".toList ++ sprintD pageNo] := rfl

/-! ## The day sections: titles and plain cells -/

theorem titleCells_activityOps (total idx : Nat) (activity : Activity) :
    titleCells (activityOps total idx activity) = [] := by
  unfold activityOps
  split_ifs <;> rfl

theorem plainCells_activityOps (total idx : Nat) (activity : Activity) :
    plainCells (activityOps total idx activity) = [] := by
  unfold activityOps
  split_ifs <;> rfl

theorem titleCells_groupOps (label : List Char) (activities : List Activity) :
    titleCells (groupOps label activities) = [] := by
  unfold groupOps
  rw [titleCells_append, titleCells_append,
    titleCells_rangeOps _ (titleCells_activityOps activities.length)]
  rfl

theorem plainCells_groupOps (label : List Char) (activities : List Activity) :
    plainCells (groupOps label activities) = [] := by
  unfold groupOps
  rw [plainCells_append, plainCells_append,
    plainCells_rangeOps _ (plainCells_activityOps activities.length)]
  rfl

theorem titleCells_canonicalGroupOps (low up : Char → Char) (grouped : ActivityMap)
    (period : List Char) : titleCells (canonicalGroupOps low up grouped period) = [] := by
  unfold canonicalGroupOps
  simp only []
  split_ifs
  · rfl
  · exact titleCells_groupOps _ _
  · exact titleCells_groupOps _ _

theorem plainCells_canonicalGroupOps (low up : Char → Char) (grouped : ActivityMap)
    (period : List Char) : plainCells (canonicalGroupOps low up grouped period) = [] := by
  unfold canonicalGroupOps
  simp only []
  split_ifs
  · rfl
  · exact plainCells_groupOps _ _
  · exact plainCells_groupOps _ _

theorem titleCells_otherGroupOps (low up : Char → Char) (grouped : ActivityMap)
    (period : List Char) : titleCells (otherGroupOps low up grouped period) = [] := by
  unfold otherGroupOps
  simp only []
  split_ifs
  · rfl
  · exact titleCells_groupOps _ _

theorem plainCells_otherGroupOps (low up : Char → Char) (grouped : ActivityMap)
    (period : List Char) : plainCells (otherGroupOps low up grouped period) = [] := by
  unfold otherGroupOps
  simp only []
  split_ifs
  · rfl
  · exact plainCells_groupOps _ _

theorem titleCells_addDaySection (low up : Char → Char) (visit : List (List Char))
    (day : DayPlan) :
    titleCells (addDaySection low up visit [] day) =
      ["Day ".toList ++ sprintD day.DayNumber ++ ": ".toList ++ day.Title] := by
  unfold addDaySection
  simp only []
  split_ifs
  · simp only [titleCells_append, List.nil_append,
      titleCells_flatten_map _ (titleCells_canonicalGroupOps low up _),
      titleCells_flatten_map _ (titleCells_otherGroupOps low up _)]
    rfl
  · rfl

theorem plainCells_addDaySection (low up : Char → Char) (visit : List (List Char))
    (day : DayPlan) :
    plainCells (addDaySection low up visit [] day) =
      if day.Activities = [] then ["No activities planned for this day".toList] else [] := by
  unfold addDaySection
  simp only []
  by_cases h : day.Activities = []
  · have h0 : ¬ 0 < day.Activities.length := by simp [h]
    rw [if_neg h0, if_pos h]
    rfl
  · have h0 : 0 < day.Activities.length := List.length_pos.mpr h
    rw [if_pos h0, if_neg h]
    simp only [plainCells_append, List.nil_append,
      plainCells_flatten_map _ (plainCells_canonicalGroupOps low up _),
      plainCells_flatten_map _ (plainCells_otherGroupOps low up _)]
    rfl

theorem rangeOps_eq_flatten {α : Type} (body : Nat → α → List Op) (idx : Nat) (xs : List α) :
    rangeOps body idx xs = ((xs.enumFrom idx).map (fun p => body p.1 p.2)).flatten := by
  induction xs generalizing idx with
  | nil => rfl
  | cons x xs ih => rw [rangeOps, ih]; rfl

theorem titleCells_daySectionsOps (low up : Char → Char) (visits : Nat → List (List Char))
    (idx : Nat) (days : List DayPlan) :
    titleCells (daySectionsOps low up visits idx days) =
      days.map (fun day => "Day ".toList ++ sprintD day.DayNumber ++ ": ".toList ++ day.Title) := by
  unfold daySectionsOps
  induction days generalizing idx with
  | nil => rfl
  | cons day days ih =>
    rw [rangeOps, titleCells_append, ih, titleCells_addDaySection]
    rfl

theorem plainCells_daySectionsOps (low up : Char → Char) (visits : Nat → List (List Char))
    (idx : Nat) (days : List DayPlan) :
    ∀ txt ∈ plainCells (daySectionsOps low up visits idx days),
      txt = "No activities planned for this day".toList := by
  unfold daySectionsOps
  induction days generalizing idx with
  | nil => intro txt h; cases h
  | cons day days ih =>
    intro txt h
    rw [rangeOps, plainCells_append, plainCells_addDaySection, List.mem_append] at h
    rcases h with h | h
    · split_ifs at h
      · simpa using h
      · cases h
    · exact ih _ _ h

/-! ## The canvas of GeneratePDF, section by section -/

theorem generatePDFCanvas_eq (low up : Char → Char) (visits : Nat → List (List Char))
    (pageNo : Int) (itinerary : Itinerary) :
    generatePDFCanvas low up visits pageNo itinerary =
      [Op.AddPage, Op.SetLeftMargin 15, Op.SetRightMargin 15] ++
        (addHeader [] itinerary ++
          (addMetadataSection [] itinerary ++
            (addHotelsSection [] itinerary.Hotels ++
              (addFlightsSection [] itinerary.Flights ++
                (addTransfersSection low up [] itinerary.Transfers ++
                  ((if itinerary.Description ≠ [] then
                      addDescriptionSection [] itinerary.Description else []) ++
                    ((if itinerary.Days ≠ [] then
                        addSectionHeader [] "Day-by-Day Itinerary".toList ++
                          daySectionsOps low up visits 0 itinerary.Days
                      else
                        [Op.SetFont "Arial".toList "I".toList 11, Op.SetTextColor 100 100 100,
                          Op.Cell 0 10 "No days planned yet".toList]) ++
                      ((addPaymentPlanSection up [] itinerary.PaymentPlan).1 ++
                        (addInclusionsExclusionsSection [] itinerary.Inclusions
                            itinerary.Exclusions ++
                          addFooter pageNo []))))))))) := by
  have hHotels : ∀ pdf : List Op,
      (if 0 < itinerary.Hotels.length then addHotelsSection pdf itinerary.Hotels else pdf) =
        pdf ++ addHotelsSection [] itinerary.Hotels := by
    intro pdf
    split_ifs with h
    · exact addHotelsSection_append _ _
    · have e : itinerary.Hotels = [] := by simpa using h
      rw [e]; simp [addHotelsSection]
  have hFlights : ∀ pdf : List Op,
      (if 0 < itinerary.Flights.length then addFlightsSection pdf itinerary.Flights else pdf) =
        pdf ++ addFlightsSection [] itinerary.Flights := by
    intro pdf
    split_ifs with h
    · exact addFlightsSection_append _ _
    · have e : itinerary.Flights = [] := by simpa using h
      rw [e]; simp [addFlightsSection]
  have hTransfers : ∀ pdf : List Op,
      (if 0 < itinerary.Transfers.length then addTransfersSection low up pdf itinerary.Transfers
        else pdf) = pdf ++ addTransfersSection low up [] itinerary.Transfers := by
    intro pdf
    split_ifs with h
    · exact addTransfersSection_append _ _ _ _
    · have e : itinerary.Transfers = [] := by simpa using h
      rw [e]; simp [addTransfersSection]
  have hDescription : ∀ pdf : List Op,
      (if itinerary.Description ≠ [] then addDescriptionSection pdf itinerary.Description
        else pdf) =
        pdf ++ (if itinerary.Description ≠ [] then
          addDescriptionSection [] itinerary.Description else []) := by
    intro pdf
    split_ifs with h
    · exact addDescriptionSection_append _ _
    · simp
  have hDays : ∀ pdf : List Op,
      (if 0 < itinerary.Days.length then
          addItineraryDetailsSection low up visits pdf itinerary.Days
        else
          pdf ++ [Op.SetFont "Arial".toList "I".toList 11, Op.SetTextColor 100 100 100,
            Op.Cell 0 10 "No days planned yet".toList]) =
        pdf ++ (if itinerary.Days ≠ [] then
            addSectionHeader [] "Day-by-Day Itinerary".toList ++
              daySectionsOps low up visits 0 itinerary.Days
          else
            [Op.SetFont "Arial".toList "I".toList 11, Op.SetTextColor 100 100 100,
              Op.Cell 0 10 "No days planned yet".toList]) := by
    intro pdf
    by_cases h : itinerary.Days = []
    · have h0 : ¬ 0 < itinerary.Days.length := by simp [h]
      have h1 : ¬ itinerary.Days ≠ [] := by simp [h]
      rw [if_neg h0, if_neg h1]
    · have h0 : 0 < itinerary.Days.length := List.length_pos.mpr h
      rw [if_pos h0, if_pos h, addItineraryDetailsSection_append]
      unfold addItineraryDetailsSection
      simp
  have hPayment : ∀ pdf : List Op,
      (if 0 < itinerary.PaymentPlan.length then
          (addPaymentPlanSection up pdf itinerary.PaymentPlan).1 else pdf) =
        pdf ++ (addPaymentPlanSection up [] itinerary.PaymentPlan).1 := by
    intro pdf
    split_ifs with h
    · exact addPaymentPlanSection_append _ _ _
    · have e : itinerary.PaymentPlan = [] := by simpa using h
      rw [e]; simp [addPaymentPlanSection]
  have hInclusions : ∀ pdf : List Op,
      (if 0 < itinerary.Inclusions.length ∨ 0 < itinerary.Exclusions.length then
          addInclusionsExclusionsSection pdf itinerary.Inclusions itinerary.Exclusions
        else pdf) =
        pdf ++ addInclusionsExclusionsSection [] itinerary.Inclusions itinerary.Exclusions := by
    intro pdf
    split_ifs with h
    · exact addInclusionsExclusionsSection_append _ _ _
    · have e : itinerary.Inclusions = [] ∧ itinerary.Exclusions = [] := by
        simpa [not_or] using h
      rw [e.1, e.2]; simp [addInclusionsExclusionsSection]
  unfold generatePDFCanvas
  simp only []
  rw [hInclusions, hPayment, hDays, hDescription, hTransfers, hFlights, hHotels,
    addFooter_append, addMetadataSection_append, addHeader_append]
  simp only [List.append_assoc]

/-! ## The canvas of GeneratePDF: titles, plain cells and sections -/

theorem titleCells_generatePDFCanvas (low up : Char → Char) (visits : Nat → List (List Char))
    (pageNo : Int) (itinerary : Itinerary) :
    titleCells (generatePDFCanvas low up visits pageNo itinerary) =
      ["Trip Information".toList] ++
        ((if itinerary.Hotels ≠ [] then ["Hotel Accommodations".toList] else []) ++
          ((if itinerary.Flights ≠ [] then ["Flight Details".toList] else []) ++
            ((if itinerary.Transfers ≠ [] then ["Transfers".toList] else []) ++
              ((if itinerary.Description ≠ [] then ["Overview".toList] else []) ++
                ((if itinerary.Days ≠ [] then
                    "Day-by-Day Itinerary".toList ::
                      itinerary.Days.map (fun day =>
                        "Day ".toList ++ sprintD day.DayNumber ++ ": ".toList ++ day.Title)
                  else []) ++
                  ((if itinerary.PaymentPlan ≠ [] then ["Payment Plan".toList] else []) ++
                    (if itinerary.Inclusions ≠ [] ∨ itinerary.Exclusions ≠ [] then
                      ["Inclusions and Exclusions".toList] else []))))))) := by
  have hHotels : titleCells (addHotelsSection [] itinerary.Hotels) =
      if itinerary.Hotels ≠ [] then ["Hotel Accommodations".toList] else [] := by
    split_ifs with h
    · exact titleCells_addHotelsSection _ h
    · have e : itinerary.Hotels = [] := by simpa using h
      rw [e]; rfl
  have hFlights : titleCells (addFlightsSection [] itinerary.Flights) =
      if itinerary.Flights ≠ [] then ["Flight Details".toList] else [] := by
    split_ifs with h
    · exact titleCells_addFlightsSection _ h
    · have e : itinerary.Flights = [] := by simpa using h
      rw [e]; rfl
  have hTransfers : titleCells (addTransfersSection low up [] itinerary.Transfers) =
      if itinerary.Transfers ≠ [] then ["Transfers".toList] else [] := by
    split_ifs with h
    · exact titleCells_addTransfersSection _ _ _ h
    · have e : itinerary.Transfers = [] := by simpa using h
      rw [e]; rfl
  have hDescription :
      titleCells (if itinerary.Description ≠ [] then
        addDescriptionSection [] itinerary.Description else []) =
      if itinerary.Description ≠ [] then ["Overview".toList] else [] := by
    split_ifs with h
    · exact titleCells_addDescriptionSection _
    · rfl
  have hDays :
      titleCells (if itinerary.Days ≠ [] then
          addSectionHeader [] "Day-by-Day Itinerary".toList ++
            daySectionsOps low up visits 0 itinerary.Days
        else
          [Op.SetFont "Arial".toList "I".toList 11, Op.SetTextColor 100 100 100,
            Op.Cell 0 10 "No days planned yet".toList]) =
      if itinerary.Days ≠ [] then
        "Day-by-Day Itinerary".toList ::
          itinerary.Days.map (fun day =>
            "Day ".toList ++ sprintD day.DayNumber ++ ": ".toList ++ day.Title)
      else [] := by
    split_ifs with h
    · rw [titleCells_append, titleCells_addSectionHeader _ (by decide),
        titleCells_daySectionsOps]
      rfl
    · rfl
  have hPayment : titleCells (addPaymentPlanSection up [] itinerary.PaymentPlan).1 =
      if itinerary.PaymentPlan ≠ [] then ["Payment Plan".toList] else [] := by
    split_ifs with h
    · exact titleCells_addPaymentPlanSection _ _ h
    · have e : itinerary.PaymentPlan = [] := by simpa using h
      rw [e]; rfl
  have hInclusions :
      titleCells (addInclusionsExclusionsSection [] itinerary.Inclusions
        itinerary.Exclusions) =
      if itinerary.Inclusions ≠ [] ∨ itinerary.Exclusions ≠ [] then
        ["Inclusions and Exclusions".toList] else [] := by
    split_ifs with h
    · exact titleCells_addInclusionsExclusionsSection _ _ h
    · have e : itinerary.Inclusions = [] ∧ itinerary.Exclusions = [] := by
        simpa [not_or] using h
      rw [e.1, e.2]; rfl
  rw [generatePDFCanvas_eq]
  simp only [titleCells_append]
  rw [hHotels, hFlights, hTransfers, hDescription, hDays, hPayment, hInclusions,
    titleCells_addHeader, titleCells_addMetadataSection, titleCells_addFooter]
  simp only [List.append_nil]
  rfl

theorem plainCells_generatePDFCanvas (low up : Char → Char) (visits : Nat → List (List Char))
    (pageNo : Int) (itinerary : Itinerary) :
    plainCells (generatePDFCanvas low up visits pageNo itinerary) =
      (if itinerary.Days ≠ [] then plainCells (daySectionsOps low up visits 0 itinerary.Days)
        else ["No days planned yet".toList]) ++
      ["Generated by Vigovia Itinerary Builder | Page ".toList ++ sprintD pageNo] := by
  have hDescription :
      plainCells (if itinerary.Description ≠ [] then
        addDescriptionSection [] itinerary.Description else []) = [] := by
    split_ifs
    · exact plainCells_addDescriptionSection _
    · rfl
  have hDays :
      plainCells (if itinerary.Days ≠ [] then
          addSectionHeader [] "Day-by-Day Itinerary".toList ++
            daySectionsOps low up visits 0 itinerary.Days
        else
          [Op.SetFont "Arial".toList "I".toList 11, Op.SetTextColor 100 100 100,
            Op.Cell 0 10 "No days planned yet".toList]) =
      if itinerary.Days ≠ [] then plainCells (daySectionsOps low up visits 0 itinerary.Days)
        else ["No days planned yet".toList] := by
    split_ifs with h
    · rw [plainCells_append, plainCells_addSectionHeader]
      rfl
    · rfl
  rw [generatePDFCanvas_eq]
  simp only [plainCells_append]
  rw [hDescription, hDays, plainCells_addHeader, plainCells_addMetadataSection,
    plainCells_addHotelsSection, plainCells_addFlightsSection, plainCells_addTransfersSection,
    plainCells_addPaymentPlanSection, plainCells_addInclusionsExclusionsSection,
    plainCells_addFooter]
  simp only [List.nil_append]
  rfl

theorem filter_dayTitles (days : List DayPlan) :
    (days.map (fun day =>
        "Day ".toList ++ sprintD day.DayNumber ++ ": ".toList ++ day.Title)).filter
      (fun t => decide (t.take 4 = "Day ".toList)) =
    days.map (fun day => "Day ".toList ++ sprintD day.DayNumber ++ ": ".toList ++ day.Title) := by
  rw [List.filter_eq_self]
  intro t ht
  rw [List.mem_map] at ht
  obtain ⟨day, -, rfl⟩ := ht
  rfl

theorem filter_gate (f : List Char → Bool) (p : Prop) [Decidable p] (b : List Char)
    (h : f b = false) : (if p then [b] else []).filter f = [] := by
  split_ifs
  · rw [List.filter_cons_of_neg (by simp [h])]
    rfl
  · rfl

theorem filter_titleCells_generatePDFCanvas (low up : Char → Char)
    (visits : Nat → List (List Char)) (pageNo : Int) (itinerary : Itinerary) :
    (titleCells (generatePDFCanvas low up visits pageNo itinerary)).filter
        (fun t => decide (t.take 4 = "Day ".toList)) =
      itinerary.Days.map (fun day =>
        "Day ".toList ++ sprintD day.DayNumber ++ ": ".toList ++ day.Title) := by
  rw [titleCells_generatePDFCanvas]
  simp only [List.filter_append]
  rw [filter_gate _ _ "Hotel Accommodations".toList rfl,
    filter_gate _ _ "Flight Details".toList rfl, filter_gate _ _ "Transfers".toList rfl,
    filter_gate _ _ "Overview".toList rfl, filter_gate _ _ "Payment Plan".toList rfl,
    filter_gate _ _ "Inclusions and Exclusions".toList rfl,
    List.filter_cons_of_neg (by decide), List.filter_nil]
  by_cases h : itinerary.Days = []
  · rw [if_neg (by simp [h] : ¬ itinerary.Days ≠ []), h]
    rfl
  · rw [if_pos h, List.filter_cons_of_neg (by decide), filter_dayTitles]
    simp

/-- C14: when the itinerary has no day, the canvas of GeneratePDF holds the line
"No days planned yet" exactly once among its plain cells, and none of its titles is the header
"Day-by-Day Itinerary" or the header of a day; when the itinerary has a day, the line is not on
the canvas, which holds the header "Day-by-Day Itinerary" followed by the section of every day,
in the order of the list, and the headers of days among its titles are those of the days of
the list, in order. -/
theorem generatePDFCanvas_days (low up : Char → Char) (visits : Nat → List (List Char))
    (pageNo : Int) (itinerary : Itinerary) :
    (itinerary.Days = [] →
      (plainCells (generatePDFCanvas low up visits pageNo itinerary)).count
          "No days planned yet".toList = 1 ∧
        "Day-by-Day Itinerary".toList ∉
          titleCells (generatePDFCanvas low up visits pageNo itinerary) ∧
        (titleCells (generatePDFCanvas low up visits pageNo itinerary)).filter
          (fun t => decide (t.take 4 = "Day ".toList)) = [] ∧
        ∃ before after,
          generatePDFCanvas low up visits pageNo itinerary =
            before ++
              [Op.SetFont "Arial".toList "I".toList 11, Op.SetTextColor 100 100 100,
                Op.Cell 0 10 "No days planned yet".toList] ++ after ∧
          plainCells before = []) ∧
    (itinerary.Days ≠ [] →
      "No days planned yet".toList ∉
          plainCells (generatePDFCanvas low up visits pageNo itinerary) ∧
        (titleCells (generatePDFCanvas low up visits pageNo itinerary)).filter
            (fun t => decide (t.take 4 = "Day ".toList)) =
          itinerary.Days.map (fun day =>
            "Day ".toList ++ sprintD day.DayNumber ++ ": ".toList ++ day.Title) ∧
        ∃ before after,
          generatePDFCanvas low up visits pageNo itinerary =
            before ++ addSectionHeader [] "Day-by-Day Itinerary".toList ++
              (itinerary.Days.enum.map
                (fun p => addDaySection low up (visits p.1) [] p.2)).flatten ++ after ∧
          (titleCells before).filter (fun t => decide (t.take 4 = "Day ".toList)) = [] ∧
          (titleCells after).filter (fun t => decide (t.take 4 = "Day ".toList)) = []) := by
  constructor
  · intro h
    refine ⟨?_, ?_, ?_, ?_⟩
    · rw [plainCells_generatePDFCanvas, if_neg (by simp [h])]
      simp [List.count_cons]
    · rw [titleCells_generatePDFCanvas, if_neg (by simp [h] : ¬ itinerary.Days ≠ [])]
      simp
    · rw [filter_titleCells_generatePDFCanvas, h]
      rfl
    · refine ⟨[Op.AddPage, Op.SetLeftMargin 15, Op.SetRightMargin 15] ++
          (addHeader [] itinerary ++ (addMetadataSection [] itinerary ++
            (addHotelsSection [] itinerary.Hotels ++ (addFlightsSection [] itinerary.Flights ++
              (addTransfersSection low up [] itinerary.Transfers ++
                (if itinerary.Description ≠ [] then
                  addDescriptionSection [] itinerary.Description else [])))))),
        (addPaymentPlanSection up [] itinerary.PaymentPlan).1 ++
          (addInclusionsExclusionsSection [] itinerary.Inclusions itinerary.Exclusions ++
            addFooter pageNo []), ?_, ?_⟩
      · rw [generatePDFCanvas_eq, if_neg (by simp [h] : ¬ itinerary.Days ≠ [])]
        simp only [List.append_assoc]
      · simp only [plainCells_append, plainCells_addHeader, plainCells_addMetadataSection,
          plainCells_addHotelsSection, plainCells_addFlightsSection,
          plainCells_addTransfersSection]
        split_ifs
        · rw [plainCells_addDescriptionSection]; rfl
        · rfl
  · intro h
    refine ⟨?_, ?_, ?_⟩
    · rw [plainCells_generatePDFCanvas, if_pos h]
      intro hmem
      rw [List.mem_append] at hmem
      rcases hmem with hmem | hmem
      · have e := plainCells_daySectionsOps low up visits 0 itinerary.Days _ hmem
        revert e
        decide
      · simp at hmem
    · exact filter_titleCells_generatePDFCanvas low up visits pageNo itinerary
    · obtain ⟨before, after, hsplit⟩ : ∃ before after,
          generatePDFCanvas low up visits pageNo itinerary =
            before ++ addSectionHeader [] "Day-by-Day Itinerary".toList ++
              daySectionsOps low up visits 0 itinerary.Days ++ after := by
        refine ⟨[Op.AddPage, Op.SetLeftMargin 15, Op.SetRightMargin 15] ++
          (addHeader [] itinerary ++ (addMetadataSection [] itinerary ++
            (addHotelsSection [] itinerary.Hotels ++ (addFlightsSection [] itinerary.Flights ++
              (addTransfersSection low up [] itinerary.Transfers ++
                (if itinerary.Description ≠ [] then
                  addDescriptionSection [] itinerary.Description else [])))))),
          (addPaymentPlanSection up [] itinerary.PaymentPlan).1 ++
            (addInclusionsExclusionsSection [] itinerary.Inclusions itinerary.Exclusions ++
              addFooter pageNo []), ?_⟩
        rw [generatePDFCanvas_eq, if_pos h]
        simp only [List.append_assoc]
      have e := filter_titleCells_generatePDFCanvas low up visits pageNo itinerary
      rw [hsplit] at e
      simp only [titleCells_append, List.filter_append, titleCells_daySectionsOps,
        filter_dayTitles] at e
      have hlen := congrArg List.length e
      simp only [List.length_append, List.length_map] at hlen
      refine ⟨before, after, ?_, ?_, ?_⟩
      · rw [hsplit]
        unfold daySectionsOps
        rw [rangeOps_eq_flatten]
        rfl
      · exact List.length_eq_zero.mp (by omega)
      · exact List.length_eq_zero.mp (by omega)

/-- C15: the canvas of GeneratePDF is the page setup followed by the header, the trip
information, the hotels, the flights, the transfers, the description, the day-by-day detail,
the payment plan, the inclusions and exclusions and the footer, in this order, where the
sections of the hotels, flights, transfers and payment plan are there exactly when their
list is not empty, the inclusions and exclusions exactly when one of the two lists is not
empty, and the footer always; the titles on the canvas are those of the sections that are
there, in the same order. -/
theorem generatePDFCanvas_sections (low up : Char → Char) (visits : Nat → List (List Char))
    (pageNo : Int) (itinerary : Itinerary) :
    generatePDFCanvas low up visits pageNo itinerary =
        [Op.AddPage, Op.SetLeftMargin 15, Op.SetRightMargin 15] ++
          addHeader [] itinerary ++
          addMetadataSection [] itinerary ++
          (if itinerary.Hotels ≠ [] then addHotelsSection [] itinerary.Hotels else []) ++
          (if itinerary.Flights ≠ [] then addFlightsSection [] itinerary.Flights else []) ++
          (if itinerary.Transfers ≠ [] then
            addTransfersSection low up [] itinerary.Transfers else []) ++
          (if itinerary.Description ≠ [] then
            addDescriptionSection [] itinerary.Description else []) ++
          (if itinerary.Days ≠ [] then
            addItineraryDetailsSection low up visits [] itinerary.Days
          else
            [Op.SetFont "Arial".toList "I".toList 11, Op.SetTextColor 100 100 100,
              Op.Cell 0 10 "No days planned yet".toList]) ++
          (if itinerary.PaymentPlan ≠ [] then
            (addPaymentPlanSection up [] itinerary.PaymentPlan).1 else []) ++
          (if itinerary.Inclusions ≠ [] ∨ itinerary.Exclusions ≠ [] then
            addInclusionsExclusionsSection [] itinerary.Inclusions itinerary.Exclusions
          else []) ++
          addFooter pageNo [] ∧
      titleCells (generatePDFCanvas low up visits pageNo itinerary) =
        ["Trip Information".toList] ++
          (if itinerary.Hotels ≠ [] then ["Hotel Accommodations".toList] else []) ++
          (if itinerary.Flights ≠ [] then ["Flight Details".toList] else []) ++
          (if itinerary.Transfers ≠ [] then ["Transfers".toList] else []) ++
          (if itinerary.Description ≠ [] then ["Overview".toList] else []) ++
          (if itinerary.Days ≠ [] then
            "Day-by-Day Itinerary".toList ::
              itinerary.Days.map (fun day =>
                "Day ".toList ++ sprintD day.DayNumber ++ ": ".toList ++ day.Title)
          else []) ++
          (if itinerary.PaymentPlan ≠ [] then ["Payment Plan".toList] else []) ++
          (if itinerary.Inclusions ≠ [] ∨ itinerary.Exclusions ≠ [] then
            ["Inclusions and Exclusions".toList] else []) ∧
      ("Hotel Accommodations".toList ∈
          titleCells (generatePDFCanvas low up visits pageNo itinerary) ↔
        itinerary.Hotels ≠ []) ∧
      ("Flight Details".toList ∈
          titleCells (generatePDFCanvas low up visits pageNo itinerary) ↔
        itinerary.Flights ≠ []) ∧
      ("Transfers".toList ∈ titleCells (generatePDFCanvas low up visits pageNo itinerary) ↔
        itinerary.Transfers ≠ []) ∧
      ("Payment Plan".toList ∈ titleCells (generatePDFCanvas low up visits pageNo itinerary) ↔
        itinerary.PaymentPlan ≠ []) ∧
      ("Inclusions and Exclusions".toList ∈
          titleCells (generatePDFCanvas low up visits pageNo itinerary) ↔
        itinerary.Inclusions ≠ [] ∨ itinerary.Exclusions ≠ []) ∧
      (plainCells (generatePDFCanvas low up visits pageNo itinerary)).getLast? =
        some ("Generated by Vigovia Itinerary Builder | Page ".toList ++ sprintD pageNo) := by
  refine ⟨?_, ?_, ?_, ?_, ?_, ?_, ?_, ?_⟩
  · have hHotels : (if itinerary.Hotels ≠ [] then addHotelsSection [] itinerary.Hotels
        else []) = addHotelsSection [] itinerary.Hotels := by
      split_ifs with h
      · rfl
      · have e : itinerary.Hotels = [] := by simpa using h
        rw [e]; rfl
    have hFlights : (if itinerary.Flights ≠ [] then addFlightsSection [] itinerary.Flights
        else []) = addFlightsSection [] itinerary.Flights := by
      split_ifs with h
      · rfl
      · have e : itinerary.Flights = [] := by simpa using h
        rw [e]; rfl
    have hTransfers : (if itinerary.Transfers ≠ [] then
        addTransfersSection low up [] itinerary.Transfers else []) =
        addTransfersSection low up [] itinerary.Transfers := by
      split_ifs with h
      · rfl
      · have e : itinerary.Transfers = [] := by simpa using h
        rw [e]; rfl
    have hPayment : (if itinerary.PaymentPlan ≠ [] then
        (addPaymentPlanSection up [] itinerary.PaymentPlan).1 else []) =
        (addPaymentPlanSection up [] itinerary.PaymentPlan).1 := by
      split_ifs with h
      · rfl
      · have e : itinerary.PaymentPlan = [] := by simpa using h
        rw [e]; rfl
    have hInclusions : (if itinerary.Inclusions ≠ [] ∨ itinerary.Exclusions ≠ [] then
        addInclusionsExclusionsSection [] itinerary.Inclusions itinerary.Exclusions
        else []) =
        addInclusionsExclusionsSection [] itinerary.Inclusions itinerary.Exclusions := by
      split_ifs with h
      · rfl
      · have e : itinerary.Inclusions = [] ∧ itinerary.Exclusions = [] := by
          simpa [not_or] using h
        rw [e.1, e.2]; rfl
    rw [hHotels, hFlights, hTransfers, hPayment, hInclusions, generatePDFCanvas_eq]
    unfold addItineraryDetailsSection
    simp only [List.append_assoc, List.nil_append]
  · rw [titleCells_generatePDFCanvas]
    simp only [List.append_assoc]
  · rw [titleCells_generatePDFCanvas]
    simp
  · rw [titleCells_generatePDFCanvas]
    simp
  · rw [titleCells_generatePDFCanvas]
    simp
  · rw [titleCells_generatePDFCanvas]
    simp
  · rw [titleCells_generatePDFCanvas]
    simp
  · rw [plainCells_generatePDFCanvas]
    simp

/-- C16, as the code has it: the canvas of GeneratePDF holds the section "Overview" exactly
when the description of the itinerary is not the empty string, be it blank or not: the title
"Overview" is among the titles of the canvas exactly then, and the canvas is some calls
without that title, followed by the calls of `addDescriptionSection` when the description is
not the empty string and by nothing when it is, followed by calls without that title. -/
theorem generatePDFCanvas_overview (low up : Char → Char) (visits : Nat → List (List Char))
    (pageNo : Int) (itinerary : Itinerary) :
    ("Overview".toList ∈ titleCells (generatePDFCanvas low up visits pageNo itinerary) ↔
        itinerary.Description ≠ []) ∧
      titleCells (addDescriptionSection [] itinerary.Description) = ["Overview".toList] ∧
      Op.MultiCell 0 6 itinerary.Description ∈ addDescriptionSection [] itinerary.Description ∧
      ∃ before after,
        generatePDFCanvas low up visits pageNo itinerary =
          before ++
            (if itinerary.Description ≠ [] then
              addDescriptionSection [] itinerary.Description else []) ++ after ∧
        "Overview".toList ∉ titleCells before ∧ "Overview".toList ∉ titleCells after := by
  have hmem : "Overview".toList ∈
      titleCells (generatePDFCanvas low up visits pageNo itinerary) ↔
        itinerary.Description ≠ [] := by
    rw [titleCells_generatePDFCanvas]
    simp
  refine ⟨hmem, titleCells_addDescriptionSection _, ?_, ?_⟩
  · unfold addDescriptionSection
    simp
  · refine ⟨[Op.AddPage, Op.SetLeftMargin 15, Op.SetRightMargin 15] ++
        (addHeader [] itinerary ++ (addMetadataSection [] itinerary ++
          (addHotelsSection [] itinerary.Hotels ++ (addFlightsSection [] itinerary.Flights ++
            addTransfersSection low up [] itinerary.Transfers)))),
      (if itinerary.Days ≠ [] then
          addSectionHeader [] "Day-by-Day Itinerary".toList ++
            daySectionsOps low up visits 0 itinerary.Days
        else
          [Op.SetFont "Arial".toList "I".toList 11, Op.SetTextColor 100 100 100,
            Op.Cell 0 10 "No days planned yet".toList]) ++
        ((addPaymentPlanSection up [] itinerary.PaymentPlan).1 ++
          (addInclusionsExclusionsSection [] itinerary.Inclusions itinerary.Exclusions ++
            addFooter pageNo [])), ?_, ?_, ?_⟩
    · rw [generatePDFCanvas_eq]
      simp only [List.append_assoc]
    · simp only [titleCells_append, titleCells_addHeader, titleCells_addMetadataSection]
      have h1 : ∀ t ∈ titleCells (addHotelsSection [] itinerary.Hotels),
          t = "Hotel Accommodations".toList := by
        intro t ht
        by_cases h : itinerary.Hotels = []
        · rw [h] at ht; cases ht
        · rw [titleCells_addHotelsSection _ h] at ht
          simpa using ht
      have h2 : ∀ t ∈ titleCells (addFlightsSection [] itinerary.Flights),
          t = "Flight Details".toList := by
        intro t ht
        by_cases h : itinerary.Flights = []
        · rw [h] at ht; cases ht
        · rw [titleCells_addFlightsSection _ h] at ht
          simpa using ht
      have h3 : ∀ t ∈ titleCells (addTransfersSection low up [] itinerary.Transfers),
          t = "Transfers".toList := by
        intro t ht
        by_cases h : itinerary.Transfers = []
        · rw [h] at ht; cases ht
        · rw [titleCells_addTransfersSection _ _ _ h] at ht
          simpa using ht
      intro hm
      simp only [List.mem_append] at hm
      rcases hm with hm | hm | hm | hm | hm | hm
      · cases hm
      · cases hm
      · revert hm; decide
      · exact absurd (h1 _ hm) (by decide)
      · exact absurd (h2 _ hm) (by decide)
      · exact absurd (h3 _ hm) (by decide)
    · simp only [titleCells_append, titleCells_addFooter]
      have h4 : ∀ t ∈ titleCells (addPaymentPlanSection up [] itinerary.PaymentPlan).1,
          t = "Payment Plan".toList := by
        intro t ht
        by_cases h : itinerary.PaymentPlan = []
        · rw [h] at ht; cases ht
        · rw [titleCells_addPaymentPlanSection _ _ h] at ht
          simpa using ht
      have h5 : ∀ t ∈ titleCells (addInclusionsExclusionsSection [] itinerary.Inclusions
          itinerary.Exclusions), t = "Inclusions and Exclusions".toList := by
        intro t ht
        by_cases h : itinerary.Inclusions ≠ [] ∨ itinerary.Exclusions ≠ []
        · rw [titleCells_addInclusionsExclusionsSection _ _ h] at ht
          simpa using ht
        · have e : itinerary.Inclusions = [] ∧ itinerary.Exclusions = [] := by
            simpa [not_or] using h
          rw [e.1, e.2] at ht; cases ht
      intro hm
      simp only [List.mem_append] at hm
      rcases hm with hm | hm | hm | hm
      · split_ifs at hm with h
        · rw [titleCells_append, titleCells_addSectionHeader _ (by decide),
            titleCells_daySectionsOps] at hm
          simp at hm
        · cases hm
      · exact absurd (h4 _ hm) (by decide)
      · exact absurd (h5 _ hm) (by decide)
      · cases hm

/-- The blank description " " of `sampleBlankDescription` has no character that is not white
space, and the canvas of GeneratePDF for it holds the section "Overview". -/
theorem generatePDFCanvas_overview_blank :
    (∀ c ∈ sampleBlankDescription.Description, isSpace c = true) ∧
      "Overview".toList ∈
        titleCells (generatePDFCanvas sampleLowerTable sampleUpperTable (fun _ => []) 1
          sampleBlankDescription) := by
  refine ⟨by decide, by decide⟩

/-! ## The headings of the groups of a day -/

theorem sessionHeadings_cons_of_ne (op : Op) (rest : List Op) (h : op ≠ Op.SetX 18) :
    sessionHeadings (op :: rest) = sessionHeadings rest := by
  rw [sessionHeadings]
  intro txt rest2 e
  exact absurd e h

theorem sessionHeadings_skip (l r : List Op) (h : Op.SetX 18 ∉ l) :
    sessionHeadings (l ++ r) = sessionHeadings r := by
  induction l with
  | nil => rfl
  | cons op l ih =>
    rw [List.mem_cons, not_or] at h
    rw [List.cons_append, sessionHeadings_cons_of_ne _ _ (fun e => h.1 e.symm)]
    exact ih h.2

theorem rangeOps_no_indent {α : Type} (body : Nat → α → List Op)
    (h : ∀ idx x, Op.SetX 18 ∉ body idx x) (idx : Nat) (xs : List α) :
    Op.SetX 18 ∉ rangeOps body idx xs := by
  induction xs generalizing idx with
  | nil => intro hop; cases hop
  | cons x xs ih =>
    intro hop
    rw [rangeOps, List.mem_append] at hop
    rcases hop with hop | hop
    · exact h _ _ hop
    · exact ih _ hop

theorem activityOps_no_indent (total idx : Nat) (activity : Activity) :
    Op.SetX 18 ∉ activityOps total idx activity := by
  unfold activityOps
  split_ifs <;> simp

theorem sessionHeadings_groupOps (label : List Char) (activities : List Activity)
    (rest : List Op) :
    sessionHeadings (groupOps label activities ++ rest) =
      (label ++ " Session".toList) :: sessionHeadings rest := by
  unfold groupOps
  simp only [List.cons_append, List.nil_append, List.append_assoc]
  rw [sessionHeadings_cons_of_ne _ _ (by simp), sessionHeadings_cons_of_ne _ _ (by simp),
    sessionHeadings, sessionHeadings_cons_of_ne _ _ (by simp),
    sessionHeadings_skip _ _ (rangeOps_no_indent _ (activityOps_no_indent activities.length) 0
      activities),
    sessionHeadings_cons_of_ne _ _ (by simp)]

/-! ## The map of the activities of a day -/

theorem ActivityMap.get_set (m : ActivityMap) (key other : List Char) (value : List Activity) :
    (m.set key value).get other = if key = other then value else m.get other := by
  induction m with
  | nil =>
    unfold ActivityMap.set ActivityMap.get
    split_ifs <;> rfl
  | cons entry rest ih =>
    obtain ⟨k, v⟩ := entry
    unfold ActivityMap.set
    by_cases hk : k = key
    · rw [if_pos hk]
      unfold ActivityMap.get
      by_cases ho : key = other
      · rw [if_pos ho, if_pos ho]
      · rw [if_neg ho, if_neg ho, if_neg (by rw [hk]; exact ho)]
    · rw [if_neg hk]
      unfold ActivityMap.get
      by_cases h2 : k = other
      · rw [if_pos h2, if_pos h2, if_neg (by rw [← h2]; exact fun e => hk e.symm)]
      · rw [if_neg h2, if_neg h2]
        exact ih

theorem ActivityMap.keys_set (m : ActivityMap) (key : List Char) (value : List Activity) :
    (m.set key value).keys = if key ∈ m.keys then m.keys else m.keys ++ [key] := by
  induction m with
  | nil => rfl
  | cons entry rest ih =>
    obtain ⟨k, v⟩ := entry
    unfold ActivityMap.set
    by_cases hk : k = key
    · rw [if_pos hk, if_pos (by simp [ActivityMap.keys, hk])]
      simp [ActivityMap.keys, hk]
    · rw [if_neg hk]
      have e : ActivityMap.keys ((k, v) :: ActivityMap.set rest key value) =
          k :: ActivityMap.keys (ActivityMap.set rest key value) := rfl
      rw [e, ih]
      have e2 : ActivityMap.keys ((k, v) :: rest) = k :: ActivityMap.keys rest := rfl
      rw [e2]
      by_cases hm : key ∈ ActivityMap.keys rest
      · rw [if_pos hm, if_pos (List.mem_cons_of_mem _ hm)]
      · rw [if_neg hm, if_neg (by
          rw [List.mem_cons, not_or]
          exact ⟨fun e => hk e.symm, hm⟩)]
        rfl

theorem groupFold_get (low : Char → Char) (activities : List Activity) (m : ActivityMap)
    (key : List Char) :
    (activities.foldl
        (fun (grouped : ActivityMap) activity =>
          grouped.set (toLower low activity.Period)
            (grouped.get (toLower low activity.Period) ++ [activity])) m).get key =
      m.get key ++ activities.filter (fun a => decide (toLower low a.Period = key)) := by
  induction activities generalizing m with
  | nil => simp
  | cons a rest ih =>
    rw [List.foldl_cons, ih, ActivityMap.get_set]
    by_cases h : toLower low a.Period = key
    · rw [if_pos h, List.filter_cons_of_pos (by simpa using h), h]
      simp
    · rw [if_neg h, List.filter_cons_of_neg (by simpa using h)]

theorem groupFold_keys (low : Char → Char) (activities : List Activity) (m : ActivityMap)
    (hm : m.keys.Nodup) :
    (activities.foldl
        (fun (grouped : ActivityMap) activity =>
          grouped.set (toLower low activity.Period)
            (grouped.get (toLower low activity.Period) ++ [activity])) m).keys.Nodup ∧
      ∀ key, key ∈ (activities.foldl
        (fun (grouped : ActivityMap) activity =>
          grouped.set (toLower low activity.Period)
            (grouped.get (toLower low activity.Period) ++ [activity])) m).keys ↔
        key ∈ m.keys ∨ ∃ a ∈ activities, toLower low a.Period = key := by
  induction activities generalizing m with
  | nil => exact ⟨hm, fun key => by simp⟩
  | cons a rest ih =>
    rw [List.foldl_cons]
    have hk := ActivityMap.keys_set m (toLower low a.Period)
      (m.get (toLower low a.Period) ++ [a])
    have hnodup : (m.set (toLower low a.Period)
        (m.get (toLower low a.Period) ++ [a])).keys.Nodup := by
      rw [hk]
      split_ifs with h
      · exact hm
      · exact List.Nodup.append hm (List.nodup_singleton _) (by simpa using h)
    obtain ⟨h1, h2⟩ := ih _ hnodup
    refine ⟨h1, fun key => ?_⟩
    rw [h2, hk]
    constructor
    · rintro (h | ⟨b, hb, e⟩)
      · split_ifs at h with hin
        · exact Or.inl h
        · rw [List.mem_append, List.mem_singleton] at h
          rcases h with h | h
          · exact Or.inl h
          · exact Or.inr ⟨a, List.mem_cons_self _ _, h.symm⟩
      · exact Or.inr ⟨b, List.mem_cons_of_mem _ hb, e⟩
    · rintro (h | ⟨b, hb, e⟩)
      · left
        split_ifs
        · exact h
        · exact List.mem_append_left _ h
      · rw [List.mem_cons] at hb
        rcases hb with hb | hb
        · left
          rw [hb] at e
          split_ifs with hin
          · rw [← e]; exact hin
          · rw [← e]; exact List.mem_append_right _ (List.mem_singleton_self _)
        · exact Or.inr ⟨b, hb, e⟩

theorem groupActivities_get (low : Char → Char) (activities : List Activity)
    (key : List Char) :
    (groupActivities low activities).get key =
      activities.filter (fun a => decide (toLower low a.Period = key)) := by
  unfold groupActivities
  simp only []
  rw [groupFold_get]
  rfl

theorem groupActivities_keys (low : Char → Char) (activities : List Activity) :
    (groupActivities low activities).keys.Nodup ∧
      ∀ key, key ∈ (groupActivities low activities).keys ↔
        ∃ a ∈ activities, toLower low a.Period = key := by
  unfold groupActivities
  simp only []
  obtain ⟨h1, h2⟩ := groupFold_keys low activities [] List.nodup_nil
  refine ⟨h1, fun key => ?_⟩
  rw [h2]
  simp [ActivityMap.keys]

theorem sessionHeadings_canonicalGroupOps (low up : Char → Char) (grouped : ActivityMap)
    (period label : List Char) (rest : List Op) (hlabel : periodDisplay period = label)
    (hne : label ≠ []) :
    sessionHeadings (canonicalGroupOps low up grouped period ++ rest) =
      (if grouped.get period ≠ [] then [label ++ " Session".toList] else []) ++
        sessionHeadings rest := by
  unfold canonicalGroupOps
  simp only []
  by_cases h : grouped.get period = []
  · rw [if_pos (by simp [h]), if_neg (by simp [h])]
    rfl
  · rw [if_neg (by simpa using h), if_pos h, hlabel, if_neg hne, sessionHeadings_groupOps]
    rfl

theorem sessionHeadings_otherGroupOps (low up : Char → Char) (grouped : ActivityMap)
    (visit : List (List Char)) (rest : List Op) :
    sessionHeadings ((visit.map (otherGroupOps low up grouped)).flatten ++ rest) =
      (visit.filter (fun key => decide (key ∉ periodOrder ∧ grouped.get key ≠ []))).map
          (fun key => toTitleCase low up key ++ " Session".toList) ++
        sessionHeadings rest := by
  induction visit with
  | nil => rfl
  | cons key visit ih =>
    rw [List.map_cons, List.flatten_cons, List.append_assoc]
    unfold otherGroupOps
    simp only []
    by_cases h : key ∉ periodOrder ∧ grouped.get key ≠ []
    · have hskip : ¬ ((periodOrder.any (fun ordered => decide (key = ordered))) = true ∨
          (grouped.get key).length = 0) := by
        rw [not_or]
        refine ⟨?_, by simpa using h.2⟩
        rw [List.any_eq_true]
        rintro ⟨x, hx, e⟩
        exact h.1 (by rw [of_decide_eq_true e]; exact hx)
      rw [if_neg hskip, sessionHeadings_groupOps, List.filter_cons_of_pos (by simpa using h),
        List.map_cons, List.cons_append]
      exact congrArg _ ih
    · have hskip : (periodOrder.any (fun ordered => decide (key = ordered))) = true ∨
          (grouped.get key).length = 0 := by
        by_cases hin : key ∈ periodOrder
        · left
          rw [List.any_eq_true]
          exact ⟨key, hin, by simp⟩
        · right
          have e : grouped.get key = [] := by
            by_contra hc
            exact h ⟨hin, hc⟩
          rw [e]; rfl
      rw [if_pos hskip, List.filter_cons_of_neg (by simpa using h), List.nil_append]
      exact ih

/-- C11: the headings of the groups that `addDaySection` writes for a day are, first, those of
the canonical groups that have an activity, "Morning Session", "Afternoon Session" and
"Evening Session" in this order, a canonical group without activity having no heading; then
come the headings of the other groups that have an activity, in the order in which the
runtime yields their keys. -/
theorem addDaySection_headings (low up : Char → Char) (visit : List (List Char))
    (pdf : List Op) (day : DayPlan) :
    ∃ ops, addDaySection low up visit pdf day = pdf ++ ops ∧
      sessionHeadings ops =
        (if activitiesOfPeriod low day "morning".toList ≠ [] then
          ["Morning Session".toList] else []) ++
        (if activitiesOfPeriod low day "afternoon".toList ≠ [] then
          ["Afternoon Session".toList] else []) ++
        (if activitiesOfPeriod low day "evening".toList ≠ [] then
          ["Evening Session".toList] else []) ++
        (visit.filter (fun key =>
            decide (key ∉ periodOrder ∧ activitiesOfPeriod low day key ≠ []))).map
          (fun key => toTitleCase low up key ++ " Session".toList) := by
  refine ⟨addDaySection low up visit [] day, addDaySection_append _ _ _ _ _, ?_⟩
  unfold addDaySection
  simp only [List.nil_append]
  by_cases h : day.Activities = []
  · have h0 : ¬ 0 < day.Activities.length := by simp [h]
    have hnone : ∀ key, activitiesOfPeriod low day key = [] := by
      intro key
      unfold activitiesOfPeriod
      rw [h]
      rfl
    rw [if_neg h0]
    simp only [hnone]
    simp
    rfl
  · have h0 : 0 < day.Activities.length := List.length_pos.mpr h
    have hget : ∀ key, (groupActivities low day.Activities).get key =
        activitiesOfPeriod low day key := fun key => groupActivities_get low _ key
    rw [if_pos h0]
    have hflat : (periodOrder.map
        (canonicalGroupOps low up (groupActivities low day.Activities))).flatten =
        canonicalGroupOps low up (groupActivities low day.Activities) "morning".toList ++
          (canonicalGroupOps low up (groupActivities low day.Activities) "afternoon".toList ++
            canonicalGroupOps low up (groupActivities low day.Activities) "evening".toList) := by
      simp [periodOrder]
    rw [hflat]
    simp only [List.append_assoc]
    rw [sessionHeadings_skip _ _ (by simp [dayHeaderOps]),
      sessionHeadings_canonicalGroupOps low up _ _ "Morning".toList _ (by decide) (by decide),
      sessionHeadings_canonicalGroupOps low up _ _ "Afternoon".toList _ (by decide)
        (by decide),
      sessionHeadings_canonicalGroupOps low up _ _ "Evening".toList _ (by decide) (by decide),
      sessionHeadings_otherGroupOps]
    simp only [hget]
    have htail : sessionHeadings
        [Op.Ln 3, Op.SetDrawColor 220 220 220, Op.LineAtY 15 195, Op.Ln 8] = [] := by
      decide
    rw [htail]
    simp only [List.append_nil, List.append_assoc]
    rfl

/-- The method `addDaySection` taken alone, on the day `sampleDay`, which no call of the
service stores: its activities have the periods "night" and "brunch" beside canonical ones, and
two orders in which the loop over the map may get its keys, each an arrangement of the keys of
the map, give two different canvases: one has the heading "Night Session" before
"Brunch Session", the other has them the other way round. -/
theorem addDaySection_order_of_range :
    ["night".toList, "brunch".toList, "morning".toList, "evening".toList].Perm
        (groupActivities sampleLowerTable sampleDay.Activities).keys ∧
      ["evening".toList, "brunch".toList, "morning".toList, "night".toList].Perm
        (groupActivities sampleLowerTable sampleDay.Activities).keys ∧
      sessionHeadings (addDaySection sampleLowerTable sampleUpperTable
          ["night".toList, "brunch".toList, "morning".toList, "evening".toList] []
          sampleDay) =
        ["Morning Session".toList, "Evening Session".toList, "Night Session".toList,
          "Brunch Session".toList] ∧
      sessionHeadings (addDaySection sampleLowerTable sampleUpperTable
          ["evening".toList, "brunch".toList, "morning".toList, "night".toList] []
          sampleDay) =
        ["Morning Session".toList, "Evening Session".toList, "Brunch Session".toList,
          "Night Session".toList] ∧
      addDaySection sampleLowerTable sampleUpperTable
          ["night".toList, "brunch".toList, "morning".toList, "evening".toList] []
          sampleDay ≠
        addDaySection sampleLowerTable sampleUpperTable
          ["evening".toList, "brunch".toList, "morning".toList, "night".toList] []
          sampleDay := by
  refine ⟨by decide, by decide, by decide, by decide, by decide⟩

/-! ## The groups of a day and their activities -/

theorem flatten_map_filter {α : Type} (f g : α → List Op) (p : α → Bool)
    (h : ∀ x, f x = if p x = true then g x else []) (xs : List α) :
    (xs.map f).flatten = ((xs.filter p).map g).flatten := by
  induction xs with
  | nil => rfl
  | cons x xs ih =>
    rw [List.map_cons, List.flatten_cons, ih, h]
    by_cases hp : p x = true
    · rw [if_pos hp, List.filter_cons_of_pos hp, List.map_cons, List.flatten_cons]
    · rw [if_neg hp, List.filter_cons_of_neg hp, List.nil_append]

theorem flatten_filter_perm {α κ : Type} [DecidableEq κ] (key : α → κ) (l : List α)
    (ks : List κ) (hks : ks.Nodup) :
    (ks.map (fun k => l.filter (fun a => decide (key a = k)))).flatten.Perm
      (l.filter (fun a => decide (key a ∈ ks))) := by
  induction ks with
  | nil => simp
  | cons k ks ih =>
    rw [List.nodup_cons] at hks
    rw [List.map_cons, List.flatten_cons]
    have h1 : (l.filter (fun a => decide (key a ∈ k :: ks))).filter
        (fun a => decide (key a = k)) = l.filter (fun a => decide (key a = k)) := by
      rw [List.filter_filter]
      apply List.filter_congr
      intro a _
      by_cases e : key a = k <;> simp [e]
    have h2 : (l.filter (fun a => decide (key a ∈ k :: ks))).filter
        (fun a => !decide (key a = k)) = l.filter (fun a => decide (key a ∈ ks)) := by
      rw [List.filter_filter]
      apply List.filter_congr
      intro a _
      by_cases e : key a = k
      · have : key a ∉ ks := by rw [e]; exact hks.1
        simp [e, this, hks.1]
      · simp [e]
    have h3 := List.filter_append_perm (fun a => decide (key a = k))
      (l.filter (fun a => decide (key a ∈ k :: ks)))
    rw [h1] at h3
    rw [h2] at h3
    exact (List.Perm.append_left _ (ih hks.2)).trans h3

theorem flatten_filter_perm_of_cover {α κ : Type} [DecidableEq κ] (key : α → κ) (l : List α)
    (ks : List κ) (hks : ks.Nodup) (hcover : ∀ a ∈ l, key a ∈ ks) :
    (ks.map (fun k => l.filter (fun a => decide (key a = k)))).flatten.Perm l := by
  refine (flatten_filter_perm key l ks hks).trans (List.Perm.of_eq ?_)
  rw [List.filter_eq_self]
  intro a ha
  rw [decide_eq_true_eq]
  exact hcover a ha

theorem canonicalGroupOps_eq (low up : Char → Char) (grouped : ActivityMap)
    (period : List Char) :
    canonicalGroupOps low up grouped period =
      if decide ((grouped.get period).length ≠ 0) = true then
        groupOps (if periodDisplay period = [] then toTitleCase low up period
          else periodDisplay period) (grouped.get period)
      else [] := by
  unfold canonicalGroupOps
  simp only []
  by_cases h : (grouped.get period).length = 0
  · rw [if_pos h, if_neg (by simp [h])]
  · rw [if_neg h,
      if_pos (show decide ((grouped.get period).length ≠ 0) = true by simpa using h)]

theorem otherGroupOps_eq (low up : Char → Char) (grouped : ActivityMap) (period : List Char) :
    otherGroupOps low up grouped period =
      if (!(periodOrder.any (fun ordered => decide (period = ordered)) ||
          decide ((grouped.get period).length = 0))) = true then
        groupOps (if periodDisplay period = [] then toTitleCase low up period
          else periodDisplay period) (grouped.get period)
      else [] := by
  unfold otherGroupOps
  simp only []
  by_cases h : periodOrder.any (fun ordered => decide (period = ordered)) = true ∨
      (grouped.get period).length = 0
  · rw [if_pos h, if_neg]
    rcases h with h | h
    · simp [h]
    · simp [h]
  · rw [if_neg h]
    rw [not_or] at h
    have hnot : period ∉ periodOrder := by
      intro hin
      apply h.1
      rw [List.any_eq_true]
      exact ⟨period, hin, by simp⟩
    have hdisplay : periodDisplay period = [] := by
      unfold periodDisplay
      have h1 : period ≠ "morning".toList := fun e => hnot (by rw [e]; decide)
      have h2 : period ≠ "afternoon".toList := fun e => hnot (by rw [e]; decide)
      have h3 : period ≠ "evening".toList := fun e => hnot (by rw [e]; decide)
      rw [if_neg h1, if_neg h2, if_neg h3]
    rw [if_pos, if_pos hdisplay]
    have e1 : periodOrder.any (fun ordered => decide (period = ordered)) = false :=
      Bool.eq_false_iff.mpr h.1
    rw [e1]
    simpa using h.2

/-- C13: when the loop over the map gets every key of the map once, the group that
`addDaySection` renders for a key holds the activities of the day whose period in lower case
is the key, in the order of the list; the day section is the header of the day, then for
every key that has an activity one group with a turn of the loop for each of its activities,
then the closing line; no key has two groups, and the groups together hold every activity of
the day exactly once. -/
theorem addDaySection_groups (low up : Char → Char) (visit : List (List Char)) (day : DayPlan)
    (hvisit : visit.Perm (groupActivities low day.Activities).keys) :
    (∀ key, (groupActivities low day.Activities).get key = activitiesOfPeriod low day key) ∧
      (day.Activities ≠ [] →
        addDaySection low up visit [] day =
          dayHeaderOps day ++
            ((renderedPeriods low visit day).map (fun key =>
              [Op.SetFont "Arial".toList "B".toList 11, Op.SetTextColor 70 70 70, Op.SetX 18,
                Op.CellFormat 0 6
                  ((if periodDisplay key = [] then toTitleCase low up key
                    else periodDisplay key) ++ " Session".toList) 1, Op.Ln 1] ++
              rangeOps (activityOps (activitiesOfPeriod low day key).length) 0
                (activitiesOfPeriod low day key) ++
              [Op.Ln 3])).flatten ++
            [Op.Ln 3, Op.SetDrawColor 220 220 220, Op.LineAtY 15 195, Op.Ln 8]) ∧
      (renderedPeriods low visit day).Nodup ∧
      (∀ key, key ∈ renderedPeriods low visit day ↔ activitiesOfPeriod low day key ≠ []) ∧
      ((renderedPeriods low visit day).map (activitiesOfPeriod low day)).flatten.Perm
        day.Activities := by
  have hget : ∀ key, (groupActivities low day.Activities).get key =
      activitiesOfPeriod low day key := fun key => groupActivities_get low _ key
  obtain ⟨hknodup, hkmem⟩ := groupActivities_keys low day.Activities
  have hvnodup : visit.Nodup := hvisit.nodup_iff.mpr hknodup
  have hvmem : ∀ key, key ∈ visit ↔ activitiesOfPeriod low day key ≠ [] := by
    intro key
    rw [hvisit.mem_iff, hkmem]
    unfold activitiesOfPeriod
    constructor
    · rintro ⟨a, ha, e⟩ hnil
      have hin : a ∈ day.Activities.filter
          (fun activity => decide (toLower low activity.Period = key)) := by
        rw [List.mem_filter]
        exact ⟨ha, by simpa using e⟩
      rw [hnil] at hin
      cases hin
    · intro hne
      obtain ⟨a, ha⟩ := List.exists_mem_of_ne_nil _ hne
      rw [List.mem_filter] at ha
      exact ⟨a, ha.1, by simpa using ha.2⟩
  have hany : ∀ key : List Char,
      periodOrder.any (fun ordered => decide (key = ordered)) = decide (key ∈ periodOrder) := by
    intro key
    by_cases hin : key ∈ periodOrder
    · rw [decide_eq_true hin, List.any_eq_true]
      exact ⟨key, hin, by simp⟩
    · rw [decide_eq_false hin]
      by_contra hc
      rw [Bool.not_eq_false, List.any_eq_true] at hc
      obtain ⟨x, hx, e⟩ := hc
      exact hin (by rw [of_decide_eq_true e]; exact hx)
  have hmem : ∀ key, key ∈ renderedPeriods low visit day ↔
      activitiesOfPeriod low day key ≠ [] := by
    intro key
    unfold renderedPeriods
    simp only [List.mem_append, List.mem_filter, hget, hany]
    constructor
    · rintro (⟨-, h⟩ | ⟨-, h⟩)
      · intro e
        rw [e] at h
        simp at h
      · intro e
        rw [e] at h
        simp at h
    · intro hne
      have hlen : (activitiesOfPeriod low day key).length ≠ 0 := by
        rw [Ne, List.length_eq_zero]
        exact hne
      by_cases hin : key ∈ periodOrder
      · exact Or.inl ⟨hin, by simpa using hne⟩
      · exact Or.inr ⟨(hvmem key).mpr hne, by simp [hin, hne]⟩
  have hnodup : (renderedPeriods low visit day).Nodup := by
    unfold renderedPeriods
    simp only []
    refine List.Nodup.append ((by decide : periodOrder.Nodup).filter _) (hvnodup.filter _) ?_
    intro key h1 h2
    rw [List.mem_filter] at h1 h2
    have h3 := h2.2
    rw [hany, decide_eq_true h1.1] at h3
    simp at h3
  refine ⟨hget, ?_, hnodup, hmem, ?_⟩
  · intro hne
    have h0 : 0 < day.Activities.length := List.length_pos.mpr hne
    unfold addDaySection renderedPeriods
    simp only [List.nil_append]
    rw [if_pos h0, List.map_append, List.flatten_append,
      flatten_map_filter _ _ _ (canonicalGroupOps_eq low up (groupActivities low day.Activities)),
      flatten_map_filter _ _ _ (otherGroupOps_eq low up (groupActivities low day.Activities))]
    simp only [hget, List.append_assoc, groupOps]
  · refine flatten_filter_perm_of_cover (fun a : Activity => toLower low a.Period)
      day.Activities (renderedPeriods low visit day) hnodup ?_
    intro a ha
    rw [hmem]
    intro hnil
    have hin : a ∈ activitiesOfPeriod low day (toLower low a.Period) := by
      unfold activitiesOfPeriod
      rw [List.mem_filter]
      exact ⟨ha, by simp⟩
    rw [hnil] at hin
    cases hin

/-- The statement C13 at the day `sampleDay`, for the order "night", "brunch", "morning",
"evening" of the keys of its map. -/
theorem addDaySection_groups_witness :
    ["night".toList, "brunch".toList, "morning".toList, "evening".toList].Perm
        (groupActivities sampleLowerTable sampleDay.Activities).keys ∧
      ((renderedPeriods sampleLowerTable
          ["night".toList, "brunch".toList, "morning".toList, "evening".toList]
          sampleDay).map (activitiesOfPeriod sampleLowerTable sampleDay)).flatten.Perm
        sampleDay.Activities :=
  ⟨by decide,
    (addDaySection_groups sampleLowerTable sampleUpperTable
      ["night".toList, "brunch".toList, "morning".toList, "evening".toList] sampleDay
      (by decide)).2.2.2.2⟩

/-! ## The headings of the flights -/

theorem rangeOps_at {α : Type} (body : Nat → α → List Op) (start idx : Nat) (xs : List α)
    (x : α) (h : xs[idx]? = some x) :
    ∃ before after, rangeOps body start xs = before ++ body (start + idx) x ++ after := by
  induction xs generalizing start idx with
  | nil => simp at h
  | cons y ys ih =>
    cases idx with
    | zero =>
      simp only [List.getElem?_cons_zero, Option.some.injEq] at h
      subst h
      exact ⟨[], rangeOps body (start + 1) ys, by simp [rangeOps]⟩
    | succ k =>
      simp only [List.getElem?_cons_succ] at h
      obtain ⟨before, after, e⟩ := ih (start + 1) k h
      refine ⟨body start y ++ before, after, ?_⟩
      rw [rangeOps, e]
      have : start + 1 + k = start + (k + 1) := by omega
      rw [this]
      simp only [List.append_assoc]

/-- C21: the heading of the flight of index `idx` (the flight number `idx + 1` of the list)
is "Flight i: Airline FlightNumber" when the airline and the flight number are both not
empty, "Flight i: " followed by the one that is not empty when exactly one is, and "Flight i"
when both are empty, where i is the numeral of `idx + 1`; `addFlightsSection` writes that
heading in the cell that opens the calls made for the flight. -/
theorem flightHeader_text (idx : Nat) (flight : Flight) :
    (flight.Airline ≠ [] → flight.FlightNumber ≠ [] →
      flightHeader idx flight =
        "Flight ".toList ++ decimal (idx + 1) ++ ": ".toList ++ flight.Airline ++
          " ".toList ++ flight.FlightNumber) ∧
    (flight.Airline ≠ [] → flight.FlightNumber = [] →
      flightHeader idx flight =
        "Flight ".toList ++ decimal (idx + 1) ++ ": ".toList ++ flight.Airline) ∧
    (flight.Airline = [] → flight.FlightNumber ≠ [] →
      flightHeader idx flight =
        "Flight ".toList ++ decimal (idx + 1) ++ ": ".toList ++ flight.FlightNumber) ∧
    (flight.Airline = [] → flight.FlightNumber = [] →
      flightHeader idx flight = "Flight ".toList ++ decimal (idx + 1)) ∧
    (∀ total, ∃ after,
      flightOps idx total flight =
        [Op.SetFont "Arial".toList "B".toList 11, Op.SetTextColor 40 40 40, Op.SetX 15,
          Op.CellFormat 0 6 (flightHeader idx flight) 1] ++ after) ∧
    (∀ flights : List Flight, flights[idx]? = some flight →
      ∃ before after,
        addFlightsSection [] flights =
          before ++ flightOps idx flights.length flight ++ after) := by
  have hd : sprintD ((idx : Int) + 1) = decimal (idx + 1) := by
    rw [sprintD_of_nonneg _ (by omega)]
    congr 1
  refine ⟨?_, ?_, ?_, ?_, ?_, ?_⟩
  · intro h1 h2
    unfold flightHeader
    rw [if_pos ⟨h1, h2⟩, hd]
  · intro h1 h2
    unfold flightHeader
    rw [if_neg (fun h => h.2 h2), if_pos h1, hd]
  · intro h1 h2
    unfold flightHeader
    rw [if_neg (fun h => h.1 h1), if_neg (fun h => h h1), if_pos h2, hd]
  · intro h1 h2
    unfold flightHeader
    rw [if_neg (fun h => h.1 h1), if_neg (fun h => h h1), if_neg (fun h => h h2), hd]
  · intro total
    unfold flightOps
    exact ⟨_, by simp only [List.append_assoc]; rfl⟩
  · intro flights h
    have hne : flights ≠ [] := by
      intro e
      rw [e] at h
      simp at h
    obtain ⟨before, after, e⟩ :=
      rangeOps_at (fun idx flight => flightOps idx flights.length flight) 0 idx flights flight h
    unfold addFlightsSection
    rw [if_neg (by simpa using hne)]
    simp only []
    rw [e]
    refine ⟨addSectionHeader [] "Flight Details".toList ++ before, after ++ [Op.Ln 4], ?_⟩
    simp only [List.append_assoc, Nat.zero_add]

/-! ## The stem of the file name -/

theorem dropWhile_append_of_head (f : Char → Bool) (a b : List Char) (x : Char)
    (hb : b.head? = some x) (hx : f x = false) :
    (a ++ b).dropWhile f = a.dropWhile f ++ b := by
  induction a with
  | nil =>
    cases b with
    | nil => cases hb
    | cons y rest =>
      simp only [List.head?_cons, Option.some.injEq] at hb
      subst hb
      simp [List.dropWhile_cons, hx]
  | cons c rest ih =>
    rw [List.cons_append, List.dropWhile_cons, List.dropWhile_cons]
    split_ifs
    · exact ih
    · rfl

theorem rdropWhile_append_of_last (f : Char → Bool) (a b : List Char) (x : Char)
    (hb : b.getLast? = some x) (hx : f x = false) :
    (a ++ b).rdropWhile f = a ++ b := by
  obtain ⟨front, rfl⟩ := List.getLast?_eq_some_iff.mp hb
  rw [← List.append_assoc]
  exact List.rdropWhile_concat_neg f _ _ (by simp [hx])

theorem replaceAllRunsAux_append_right (cls : Char → Bool) (repl : List Char) (b : Bool)
    (s t : List Char) (h : ∀ c ∈ t, cls c = false) :
    replaceAllRunsAux cls repl b (s ++ t) = replaceAllRunsAux cls repl b s ++ t := by
  induction s generalizing b with
  | nil =>
    rw [List.nil_append, replaceAllRunsAux_eq_self cls repl b t h]
    rfl
  | cons c rest ih =>
    rw [List.cons_append]
    unfold replaceAllRunsAux
    split_ifs
    · exact ih true
    · rw [ih true, List.append_assoc]
    · rw [ih false, List.cons_append]

theorem mem_of_mem_replaceAllRunsAux (cls : Char → Bool) (repl : List Char) (b : Bool)
    (s : List Char) (c : Char) (h : c ∈ replaceAllRunsAux cls repl b s) :
    c ∈ repl ∨ c ∈ s := by
  induction s generalizing b with
  | nil => cases h
  | cons a rest ih =>
    unfold replaceAllRunsAux at h
    split_ifs at h
    · rcases ih true h with h1 | h1
      · exact Or.inl h1
      · exact Or.inr (List.mem_cons_of_mem _ h1)
    · rw [List.mem_append] at h
      rcases h with h | h
      · exact Or.inl h
      · rcases ih true h with h1 | h1
        · exact Or.inl h1
        · exact Or.inr (List.mem_cons_of_mem _ h1)
    · rw [List.mem_cons] at h
      rcases h with h | h
      · exact Or.inr (by rw [h]; exact List.mem_cons_self _ _)
      · rcases ih false h with h1 | h1
        · exact Or.inl h1
        · exact Or.inr (List.mem_cons_of_mem _ h1)

/-- The sanitized form of a text that ends with a date: what is left of the text before the
date, followed by the date. -/
theorem sanitizeFileName_append (tbl : Char → Char) (s date : List Char) (first last : Char)
    (hname : ∀ c ∈ date, isNameRune c = true)
    (hfirst : date.head? = some first) (hf : first ≠ '-' ∧ first ≠ '_')
    (hlast : date.getLast? = some last) (hl : last ≠ '-' ∧ last ≠ '_') :
    sanitizeFileName tbl (s ++ date) =
      (invalidPatternReplace (spacePatternReplace
        (toLower tbl (s.dropWhile isSpace)))).dropWhile (fun c => decide (c ∈ ['-', '_'])) ++
        date := by
  have hfm : first ∈ date := List.mem_of_mem_head? hfirst
  have hlm : last ∈ date := List.mem_of_mem_getLast? hlast
  have e1 : trimSpace (s ++ date) = s.dropWhile isSpace ++ date := by
    unfold trimSpace trimFunc
    rw [dropWhile_append_of_head isSpace s date first hfirst
      (not_isSpace_of_isNameRune _ (hname _ hfm)),
      rdropWhile_append_of_last isSpace _ date last hlast
        (not_isSpace_of_isNameRune _ (hname _ hlm))]
  have e2 : toLower tbl (s.dropWhile isSpace ++ date) =
      toLower tbl (s.dropWhile isSpace) ++ date := by
    unfold toLower
    rw [List.map_append]
    congr 1
    conv_rhs => rw [← List.map_id date]
    apply List.map_congr_left
    intro c hc
    exact toLowerRune_of_isNameRune tbl c (hname c hc)
  have e3 : ∀ t : List Char, spacePatternReplace (t ++ date) = spacePatternReplace t ++ date := by
    intro t
    unfold spacePatternReplace replaceAllRuns
    exact replaceAllRunsAux_append_right _ _ _ _ _
      (fun c hc => not_isPerlSpace_of_isNameRune c (hname c hc))
  have e4 : ∀ t : List Char,
      invalidPatternReplace (t ++ date) = invalidPatternReplace t ++ date := by
    intro t
    unfold invalidPatternReplace replaceAllRuns
    exact replaceAllRunsAux_append_right _ _ _ _ _ (fun c hc => by simp [hname c hc])
  unfold sanitizeFileName
  simp only []
  rw [e1, e2, e3, e4]
  unfold trim trimFunc
  rw [dropWhile_append_of_head _ _ date first hfirst (by simp [hf.1, hf.2]),
    rdropWhile_append_of_last _ _ date last hlast (by simp [hl.1, hl.2])]

theorem formatISODate_digits (t : Time) (y : Int) (m d : Nat) (hd : t.Date = (y, m, d))
    (h0 : 0 ≤ y) (h1 : y ≤ 9999) :
    t.FormatISODate =
      [digitChar (y.natAbs / 1000), digitChar (y.natAbs / 100), digitChar (y.natAbs / 10),
        digitChar y.natAbs, '-', digitChar (m / 10), digitChar m, '-',
        digitChar (d / 10), digitChar d] := by
  have hb := civilFromDays_bounds t.localDay
  have hd2 : civilFromDays t.localDay = (y, m, d) := hd
  rw [hd2] at hb
  obtain ⟨b1, b2, b3, b4⟩ : 1 ≤ m ∧ m ≤ 12 ∧ 1 ≤ d ∧ d ≤ 31 := hb
  unfold Time.FormatISODate
  rw [hd]
  show appendInt y 4 ++ '-' :: (appendInt m 2 ++ '-' :: appendInt d 2) = _
  rw [appendInt_four y h0 h1, appendInt_two m (by omega), appendInt_two d (by omega)]
  rfl

/-- C28: `buildFileName` returns the sanitized text followed by ".pdf", and the sanitized
text is never empty, so the fallback "itinerary" for an empty sanitized text is never taken;
when the year of the date it selected is between 0 and 9999, the date written by the layout
`2006-01-02` has 10 characters and the sanitized text ends with it, and for a title that is
not blank and has only characters that the sanitization removes the name is that date
followed by ".pdf": the title "!!!" with the start date 2024-03-10 gives "2024-03-10.pdf". -/
theorem buildFileName_stem (tbl : Char → Char) (it : Itinerary) (now : Time) :
    buildFileName tbl it now = sanitizeFileName tbl (fileNameStem it now) ++ ".pdf".toList ∧
      sanitizeFileName tbl (fileNameStem it now) ≠ [] ∧
      (∀ y m d, (selectedDate it now).Date = (y, m, d) → 0 ≤ y → y ≤ 9999 →
        (selectedDate it now).FormatISODate.length = 10 ∧
          (∃ front, sanitizeFileName tbl (fileNameStem it now) =
            front ++ (selectedDate it now).FormatISODate) ∧
          ((∃ c ∈ it.Title, isSpace c = false) →
            (∀ c ∈ it.Title, isNameRune (toLowerRune tbl c) = false) →
            buildFileName tbl it now =
              (selectedDate it now).FormatISODate ++ ".pdf".toList)) ∧
      buildFileName sampleLowerTable
          (sampleItinerary "!!!".toList (dateUTC 2024 3 10) Time.zero) Time.zero =
        "2024-03-10.pdf".toList := by
  refine ⟨buildFileName_eq tbl it now, ?_, ?_, by decide⟩
  · rw [fileNameStem_eq]
    exact sanitizeFileName_stem_ne_nil tbl _ _
  · intro y m d hd h0 h1
    have hfmt := formatISODate_digits (selectedDate it now) y m d hd h0 h1
    have hname : ∀ c ∈ (selectedDate it now).FormatISODate, isNameRune c = true := by
      intro c hc
      rw [hfmt] at hc
      simp only [List.mem_cons, List.mem_singleton, List.not_mem_nil, or_false] at hc
      rcases hc with rfl | rfl | rfl | rfl | rfl | rfl | rfl | rfl | rfl | rfl <;>
        first | exact isNameRune_digitChar _ | decide
    have hstem : fileNameStem it now =
        (fileNameBase it ++ ['_']) ++ (selectedDate it now).FormatISODate := by
      rw [fileNameStem_eq]
      simp
    have hsan := sanitizeFileName_append tbl (fileNameBase it ++ ['_'])
      (selectedDate it now).FormatISODate (digitChar (y.natAbs / 1000)) (digitChar d) hname
      (by rw [hfmt]; rfl) (digitChar_ne _) (by rw [hfmt]; rfl) (digitChar_ne _)
    refine ⟨by rw [hfmt]; rfl, ⟨_, by rw [hstem]; exact hsan⟩, ?_⟩
    intro hblank hremoved
    rw [buildFileName_eq, hstem, hsan]
    have hbase : fileNameBase it = trimSpace it.Title := by
      unfold fileNameBase
      simp only [if_neg (trimSpace_ne_nil it.Title hblank)]
    have hfront : (invalidPatternReplace (spacePatternReplace
        (toLower tbl ((fileNameBase it ++ ['_']).dropWhile isSpace)))).dropWhile
        (fun c => decide (c ∈ ['-', '_'])) = [] := by
      rw [List.dropWhile_eq_nil_iff]
      intro c hc
      unfold invalidPatternReplace replaceAllRuns at hc
      rw [replaceAllRunsAux_nil, List.mem_filter] at hc
      obtain ⟨hc1, hc2⟩ := hc
      have hcname : isNameRune c = true := by simpa using hc2
      unfold spacePatternReplace replaceAllRuns at hc1
      rcases mem_of_mem_replaceAllRunsAux _ _ _ _ _ hc1 with h | h
      · simp only [List.mem_singleton] at h
        rw [h]
        decide
      · unfold toLower at h
        rw [List.mem_map] at h
        obtain ⟨source, hs, rfl⟩ := h
        have hs2 := (List.dropWhile_suffix isSpace).subset hs
        rw [List.mem_append, List.mem_singleton] at hs2
        rcases hs2 with hs2 | hs2
        · rw [hbase] at hs2
          have := hremoved source ((trimFunc_sublist _ _).subset hs2)
          rw [this] at hcname
          cases hcname
        · rw [hs2, toLowerRune_of_isNameRune tbl '_' (by decide)]
          decide
    rw [hfront, List.nil_append]

/-! ## Saving the document -/

theorem savePDFToOutput_some (tbl : Char → Char) (env : Environment) (now : Time)
    (pdfBytes : List Nat) (itinerary : Itinerary)
    (h : env.mkdirAll "output".toList ≠ none ∨
      env.writeFile (outputPath (buildFileName tbl itinerary now)) pdfBytes ≠ none) :
    ∃ err, savePDFToOutput tbl env now pdfBytes itinerary = some err := by
  unfold savePDFToOutput
  cases hm : env.mkdirAll "output".toList with
  | some err => exact ⟨_, rfl⟩
  | none =>
    simp only []
    cases hw : env.writeFile (outputPath (buildFileName tbl itinerary now)) pdfBytes with
    | some err => exact ⟨_, rfl⟩
    | none =>
      rcases h with h | h
      · exact absurd hm h
      · exact absurd hw h

/-- C22: when the page engine returns the bytes of the document and the output directory
cannot be created or the file cannot be written, `GeneratePDF` returns an error and no
bytes, and the text of the error begins with "failed to save PDF: " and not with
"failed to generate PDF:"; when the page engine returns an error, the text of the error of
`GeneratePDF` is "failed to generate PDF: " followed by the text of that error. -/
theorem GeneratePDF_save_error (low up : Char → Char) (visits : Nat → List (List Char))
    (pageNo : Int) (env : Environment) (now : Time) (itinerary : Itinerary)
    (pdfBytes : List Nat)
    (hout : env.output (generatePDFCanvas low up visits pageNo itinerary) =
      Except.ok pdfBytes)
    (hfail : env.mkdirAll "output".toList ≠ none ∨
      env.writeFile (outputPath (buildFileName low itinerary now)) pdfBytes ≠ none) :
    (∃ err, GeneratePDF low up visits pageNo env now itinerary = Except.error err ∧
      "failed to save PDF: ".toList <+: err.Error ∧
      ¬ ("failed to generate PDF:".toList <+: err.Error)) ∧
    (∀ (other : Environment) (cause : GoError),
      other.output (generatePDFCanvas low up visits pageNo itinerary) = Except.error cause →
      GeneratePDF low up visits pageNo other now itinerary =
        Except.error (GoError.errorString ("failed to generate PDF: ".toList ++ cause.Error))) := by
  constructor
  · obtain ⟨err, herr⟩ := savePDFToOutput_some low env now pdfBytes itinerary hfail
    refine ⟨GoError.errorString ("failed to save PDF: ".toList ++ err.Error), ?_, ?_, ?_⟩
    · unfold GeneratePDF
      simp only []
      rw [hout]
      simp only []
      rw [herr]
    · exact List.prefix_append _ _
    · intro hp
      obtain ⟨rest, hrest⟩ := hp
      have h10 := congrArg (fun l => l.get? 10) hrest
      simp [GoError.Error] at h10
  · intro other cause hc
    unfold GeneratePDF
    simp only []
    rw [hc]

/-- The statement C22 in the environment `sampleEnvironmentNoDirectory`, where the page
engine returns three bytes and the directory cannot be created. -/
theorem GeneratePDF_save_error_witness :
    sampleEnvironmentNoDirectory.mkdirAll "output".toList ≠ none ∧
      ∃ err,
        GeneratePDF sampleLowerTable sampleUpperTable (fun _ => []) 1
            sampleEnvironmentNoDirectory sampleNoon
            (sampleItinerary "Bali".toList Time.zero Time.zero) = Except.error err ∧
          "failed to save PDF: ".toList <+: err.Error ∧
          ¬ ("failed to generate PDF:".toList <+: err.Error) :=
  ⟨by decide,
    (GeneratePDF_save_error sampleLowerTable sampleUpperTable (fun _ => []) 1
      sampleEnvironmentNoDirectory sampleNoon (sampleItinerary "Bali".toList Time.zero Time.zero)
      [37, 80, 68] rfl (Or.inl (by decide))).1⟩

/-! ## Validation -/

theorem firstError_eq_none {α : Type} (check : α → Option GoError) (xs : List α) :
    firstError check xs = none ↔ ∀ x ∈ xs, check x = none := by
  induction xs with
  | nil => simp [firstError]
  | cons x xs ih =>
    unfold firstError
    cases h : check x with
    | some err => simp [h]
    | none => simp [h, ih]

theorem exists_not_isSpace_of_trimSpace_ne_nil (s : List Char) (h : trimSpace s ≠ []) :
    ∃ c ∈ s, isSpace c = false := by
  by_contra hc
  apply h
  apply trimSpace_eq_nil
  intro c hcs
  by_contra hsp
  exact hc ⟨c, hcs, by simpa using hsp⟩

theorem trimSpace_eq_nil_iff (s : List Char) :
    trimSpace s = [] ↔ ∀ c ∈ s, isSpace c = true := by
  constructor
  · intro h c hc
    by_contra hsp
    exact trimSpace_ne_nil s ⟨c, hc, by simpa using hsp⟩ h
  · exact trimSpace_eq_nil s

theorem ValidateStringList_eq_none (values : List (List Char)) (label : List Char) :
    ValidateStringList values label = none ↔
      values ≠ [] ∧ ∀ value ∈ values, trimSpace value ≠ [] := by
  unfold ValidateStringList
  by_cases h : values = []
  · simp [h]
  · rw [if_neg (by simpa using h), firstError_eq_none]
    constructor
    · intro hall
      refine ⟨h, fun value hv e => ?_⟩
      have := hall value hv
      simp [e] at this
    · rintro ⟨-, hall⟩ value hv
      simp [hall value hv]

theorem Time.before_eq_false_iff (t u : Time) :
    t.Before u = false ↔ u.sec < t.sec ∨ (u.sec = t.sec ∧ u.nsec ≤ t.nsec) := by
  unfold Time.Before
  simp only [Bool.or_eq_false_iff, Bool.and_eq_false_iff, decide_eq_false_iff_not,
    beq_eq_false_iff_ne, ne_eq]
  constructor
  · rintro ⟨h1, h2 | h2⟩
    · left; omega
    · by_cases e : u.sec = t.sec
      · right; exact ⟨e, by omega⟩
      · left; omega
  · rintro (h | ⟨h1, h2⟩)
    · exact ⟨by omega, Or.inl (by omega)⟩
    · exact ⟨by omega, Or.inr (by omega)⟩

theorem ValidateHotel_eq_none (hotel : Hotel) (h : ValidateHotel hotel = none) :
    trimSpace hotel.Name ≠ [] ∧ trimSpace hotel.City ≠ [] ∧ hotel.CheckIn.IsZero = false ∧
      hotel.CheckOut.IsZero = false ∧ hotel.CheckOut.Before hotel.CheckIn = false ∧
      0 < hotel.Nights := by
  unfold ValidateHotel at h
  split_ifs at h with h1 h2 h3 h4 h5 h6
  exact ⟨h1, h2, by simpa using h3, by simpa using h4, by simpa using h5, by omega⟩

theorem ValidateFlight_eq_none (flight : Flight) (h : ValidateFlight flight = none) :
    trimSpace flight.Airline ≠ [] ∧ trimSpace flight.FlightNumber ≠ [] ∧
      flight.DepartureTime.IsZero = false ∧ flight.ArrivalTime.IsZero = false ∧
      flight.ArrivalTime.Before flight.DepartureTime = false := by
  unfold ValidateFlight at h
  split_ifs at h with h1 h2 h3 h4 h5 h6 h7
  exact ⟨h1, h2, by simpa using h4, by simpa using h6, by simpa using h7⟩

theorem ValidateActivity_eq_none (low : Char → Char) (activity : Activity)
    (h : ValidateActivity low activity = none) :
    trimSpace activity.Title ≠ [] ∧ trimSpace activity.Period ≠ [] ∧
      toLower low activity.Period ∈ validPeriods ∧ trimSpace activity.Time ≠ [] ∧
      trimSpace activity.Description ≠ [] ∧ trimSpace activity.Location ≠ [] := by
  unfold ValidateActivity at h
  split_ifs at h with h1 h2 h3 h4 h5 h6
  exact ⟨h1, h2, by simpa using h3, h4, h5, h6⟩

theorem ValidateDayPlan_eq_none (low : Char → Char) (day : DayPlan)
    (h : ValidateDayPlan low day = none) :
    0 < day.DayNumber ∧ day.Date.IsZero = false ∧ trimSpace day.Title ≠ [] ∧
      day.Activities ≠ [] ∧ ∀ activity ∈ day.Activities,
        ValidateActivity low activity = none := by
  unfold ValidateDayPlan at h
  split_ifs at h with h1 h2 h3 h4
  exact ⟨by omega, by simpa using h2, h3, by simpa using h4, (firstError_eq_none _ _).mp h⟩

theorem ValidatePaymentInstallment_eq_none (installment : PaymentInstallment)
    (h : ValidatePaymentInstallment installment = none) :
    0 < installment.InstallmentNumber ∧ installment.Amount.leZero = false ∧
      trimSpace installment.Currency ≠ [] ∧ installment.DueDate.IsZero = false := by
  unfold ValidatePaymentInstallment at h
  split_ifs at h with h1 h2 h3 h4
  exact ⟨by omega, by simpa using h2, h3, by simpa using h4⟩

theorem magnitude_pos_of_not_leZero (x : Float64) (h : x.leZero = false) :
    x.sign = false ∧ 0 < x.magnitude := by
  unfold Float64.leZero at h
  simp only [Bool.or_eq_false_iff, beq_eq_false_iff_ne, ne_eq] at h
  refine ⟨h.1, ?_⟩
  have hm : (0 : ℚ) < x.mant := by exact_mod_cast Nat.pos_of_ne_zero h.2
  unfold Float64.magnitude
  split_ifs
  · positivity
  · positivity

theorem validPeriods_mem (period : List Char) :
    period ∈ validPeriods ↔
      period = "morning".toList ∨ period = "afternoon".toList ∨ period = "evening".toList := by
  unfold validPeriods
  simp

theorem ValidateItinerary_eq_none (low : Char → Char) (req : CreateItineraryRequest)
    (h : ValidateItinerary low req = none) :
    trimSpace req.UserID ≠ [] ∧ trimSpace req.Title ≠ [] ∧ trimSpace req.Location ≠ [] ∧
      req.StartDate.IsZero = false ∧ req.EndDate.IsZero = false ∧
      req.EndDate.Before req.StartDate = false ∧
      req.Hotels ≠ [] ∧ req.Flights ≠ [] ∧ req.Transfers ≠ [] ∧ req.Days ≠ [] ∧
      req.PaymentPlan ≠ [] ∧
      ValidateStringList req.Inclusions "inclusion".toList = none ∧
      ValidateStringList req.Exclusions "exclusion".toList = none ∧
      (∀ hotel ∈ req.Hotels, ValidateHotel hotel = none) ∧
      (∀ flight ∈ req.Flights, ValidateFlight flight = none) ∧
      (∀ transfer ∈ req.Transfers, ValidateTransfer transfer = none) ∧
      (∀ day ∈ req.Days, ValidateDayPlan low day = none) ∧
      (∀ installment ∈ req.PaymentPlan, ValidatePaymentInstallment installment = none) := by
  unfold ValidateItinerary at h
  by_cases h1 : trimSpace req.UserID = []
  · rw [if_pos h1] at h; cases h
  rw [if_neg h1] at h
  by_cases h2 : trimSpace req.Title = []
  · rw [if_pos h2] at h; cases h
  rw [if_neg h2] at h
  by_cases h3 : trimSpace req.Location = []
  · rw [if_pos h3] at h; cases h
  rw [if_neg h3] at h
  by_cases h4 : req.StartDate.IsZero = true
  · rw [if_pos h4] at h; cases h
  rw [if_neg h4] at h
  by_cases h5 : req.EndDate.IsZero = true
  · rw [if_pos h5] at h; cases h
  rw [if_neg h5] at h
  by_cases h6 : req.EndDate.Before req.StartDate = true
  · rw [if_pos h6] at h; cases h
  rw [if_neg h6] at h
  by_cases h7 : req.Hotels.length = 0
  · rw [if_pos h7] at h; cases h
  rw [if_neg h7] at h
  by_cases h8 : req.Flights.length = 0
  · rw [if_pos h8] at h; cases h
  rw [if_neg h8] at h
  by_cases h9 : req.Transfers.length = 0
  · rw [if_pos h9] at h; cases h
  rw [if_neg h9] at h
  by_cases h10 : req.Days.length = 0
  · rw [if_pos h10] at h; cases h
  rw [if_neg h10] at h
  by_cases h11 : req.PaymentPlan.length = 0
  · rw [if_pos h11] at h; cases h
  rw [if_neg h11] at h
  cases e1 : ValidateStringList req.Inclusions "inclusion".toList with
  | some err => rw [e1] at h; cases h
  | none =>
    rw [e1] at h
    cases e2 : ValidateStringList req.Exclusions "exclusion".toList with
    | some err => rw [e2] at h; cases h
    | none =>
      rw [e2] at h
      cases e3 : firstError ValidateHotel req.Hotels with
      | some err => rw [e3] at h; cases h
      | none =>
        rw [e3] at h
        cases e4 : firstError ValidateFlight req.Flights with
        | some err => rw [e4] at h; cases h
        | none =>
          rw [e4] at h
          cases e5 : firstError ValidateTransfer req.Transfers with
          | some err => rw [e5] at h; cases h
          | none =>
            rw [e5] at h
            cases e6 : firstError (ValidateDayPlan low) req.Days with
            | some err => rw [e6] at h; cases h
            | none =>
              rw [e6] at h
              simp only [] at h
              exact ⟨h1, h2, h3, by simpa using h4, by simpa using h5, by simpa using h6,
                by simpa using h7, by simpa using h8, by simpa using h9, by simpa using h10,
                by simpa using h11, rfl, rfl, (firstError_eq_none _ _).mp e3,
                (firstError_eq_none _ _).mp e4, (firstError_eq_none _ _).mp e5,
                (firstError_eq_none _ _).mp e6, (firstError_eq_none _ _).mp h⟩

/-- C23: a create request that `ValidateItinerary` accepts has a user id, a title and a
location that are not blank, an end date that is not before the start date, hotels, flights,
transfers, days and a payment plan that are not empty, no hotel whose check-out is before its
check-in, no flight whose arrival is before its departure, only activities whose period in
lower case is "morning", "afternoon" or "evening", and only installments with a positive
number, a positive amount, a currency that is not blank and a due date that is not zero; a
time is not before another when its instant is the same or later. -/
theorem ValidateItinerary_accepts (low : Char → Char) (req : CreateItineraryRequest)
    (h : ValidateItinerary low req = none) :
    (∃ c ∈ req.UserID, isSpace c = false) ∧ (∃ c ∈ req.Title, isSpace c = false) ∧
      (∃ c ∈ req.Location, isSpace c = false) ∧
      req.EndDate.Before req.StartDate = false ∧
      req.Hotels ≠ [] ∧ req.Flights ≠ [] ∧ req.Transfers ≠ [] ∧ req.Days ≠ [] ∧
      req.PaymentPlan ≠ [] ∧
      (∀ hotel ∈ req.Hotels, hotel.CheckOut.Before hotel.CheckIn = false) ∧
      (∀ flight ∈ req.Flights, flight.ArrivalTime.Before flight.DepartureTime = false) ∧
      (∀ day ∈ req.Days, ∀ activity ∈ day.Activities,
        toLower low activity.Period = "morning".toList ∨
          toLower low activity.Period = "afternoon".toList ∨
          toLower low activity.Period = "evening".toList) ∧
      (∀ installment ∈ req.PaymentPlan,
        0 < installment.InstallmentNumber ∧ installment.Amount.sign = false ∧
          0 < installment.Amount.magnitude ∧
          (∃ c ∈ installment.Currency, isSpace c = false) ∧
          installment.DueDate.IsZero = false) ∧
      (∀ t u : Time,
        t.Before u = false ↔ u.sec < t.sec ∨ (u.sec = t.sec ∧ u.nsec ≤ t.nsec)) := by
  obtain ⟨h1, h2, h3, -, -, h6, h7, h8, h9, h10, h11, -, -, hh, hf, -, hd, hp⟩ :=
    ValidateItinerary_eq_none low req h
  refine ⟨exists_not_isSpace_of_trimSpace_ne_nil _ h1,
    exists_not_isSpace_of_trimSpace_ne_nil _ h2,
    exists_not_isSpace_of_trimSpace_ne_nil _ h3, h6, h7, h8, h9, h10, h11, ?_, ?_, ?_, ?_,
    Time.before_eq_false_iff⟩
  · intro hotel hm
    exact (ValidateHotel_eq_none hotel (hh hotel hm)).2.2.2.2.1
  · intro flight hm
    exact (ValidateFlight_eq_none flight (hf flight hm)).2.2.2.2
  · intro day hm activity ha
    have hday := (ValidateDayPlan_eq_none low day (hd day hm)).2.2.2.2 activity ha
    exact (validPeriods_mem _).mp (ValidateActivity_eq_none low activity hday).2.2.1
  · intro installment hm
    obtain ⟨p1, p2, p3, p4⟩ := ValidatePaymentInstallment_eq_none installment (hp _ hm)
    obtain ⟨q1, q2⟩ := magnitude_pos_of_not_leZero _ p2
    exact ⟨p1, q1, q2, exists_not_isSpace_of_trimSpace_ne_nil _ p3, p4⟩

/-- The statement C23 at the request `sampleRequest`, which is accepted: its end date is not
before its start date. -/
theorem ValidateItinerary_accepts_witness :
    ValidateItinerary sampleLowerTable sampleRequest = none ∧
      sampleRequest.EndDate.Before sampleRequest.StartDate = false :=
  ⟨by decide, (ValidateItinerary_accepts sampleLowerTable sampleRequest (by decide)).2.2.2.1⟩

/-- C30: `ValidateItinerary` returns an error for every create request whose list of
inclusions or of exclusions is empty or has an entry that is empty or made of white space
only, whatever its other fields are. -/
theorem ValidateItinerary_rejects_lists (low : Char → Char) (req : CreateItineraryRequest)
    (h : req.Inclusions = [] ∨ req.Exclusions = [] ∨
      (∃ entry ∈ req.Inclusions, ∀ c ∈ entry, isSpace c = true) ∨
      (∃ entry ∈ req.Exclusions, ∀ c ∈ entry, isSpace c = true)) :
    ∃ err, ValidateItinerary low req = some err := by
  cases hv : ValidateItinerary low req with
  | some err => exact ⟨err, rfl⟩
  | none =>
    exfalso
    obtain ⟨-, -, -, -, -, -, -, -, -, -, -, hi, he, -⟩ := ValidateItinerary_eq_none low req hv
    rw [ValidateStringList_eq_none] at hi he
    rcases h with h | h | ⟨entry, hm, hb⟩ | ⟨entry, hm, hb⟩
    · exact hi.1 h
    · exact he.1 h
    · exact hi.2 entry hm ((trimSpace_eq_nil_iff entry).mpr hb)
    · exact he.2 entry hm ((trimSpace_eq_nil_iff entry).mpr hb)

/-- The statement C30 at the request `sampleRequest` without its inclusions: the request
`sampleRequest` is accepted, and it is rejected once its list of inclusions is empty. -/
theorem ValidateItinerary_rejects_lists_witness :
    ValidateItinerary sampleLowerTable sampleRequest = none ∧
      ∃ err, ValidateItinerary sampleLowerTable { sampleRequest with Inclusions := [] } =
        some err :=
  ⟨by decide,
    ValidateItinerary_rejects_lists sampleLowerTable { sampleRequest with Inclusions := [] }
      (Or.inl rfl)⟩

/-! ## The store and the service -/

theorem ItineraryMap.lookup_set (m : ItineraryMap) (key other : List Char)
    (value : Itinerary) :
    (m.set key value).lookup other = if key = other then some value else m.lookup other := by
  induction m with
  | nil =>
    unfold ItineraryMap.set ItineraryMap.lookup
    split_ifs <;> rfl
  | cons entry rest ih =>
    obtain ⟨k, v⟩ := entry
    unfold ItineraryMap.set
    by_cases hk : k = key
    · rw [if_pos hk]
      unfold ItineraryMap.lookup
      by_cases ho : key = other
      · rw [if_pos ho, if_pos ho]
      · rw [if_neg ho, if_neg ho, if_neg (by rw [hk]; exact ho)]
    · rw [if_neg hk]
      unfold ItineraryMap.lookup
      by_cases h2 : k = other
      · rw [if_pos h2, if_pos h2, if_neg (by rw [← h2]; exact fun e => hk e.symm)]
      · rw [if_neg h2, if_neg h2]
        exact ih

theorem ItineraryMap.mem_set (m : ItineraryMap) (key : List Char) (value : Itinerary)
    (entry : List Char × Itinerary) (h : entry ∈ ItineraryMap.set m key value) :
    entry ∈ m ∨ entry = (key, value) := by
  induction m with
  | nil =>
    unfold ItineraryMap.set at h
    simp only [List.mem_singleton] at h
    exact Or.inr h
  | cons first rest ih =>
    obtain ⟨k, v⟩ := first
    unfold ItineraryMap.set at h
    by_cases hk : k = key
    · rw [if_pos hk, List.mem_cons] at h
      rcases h with h | h
      · exact Or.inr h
      · exact Or.inl (List.mem_cons_of_mem _ h)
    · rw [if_neg hk, List.mem_cons] at h
      rcases h with h | h
      · exact Or.inl (by rw [h]; exact List.mem_cons_self _ _)
      · rcases ih h with h2 | h2
        · exact Or.inl (List.mem_cons_of_mem _ h2)
        · exact Or.inr h2

theorem ItineraryMap.mem_of_lookup (m : ItineraryMap) (key : List Char) (value : Itinerary)
    (h : ItineraryMap.lookup m key = some value) : (key, value) ∈ m := by
  induction m with
  | nil => cases h
  | cons first rest ih =>
    obtain ⟨k, v⟩ := first
    unfold ItineraryMap.lookup at h
    by_cases hk : k = key
    · rw [if_pos hk] at h
      injection h with h
      rw [hk, h]
      exact List.mem_cons_self _ _
    · rw [if_neg hk] at h
      exact List.mem_cons_of_mem _ (ih h)

theorem MemoryStore.getByID_eq_ok (ms : MemoryStore) (id : List Char) (itinerary : Itinerary) :
    ms.GetByID id = Except.ok itinerary ↔ ms.itineraries.lookup id = some itinerary := by
  unfold MemoryStore.GetByID
  cases h : ms.itineraries.lookup id with
  | none => simp
  | some it =>
    simp only [Option.some.injEq]
    constructor
    · intro e
      injection e
    · intro e
      rw [e]

theorem MemoryStore.mem_update (ms : MemoryStore) (id : List Char) (itinerary : Itinerary)
    (entry : List Char × Itinerary) (h : entry ∈ (ms.Update id itinerary).1.itineraries) :
    entry ∈ ms.itineraries ∨ entry = (id, itinerary) := by
  unfold MemoryStore.Update at h
  cases hl : ms.itineraries.lookup id with
  | none =>
    rw [hl] at h
    exact Or.inl h
  | some old =>
    rw [hl] at h
    exact ItineraryMap.mem_set _ _ _ _ h

theorem MemoryStore.mem_create (ms : MemoryStore) (itinerary : Itinerary)
    (entry : List Char × Itinerary) (h : entry ∈ (ms.Create itinerary).1.itineraries) :
    entry ∈ ms.itineraries ∨ entry = (itinerary.ID, itinerary) := by
  unfold MemoryStore.Create at h
  cases hl : ms.itineraries.lookup itinerary.ID with
  | some old =>
    rw [hl] at h
    exact Or.inl h
  | none =>
    rw [hl] at h
    exact ItineraryMap.mem_set _ _ _ _ h

theorem MemoryStore.update_of_lookup (ms : MemoryStore) (id : List Char)
    (old itinerary : Itinerary) (h : ms.itineraries.lookup id = some old) :
    ms.Update id itinerary = (⟨ms.itineraries.set id itinerary⟩, none) := by
  unfold MemoryStore.Update
  rw [h]

theorem ItineraryMap.set_set (m : ItineraryMap) (key : List Char) (first second : Itinerary) :
    ItineraryMap.set (ItineraryMap.set m key first) key second =
      ItineraryMap.set m key second := by
  induction m with
  | nil =>
    unfold ItineraryMap.set
    simp [ItineraryMap.set]
  | cons entry rest ih =>
    obtain ⟨k, v⟩ := entry
    by_cases hk : k = key
    · simp [ItineraryMap.set, hk]
    · simp [ItineraryMap.set, hk, ih]

/-! ## Adding an activity -/

theorem appendToDay_none (dayNumber : Int) (activity : Activity) (days : List DayPlan)
    (h : ∀ day ∈ days, day.DayNumber ≠ dayNumber) :
    appendToDay dayNumber activity days = none := by
  induction days with
  | nil => rfl
  | cons day rest ih =>
    unfold appendToDay
    rw [if_neg (h day (List.mem_cons_self _ _)),
      ih (fun d hd => h d (List.mem_cons_of_mem _ hd))]
    rfl

theorem appendToDay_some (dayNumber : Int) (activity : Activity)
    (before : List DayPlan) (day : DayPlan) (after : List DayPlan)
    (hbefore : ∀ d ∈ before, d.DayNumber ≠ dayNumber) (hday : day.DayNumber = dayNumber) :
    appendToDay dayNumber activity (before ++ day :: after) =
      some (before ++ { day with Activities := day.Activities ++ [activity] } :: after) := by
  induction before with
  | nil =>
    rw [List.nil_append, appendToDay, if_pos hday]
    rfl
  | cons d rest ih =>
    rw [List.cons_append, appendToDay, if_neg (hbefore d (List.mem_cons_self _ _)),
      ih (fun x hx => hbefore x (List.mem_cons_of_mem _ hx))]
    rfl

/-- C29: for an activity that `ValidateActivity` accepts and an itinerary that is in the
store, `AddActivity` returns the error "day not found in itinerary" and leaves the store as
it was when no day of the itinerary has the number asked for; otherwise it returns and stores
the itinerary in which the first day with that number has the activity, with its period in
lower case, after its earlier activities, every other day being as before; the other fields
of the itinerary are as before but for the time of the update. -/
theorem AddActivity_result (low : Char → Char) (ms : MemoryStore) (now : Time)
    (itineraryID : List Char) (dayNumber : Int) (activity : Activity) (itinerary : Itinerary)
    (hvalid : ValidateActivity low activity = none)
    (hget : ms.GetByID itineraryID = Except.ok itinerary) :
    ((∀ day ∈ itinerary.Days, day.DayNumber ≠ dayNumber) →
      AddActivity low ms now itineraryID dayNumber activity =
        (ms, Except.error (GoError.ValidationError "day not found in itinerary".toList))) ∧
    (∀ before day after, itinerary.Days = before ++ day :: after →
      (∀ d ∈ before, d.DayNumber ≠ dayNumber) → day.DayNumber = dayNumber →
      (AddActivity low ms now itineraryID dayNumber activity).2 =
          Except.ok { itinerary with
            Days := before ++
              { day with Activities :=
                  day.Activities ++ [{ activity with Period := toLower low activity.Period }] }
                :: after,
            UpdatedAt := now } ∧
        (AddActivity low ms now itineraryID dayNumber activity).1.GetByID itineraryID =
          (AddActivity low ms now itineraryID dayNumber activity).2 ∧
        ∀ other, other ≠ itineraryID →
          (AddActivity low ms now itineraryID dayNumber activity).1.GetByID other =
            ms.GetByID other) := by
  have hlook := (MemoryStore.getByID_eq_ok ms itineraryID itinerary).mp hget
  constructor
  · intro hnone
    unfold AddActivity
    rw [hvalid, hget]
    simp only []
    rw [appendToDay_none _ _ _ hnone]
    rfl
  · intro before day after hdays hbefore hday
    have happ := appendToDay_some dayNumber (normalizeActivity low activity) before day after
      hbefore hday
    have hlook2 : ∀ value : Itinerary,
        (ItineraryMap.set ms.itineraries itineraryID value).lookup itineraryID = some value := by
      intro value
      rw [ItineraryMap.lookup_set, if_pos rfl]
    have hrun : AddActivity low ms now itineraryID dayNumber activity =
        (⟨ItineraryMap.set ms.itineraries itineraryID
            { itinerary with
              Days := before ++
                { day with Activities :=
                    day.Activities ++ [normalizeActivity low activity] } :: after,
              UpdatedAt := now }⟩,
          Except.ok { itinerary with
            Days := before ++
              { day with Activities :=
                  day.Activities ++ [normalizeActivity low activity] } :: after,
            UpdatedAt := now }) := by
      unfold AddActivity
      rw [hvalid, hget]
      simp only []
      rw [hdays, happ]
      simp only []
      rw [MemoryStore.update_of_lookup _ _ _ _ (hlook2 _)]
      simp only [ItineraryMap.set_set]
    rw [hrun]
    refine ⟨rfl, ?_, ?_⟩
    · rw [MemoryStore.getByID_eq_ok]
      exact hlook2 _
    · intro other hne
      unfold MemoryStore.GetByID
      simp only []
      rw [ItineraryMap.lookup_set, if_neg (fun e => hne e.symm)]

/-- The statement C29 at the store `sampleStore`, whose itinerary has a day 1 only, for an
activity of period "EVENING" and the day number 2. -/
theorem AddActivity_result_witness :
    ValidateActivity sampleLowerTable (sampleValidActivity "EVENING".toList "Dinner".toList) =
        none ∧
      sampleStore.GetByID sampleID = Except.ok sampleStored ∧
      AddActivity sampleLowerTable sampleStore (dateUTC 2024 3 2) sampleID 2
          (sampleValidActivity "EVENING".toList "Dinner".toList) =
        (sampleStore,
          Except.error (GoError.ValidationError "day not found in itinerary".toList)) :=
  ⟨by decide, (MemoryStore.getByID_eq_ok _ _ _).mpr (by decide),
    (AddActivity_result sampleLowerTable sampleStore (dateUTC 2024 3 2) sampleID 2
      (sampleValidActivity "EVENING".toList "Dinner".toList) sampleStored (by decide)
      ((MemoryStore.getByID_eq_ok _ _ _).mpr (by decide))).1 (by decide)⟩

/-! ## The periods of the stored activities -/

theorem normalizeDays_periods (low : Char → Char) (days : List DayPlan)
    (h : ∀ day ∈ days, ValidateDayPlan low day = none) :
    ∀ day ∈ normalizeDays low days, ∀ activity ∈ day.Activities,
      activity.Period ∈ validPeriods := by
  intro day hday activity hact
  unfold normalizeDays at hday
  rw [List.mem_map] at hday
  obtain ⟨source, hs, rfl⟩ := hday
  simp only [List.mem_map] at hact
  obtain ⟨original, ho, rfl⟩ := hact
  have hv := (ValidateDayPlan_eq_none low source (h source hs)).2.2.2.2 original ho
  exact (ValidateActivity_eq_none low original hv).2.2.1

theorem appendToDay_periods (dayNumber : Int) (activity : Activity) (days result : List DayPlan)
    (hact : activity.Period ∈ validPeriods)
    (hdays : ∀ day ∈ days, ∀ a ∈ day.Activities, a.Period ∈ validPeriods)
    (h : appendToDay dayNumber activity days = some result) :
    ∀ day ∈ result, ∀ a ∈ day.Activities, a.Period ∈ validPeriods := by
  induction days generalizing result with
  | nil => cases h
  | cons first rest ih =>
    rw [appendToDay] at h
    by_cases hn : first.DayNumber = dayNumber
    · rw [if_pos hn] at h
      injection h with h
      subst h
      intro day hday a ha
      rw [List.mem_cons] at hday
      rcases hday with hday | hday
      · subst hday
        simp only [List.mem_append, List.mem_singleton] at ha
        rcases ha with ha | ha
        · exact hdays first (List.mem_cons_self _ _) a ha
        · rw [ha]; exact hact
      · exact hdays day (List.mem_cons_of_mem _ hday) a ha
    · rw [if_neg hn] at h
      cases hr : appendToDay dayNumber activity rest with
      | none => rw [hr] at h; cases h
      | some tail =>
        rw [hr] at h
        injection h with h
        subst h
        intro day hday a ha
        rw [List.mem_cons] at hday
        rcases hday with hday | hday
        · subst hday
          exact hdays day (List.mem_cons_self _ _) a ha
        · exact ih tail (fun d hd => hdays d (List.mem_cons_of_mem _ hd)) hr day hday a ha

theorem runBlocks_preserves (P : Itinerary → Prop)
    (blocks : List (Itinerary → Except GoError Itinerary))
    (h : ∀ block ∈ blocks, ∀ before after, P before → block before = Except.ok after → P after)
    (itinerary : Itinerary) (hP : P itinerary) : P (runBlocks blocks itinerary).1 := by
  induction blocks generalizing itinerary with
  | nil => exact hP
  | cons block rest ih =>
    unfold runBlocks
    cases hb : block itinerary with
    | error err => exact hP
    | ok next =>
      exact ih (fun b hb2 => h b (List.mem_cons_of_mem _ hb2)) next
        (h block (List.mem_cons_self _ _) itinerary next hP hb)

theorem updateScalars_days (req : UpdateItineraryRequest) (itinerary : Itinerary) :
    (updateScalars req itinerary).Days = itinerary.Days := by
  unfold updateScalars
  simp only []
  split_ifs <;> rfl

theorem updateBlocks_periods (low : Char → Char) (req : UpdateItineraryRequest) :
    ∀ block ∈ [updateHotels req, updateFlights req, updateTransfers req, updateDays low req,
        updatePaymentPlan req, updateInclusions req, updateExclusions req],
      ∀ before after,
        (∀ day ∈ before.Days, ∀ a ∈ day.Activities, a.Period ∈ validPeriods) →
        block before = Except.ok after →
        ∀ day ∈ after.Days, ∀ a ∈ day.Activities, a.Period ∈ validPeriods := by
  intro block hblock before after hP hrun
  simp only [List.mem_cons, List.mem_singleton, List.not_mem_nil, or_false] at hblock
  rcases hblock with rfl | rfl | rfl | rfl | rfl | rfl | rfl
  · unfold updateHotels at hrun
    cases hr : req.Hotels with
    | none => rw [hr] at hrun; injection hrun with e; rw [← e]; exact hP
    | some xs =>
      rw [hr] at hrun
      simp only [] at hrun
      split_ifs at hrun
      cases hv : firstError ValidateHotel xs with
      | some err => rw [hv] at hrun; cases hrun
      | none => rw [hv] at hrun; injection hrun with e; rw [← e]; exact hP
  · unfold updateFlights at hrun
    cases hr : req.Flights with
    | none => rw [hr] at hrun; injection hrun with e; rw [← e]; exact hP
    | some xs =>
      rw [hr] at hrun
      simp only [] at hrun
      split_ifs at hrun
      cases hv : firstError ValidateFlight xs with
      | some err => rw [hv] at hrun; cases hrun
      | none => rw [hv] at hrun; injection hrun with e; rw [← e]; exact hP
  · unfold updateTransfers at hrun
    cases hr : req.Transfers with
    | none => rw [hr] at hrun; injection hrun with e; rw [← e]; exact hP
    | some xs =>
      rw [hr] at hrun
      simp only [] at hrun
      split_ifs at hrun
      cases hv : firstError ValidateTransfer xs with
      | some err => rw [hv] at hrun; cases hrun
      | none => rw [hv] at hrun; injection hrun with e; rw [← e]; exact hP
  · unfold updateDays at hrun
    cases hr : req.Days with
    | none => rw [hr] at hrun; injection hrun with e; rw [← e]; exact hP
    | some xs =>
      rw [hr] at hrun
      simp only [] at hrun
      split_ifs at hrun
      cases hv : firstError (ValidateDayPlan low) xs with
      | some err => rw [hv] at hrun; cases hrun
      | none =>
        rw [hv] at hrun
        injection hrun with e
        rw [← e]
        exact normalizeDays_periods low xs ((firstError_eq_none _ _).mp hv)
  · unfold updatePaymentPlan at hrun
    cases hr : req.PaymentPlan with
    | none => rw [hr] at hrun; injection hrun with e; rw [← e]; exact hP
    | some xs =>
      rw [hr] at hrun
      simp only [] at hrun
      split_ifs at hrun
      cases hv : firstError ValidatePaymentInstallment xs with
      | some err => rw [hv] at hrun; cases hrun
      | none => rw [hv] at hrun; injection hrun with e; rw [← e]; exact hP
  · unfold updateInclusions at hrun
    cases hr : req.Inclusions with
    | none => rw [hr] at hrun; injection hrun with e; rw [← e]; exact hP
    | some xs =>
      rw [hr] at hrun
      simp only [] at hrun
      cases hv : ValidateStringList xs "inclusion".toList with
      | some err => rw [hv] at hrun; cases hrun
      | none => rw [hv] at hrun; injection hrun with e; rw [← e]; exact hP
  · unfold updateExclusions at hrun
    cases hr : req.Exclusions with
    | none => rw [hr] at hrun; injection hrun with e; rw [← e]; exact hP
    | some xs =>
      rw [hr] at hrun
      simp only [] at hrun
      cases hv : ValidateStringList xs "exclusion".toList with
      | some err => rw [hv] at hrun; cases hrun
      | none => rw [hv] at hrun; injection hrun with e; rw [← e]; exact hP

theorem CreateItinerary_periods (low : Char → Char) (ms : MemoryStore) (now idNow : Time)
    (req : CreateItineraryRequest)
    (h : ∀ entry ∈ ms.itineraries, ∀ day ∈ entry.2.Days, ∀ a ∈ day.Activities,
      a.Period ∈ validPeriods) :
    ∀ entry ∈ (CreateItinerary low ms now idNow req).1.itineraries,
      ∀ day ∈ entry.2.Days, ∀ a ∈ day.Activities, a.Period ∈ validPeriods := by
  unfold CreateItinerary
  cases hv : ValidateItinerary low req with
  | some err => exact h
  | none =>
    simp only []
    have hd := (ValidateItinerary_eq_none low req hv).2.2.2.2.2.2.2.2.2.2.2.2.2.2.2.2.1
    intro entry hentry
    have hsplit : ∀ (r : MemoryStore × Option GoError) (it : Itinerary),
        (match r with
          | (ms, some err) => ((ms, Except.error err) : MemoryStore × Except GoError Itinerary)
          | (ms, none) => (ms, Except.ok it)).1 = r.1 := by
      intro r it
      obtain ⟨a, b⟩ := r
      cases b <;> rfl
    rw [hsplit] at hentry
    rcases MemoryStore.mem_create _ _ _ hentry with hm | hm
    · exact h entry hm
    · rw [hm]
      exact normalizeDays_periods low req.Days hd

theorem UpdateItinerary_periods (low : Char → Char) (ms : MemoryStore) (now : Time)
    (id : List Char) (req : UpdateItineraryRequest)
    (h : ∀ entry ∈ ms.itineraries, ∀ day ∈ entry.2.Days, ∀ a ∈ day.Activities,
      a.Period ∈ validPeriods) :
    ∀ entry ∈ (UpdateItinerary low ms now id req).1.itineraries,
      ∀ day ∈ entry.2.Days, ∀ a ∈ day.Activities, a.Period ∈ validPeriods := by
  unfold UpdateItinerary
  cases hg : ms.GetByID id with
  | error err => exact h
  | ok itinerary =>
    simp only []
    have hmem := ItineraryMap.mem_of_lookup _ _ _ ((MemoryStore.getByID_eq_ok _ _ _).mp hg)
    have hP0 : ∀ day ∈ (updateScalars req itinerary).Days, ∀ a ∈ day.Activities,
        a.Period ∈ validPeriods := by
      rw [updateScalars_days]
      exact h _ hmem
    have hP := runBlocks_preserves
      (fun it => ∀ day ∈ it.Days, ∀ a ∈ day.Activities, a.Period ∈ validPeriods) _
      (updateBlocks_periods low req) _ hP0
    generalize runBlocks
      [updateHotels req, updateFlights req, updateTransfers req, updateDays low req,
        updatePaymentPlan req, updateInclusions req, updateExclusions req]
      (updateScalars req itinerary) = r at hP ⊢
    obtain ⟨result, err⟩ := r
    cases err with
    | some err =>
      intro entry hentry
      rcases ItineraryMap.mem_set _ _ _ _ hentry with hm | hm
      · exact h entry hm
      · rw [hm]; exact hP
    | none =>
      simp only []
      have hsplit : ∀ (r : MemoryStore × Option GoError) (it : Itinerary),
          (match r with
            | (ms, some err) => ((ms, Except.error err) : MemoryStore × Except GoError Itinerary)
            | (ms, none) => (ms, Except.ok it)).1 = r.1 := by
        intro r it
        obtain ⟨a, b⟩ := r
        cases b <;> rfl
      intro entry hentry
      rw [hsplit] at hentry
      rcases MemoryStore.mem_update _ _ _ _ hentry with hm | hm
      · rcases ItineraryMap.mem_set _ _ _ _ hm with hm2 | hm2
        · exact h entry hm2
        · rw [hm2]; exact hP
      · rw [hm]; exact hP

theorem AddActivity_periods (low : Char → Char) (ms : MemoryStore) (now : Time)
    (id : List Char) (dayNumber : Int) (activity : Activity)
    (h : ∀ entry ∈ ms.itineraries, ∀ day ∈ entry.2.Days, ∀ a ∈ day.Activities,
      a.Period ∈ validPeriods) :
    ∀ entry ∈ (AddActivity low ms now id dayNumber activity).1.itineraries,
      ∀ day ∈ entry.2.Days, ∀ a ∈ day.Activities, a.Period ∈ validPeriods := by
  unfold AddActivity
  cases hv : ValidateActivity low activity with
  | some err => exact h
  | none =>
    simp only []
    cases hg : ms.GetByID id with
    | error err => exact h
    | ok itinerary =>
      simp only []
      have hmem := ItineraryMap.mem_of_lookup _ _ _ ((MemoryStore.getByID_eq_ok _ _ _).mp hg)
      cases ha : appendToDay dayNumber (normalizeActivity low activity) itinerary.Days with
      | none => exact h
      | some days =>
        simp only []
        have hP := appendToDay_periods dayNumber (normalizeActivity low activity)
          itinerary.Days days (ValidateActivity_eq_none low activity hv).2.2.1 (h _ hmem) ha
        have hsplit : ∀ (r : MemoryStore × Option GoError) (it : Itinerary),
            (match r with
              | (ms, some err) =>
                ((ms, Except.error err) : MemoryStore × Except GoError Itinerary)
              | (ms, none) => (ms, Except.ok it)).1 = r.1 := by
          intro r it
          obtain ⟨a, b⟩ := r
          cases b <;> rfl
        intro entry hentry
        rw [hsplit] at hentry
        rcases MemoryStore.mem_update _ _ _ _ hentry with hm | hm
        · rcases ItineraryMap.mem_set _ _ _ _ hm with hm2 | hm2
          · exact h entry hm2
          · rw [hm2]; exact hP
        · rw [hm]; exact hP

theorem ItineraryMap.mem_delete (m : ItineraryMap) (key : List Char)
    (entry : List Char × Itinerary) (h : entry ∈ ItineraryMap.delete m key) : entry ∈ m := by
  unfold ItineraryMap.delete at h
  exact (List.mem_filter.mp h).1

theorem DeleteItinerary_periods (ms : MemoryStore) (id : List Char)
    (h : ∀ entry ∈ ms.itineraries, ∀ day ∈ entry.2.Days, ∀ a ∈ day.Activities,
      a.Period ∈ validPeriods) :
    ∀ entry ∈ (DeleteItinerary ms id).1.itineraries,
      ∀ day ∈ entry.2.Days, ∀ a ∈ day.Activities, a.Period ∈ validPeriods := by
  unfold DeleteItinerary MemoryStore.Delete
  cases hl : ms.itineraries.lookup id with
  | none => exact h
  | some old =>
    intro entry hentry
    exact h entry (ItineraryMap.mem_delete _ _ _ hentry)

theorem runCalls_periods_entries (low : Char → Char) (calls : List ServiceCall)
    (ms : MemoryStore)
    (h : ∀ entry ∈ ms.itineraries, ∀ day ∈ entry.2.Days, ∀ a ∈ day.Activities,
      a.Period ∈ validPeriods) :
    ∀ entry ∈ (runCalls low calls ms).itineraries,
      ∀ day ∈ entry.2.Days, ∀ a ∈ day.Activities, a.Period ∈ validPeriods := by
  induction calls generalizing ms with
  | nil => exact h
  | cons call rest ih =>
    unfold runCalls
    rw [List.foldl_cons]
    apply ih
    cases call with
    | create now idNow req => exact CreateItinerary_periods low ms now idNow req h
    | update now id req => exact UpdateItinerary_periods low ms now id req h
    | addActivity now id dayNumber activity =>
      exact AddActivity_periods low ms now id dayNumber activity h
    | delete id => exact DeleteItinerary_periods ms id h

/-- C24: after any sequence of calls of `CreateItinerary`, `UpdateItinerary`,
`AddActivity` and `DeleteItinerary` on the empty store, every activity of every itinerary that the store holds has
a period that is exactly "morning", "afternoon" or "evening". -/
theorem runCalls_periods (low : Char → Char) (calls : List ServiceCall) (id : List Char)
    (itinerary : Itinerary)
    (h : (runCalls low calls NewMemoryStore).GetByID id = Except.ok itinerary) :
    ∀ day ∈ itinerary.Days, ∀ activity ∈ day.Activities,
      activity.Period = "morning".toList ∨ activity.Period = "afternoon".toList ∨
        activity.Period = "evening".toList := by
  intro day hday activity hact
  have hmem := ItineraryMap.mem_of_lookup _ _ _ ((MemoryStore.getByID_eq_ok _ _ _).mp h)
  have := runCalls_periods_entries low calls NewMemoryStore
    (fun entry hentry => by cases hentry) _ hmem day hday activity hact
  exact (validPeriods_mem _).mp this

/-- The statement C24 after the call of `CreateItinerary` for `sampleRequest`, whose activity
has the period "Morning": the store holds it with the period "morning". -/
theorem runCalls_periods_witness :
    (runCalls sampleLowerTable [ServiceCall.create sampleNoon sampleNoon sampleRequest]
        NewMemoryStore).GetByID sampleID = Except.ok sampleStored ∧
      ((sampleValidActivity "morning".toList "Temple".toList).Period = "morning".toList ∨
        (sampleValidActivity "morning".toList "Temple".toList).Period = "afternoon".toList ∨
        (sampleValidActivity "morning".toList "Temple".toList).Period = "evening".toList) :=
  ⟨(MemoryStore.getByID_eq_ok _ _ _).mpr (by decide),
    runCalls_periods sampleLowerTable
      [ServiceCall.create sampleNoon sampleNoon sampleRequest] sampleID sampleStored
      ((MemoryStore.getByID_eq_ok _ _ _).mpr (by decide)) sampleStoredDay (by decide)
      (sampleValidActivity "morning".toList "Temple".toList) (by decide)⟩

theorem CreateItinerary_dates (low : Char → Char) (ms : MemoryStore) (now idNow : Time)
    (req : CreateItineraryRequest) (itinerary : Itinerary)
    (h : (CreateItinerary low ms now idNow req).2 = Except.ok itinerary) :
    itinerary.EndDate.Before itinerary.StartDate = false := by
  unfold CreateItinerary at h
  cases hv : ValidateItinerary low req with
  | some err => rw [hv] at h; cases h
  | none =>
    rw [hv] at h
    simp only [] at h
    have hd := (ValidateItinerary_eq_none low req hv).2.2.2.2.2.1
    generalize MemoryStore.Create ms _ = r at h
    obtain ⟨a, b⟩ := r
    cases b with
    | some err => cases h
    | none =>
      injection h with h
      rw [← h]
      exact hd

/-- C25: `CreateItinerary` stores only itineraries whose end date is not before the start
date, but `UpdateItinerary` does not compare the two dates: on the store `sampleStore`, whose
itinerary runs from 2024-03-10 to 2024-03-15, the update that provides only the start date
2024-04-01 succeeds, and the store then holds an itinerary whose end date is before its
start date. -/
theorem UpdateItinerary_dates_unchecked :
    sampleStore.GetByID sampleID = Except.ok sampleStored ∧
      sampleStored.EndDate.Before sampleStored.StartDate = false ∧
      (UpdateItinerary sampleLowerTable sampleStore sampleNoonAndHalf sampleID
          { emptyUpdate with StartDate := dateUTC 2024 4 1 }).2 =
        Except.ok { sampleStored with
          StartDate := dateUTC 2024 4 1, UpdatedAt := sampleNoonAndHalf } ∧
      (UpdateItinerary sampleLowerTable sampleStore sampleNoonAndHalf sampleID
          { emptyUpdate with StartDate := dateUTC 2024 4 1 }).1.GetByID sampleID =
        Except.ok { sampleStored with
          StartDate := dateUTC 2024 4 1, UpdatedAt := sampleNoonAndHalf } ∧
      sampleStored.EndDate.Before (dateUTC 2024 4 1) = true := by
  refine ⟨(MemoryStore.getByID_eq_ok _ _ _).mpr (by decide), by decide, ?_,
    (MemoryStore.getByID_eq_ok _ _ _).mpr (by decide), by decide⟩
  rfl

/-- C26: `GenerateID` writes the time down to the second: the instants `sampleNoon` and
`sampleNoonAndHalf`, half a second apart, are distinct and give the same identifier,
"20240301120000", as do any two instants of the same second, and `CreateItinerary` called at
the second instant for a store filled at the first fails because the identifier exists. -/
theorem GenerateID_same_second :
    sampleNoon ≠ sampleNoonAndHalf ∧
      GenerateID sampleNoon = "20240301120000".toList ∧
      GenerateID sampleNoonAndHalf = "20240301120000".toList ∧
      (∀ (sec offset : Int) (first second : Nat),
        GenerateID ⟨sec, first, offset⟩ = GenerateID ⟨sec, second, offset⟩) ∧
      (CreateItinerary sampleLowerTable sampleStore sampleNoonAndHalf sampleNoonAndHalf
          sampleRequest).2 =
        Except.error (GoError.errorString
          "itinerary with id 20240301120000 already exists".toList) := by
  refine ⟨by decide, by decide, by decide, fun _ _ _ _ => rfl, ?_⟩
  rfl

/-- C27: on the store `sampleStore`, the update that provides the title "Changed" and an
empty list of hotels returns the error "at least one hotel is required", and the itinerary
that the store holds afterwards has the title "Changed", not the title "Bali Adventure" it
had before the call. -/
theorem UpdateItinerary_error_writes :
    sampleStore.GetByID sampleID = Except.ok sampleStored ∧
      sampleStored.Title = "Bali Adventure".toList ∧
      (UpdateItinerary sampleLowerTable sampleStore sampleNoonAndHalf sampleID
          { emptyUpdate with Title := "Changed".toList, Hotels := some [] }).2 =
        Except.error (GoError.ValidationError "at least one hotel is required".toList) ∧
      (UpdateItinerary sampleLowerTable sampleStore sampleNoonAndHalf sampleID
          { emptyUpdate with Title := "Changed".toList, Hotels := some [] }).1.GetByID
          sampleID =
        Except.ok { sampleStored with Title := "Changed".toList } ∧
      { sampleStored with Title := "Changed".toList } ≠ sampleStored := by
  refine ⟨(MemoryStore.getByID_eq_ok _ _ _).mpr (by decide), by decide, ?_,
    (MemoryStore.getByID_eq_ok _ _ _).mpr (by decide), by decide⟩
  rfl

/-! ## The cells that the pattern breaking exchanges -/

/-- On a slice of 13 cells that hold the numbers from 0 to 12, `breakPatterns_func` exchanges
the cell 5 with the cell 0, then the cell 6 with the cell 11, then the cell 7 with the
cell 5. -/
theorem breakPatterns_func_cells :
    (breakPatterns_func (Mem.ofList 0 (List.range 13)) 0 13).toList 13 =
      [5, 1, 2, 3, 4, 7, 11, 0, 8, 9, 10, 6, 12] := by
  decide

/-! ## The payment plan section on the heap: the plan is not written -/

theorem Heap.read_length (h : Heap) (s : Slice) : (h.read s).length = s.len := by
  simp [Heap.read]

theorem Heap.read_of_arrays (h other : Heap) (s : Slice)
    (e : other.arrays s.array = h.arrays s.array) : other.read s = h.read s := by
  unfold Heap.read
  rw [e]

theorem Heap.write_arrays (h : Heap) (s : Slice) (xs : List PaymentInstallment)
    (address : Nat) (hne : address ≠ s.array) :
    (h.write s xs).arrays address = h.arrays address := by
  unfold Heap.write
  simp only []
  rw [if_neg hne]

theorem Heap.read_write (h : Heap) (s : Slice) (xs : List PaymentInstallment)
    (hlen : xs.length = s.len) : (h.write s xs).read s = xs := by
  apply List.ext_getElem
  · rw [Heap.read_length, hlen]
  · intro i h1 h2
    unfold Heap.read Heap.write
    simp only [List.getElem_map, List.getElem_range, if_true]
    have hi : i < s.len := by rw [← hlen]; exact h2
    rw [if_pos ⟨by omega, by omega, by omega⟩]
    have e : s.first + i - s.first = i := by omega
    rw [e, List.getD_eq_getElem?_getD, List.getElem?_eq_getElem h2]
    rfl

theorem Heap.make_arrays (h : Heap) (n address : Nat) (hne : address ≠ h.next) :
    (h.make n).1.arrays address = h.arrays address := by
  unfold Heap.make
  simp only []
  rw [if_neg hne]

theorem Heap.make_read (h : Heap) (n : Nat) :
    (h.make n).1.read (h.make n).2 = makeInstallments n := by
  apply List.ext_getElem
  · simp [Heap.read, Heap.make, makeInstallments]
  · intro i h1 h2
    simp [Heap.read, Heap.make, makeInstallments]

theorem copySlice_length {α : Type} (dst src : List α) :
    (copySlice dst src).length = dst.length := by
  unfold copySlice
  simp only [List.length_append, List.length_take, List.length_drop]
  omega

theorem sortSlice_length (xs : List PaymentInstallment) :
    (sortSlice PaymentInstallment.zero installmentLess xs).length = xs.length :=
  (sortSlice_perm_sorted PaymentInstallment.zero installmentLess
    PaymentInstallment.InstallmentNumber installmentLess_key xs).1.length_eq

theorem addPaymentPlanSectionOnHeap_arrays (up : Char → Char) (pdf : List Op) (h : Heap)
    (plan : Slice) (address : Nat) (hne : address ≠ h.next) :
    (addPaymentPlanSectionOnHeap up pdf h plan).2.arrays address = h.arrays address := by
  unfold addPaymentPlanSectionOnHeap
  split_ifs
  · rfl
  · simp only []
    unfold Heap.sortSlice Heap.copy
    rw [Heap.write_arrays _ _ _ _ hne, Heap.write_arrays _ _ _ _ hne,
      Heap.make_arrays _ _ _ hne]

theorem addPaymentPlanSectionOnHeap_ordered (up : Char → Char) (pdf : List Op) (h : Heap)
    (plan : Slice) (hplan : plan.array < h.next) (hlen : plan.len ≠ 0) :
    (addPaymentPlanSectionOnHeap up pdf h plan).2.read ⟨h.next, 0, plan.len⟩ =
      orderedInstallments (h.read plan) := by
  have hmade : (h.make plan.len).2 = ⟨h.next, 0, plan.len⟩ := rfl
  have hplan1 : (h.make plan.len).1.read plan = h.read plan :=
    Heap.read_of_arrays _ _ _ (Heap.make_arrays _ _ _ (by omega))
  have hcopy : ((h.make plan.len).1.copy (h.make plan.len).2 plan).read (h.make plan.len).2 =
      copySlice (makeInstallments plan.len) (h.read plan) := by
    unfold Heap.copy
    rw [Heap.read_write _ _ _ (by rw [copySlice_length, Heap.read_length]), Heap.make_read,
      hplan1]
  unfold addPaymentPlanSectionOnHeap
  rw [if_neg hlen]
  simp only []
  rw [← hmade]
  unfold Heap.sortSlice
  rw [Heap.read_write _ _ _ (by rw [sortSlice_length, Heap.read_length]), hcopy]
  unfold orderedInstallments
  rw [Heap.read_length]

/-- C10: `addPaymentPlanSection` sorts a slice on a backing array of its own, which `make`
has just put on the heap and `copy` has filled, so the cells of the plan it receives, and of
every array that was on the heap before the call, hold after the call what they held before:
the same installments in the same order with the same status, while the rows on the canvas
are those of the sorted copy, with "Pending" for a blank status. -/
theorem addPaymentPlanSectionOnHeap_plan (up : Char → Char) (pdf : List Op) (h : Heap)
    (plan : Slice) (hplan : plan.array < h.next) :
    (addPaymentPlanSectionOnHeap up pdf h plan).2.read plan = h.read plan ∧
      ((addPaymentPlanSectionOnHeap up pdf h plan).2.read plan).map
          PaymentInstallment.Status =
        (h.read plan).map PaymentInstallment.Status ∧
      (∀ address, address < h.next →
        (addPaymentPlanSectionOnHeap up pdf h plan).2.arrays address = h.arrays address) ∧
      (plan.len ≠ 0 →
        (addPaymentPlanSectionOnHeap up pdf h plan).2.read ⟨h.next, 0, plan.len⟩ =
          orderedInstallments (h.read plan)) ∧
      (addPaymentPlanSectionOnHeap up pdf h plan).1 =
        (addPaymentPlanSection up pdf (h.read plan)).1 := by
  have hread : (addPaymentPlanSectionOnHeap up pdf h plan).2.read plan = h.read plan :=
    Heap.read_of_arrays _ _ _ (addPaymentPlanSectionOnHeap_arrays up pdf h plan _ (by omega))
  refine ⟨hread, by rw [hread],
    fun address ha => addPaymentPlanSectionOnHeap_arrays up pdf h plan address (by omega),
    addPaymentPlanSectionOnHeap_ordered up pdf h plan hplan, ?_⟩
  by_cases hlen : plan.len = 0
  · unfold addPaymentPlanSectionOnHeap addPaymentPlanSection
    rw [if_pos hlen, if_pos (by rw [Heap.read_length]; exact hlen)]
  · have hord := addPaymentPlanSectionOnHeap_ordered up pdf h plan hplan hlen
    unfold addPaymentPlanSectionOnHeap at hord ⊢
    unfold addPaymentPlanSection
    rw [if_neg hlen] at hord ⊢
    rw [if_neg (by rw [Heap.read_length]; exact hlen)]
    simp only [] at hord ⊢
    have hmade : (h.make plan.len).2 = ⟨h.next, 0, plan.len⟩ := rfl
    simp only [hmade] at hord ⊢
    rw [hord]

/-- The statement C10 on the heap `sampleHeap`, whose plan holds the installment of number 2
before the installment of number 1. -/
theorem addPaymentPlanSectionOnHeap_plan_witness :
    samplePlanSlice.array < sampleHeap.next ∧
      (addPaymentPlanSectionOnHeap sampleUpperTable [] sampleHeap samplePlanSlice).2.read
          samplePlanSlice =
        sampleHeap.read samplePlanSlice :=
  ⟨by decide,
    (addPaymentPlanSectionOnHeap_plan sampleUpperTable [] sampleHeap samplePlanSlice
      (by decide)).1⟩

/-- The sort writes to the cells of the slice it receives: called on the plan of `sampleHeap`
itself, it leaves the installment of number 1 before the installment of number 2 in the cells
of the plan, and so does the method on the array that it makes. -/
theorem Heap.sortSlice_writes :
    (sampleHeap.sortSlice samplePlanSlice).read samplePlanSlice ≠
        sampleHeap.read samplePlanSlice ∧
      (sampleHeap.sortSlice samplePlanSlice).read samplePlanSlice =
        [sampleInstallment 1 "paid".toList, sampleInstallment 2 " ".toList] ∧
      (addPaymentPlanSectionOnHeap sampleUpperTable [] sampleHeap samplePlanSlice).2.read
          ⟨1, 0, 2⟩ =
        [sampleInstallment 1 "paid".toList, sampleInstallment 2 " ".toList] := by
  refine ⟨by decide, by decide, by decide⟩

/-! ## The day sections of a stored itinerary -/

theorem rangeOps_congr {α : Type} (body other : Nat → α → List Op) (start : Nat) (xs : List α)
    (h : ∀ idx, ∀ x ∈ xs, body idx x = other idx x) :
    rangeOps body start xs = rangeOps other start xs := by
  induction xs generalizing start with
  | nil => rfl
  | cons x xs ih =>
    rw [rangeOps, rangeOps, h start x (List.mem_cons_self _ _),
      ih (start + 1) (fun idx y hy => h idx y (List.mem_cons_of_mem _ hy))]

theorem toLower_validPeriods (low : Char → Char) (period : List Char)
    (h : period ∈ validPeriods) : toLower low period = period := by
  rcases (validPeriods_mem period).mp h with e | e | e <;> rw [e] <;> rfl

theorem otherGroupOps_of_validPeriods (low up : Char → Char) (activities : List Activity)
    (h : ∀ a ∈ activities, a.Period ∈ validPeriods) (period : List Char) :
    otherGroupOps low up (groupActivities low activities) period = [] := by
  unfold otherGroupOps
  simp only []
  apply if_pos
  by_cases hin : period ∈ periodOrder
  · left
    rw [List.any_eq_true]
    exact ⟨period, hin, by simp⟩
  · right
    rw [groupActivities_get, List.length_eq_zero, List.filter_eq_nil_iff]
    intro a ha
    rw [decide_eq_true_eq, toLower_validPeriods low _ (h a ha)]
    intro e
    apply hin
    rw [← e]
    exact h a ha

theorem otherGroups_of_validPeriods (low up : Char → Char) (activities : List Activity)
    (h : ∀ a ∈ activities, a.Period ∈ validPeriods) (visit : List (List Char)) :
    (visit.map (otherGroupOps low up (groupActivities low activities))).flatten = [] := by
  induction visit with
  | nil => rfl
  | cons period rest ih =>
    rw [List.map_cons, List.flatten_cons, ih, otherGroupOps_of_validPeriods low up _ h]
    rfl

theorem addDaySection_of_validPeriods (low up : Char → Char) (day : DayPlan)
    (h : ∀ a ∈ day.Activities, a.Period ∈ validPeriods) (visit other : List (List Char))
    (pdf : List Op) :
    addDaySection low up visit pdf day = addDaySection low up other pdf day := by
  unfold addDaySection
  simp only []
  rw [otherGroups_of_validPeriods low up _ h visit, otherGroups_of_validPeriods low up _ h other]

/-- C12: for every day of an itinerary that the store holds after any sequence of calls of
`CreateItinerary`, `UpdateItinerary`, `AddActivity` and `DeleteItinerary` on the empty store,
which are the days that `GeneratePDF` gets, the calls of `addDaySection` do not depend on the order in which the
loop over the map `grouped` gets its keys: every key of the map is a canonical period, the
loop over the map writes nothing, the groups rendered are the canonical periods that have an
activity, in the order of `periodOrder`, and two renderings of the day, and of the whole
itinerary, give the same canvas. -/
theorem addDaySection_deterministic (low up : Char → Char) (calls : List ServiceCall)
    (id : List Char) (itinerary : Itinerary)
    (h : (runCalls low calls NewMemoryStore).GetByID id = Except.ok itinerary) :
    (∀ day ∈ itinerary.Days, ∀ (visit other : List (List Char)) (pdf : List Op),
      addDaySection low up visit pdf day = addDaySection low up other pdf day) ∧
    (∀ day ∈ itinerary.Days, ∀ key ∈ (groupActivities low day.Activities).keys,
      key ∈ periodOrder) ∧
    (∀ day ∈ itinerary.Days, ∀ visit : List (List Char),
      (visit.map (otherGroupOps low up (groupActivities low day.Activities))).flatten = []) ∧
    (∀ day ∈ itinerary.Days, ∀ visit : List (List Char),
      renderedPeriods low visit day =
        periodOrder.filter (fun period => decide (activitiesOfPeriod low day period ≠ []))) ∧
    (∀ (visits others : Nat → List (List Char)) (pageNo : Int),
      generatePDFCanvas low up visits pageNo itinerary =
        generatePDFCanvas low up others pageNo itinerary) := by
  have hmem := ItineraryMap.mem_of_lookup _ _ _ ((MemoryStore.getByID_eq_ok _ _ _).mp h)
  have hP : ∀ day ∈ itinerary.Days, ∀ a ∈ day.Activities, a.Period ∈ validPeriods :=
    runCalls_periods_entries low calls NewMemoryStore
      (fun entry hentry => by cases hentry) _ hmem
  refine ⟨?_, ?_, ?_, ?_, ?_⟩
  · intro day hday visit other pdf
    exact addDaySection_of_validPeriods low up day (hP day hday) visit other pdf
  · intro day hday key hkey
    obtain ⟨a, ha, e⟩ := ((groupActivities_keys low day.Activities).2 key).mp hkey
    rw [← e, toLower_validPeriods low _ (hP day hday a ha)]
    exact hP day hday a ha
  · intro day hday visit
    exact otherGroups_of_validPeriods low up _ (hP day hday) visit
  · intro day hday visit
    unfold renderedPeriods
    simp only []
    have hnil : visit.filter (fun period =>
        !(periodOrder.any (fun ordered => decide (period = ordered)) ||
          decide (((groupActivities low day.Activities).get period).length = 0))) = [] := by
      rw [List.filter_eq_nil_iff]
      intro period _
      by_cases hin : period ∈ periodOrder
      · have : periodOrder.any (fun ordered => decide (period = ordered)) = true := by
          rw [List.any_eq_true]
          exact ⟨period, hin, by simp⟩
        simp [this]
      · have : ((groupActivities low day.Activities).get period).length = 0 := by
          rw [groupActivities_get, List.length_eq_zero, List.filter_eq_nil_iff]
          intro a ha
          rw [decide_eq_true_eq, toLower_validPeriods low _ (hP day hday a ha)]
          intro e
          apply hin
          rw [← e]
          exact hP day hday a ha
        simp [this]
    rw [hnil, List.append_nil]
    apply List.filter_congr
    intro period _
    unfold activitiesOfPeriod
    rw [groupActivities_get]
    simp [List.length_eq_zero]
  · intro visits others pageNo
    rw [generatePDFCanvas_eq, generatePDFCanvas_eq]
    have hdays : daySectionsOps low up visits 0 itinerary.Days =
        daySectionsOps low up others 0 itinerary.Days := by
      unfold daySectionsOps
      apply rangeOps_congr
      intro idx day hday
      exact addDaySection_of_validPeriods low up day (hP day hday) _ _ _
    rw [hdays]

/-- The statement C12 for the itinerary that the store holds after the call of
`CreateItinerary` for `sampleRequest`: its day has one activity, of the period "morning", and
two orders of the keys give the same canvas of the day. -/
theorem addDaySection_deterministic_witness :
    (runCalls sampleLowerTable [ServiceCall.create sampleNoon sampleNoon sampleRequest]
        NewMemoryStore).GetByID sampleID = Except.ok sampleStored ∧
      sampleStoredDay ∈ sampleStored.Days ∧
      addDaySection sampleLowerTable sampleUpperTable ["morning".toList, "night".toList] []
          sampleStoredDay =
        addDaySection sampleLowerTable sampleUpperTable ["night".toList, "morning".toList] []
          sampleStoredDay :=
  ⟨(MemoryStore.getByID_eq_ok _ _ _).mpr (by decide), by decide,
    (addDaySection_deterministic sampleLowerTable sampleUpperTable
      [ServiceCall.create sampleNoon sampleNoon sampleRequest] sampleID sampleStored
      ((MemoryStore.getByID_eq_ok _ _ _).mpr (by decide))).1 sampleStoredDay (by decide)
      ["morning".toList, "night".toList] ["night".toList, "morning".toList] []⟩

/-! ## The duration line in the section of the hotels -/

theorem rangeOps_mem_iff {α : Type} (body : Nat → α → List Op) (op : Op) (P : α → Prop)
    (h : ∀ idx x, op ∈ body idx x ↔ P x) (start : Nat) (xs : List α) :
    op ∈ rangeOps body start xs ↔ ∃ x ∈ xs, P x := by
  induction xs generalizing start with
  | nil => simp [rangeOps]
  | cons x xs ih =>
    rw [rangeOps, List.mem_append, h, ih]
    simp

theorem durationLabel_mem_hotelOps (idx total : Nat) (hotel : Hotel) :
    Op.CellFormat 25 5 "Duration:".toList 0 ∈ hotelOps idx total hotel ↔ 0 < hotel.Nights := by
  have hne1 : "Duration:".toList ≠ "Location:".toList := by decide
  have hne2 : "Duration:".toList ≠ "Check-in:".toList := by decide
  have hne3 : "Duration:".toList ≠ "Check-out:".toList := by decide
  unfold hotelOps hotelNightsLine labelledLine
  by_cases hn : 0 < hotel.Nights
  · refine ⟨fun _ => hn, fun _ => ?_⟩
    rw [if_pos hn]
    simp
  · refine ⟨fun hmem => absurd hmem ?_, fun h => absurd h hn⟩
    rw [if_neg hn]
    split_ifs <;> simp [hne1, hne2, hne3]

theorem durationLabel_mem_addHotelsSection (hotels : List Hotel) :
    Op.CellFormat 25 5 "Duration:".toList 0 ∈ addHotelsSection [] hotels ↔
      ∃ hotel ∈ hotels, 0 < hotel.Nights := by
  unfold addHotelsSection
  by_cases h0 : hotels.length = 0
  · rw [if_pos h0]
    have e : hotels = [] := List.length_eq_zero.mp h0
    simp [e]
  · rw [if_neg h0]
    simp only []
    have hhead : Op.CellFormat 25 5 "Duration:".toList 0 ∉
        addSectionHeader [] "Hotel Accommodations".toList := by decide
    rw [List.mem_append, List.mem_append,
      rangeOps_mem_iff _ _ (fun hotel : Hotel => 0 < hotel.Nights)
        (fun idx hotel => durationLabel_mem_hotelOps idx hotels.length hotel)]
    constructor
    · rintro ((hm | hm) | hm)
      · exact absurd hm hhead
      · exact hm
      · simp at hm
    · intro hm
      exact Or.inl (Or.inr hm)

/-- C20: the duration line of a hotel reads "1 night" when `Nights` is 1 and the number
followed by " nights" when `Nights` is above 1 (so "3 nights" for 3); no duration line is
written when `Nights` is zero or negative.  The line is part of the calls made for every
hotel, which `addHotelsSection` makes for every hotel of its list, between the header of the
section and its closing line break; the section has a cell with the label "Duration:" exactly
when a hotel of the list has a positive `Nights`, and so have the calls made for one hotel. -/
theorem hotelNightsLine_text (hotel : Hotel) :
    (hotel.Nights ≤ 0 → hotelNightsLine hotel = []) ∧
    (hotel.Nights = 1 →
      hotelNightsLine hotel = labelledLine 20 25 "Duration:".toList "1 night".toList) ∧
    (1 < hotel.Nights → hotelNightsLine hotel =
      labelledLine 20 25 "Duration:".toList (decimal hotel.Nights.toNat ++ " nights".toList)) ∧
    (hotel.Nights = 3 →
      hotelNightsLine hotel = labelledLine 20 25 "Duration:".toList "3 nights".toList) ∧
    (∀ value, (labelledLine 20 25 "Duration:".toList value).getLast? =
      some (Op.CellFormat 0 5 value 1)) ∧
    (∀ idx total, ∃ before after,
      hotelOps idx total hotel = before ++ hotelNightsLine hotel ++ after) ∧
    (∀ (hotels : List Hotel) (idx : Nat), hotels[idx]? = some hotel →
      ∃ before after,
        addHotelsSection [] hotels = before ++ hotelOps idx hotels.length hotel ++ after) ∧
    (∀ (hotels : List Hotel) (idx : Nat), hotels[idx]? = some hotel →
      ∃ before after,
        addHotelsSection [] hotels = before ++ hotelNightsLine hotel ++ after) ∧
    (∀ idx total,
      Op.CellFormat 25 5 "Duration:".toList 0 ∈ hotelOps idx total hotel ↔ 0 < hotel.Nights) ∧
    (∀ hotels : List Hotel,
      Op.CellFormat 25 5 "Duration:".toList 0 ∈ addHotelsSection [] hotels ↔
        ∃ other ∈ hotels, 0 < other.Nights) ∧
    (∀ pdf (hotels : List Hotel),
      addHotelsSection pdf hotels =
        if hotels = [] then pdf
        else
          pdf ++ addSectionHeader [] "Hotel Accommodations".toList ++
            ((hotels.enum.map (fun p => hotelOps p.1 hotels.length p.2)).flatten ++
              [Op.Ln 4])) := by
  have hsection : ∀ (hotels : List Hotel) (idx : Nat), hotels[idx]? = some hotel →
      ∃ before after,
        addHotelsSection [] hotels = before ++ hotelOps idx hotels.length hotel ++ after := by
    intro hotels idx h
    have hne : hotels.length ≠ 0 := by
      intro h0
      rw [List.length_eq_zero.mp h0] at h
      simp at h
    obtain ⟨before, after, e⟩ :=
      rangeOps_at (fun idx hotel => hotelOps idx hotels.length hotel) 0 idx hotels hotel h
    unfold addHotelsSection
    rw [if_neg hne]
    simp only []
    rw [e, Nat.zero_add]
    exact ⟨([] ++ addSectionHeader [] "Hotel Accommodations".toList) ++ before,
      after ++ [Op.Ln 4], by simp only [List.append_assoc, List.nil_append]⟩
  refine ⟨?_, ?_, ?_, ?_, fun _ => rfl, ?_, hsection, ?_,
    fun idx total => durationLabel_mem_hotelOps idx total hotel,
    durationLabel_mem_addHotelsSection, ?_⟩
  · intro h
    unfold hotelNightsLine
    rw [if_neg (by omega)]
  · intro h
    unfold hotelNightsLine
    rw [h]
    rfl
  · intro h
    unfold hotelNightsLine
    rw [if_pos (by omega)]
    simp only [if_pos h, sprintD_of_nonneg hotel.Nights (by omega)]
    simp
  · intro h
    unfold hotelNightsLine
    rw [h]
    rfl
  · intro idx total
    exact ⟨_, _, rfl⟩
  · intro hotels idx h
    obtain ⟨before, after, e⟩ := hsection hotels idx h
    have hline : ∃ first last,
        hotelOps idx hotels.length hotel = first ++ hotelNightsLine hotel ++ last :=
      ⟨_, _, rfl⟩
    obtain ⟨first, last, e2⟩ := hline
    rw [e, e2]
    exact ⟨before ++ first, last ++ after, by simp only [List.append_assoc]⟩
  · intro pdf hotels
    rw [addHotelsSection_append]
    unfold addHotelsSection
    by_cases h0 : hotels = []
    · rw [if_pos h0, if_pos (by rw [h0]; rfl)]
      simp
    · rw [if_neg h0, if_neg (by simpa using h0)]
      simp only []
      rw [rangeOps_eq_flatten]
      simp only [List.append_assoc, List.nil_append, List.enum]

/-! ## The currency of an amount in upper case -/

theorem Char.toNat_ofNat_small (n : Nat) (h : n < 0xD800) : (Char.ofNat n).toNat = n := by
  unfold Char.ofNat
  have hv : n.isValidChar := Or.inl h
  rw [dif_pos hv]
  simp [Char.ofNatAux, Char.toNat, UInt32.toNat]

theorem toUpperRune_ascii (up : Char → Char) (c : Char) (h : c.toNat ≤ 0x7F) :
    toUpperRune up c =
      if 97 ≤ c.toNat ∧ c.toNat ≤ 122 then Char.ofNat (c.toNat - 32) else c := by
  unfold toUpperRune
  rw [if_pos h]

theorem toUpperRune_ascii_not_lower (up : Char → Char) (c : Char) (h : c.toNat ≤ 0x7F) :
    ¬ (97 ≤ (toUpperRune up c).toNat ∧ (toUpperRune up c).toNat ≤ 122) := by
  rw [toUpperRune_ascii up c h]
  split_ifs with hl
  · rw [Char.toNat_ofNat_small _ (by omega)]
    omega
  · exact hl

/-- C17: `formatAmount` returns the currency in upper case ("USD" when the currency is the
empty string), one space and the amount with exactly two decimal digits: a sign for a negative
amount, the numeral of the whole part, a point and two digits, which together are the number of
hundredths nearest to the amount (the even one at a tie); `formatAmount(1234.5, "")` is
"USD 1234.50".  The currency in upper case has one rune for every rune of the currency: for a
rune of ASCII, the capital letter of a letter from a to z (the rune 32 places before it) and
the rune itself otherwise, so that no letter from a to z is left in a currency of ASCII; for
a rune above ASCII, its image under the case table.  The currency "usd" gives "USD". -/
theorem formatAmount_text (up : Char → Char) (amount : Float64) (currency : List Char) :
    formatAmount up amount currency =
        toUpper up (if currency = [] then "USD".toList else currency) ++ " ".toList ++
          ((if amount.sign then "-".toList else []) ++
            (decimal (hundredths amount / 100) ++
              ['.', digitChar (hundredths amount % 100 / 10), digitChar (hundredths amount % 100)]))
      ∧ toUpper up "USD".toList = "USD".toList
      ∧ |(hundredths amount : ℚ) - 100 * amount.magnitude| ≤ 1 / 2
      ∧ (|(hundredths amount : ℚ) - 100 * amount.magnitude| = 1 / 2 → hundredths amount % 2 = 0)
      ∧ ((⟨false, 2469, -1⟩ : Float64).magnitude = 1234.5
          ∧ formatAmount up ⟨false, 2469, -1⟩ [] = "USD 1234.50".toList)
      ∧ (toUpper up currency).length = currency.length
      ∧ (∀ (i : Nat) (c : Char), currency[i]? = some c →
          (toUpper up currency)[i]? = some (toUpperRune up c))
      ∧ (∀ c : Char, c.toNat ≤ 0x7F →
          toUpperRune up c =
            if 97 ≤ c.toNat ∧ c.toNat ≤ 122 then Char.ofNat (c.toNat - 32) else c)
      ∧ (∀ c : Char, 97 ≤ c.toNat → c.toNat ≤ 122 →
          (toUpperRune up c).toNat = c.toNat - 32)
      ∧ (∀ c : Char, 0x7F < c.toNat → toUpperRune up c = up c)
      ∧ ((∀ c ∈ currency, c.toNat ≤ 0x7F) →
          (∀ c ∈ toUpper up currency, ¬ (97 ≤ c.toNat ∧ c.toNat ≤ 122)) ∧
            toUpper up (toUpper up currency) = toUpper up currency)
      ∧ formatAmount up ⟨false, 2469, -1⟩ "usd".toList = "USD 1234.50".toList
      ∧ formatAmount up amount "Eur".toList = "EUR ".toList ++ sprintF2 amount := by
  refine ⟨rfl, rfl, (hundredths_round amount).1, (hundredths_round amount).2, ⟨?_, rfl⟩, ?_, ?_,
    toUpperRune_ascii up, ?_, ?_, ?_, rfl, rfl⟩
  · unfold Float64.magnitude
    norm_num
  · unfold toUpper
    rw [List.length_map]
  · intro i c h
    unfold toUpper
    rw [List.getElem?_map, h]
    rfl
  · intro c h1 h2
    rw [toUpperRune_ascii up c (by omega), if_pos ⟨h1, h2⟩,
      Char.toNat_ofNat_small _ (by omega)]
  · intro c h
    unfold toUpperRune
    rw [if_neg (by omega)]
  · intro h
    have hnot : ∀ c ∈ toUpper up currency, ¬ (97 ≤ c.toNat ∧ c.toNat ≤ 122) := by
      intro c hc
      unfold toUpper at hc
      rw [List.mem_map] at hc
      obtain ⟨d, hd, e⟩ := hc
      rw [← e]
      exact toUpperRune_ascii_not_lower up d (h d hd)
    refine ⟨hnot, ?_⟩
    unfold toUpper
    rw [List.map_map]
    apply List.map_congr_left
    intro d hd
    have h1 := h d hd
    show toUpperRune up (toUpperRune up d) = toUpperRune up d
    have h2 := toUpperRune_ascii up d h1
    by_cases hl : 97 ≤ d.toNat ∧ d.toNat ≤ 122
    · rw [if_pos hl] at h2
      have h3 : (toUpperRune up d).toNat = d.toNat - 32 := by
        rw [h2, Char.toNat_ofNat_small _ (by omega)]
      rw [toUpperRune_ascii up (toUpperRune up d) (by omega), if_neg (by omega)]
    · rw [if_neg hl] at h2
      rw [h2, toUpperRune_ascii up d h1, if_neg hl]

/-- C19: `toTitleCase` returns the empty string for an input that is empty or white space
only; for another input it removes the leading and trailing white space and puts the rest in
lower case, and when the first rune of that text is ASCII it puts that rune in upper case and
returns the text so changed.  When the first rune of that text is not ASCII the result has one
U+FFFD for every byte of the rune, and is not the text with its first rune in upper case. -/
theorem toTitleCase_text (low up : Char → Char) (value : List Char) :
    ((∀ c ∈ value, isSpace c = true) → toTitleCase low up value = []) ∧
    (∀ c rest, toLower low (trimSpace value) = c :: rest → c.toNat < 0x80 →
      toTitleCase low up value = toUpperRune up c :: rest ∧
        toUpperRune up c = (if 97 ≤ c.toNat ∧ c.toNat ≤ 122 then Char.ofNat (c.toNat - 32) else c)) ∧
    (∀ c rest, toLower low (trimSpace value) = c :: rest → 0x80 ≤ c.toNat →
      toTitleCase low up value = List.replicate (utf8Len c) (Char.ofNat 0xFFFD) ++ rest ∧
        toTitleCase low up value ≠ toUpperRune up c :: rest) := by
  refine ⟨?_, ?_, ?_⟩
  · intro h
    unfold toTitleCase
    simp [trimSpace_eq_nil value h]
  · intro c rest hl hc
    have hne : trimSpace value ≠ [] := by
      intro h0
      rw [h0] at hl
      simp [toLower] at hl
    constructor
    · unfold toTitleCase
      simp only [if_neg hne, hl, if_pos hc]
      rfl
    · unfold toUpperRune
      rw [if_pos (by omega)]
  · intro c rest hl hc
    have hne : trimSpace value ≠ [] := by
      intro h0
      rw [h0] at hl
      simp [toLower] at hl
    have e : toTitleCase low up value =
        List.replicate (utf8Len c) (Char.ofNat 0xFFFD) ++ rest := by
      unfold toTitleCase
      simp only [if_neg hne, hl, if_neg (show ¬ c.toNat < 0x80 by omega)]
    refine ⟨e, ?_⟩
    rw [e]
    intro hEq
    have hlen := congrArg List.length hEq
    have h2 : 2 ≤ utf8Len c := by
      unfold utf8Len
      rw [if_neg (by omega)]
      split_ifs <;> omega
    simp only [List.length_append, List.length_replicate, List.length_cons] at hlen
    omega

end Vigovia
